import Mathlib

/-!
# jsql: the open-addressing hash table of `base.h`

A shallow embedding of `BaseHashTableOA` (`src/include/base.h`) and of the arena it may
allocate from, followed by the properties proved about it.

Modelling conventions.

* Pointers (`void *`) are natural numbers, `0` being `NULL`.  Keys and values are such
  pointers; `hash_fn` and `key_equal_fn` are functions on them.
* `usize` arithmetic wraps modulo `2 ^ 64` (`usize_add`, `usize_mul`, `usize_inc`,
  `usize_dec`).
* `entries` is the list of the slots of the bucket array; `[]` stands for `NULL`.
* `sizeof(HashTableEntryOA)` is 24 and `BASE_ARENA_DEFAULT_ALIGNMENT` is 16 (LP64).
* `malloc` is an oracle `heap : Nat → Bool` telling whether a request of that many bytes
  succeeds.  A request whose byte size `count * sizeof(HashTableEntryOA)` does not fit
  `usize` is modelled as a failed allocation (in C the product wraps and the
  initialisation loop would run past the block, which is undefined behaviour).
* Copy and free callbacks are user code: a copy function is a pure function on pointers
  (returning `0` on failure), a free function only leaves a record in the ghost field
  `calls`, which logs every callback invocation in order.
* `ASSERT`s are compiled out (`NDEBUG`); `LOG_FATAL` terminates the process, which
  `ht_oa_init` reports as `none`.
* `f64` is the IEEE 754 `double` and expressions are evaluated in that format
  (`FLT_EVAL_METHOD` 0): conversions and the division round to nearest, ties to even.
* The loops that probe the bucket array carry a fuel argument; they are run with
  `bucket_count` units of fuel, which is as many iterations as the C loops can make.
-/

namespace Jsql

/-- Pointers; `0` is `NULL`. -/
abbrev Ptr := Nat

/-- The modulus of `usize` arithmetic, `2 ^ 64`. -/
def USIZE_MOD : Nat := 18446744073709551616

/-- Wrapping `usize` addition. -/
def usize_add (a b : Nat) : Nat := (a + b) % USIZE_MOD

/-- Wrapping `usize` multiplication. -/
def usize_mul (a b : Nat) : Nat := (a * b) % USIZE_MOD

/-- Wrapping `x++` on a `usize`. -/
def usize_inc (x : Nat) : Nat := (x + 1) % USIZE_MOD

/-- Wrapping `x--` on a `usize`. -/
def usize_dec (x : Nat) : Nat := (x + USIZE_MOD - 1) % USIZE_MOD

/-- Bitwise complement of a `usize`. -/
def usize_not (x : Nat) : Nat := USIZE_MOD - 1 - x % USIZE_MOD

/-- The macro `BASE_HT_OA_DEFAULT_CAPACITY`. -/
def BASE_HT_OA_DEFAULT_CAPACITY : Nat := 16

/-- The value of `sizeof(HashTableEntryOA)`: two pointers and an enum, padded. -/
def SIZEOF_ENTRY : Nat := 24

/-- The macro `BASE_ARENA_DEFAULT_ALIGNMENT`, `2 * sizeof(usize)`. -/
def BASE_ARENA_DEFAULT_ALIGNMENT : Nat := 16

/-! ## Arena -/

/-- The struct `Arena`. -/
structure Arena where
  buffer : Ptr
  total_size : Nat
  prev_offset : Nat
  current_offset : Nat
deriving DecidableEq, Repr

/-- The macro `ALIGN_UP(value, alignment)`, in `usize` arithmetic. -/
def ALIGN_UP (value alignment : Nat) : Nat :=
  Nat.land (usize_dec (usize_add value alignment)) (usize_not (usize_dec alignment))

/-- The function `arena_alloc_aligned`: the returned pointer (`0` on failure) and the arena
afterwards. -/
def arena_alloc_aligned (arena : Arena) (item_size alignment : Nat) : Ptr × Arena :=
  let aligned_current_offset := ALIGN_UP arena.current_offset alignment
  let new_current_offset := usize_add aligned_current_offset item_size
  if new_current_offset > arena.total_size then (0, arena)
  else (arena.buffer + aligned_current_offset,
        { arena with current_offset := new_current_offset })

/-- The function `arena_alloc`. -/
def arena_alloc (arena : Arena) (item_size : Nat) : Ptr × Arena :=
  arena_alloc_aligned arena item_size BASE_ARENA_DEFAULT_ALIGNMENT

/-! ## Hash table types -/

/-- The enum `HashTableEntryStateOA`. -/
inductive HashTableEntryStateOA where
  | HT_ENTRY_EMPTY
  | HT_ENTRY_OCCUPIED
  | HT_ENTRY_TOMBSTONE
deriving DecidableEq, Repr

open HashTableEntryStateOA

/-- The struct `HashTableEntryOA`. -/
structure HashTableEntryOA where
  key : Ptr
  value : Ptr
  state : HashTableEntryStateOA
deriving DecidableEq, Repr

/-- A slot as `ht_oa_init`, `ht_oa_rehash` and `ht_oa_clear` initialise it. -/
def EMPTY_ENTRY : HashTableEntryOA := ⟨0, 0, HT_ENTRY_EMPTY⟩

/-- A record of one callback invocation (ghost). -/
inductive Callback where
  | key_copy (original : Ptr)
  | value_copy (original : Ptr)
  | key_free (data : Ptr)
  | value_free (data : Ptr)
deriving DecidableEq, Repr

/-- The struct `BaseHashTableOA`.  A copy function is `none` when the function pointer is
`NULL`; a free function is `true` when one is installed.  `arena` is the arena pointed to
(`none` for a heap-backed table).  `calls` is ghost state. -/
structure BaseHashTableOA where
  entries : List HashTableEntryOA
  bucket_count : Nat
  item_count : Nat
  tombstone_count : Nat
  hash_fn : Ptr → Nat
  key_equal_fn : Ptr → Ptr → Bool
  key_copy_fn : Option (Ptr → Ptr)
  key_free_fn : Bool
  value_copy_fn : Option (Ptr → Ptr)
  value_free_fn : Bool
  arena : Option Arena
  calls : List Callback

/-- The pointer a table stores for `p`: what the copy function returns when one is installed
(`0` when it fails), and `p` itself otherwise. -/
def copy_ptr (copy_fn : Option (Ptr → Ptr)) (p : Ptr) : Ptr :=
  match copy_fn with
  | some f => f p
  | none => p

/-- The slot `entries[i]`. -/
def entry_at (entries : List HashTableEntryOA) (i : Nat) : HashTableEntryOA :=
  entries.getD i EMPTY_ENTRY

/-- The index `hash % ht->bucket_count` at which probing for `key` starts; the hash is a
`u64`. -/
def start_index (ht : BaseHashTableOA) (key : Ptr) : Nat :=
  (ht.hash_fn key % USIZE_MOD) % ht.bucket_count

/-- The integer nearest to `num / den` (for `den > 0`), the even one of the two when
`num / den` lies half way: the rounding of IEEE 754 arithmetic (round to nearest, ties to
even). -/
def round_half_even (num den : Nat) : Nat :=
  let q := num / den
  let r := num % den
  if 2 * r < den then q
  else if den < 2 * r then q + 1
  else if q % 2 = 0 then q else q + 1

/-- The position of the leading binary digit of `x`, that is the `e` with
`2 ^ e <= x < 2 ^ (e + 1)`, for `0 < x < 2 ^ 256`, found by bisection; 0 for `x = 0`. -/
def leading_bit (x : Nat) : Nat :=
  [128, 64, 32, 16, 8, 4, 2, 1].foldl (fun e k => if 2 ^ (e + k) ≤ x then e + k else e) 0

/-- The conversion `(f64)n` of a `usize`: the value of the `double`, an integer.  Below
`2 ^ 53` the conversion is exact; above, `n` is rounded to 53 significant binary digits. -/
def f64_of_usize (n : Nat) : Nat :=
  if n < 2 ^ 53 then n
  else round_half_even n (2 ^ (leading_bit n - 52)) * 2 ^ (leading_bit n - 52)

/-- The `double` quotient `a / b` of two `double`s with integer values `a <= 2 ^ 64` and
`0 < b <= 2 ^ 64`, times `2 ^ 117`: the exact quotient rounded to 53 significant binary
digits.  (The factor makes every such quotient an integer: the least positive one,
`2 ^ -64`, has its last significant digit at `2 ^ -116`.) -/
def f64_div_scaled (a b : Nat) : Nat :=
  round_half_even (a * 2 ^ 117) (b * 2 ^ (leading_bit (a * 2 ^ 117 / b) - 52)) *
    2 ^ (leading_bit (a * 2 ^ 117 / b) - 52)

/-- The test `(f64)n / (f64)bucket_count > BASE_HT_OA_MAX_LOAD_FACTOR`, as the machine
evaluates it: both operands are converted to `double`, the quotient is rounded to
`double`, and the result is compared with the macro, the `float` literal `0.7f`, whose
value is `11744051 / 2 ^ 24`.  With `bucket_count = 0` the quotient is `+inf` for `n > 0`
(the test holds) and NaN for `n = 0` (it does not). -/
def load_exceeds (n bucket_count : Nat) : Bool :=
  if bucket_count = 0 then decide (0 < n)
  else decide (11744051 * 2 ^ 93 <
    f64_div_scaled (f64_of_usize n) (f64_of_usize bucket_count))

/-- Allocation of a bucket array of `count` slots, from the arena when the table has one
and from the heap otherwise: whether it succeeded, and the arena afterwards. -/
def alloc_entries (heap : Nat → Bool) (arena : Option Arena) (count : Nat) :
    Bool × Option Arena :=
  if USIZE_MOD ≤ count * SIZEOF_ENTRY then (false, arena)
  else
    match arena with
    | some a =>
      let r := arena_alloc a (count * SIZEOF_ENTRY)
      (decide (r.1 ≠ 0), some r.2)
    | none => (heap (count * SIZEOF_ENTRY), none)

/-! ## Rehash -/

/-- The `do ... while` loop of `ht_oa_rehash` that places one entry in the new array:
the table afterwards and the flag `inserted`. -/
def rehash_probe (key value : Ptr) (start_idx : Nat) :
    Nat → BaseHashTableOA → Nat → BaseHashTableOA × Bool
  | 0, ht, _ => (ht, false)
  | fuel + 1, ht, current_idx =>
    if (entry_at ht.entries current_idx).state = HT_ENTRY_EMPTY then
      ({ ht with
          entries := ht.entries.set current_idx ⟨key, value, HT_ENTRY_OCCUPIED⟩
          item_count := usize_inc ht.item_count }, true)
    else
      let next_idx := (current_idx + 1) % ht.bucket_count
      if next_idx ≠ start_idx then rehash_probe key value start_idx fuel ht next_idx
      else (ht, false)

/-- One iteration of the `for` loop of `ht_oa_rehash` over the old array. -/
def rehash_step (old_entries : List HashTableEntryOA) (ht : BaseHashTableOA) (i : Nat) :
    BaseHashTableOA :=
  if (entry_at old_entries i).state = HT_ENTRY_OCCUPIED then
    let key := (entry_at old_entries i).key
    let value := (entry_at old_entries i).value
    let start_idx := start_index ht key
    (rehash_probe key value start_idx ht.bucket_count ht start_idx).1
  else ht

/-- The bucket count `ht_oa_rehash` settles on for a request of `new_bucket_count` (the two
adjustments at the head of the function). -/
def rehash_bucket_count (ht : BaseHashTableOA) (new_bucket_count : Nat) : Nat :=
  let nbc1 := if new_bucket_count = 0 then BASE_HT_OA_DEFAULT_CAPACITY else new_bucket_count
  if nbc1 < ht.item_count then usize_mul ht.item_count 2 else nbc1

/-- The function `ht_oa_rehash`. -/
def ht_oa_rehash (heap : Nat → Bool) (ht : BaseHashTableOA) (new_bucket_count : Nat) :
    Bool × BaseHashTableOA :=
  let nbc := rehash_bucket_count ht new_bucket_count
  let old_entries := ht.entries
  let old_bucket_count := ht.bucket_count
  let a := alloc_entries heap ht.arena nbc
  if a.1 = false then (false, { ht with arena := a.2 })
  else
    let fresh : BaseHashTableOA :=
      { ht with
          entries := List.replicate nbc EMPTY_ENTRY
          bucket_count := nbc
          item_count := 0
          tombstone_count := 0
          arena := a.2 }
    (true, (List.range old_bucket_count).foldl (rehash_step old_entries) fresh)

/-- The assertion `ASSERT_MSG(inserted, ...)` of `ht_oa_rehash`, for the entry at index `i`
of the old array, given the new table as it is when that entry is reached. -/
def rehash_assert (old_entries : List HashTableEntryOA) (ht : BaseHashTableOA) (i : Nat) :
    Bool :=
  if (entry_at old_entries i).state = HT_ENTRY_OCCUPIED then
    let key := (entry_at old_entries i).key
    let value := (entry_at old_entries i).value
    let start_idx := start_index ht key
    (rehash_probe key value start_idx ht.bucket_count ht start_idx).2
  else true

/-! ## Slot search -/

/-- The `do ... while` loop of `ht_oa_find_slot`: the slot returned (`none` for `NULL`) and
`*out_found_existing`. -/
def find_slot_loop (ht : BaseHashTableOA) (key : Ptr) (start_idx : Nat) :
    Nat → Nat → Option Nat → Option Nat × Bool
  | 0, _, first_tombstone_slot => (first_tombstone_slot, false)
  | fuel + 1, current_idx, first_tombstone_slot =>
    let entry := entry_at ht.entries current_idx
    match entry.state with
    | HT_ENTRY_EMPTY =>
      (some (first_tombstone_slot.getD current_idx), false)
    | HT_ENTRY_TOMBSTONE =>
      let first_tombstone_slot :=
        if first_tombstone_slot.isNone then some current_idx else first_tombstone_slot
      let next_idx := (current_idx + 1) % ht.bucket_count
      if next_idx ≠ start_idx then find_slot_loop ht key start_idx fuel next_idx first_tombstone_slot
      else (first_tombstone_slot, false)
    | HT_ENTRY_OCCUPIED =>
      if ht.key_equal_fn entry.key key then (some current_idx, true)
      else
        let next_idx := (current_idx + 1) % ht.bucket_count
        if next_idx ≠ start_idx then find_slot_loop ht key start_idx fuel next_idx first_tombstone_slot
        else (first_tombstone_slot, false)

/-- The function `ht_oa_find_slot`. -/
def ht_oa_find_slot (ht : BaseHashTableOA) (key : Ptr) : Option Nat × Bool :=
  if ht.bucket_count = 0 then (none, false)
  else find_slot_loop ht key (start_index ht key) ht.bucket_count (start_index ht key) none

/-- The test `!slot || slot->state == HT_ENTRY_OCCUPIED`. -/
def slot_unusable (ht : BaseHashTableOA) (slot : Option Nat) : Bool :=
  match slot with
  | none => true
  | some i => decide ((entry_at ht.entries i).state = HT_ENTRY_OCCUPIED)

/-! ## API -/

/-- The function `ht_oa_init`; `none` when `LOG_FATAL` terminates the process. -/
def ht_oa_init (heap : Nat → Bool) (initial_bucket_count : Nat) (hash_fn : Ptr → Nat)
    (key_equal_fn : Ptr → Ptr → Bool) (optional_arena : Option Arena) :
    Option BaseHashTableOA :=
  let bucket_count :=
    if initial_bucket_count = 0 then BASE_HT_OA_DEFAULT_CAPACITY else initial_bucket_count
  let a := alloc_entries heap optional_arena bucket_count
  if a.1 = false then none
  else
    some
      { entries := List.replicate bucket_count EMPTY_ENTRY
        bucket_count := bucket_count
        item_count := 0
        tombstone_count := 0
        hash_fn := hash_fn
        key_equal_fn := key_equal_fn
        key_copy_fn := none
        key_free_fn := false
        value_copy_fn := none
        value_free_fn := false
        arena := a.2
        calls := [] }

/-- The function `ht_oa_set_managed_kv`. -/
def ht_oa_set_managed_kv (ht : BaseHashTableOA) (key_copy_fn : Option (Ptr → Ptr))
    (key_free_fn : Bool) (value_copy_fn : Option (Ptr → Ptr)) (value_free_fn : Bool) :
    BaseHashTableOA :=
  { ht with
      key_copy_fn := key_copy_fn
      key_free_fn := key_free_fn
      value_copy_fn := value_copy_fn
      value_free_fn := value_free_fn }

/-- One iteration of the loop of `ht_oa_clear`. -/
def clear_step (ht : BaseHashTableOA) (i : Nat) : BaseHashTableOA :=
  let e := entry_at ht.entries i
  let c1 :=
    if e.state = HT_ENTRY_OCCUPIED ∧ ht.key_free_fn = true ∧ e.key ≠ 0 then
      [Callback.key_free e.key] else []
  let c2 :=
    if e.state = HT_ENTRY_OCCUPIED ∧ ht.value_free_fn = true ∧ e.value ≠ 0 then
      [Callback.value_free e.value] else []
  { ht with
      entries := ht.entries.set i EMPTY_ENTRY
      calls := ht.calls ++ c1 ++ c2 }

/-- The function `ht_oa_clear`. -/
def ht_oa_clear (ht : BaseHashTableOA) : BaseHashTableOA :=
  let ht1 := (List.range ht.bucket_count).foldl clear_step ht
  { ht1 with item_count := 0, tombstone_count := 0 }

/-- The function `ht_oa_free`. -/
def ht_oa_free (ht : BaseHashTableOA) : BaseHashTableOA :=
  let ht1 := ht_oa_clear ht
  { ht1 with entries := [], bucket_count := 0 }

/-- The `do ... while` loop of `ht_oa_get`. -/
def get_loop (ht : BaseHashTableOA) (key : Ptr) (start_idx : Nat) : Nat → Nat → Ptr
  | 0, _ => 0
  | fuel + 1, current_idx =>
    let entry := entry_at ht.entries current_idx
    if entry.state = HT_ENTRY_EMPTY then 0
    else if entry.state = HT_ENTRY_OCCUPIED ∧ ht.key_equal_fn entry.key key = true then
      entry.value
    else
      let next_idx := (current_idx + 1) % ht.bucket_count
      if next_idx ≠ start_idx then get_loop ht key start_idx fuel next_idx
      else 0

/-- The function `ht_oa_get`; `0` is the not-found result. -/
def ht_oa_get (ht : BaseHashTableOA) (key : Ptr) : Ptr :=
  if ht.bucket_count = 0 ∨ ht.item_count = 0 then 0
  else get_loop ht key (start_index ht key) ht.bucket_count (start_index ht key)

/-- The function `ht_oa_contains`. -/
def ht_oa_contains (ht : BaseHashTableOA) (key : Ptr) : Bool :=
  decide (ht_oa_get ht key ≠ 0)

/-- The function `ht_oa_size`. -/
def ht_oa_size (ht : BaseHashTableOA) : Nat := ht.item_count

/-- The function `ht_oa_is_empty`. -/
def ht_oa_is_empty (ht : BaseHashTableOA) : Bool := decide (ht.item_count = 0)

/-- The function `ht_oa_insert`: the result and the table afterwards. -/
def ht_oa_insert (heap : Nat → Bool) (ht : BaseHashTableOA) (key value : Ptr) :
    Bool × BaseHashTableOA :=
  let r1 :=
    if ht.bucket_count = 0 then ht_oa_rehash heap ht BASE_HT_OA_DEFAULT_CAPACITY
    else (true, ht)
  if r1.1 = false then (false, r1.2)
  else
    let ht := r1.2
    let r2 :=
      if usize_add ht.item_count 1 ≥ ht.bucket_count ∨
          load_exceeds (usize_add ht.item_count ht.tombstone_count) ht.bucket_count = true then
        ht_oa_rehash heap ht
          (if ht.bucket_count > 0 then usize_mul ht.bucket_count 2
           else BASE_HT_OA_DEFAULT_CAPACITY)
      else (true, ht)
    if r2.1 = false then (false, r2.2)
    else
      let ht := r2.2
      let fs := ht_oa_find_slot ht key
      if fs.2 = true then (false, ht)
      else
        -- `r3`: whether a slot is available, the table, and the slot
        let r3 : Bool × BaseHashTableOA × Option Nat :=
          if slot_unusable ht fs.1 = true then
            if ht.item_count = ht.bucket_count ∧ ht.tombstone_count = 0 then
              let r := ht_oa_rehash heap ht (usize_mul ht.bucket_count 2)
              if r.1 = false then (false, r.2, none)
              else
                let fs2 := ht_oa_find_slot r.2 key
                if fs2.2 = true ∨ slot_unusable r.2 fs2.1 = true then (false, r.2, none)
                else (true, r.2, fs2.1)
            else (false, ht, none)
          else (true, ht, fs.1)
        if r3.1 = false then (false, r3.2.1)
        else
          let ht := r3.2.1
          let slot := r3.2.2.getD 0
          -- key copy
          let new_key_ptr := copy_ptr ht.key_copy_fn key
          let calls1 := if ht.key_copy_fn.isSome = true then ht.calls ++ [Callback.key_copy key] else ht.calls
          if ht.key_copy_fn.isSome = true ∧ new_key_ptr = 0 then
            (false, { ht with calls := calls1 })
          else
            let new_value_ptr := copy_ptr ht.value_copy_fn value
            let calls2 := if ht.value_copy_fn.isSome = true then calls1 ++ [Callback.value_copy value] else calls1
            if ht.value_copy_fn.isSome = true ∧ new_value_ptr = 0 then
              let calls3 :=
                if ht.key_copy_fn.isSome = true ∧ ht.key_free_fn = true ∧ new_key_ptr ≠ key then
                  calls2 ++ [Callback.key_free new_key_ptr]
                else calls2
              (false, { ht with calls := calls3 })
            else
              let tombstone_count :=
                if (entry_at ht.entries slot).state = HT_ENTRY_TOMBSTONE then
                  usize_dec ht.tombstone_count
                else ht.tombstone_count
              (true,
                { ht with
                    entries := ht.entries.set slot ⟨new_key_ptr, new_value_ptr, HT_ENTRY_OCCUPIED⟩
                    tombstone_count := tombstone_count
                    item_count := usize_inc ht.item_count
                    calls := calls2 })

/-- The function `ht_oa_put` (upsert): the result and the table afterwards. -/
def ht_oa_put (heap : Nat → Bool) (ht : BaseHashTableOA) (key value : Ptr) :
    Bool × BaseHashTableOA :=
  let r1 :=
    if ht.bucket_count = 0 then ht_oa_rehash heap ht BASE_HT_OA_DEFAULT_CAPACITY
    else (true, ht)
  if r1.1 = false then (false, r1.2)
  else
    let ht := r1.2
    let extra := if ht_oa_contains ht key = true then 0 else 1
    let r2 :=
      if usize_add ht.item_count extra ≥ ht.bucket_count ∨
          load_exceeds (usize_add (usize_add ht.item_count ht.tombstone_count) extra)
            ht.bucket_count = true then
        ht_oa_rehash heap ht
          (if ht.bucket_count > 0 then usize_mul ht.bucket_count 2
           else BASE_HT_OA_DEFAULT_CAPACITY)
      else (true, ht)
    if r2.1 = false then (false, r2.2)
    else
      let ht := r2.2
      let fs := ht_oa_find_slot ht key
      if fs.2 = true then
        -- key exists, update value
        let slot := fs.1.getD 0
        let old_value := (entry_at ht.entries slot).value
        let new_value_ptr := copy_ptr ht.value_copy_fn value
        let calls1 := if ht.value_copy_fn.isSome = true then ht.calls ++ [Callback.value_copy value] else ht.calls
        if ht.value_copy_fn.isSome = true ∧ new_value_ptr = 0 then
          (false, { ht with calls := calls1 })
        else
          let calls2 :=
            if ht.value_free_fn = true ∧ old_value ≠ 0 ∧ old_value ≠ value ∧
                (ht.value_copy_fn.isNone = true ∨
                  (ht.value_copy_fn.isSome = true ∧ old_value ≠ new_value_ptr)) then
              calls1 ++ [Callback.value_free old_value]
            else calls1
          (true,
            { ht with
                entries := ht.entries.set slot
                  { entry_at ht.entries slot with value := new_value_ptr }
                calls := calls2 })
      else
        let r3 : Bool × BaseHashTableOA × Option Nat :=
          if slot_unusable ht fs.1 = true then
            if ht.item_count = ht.bucket_count ∧ ht.tombstone_count = 0 then
              let r := ht_oa_rehash heap ht (usize_mul ht.bucket_count 2)
              if r.1 = false then (false, r.2, none)
              else
                let fs2 := ht_oa_find_slot r.2 key
                if fs2.2 = true ∨ slot_unusable r.2 fs2.1 = true then (false, r.2, none)
                else (true, r.2, fs2.1)
            else (false, ht, none)
          else (true, ht, fs.1)
        if r3.1 = false then (false, r3.2.1)
        else
          let ht := r3.2.1
          let slot := r3.2.2.getD 0
          let new_key_ptr := copy_ptr ht.key_copy_fn key
          let calls1 := if ht.key_copy_fn.isSome = true then ht.calls ++ [Callback.key_copy key] else ht.calls
          if ht.key_copy_fn.isSome = true ∧ new_key_ptr = 0 then
            (false, { ht with calls := calls1 })
          else
            let new_value_ptr := copy_ptr ht.value_copy_fn value
            let calls2 := if ht.value_copy_fn.isSome = true then calls1 ++ [Callback.value_copy value] else calls1
            if ht.value_copy_fn.isSome = true ∧ new_value_ptr = 0 then
              let calls3 :=
                if ht.key_copy_fn.isSome = true ∧ ht.key_free_fn = true ∧ new_key_ptr ≠ key then
                  calls2 ++ [Callback.key_free new_key_ptr]
                else calls2
              (false, { ht with calls := calls3 })
            else
              let tombstone_count :=
                if (entry_at ht.entries slot).state = HT_ENTRY_TOMBSTONE then
                  usize_dec ht.tombstone_count
                else ht.tombstone_count
              (true,
                { ht with
                    entries := ht.entries.set slot ⟨new_key_ptr, new_value_ptr, HT_ENTRY_OCCUPIED⟩
                    tombstone_count := tombstone_count
                    item_count := usize_inc ht.item_count
                    calls := calls2 })

/-- The function `ht_oa_remove`: the result and the table afterwards. -/
def ht_oa_remove (ht : BaseHashTableOA) (key : Ptr) : Bool × BaseHashTableOA :=
  if ht.bucket_count = 0 ∨ ht.item_count = 0 then (false, ht)
  else
    let fs := ht_oa_find_slot ht key
    match fs.1 with
    | none => (false, ht)
    | some slot =>
      if fs.2 = true ∧ (entry_at ht.entries slot).state = HT_ENTRY_OCCUPIED then
        let e := entry_at ht.entries slot
        let c1 := if ht.key_free_fn = true ∧ e.key ≠ 0 then [Callback.key_free e.key] else []
        let c2 :=
          if ht.value_free_fn = true ∧ e.value ≠ 0 then [Callback.value_free e.value] else []
        (true,
          { ht with
              entries := ht.entries.set slot ⟨0, 0, HT_ENTRY_TOMBSTONE⟩
              item_count := usize_dec ht.item_count
              tombstone_count := usize_inc ht.tombstone_count
              calls := ht.calls ++ c1 ++ c2 })
      else (false, ht)

/-! ## Arena lifecycle -/

/-- The function `arena_init`.  `malloc` gives the address returned for a request of that
many bytes (`0` when it fails); `none` is the process terminated by `LOG_FATAL`. -/
def arena_init (malloc : Nat → Ptr) (total_size_bytes : Nat) : Option Arena :=
  let buffer := malloc total_size_bytes
  if buffer = 0 then none
  else
    some
      { buffer := buffer
        total_size := total_size_bytes
        prev_offset := 0
        current_offset := 0 }

/-- The function `arena_free_all`. -/
def arena_free_all (_arena : Arena) : Arena :=
  { buffer := 0, total_size := 0, prev_offset := 0, current_offset := 0 }

/-- The function `arena_reset`. -/
def arena_reset (arena : Arena) : Arena :=
  { arena with prev_offset := 0, current_offset := 0 }

/-- The function `arena_mark_temp`. -/
def arena_mark_temp (arena : Arena) : Arena :=
  { arena with prev_offset := arena.current_offset }

/-- The function `arena_release_temp`. -/
def arena_release_temp (arena : Arena) : Arena :=
  { arena with current_offset := arena.prev_offset }

/-! ## Iterator -/

/-- The struct `HashTableIteratorOA`; `ht` is the table pointed to. -/
structure HashTableIteratorOA where
  ht : BaseHashTableOA
  current_idx : Nat

/-- The `while` loop of `ht_oa_iterator_begin` and `ht_oa_iterator_next` that advances the
cursor to an Occupied slot: the cursor afterwards. -/
def iterator_skip (ht : BaseHashTableOA) : Nat → Nat → Nat
  | 0, current_idx => current_idx
  | fuel + 1, current_idx =>
    if current_idx < ht.bucket_count ∧
        (entry_at ht.entries current_idx).state ≠ HT_ENTRY_OCCUPIED then
      iterator_skip ht fuel (usize_inc current_idx)
    else current_idx

/-- The function `ht_oa_iterator_begin`. -/
def ht_oa_iterator_begin (ht : BaseHashTableOA) : HashTableIteratorOA :=
  { ht := ht, current_idx := iterator_skip ht ht.bucket_count 0 }

/-- The function `ht_oa_iterator_next`: `some (key, value)` when it returns true, having
written that pair to `*out_key` and `*out_value`, `none` when it returns false; and the
iterator afterwards. -/
def ht_oa_iterator_next (iter : HashTableIteratorOA) :
    Option (Ptr × Ptr) × HashTableIteratorOA :=
  if iter.current_idx ≥ iter.ht.bucket_count then (none, iter)
  else
    (some ((entry_at iter.ht.entries iter.current_idx).key,
        (entry_at iter.ht.entries iter.current_idx).value),
      { iter with
          current_idx :=
            iterator_skip iter.ht iter.ht.bucket_count (usize_inc iter.current_idx) })

/-! ## Hash and equality helpers

A `const char *` that is not `NULL` points to a null-terminated string; `str_at p` is the
list of the bytes stored at `p` before the terminator.  Whether plain `char` is signed is
implementation-defined (it is on x86-64, it is not on AArch64) and is a parameter. -/

/-- The macro `FNV_OFFSET_BASIS_64`. -/
def FNV_OFFSET_BASIS_64 : Nat := 0xCBF29CE484222325

/-- The macro `FNV_PRIME_64`. -/
def FNV_PRIME_64 : Nat := 0x100000001B3

/-- Wrapping `u64` multiplication. -/
def u64_mul (a b : Nat) : Nat := (a * b) % 18446744073709551616

/-- The conversion `(u64)(*p)` of a `char` holding the byte `c`: sign-extended when plain
`char` is signed. -/
def char_to_u64 (char_signed : Bool) (c : Nat) : Nat :=
  if char_signed = true ∧ 128 ≤ c % 256 then 18446744073709551616 - 256 + c % 256
  else c % 256

/-- The `for` loop of `base_hash_string` over the bytes at `p`; it stops at a zero byte. -/
def base_hash_string_loop (char_signed : Bool) : List Nat → Nat → Nat
  | [], hash => hash
  | c :: rest, hash =>
    if c % 256 = 0 then hash
    else
      base_hash_string_loop char_signed rest
        (u64_mul (Nat.xor hash (char_to_u64 char_signed c)) FNV_PRIME_64)

/-- The function `base_hash_string`. -/
def base_hash_string (char_signed : Bool) (str_at : Ptr → List Nat) (key : Ptr) : Nat :=
  if key = 0 then FNV_OFFSET_BASIS_64
  else base_hash_string_loop char_signed (str_at key) FNV_OFFSET_BASIS_64

/-- The `for` loop of `base_hash_bytes` over the span `bytes`, from index `i`. -/
def base_hash_bytes_loop (bytes : List Nat) (len : Nat) : Nat → Nat → Nat → Nat
  | 0, _, hash => hash
  | fuel + 1, i, hash =>
    if i < len then
      base_hash_bytes_loop bytes len fuel (i + 1)
        (u64_mul (Nat.xor hash (bytes.getD i 0 % 256)) FNV_PRIME_64)
    else hash

/-- The function `base_hash_bytes`, for the span whose bytes are `bytes`. -/
def base_hash_bytes (bytes : List Nat) (len : Nat) : Nat :=
  base_hash_bytes_loop bytes len len 0 FNV_OFFSET_BASIS_64

/-- The C library function `strlen`, for the bytes at a pointer. -/
def strlen : List Nat → Nat
  | [] => 0
  | c :: rest => if c % 256 = 0 then 0 else strlen rest + 1

/-- The C library function `strcmp`, for the bytes at two pointers: the sign of the
result is that of the difference of the first pair of bytes that differ. -/
def strcmp : List Nat → List Nat → Int
  | [], [] => 0
  | [], c2 :: _ => 0 - ((c2 % 256 : Nat) : Int)
  | c1 :: _, [] => ((c1 % 256 : Nat) : Int)
  | c1 :: rest1, c2 :: rest2 =>
    if c1 % 256 ≠ c2 % 256 then ((c1 % 256 : Nat) : Int) - ((c2 % 256 : Nat) : Int)
    else if c1 % 256 = 0 then 0
    else strcmp rest1 rest2

/-- The function `base_key_equal_string`. -/
def base_key_equal_string (str_at : Ptr → List Nat) (key1 key2 : Ptr) : Bool :=
  if key1 = key2 then true
  else if key1 = 0 ∨ key2 = 0 then false
  else decide (strcmp (str_at key1) (str_at key2) = 0)

/-! ## Database configuration and initialisation

`core/config.c` and `core/database.c`.  The file system is a parameter of `db_init`: whether
`fopen` of the existing file succeeds, and whether the file can be created.  `int` has 32
bits, so that the product of a `u32` and an `int` is evaluated in `unsigned int`. -/

/-- The struct `DatabaseConfig`: the fields `db_init` reads. -/
structure DatabaseConfig where
  cache_size_mb : Nat
  read_only : Bool
deriving DecidableEq, Repr

/-- The struct `Database`: the two arenas and the flag `is_initialized`. -/
structure Database where
  main_arena : Arena
  temp_arena : Arena
  is_initialized : Bool
deriving DecidableEq, Repr

/-- Wrapping multiplication of `unsigned int`. -/
def u32_mul (a b : Nat) : Nat := (a * b) % 4294967296

/-- The branch of `db_config_from_args` for the option `--cache`, given the `long` that
`strtol` returned: `none` when the value is rejected (the function returns false), and the
new `cache_size_mb`, `(u32)cache_mb`, otherwise. -/
def db_config_from_args_cache (cache_mb : Int) : Option Nat :=
  if cache_mb ≤ 0 ∨ cache_mb > 8192 then none
  else some (cache_mb.toNat % 4294967296)

/-- The function `db_init`: `none` when `LOG_FATAL` terminates the process in `arena_init`,
and otherwise the result and the database afterwards. -/
def db_init (malloc_main malloc_temp : Nat → Ptr) (open_existing create_new : Bool)
    (db : Database) (config : DatabaseConfig) : Option (Bool × Database) :=
  let temp_arena_size := 1024 * 1024
  let main_arena_size := u32_mul (u32_mul config.cache_size_mb 1024) 1024
  match arena_init malloc_main main_arena_size with
  | none => none
  | some main_arena =>
    match arena_init malloc_temp temp_arena_size with
    | none => none
    | some temp_arena =>
      let db_file := open_existing || (!config.read_only && create_new)
      if db_file = false then
        some (false, { db with
          main_arena := arena_free_all main_arena
          temp_arena := arena_free_all temp_arena })
      else
        some (true, { main_arena := main_arena, temp_arena := temp_arena,
                      is_initialized := true })

/-! ## Page size option

The branch of `db_config_from_args` (`core/config.c`) for `-s` / `--page-size`.  `long` has
64 bits; the bitwise test is reached only for values from 512 to 65536, where `long`
arithmetic is that of the natural numbers. -/

/-- The macro `DEFAULT_PAGE_SIZE`, the `page_size` that `db_config_init_defaults` sets. -/
def DEFAULT_PAGE_SIZE : Nat := 4096

/-- The branch of `db_config_from_args` for the option `--page-size`, given the field
`config->page_size` and the `long` that `strtol` returned: whether the branch goes on
(`false` when the function returns false there), and the field afterwards, `(u32)page_size`
when the value is accepted. -/
def db_config_from_args_page_size (config_page_size : Nat) (page_size : Int) : Bool × Nat :=
  if page_size < 512 ∨ page_size > 65536 ∨
      Nat.land page_size.toNat (page_size - 1).toNat ≠ 0 then
    (false, config_page_size)
  else (true, page_size.toNat % 4294967296)

/-! ## Specification predicates and proof scaffolding -/

/-- Whether a slot is in state Occupied. -/
def is_occupied (e : HashTableEntryOA) : Bool := decide (e.state = HT_ENTRY_OCCUPIED)

/-- Whether a slot is in state Tombstone. -/
def is_tombstone (e : HashTableEntryOA) : Bool := decide (e.state = HT_ENTRY_TOMBSTONE)

/-- The number of slots in state Occupied. -/
def occupied_slots (ht : BaseHashTableOA) : Nat := ht.entries.countP is_occupied

/-- The number of slots in state Tombstone. -/
def tombstone_slots (ht : BaseHashTableOA) : Nat := ht.entries.countP is_tombstone

/-- The representation and count invariant: the bucket array has `bucket_count` slots and
fits the address space, and the two counters count the Occupied and Tombstone slots. -/
structure CountInv (ht : BaseHashTableOA) : Prop where
  len : ht.entries.length = ht.bucket_count
  fits : ht.bucket_count * SIZEOF_ENTRY < USIZE_MOD
  items : ht.item_count = occupied_slots ht
  tombs : ht.tombstone_count = tombstone_slots ht

/-- Slot `i` is Occupied and its key compares equal to `key`. -/
def Hit (ht : BaseHashTableOA) (key : Ptr) (i : Nat) : Prop :=
  (entry_at ht.entries i).state = HT_ENTRY_OCCUPIED ∧
    ht.key_equal_fn (entry_at ht.entries i).key key = true

/-- Key `key` is stored with value `value`: some Occupied slot holds a key equal to `key`
together with `value`. -/
def Stored (ht : BaseHashTableOA) (key value : Ptr) : Prop :=
  ∃ i, Hit ht key i ∧ (entry_at ht.entries i).value = value

/-- No Occupied slot holds a key equal to `key`. -/
def Absent (ht : BaseHashTableOA) (key : Ptr) : Prop := ∀ i, ¬ Hit ht key i

/-- Well-formed tables: the count invariant, no two Occupied slots with equal keys, and
every Occupied slot is reachable from the start of its key's probe sequence without
crossing an Empty slot. -/
structure WF (ht : BaseHashTableOA) : Prop where
  counts : CountInv ht
  unique : ∀ i j, (entry_at ht.entries i).state = HT_ENTRY_OCCUPIED →
    (entry_at ht.entries j).state = HT_ENTRY_OCCUPIED →
    ht.key_equal_fn (entry_at ht.entries i).key (entry_at ht.entries j).key = true → i = j
  reach : ∀ j n, (entry_at ht.entries j).state = HT_ENTRY_OCCUPIED → n < ht.bucket_count →
    (start_index ht (entry_at ht.entries j).key + n) % ht.bucket_count = j →
    ∀ m, m < n →
      (entry_at ht.entries
        ((start_index ht (entry_at ht.entries j).key + m) % ht.bucket_count)).state
        ≠ HT_ENTRY_EMPTY

/-- The key functions are lawful: `key_equal_fn` is an equivalence relation and `hash_fn`
gives equal keys the same hash. -/
structure LawfulKeys (ht : BaseHashTableOA) : Prop where
  refl : ∀ a, ht.key_equal_fn a a = true
  symm : ∀ a b, ht.key_equal_fn a b = true → ht.key_equal_fn b a = true
  trans : ∀ a b c, ht.key_equal_fn a b = true → ht.key_equal_fn b c = true →
    ht.key_equal_fn a c = true
  hash_eq : ∀ a b, ht.key_equal_fn a b = true → ht.hash_fn a = ht.hash_fn b

/-- Borrowed semantics: no copy function is installed, for keys or for values. -/
def Borrowed (ht : BaseHashTableOA) : Prop :=
  ht.key_copy_fn = none ∧ ht.value_copy_fn = none

/-- Two tables have the same functions, callbacks and callback log. -/
structure SameConfig (ht ht2 : BaseHashTableOA) : Prop where
  hash_fn : ht2.hash_fn = ht.hash_fn
  key_equal_fn : ht2.key_equal_fn = ht.key_equal_fn
  key_copy_fn : ht2.key_copy_fn = ht.key_copy_fn
  key_free_fn : ht2.key_free_fn = ht.key_free_fn
  value_copy_fn : ht2.value_copy_fn = ht.value_copy_fn
  value_free_fn : ht2.value_free_fn = ht.value_free_fn
  calls : ht2.calls = ht.calls

/-- Two tables hold the same Occupied slots (key pointer, value pointer), possibly at
different indices. -/
def SameContent (ht ht2 : BaseHashTableOA) : Prop :=
  (∀ i, (entry_at ht.entries i).state = HT_ENTRY_OCCUPIED →
    ∃ j, entry_at ht2.entries j = entry_at ht.entries i) ∧
  (∀ j, (entry_at ht2.entries j).state = HT_ENTRY_OCCUPIED →
    ∃ i, entry_at ht.entries i = entry_at ht2.entries j)

/-- The state of the new table of `ht_oa_rehash` once the first `c` slots of the old array
have been relocated. -/
structure RehashInv (old : BaseHashTableOA) (nbc : Nat) (t : BaseHashTableOA) (c : Nat) :
    Prop where
  config : SameConfig old t
  wf : WF t
  buckets : t.bucket_count = nbc
  no_tomb : t.tombstone_count = 0
  items : t.item_count = (old.entries.take c).countP is_occupied
  moved : ∀ i, i < c → (entry_at old.entries i).state = HT_ENTRY_OCCUPIED →
    ∃ j, entry_at t.entries j = entry_at old.entries i
  from_old : ∀ j, (entry_at t.entries j).state = HT_ENTRY_OCCUPIED →
    ∃ i, i < c ∧ entry_at old.entries i = entry_at t.entries j

/-- The first stage of `ht_oa_insert`: initialisation of an unallocated table and the
load-factor check, with the rehash it may trigger. -/
def insert_growth (heap : Nat → Bool) (ht : BaseHashTableOA) : Bool × BaseHashTableOA :=
  let r1 :=
    if ht.bucket_count = 0 then ht_oa_rehash heap ht BASE_HT_OA_DEFAULT_CAPACITY
    else (true, ht)
  if r1.1 = false then (false, r1.2)
  else
    let ht := r1.2
    if usize_add ht.item_count 1 ≥ ht.bucket_count ∨
        load_exceeds (usize_add ht.item_count ht.tombstone_count) ht.bucket_count = true then
      ht_oa_rehash heap ht
        (if ht.bucket_count > 0 then usize_mul ht.bucket_count 2
         else BASE_HT_OA_DEFAULT_CAPACITY)
    else (true, ht)

/-- The first stage of `ht_oa_put`. -/
def put_growth (heap : Nat → Bool) (ht : BaseHashTableOA) (key : Ptr) :
    Bool × BaseHashTableOA :=
  let r1 :=
    if ht.bucket_count = 0 then ht_oa_rehash heap ht BASE_HT_OA_DEFAULT_CAPACITY
    else (true, ht)
  if r1.1 = false then (false, r1.2)
  else
    let ht := r1.2
    let extra := if ht_oa_contains ht key = true then 0 else 1
    if usize_add ht.item_count extra ≥ ht.bucket_count ∨
        load_exceeds (usize_add (usize_add ht.item_count ht.tombstone_count) extra)
          ht.bucket_count = true then
      ht_oa_rehash heap ht
        (if ht.bucket_count > 0 then usize_mul ht.bucket_count 2
         else BASE_HT_OA_DEFAULT_CAPACITY)
    else (true, ht)

/-- The table after `key` and `value` are stored in slot `slot` (borrowed semantics). -/
def place (ht : BaseHashTableOA) (slot : Nat) (key value : Ptr) : BaseHashTableOA :=
  { ht with
      entries := ht.entries.set slot ⟨key, value, HT_ENTRY_OCCUPIED⟩
      tombstone_count :=
        if (entry_at ht.entries slot).state = HT_ENTRY_TOMBSTONE then
          usize_dec ht.tombstone_count
        else ht.tombstone_count
      item_count := usize_inc ht.item_count }

/-- What a table that went through the growth stage of an operation has in common with the
table before: it is well-formed, with the same functions and the same Occupied slots. -/
structure Evolved (ht ht2 : BaseHashTableOA) : Prop where
  wf : WF ht2
  config : SameConfig ht ht2
  content : SameContent ht ht2
  items : ht2.item_count = ht.item_count

/-- The stage of `ht_oa_insert` and `ht_oa_put` that follows an unsuccessful slot search:
one more rehash when the table is full of Occupied slots.  It yields whether a slot is
available, the table, and the slot. -/
def retry_stage (heap : Nat → Bool) (ht : BaseHashTableOA) (key : Ptr) (slot0 : Option Nat) :
    Bool × BaseHashTableOA × Option Nat :=
  if slot_unusable ht slot0 = true then
    if ht.item_count = ht.bucket_count ∧ ht.tombstone_count = 0 then
      let r := ht_oa_rehash heap ht (usize_mul ht.bucket_count 2)
      if r.1 = false then (false, r.2, none)
      else
        let fs2 := ht_oa_find_slot r.2 key
        if fs2.2 = true ∨ slot_unusable r.2 fs2.1 = true then (false, r.2, none)
        else (true, r.2, fs2.1)
    else (false, ht, none)
  else (true, ht, slot0)

/-- The last stage of `ht_oa_insert` and of `ht_oa_put` for a new key: the key and the
value are copied when copy functions are installed, and stored in the slot. -/
def store_stage (ht : BaseHashTableOA) (slot : Nat) (key value : Ptr) :
    Bool × BaseHashTableOA :=
  let new_key_ptr := copy_ptr ht.key_copy_fn key
  let calls1 := if ht.key_copy_fn.isSome = true then ht.calls ++ [Callback.key_copy key] else ht.calls
  if ht.key_copy_fn.isSome = true ∧ new_key_ptr = 0 then
    (false, { ht with calls := calls1 })
  else
    let new_value_ptr := copy_ptr ht.value_copy_fn value
    let calls2 := if ht.value_copy_fn.isSome = true then calls1 ++ [Callback.value_copy value] else calls1
    if ht.value_copy_fn.isSome = true ∧ new_value_ptr = 0 then
      let calls3 :=
        if ht.key_copy_fn.isSome = true ∧ ht.key_free_fn = true ∧ new_key_ptr ≠ key then
          calls2 ++ [Callback.key_free new_key_ptr]
        else calls2
      (false, { ht with calls := calls3 })
    else
      let tombstone_count :=
        if (entry_at ht.entries slot).state = HT_ENTRY_TOMBSTONE then
          usize_dec ht.tombstone_count
        else ht.tombstone_count
      (true,
        { ht with
            entries := ht.entries.set slot ⟨new_key_ptr, new_value_ptr, HT_ENTRY_OCCUPIED⟩
            tombstone_count := tombstone_count
            item_count := usize_inc ht.item_count
            calls := calls2 })

/-- The stage of `ht_oa_put` that replaces the value of a key found in `slot`. -/
def update_stage (ht : BaseHashTableOA) (slot : Nat) (value : Ptr) : Bool × BaseHashTableOA :=
  let old_value := (entry_at ht.entries slot).value
  let new_value_ptr := copy_ptr ht.value_copy_fn value
  let calls1 := if ht.value_copy_fn.isSome = true then ht.calls ++ [Callback.value_copy value] else ht.calls
  if ht.value_copy_fn.isSome = true ∧ new_value_ptr = 0 then
    (false, { ht with calls := calls1 })
  else
    let calls2 :=
      if ht.value_free_fn = true ∧ old_value ≠ 0 ∧ old_value ≠ value ∧
          (ht.value_copy_fn.isNone = true ∨
            (ht.value_copy_fn.isSome = true ∧ old_value ≠ new_value_ptr)) then
        calls1 ++ [Callback.value_free old_value]
      else calls1
    (true,
      { ht with
          entries := ht.entries.set slot
            { entry_at ht.entries slot with value := new_value_ptr }
          calls := calls2 })

/-- The table states reached from `ht_oa_init` by the API, with any functions and
callbacks, any allocator behaviour and any arguments. -/
inductive Reachable : BaseHashTableOA → Prop where
  | init (heap : Nat → Bool) (n : Nat) (hash_fn : Ptr → Nat) (key_equal_fn : Ptr → Ptr → Bool)
      (arena : Option Arena) (ht : BaseHashTableOA) :
      ht_oa_init heap n hash_fn key_equal_fn arena = some ht → Reachable ht
  | set_managed_kv (ht : BaseHashTableOA) (kc : Option (Ptr → Ptr)) (kf : Bool)
      (vc : Option (Ptr → Ptr)) (vf : Bool) :
      Reachable ht → Reachable (ht_oa_set_managed_kv ht kc kf vc vf)
  | insert (heap : Nat → Bool) (ht : BaseHashTableOA) (key value : Ptr) :
      Reachable ht → Reachable (ht_oa_insert heap ht key value).2
  | put (heap : Nat → Bool) (ht : BaseHashTableOA) (key value : Ptr) :
      Reachable ht → Reachable (ht_oa_put heap ht key value).2
  | remove (ht : BaseHashTableOA) (key : Ptr) :
      Reachable ht → Reachable (ht_oa_remove ht key).2
  | clear (ht : BaseHashTableOA) : Reachable ht → Reachable (ht_oa_clear ht)
  | free (ht : BaseHashTableOA) : Reachable ht → Reachable (ht_oa_free ht)
  | rehash (heap : Nat → Bool) (ht : BaseHashTableOA) (n : Nat) :
      Reachable ht → Reachable (ht_oa_rehash heap ht n).2

/-- A sample hash function: the key pointer itself. -/
def sample_hash : Ptr → Nat := fun k => k

/-- A sample equality function: pointer equality. -/
def sample_equal : Ptr → Ptr → Bool := fun a b => decide (a = b)

/-- A heap on which every allocation succeeds. -/
def heap_ok : Nat → Bool := fun _ => true

/-- A heap on which every allocation fails. -/
def heap_exhausted : Nat → Bool := fun _ => false

/-- The heap-backed table `ht_oa_init(n, sample_hash, sample_equal, NULL)` returns (for
`n > 0`). -/
def sample_table (n : Nat) : BaseHashTableOA :=
  { entries := List.replicate n EMPTY_ENTRY
    bucket_count := n
    item_count := 0
    tombstone_count := 0
    hash_fn := sample_hash
    key_equal_fn := sample_equal
    key_copy_fn := none
    key_free_fn := false
    value_copy_fn := none
    value_free_fn := false
    arena := none
    calls := [] }

/-- Successive `ht_oa_insert` calls for a list of key/value pairs: whether all of them
returned true, and the table afterwards. -/
def insert_all (heap : Nat → Bool) (ht : BaseHashTableOA) (kvs : List (Ptr × Ptr)) :
    Bool × BaseHashTableOA :=
  kvs.foldl (fun acc kv => ((ht_oa_insert heap acc.2 kv.1 kv.2).1 && acc.1,
    (ht_oa_insert heap acc.2 kv.1 kv.2).2)) (true, ht)

/-- The state of a table of 16 buckets after the key/value pairs of `l` have been
inserted, no rehash having been needed. -/
structure Filled (ht0 t : BaseHashTableOA) (l : List (Ptr × Ptr)) : Prop where
  wf : WF t
  config : SameConfig ht0 t
  buckets : t.bucket_count = 16
  items : t.item_count = l.length
  tombs : t.tombstone_count = 0
  gets : ∀ kv, kv ∈ l → ht_oa_get t kv.1 = kv.2
  keys : ∀ j, (entry_at t.entries j).state = HT_ENTRY_OCCUPIED →
    ∃ kv, kv ∈ l ∧ (entry_at t.entries j).key = kv.1

/-- The indices of the Occupied slots, in increasing order. -/
def occupied_indices (ht : BaseHashTableOA) : List Nat :=
  (List.range ht.bucket_count).filter (fun i => is_occupied (entry_at ht.entries i))

/-- The results of `n` successive calls of `ht_oa_iterator_next`. -/
def iterator_run : Nat → HashTableIteratorOA → List (Option (Ptr × Ptr))
  | 0, _ => []
  | n + 1, iter =>
    (ht_oa_iterator_next iter).1 :: iterator_run n (ht_oa_iterator_next iter).2

/-- A four-bucket table with an Empty slot, two Occupied slots and a Tombstone, as left by
inserts of the keys 5 and 7 (and a removed key that probed to slot 2). -/
def iteration_sample : BaseHashTableOA :=
  { sample_table 4 with
    entries := [EMPTY_ENTRY, ⟨5, 50, HT_ENTRY_OCCUPIED⟩, ⟨0, 0, HT_ENTRY_TOMBSTONE⟩,
      ⟨7, 70, HT_ENTRY_OCCUPIED⟩]
    item_count := 2
    tombstone_count := 1 }

/-- Successive `arena_alloc_aligned` calls for a list of (size, alignment) requests: the
pointers returned, in order, and the arena afterwards. -/
def alloc_all (arena : Arena) : List (Nat × Nat) → List Ptr × Arena
  | [] => ([], arena)
  | req :: rest =>
    ((arena_alloc_aligned arena req.1 req.2).1 ::
        (alloc_all (arena_alloc_aligned arena req.1 req.2).2 rest).1,
      (alloc_all (arena_alloc_aligned arena req.1 req.2).2 rest).2)

/-- The arena invariant: `prev_offset <= current_offset <= total_size`. -/
def ArenaInv (arena : Arena) : Prop :=
  arena.prev_offset ≤ arena.current_offset ∧ arena.current_offset ≤ arena.total_size

/-- The byte sequence of the null-terminated string stored in `s`: the bytes before the
first zero byte. -/
def string_bytes : List Nat → List Nat
  | [] => []
  | c :: rest => if c % 256 = 0 then [] else c % 256 :: string_bytes rest

/-- A sample memory: the string "ab" at address 1, a second copy of "ab" (followed by its
terminator and other bytes) at address 2, and the string "a" elsewhere. -/
def sample_strings : Ptr → List Nat :=
  fun p => if p = 1 then [0x61, 0x62] else if p = 2 then [0x61, 0x62, 0, 7] else [0x61]

/-- One step of 64-bit FNV-1a. -/
def fnv1a_step (h byte : Nat) : Nat := ((Nat.xor h byte) * 0x100000001B3) % 2 ^ 64

/-- The 64-bit FNV-1a hash of a byte sequence, as a left fold. -/
def fnv1a_64 (bytes : List Nat) : Nat := bytes.foldl fnv1a_step 0xCBF29CE484222325

/-- The state of the slot at position `n` of the probe sequence of `key`, the sequence
`(hash(key) + n) mod bucket_count`. -/
def probe_state (ht : BaseHashTableOA) (key : Ptr) (n : Nat) : HashTableEntryStateOA :=
  (entry_at ht.entries ((start_index ht key + n) % ht.bucket_count)).state

/-- The insertion target of an unsuccessful search for `key`, `r` being the slot returned
(`none` for no slot): the first Tombstone of the probe sequence before its first Empty slot
if there is one, otherwise that Empty slot; in a sequence without an Empty slot, the first
Tombstone if there is one and otherwise no slot; never an Occupied slot. -/
structure InsertionTarget (ht : BaseHashTableOA) (key : Ptr) (r : Option Nat) : Prop where
  before_empty : ∀ e, e < ht.bucket_count → probe_state ht key e = HT_ENTRY_EMPTY →
    (∀ m, m < e → probe_state ht key m ≠ HT_ENTRY_EMPTY) →
    (∀ t, t < e → probe_state ht key t = HT_ENTRY_TOMBSTONE →
      (∀ m, m < t → probe_state ht key m ≠ HT_ENTRY_TOMBSTONE) →
      r = some ((start_index ht key + t) % ht.bucket_count)) ∧
    ((∀ m, m < e → probe_state ht key m ≠ HT_ENTRY_TOMBSTONE) →
      r = some ((start_index ht key + e) % ht.bucket_count))
  wrapped : (∀ m, m < ht.bucket_count → probe_state ht key m ≠ HT_ENTRY_EMPTY) →
    (∀ t, t < ht.bucket_count → probe_state ht key t = HT_ENTRY_TOMBSTONE →
      (∀ m, m < t → probe_state ht key m ≠ HT_ENTRY_TOMBSTONE) →
      r = some ((start_index ht key + t) % ht.bucket_count)) ∧
    ((∀ m, m < ht.bucket_count → probe_state ht key m ≠ HT_ENTRY_TOMBSTONE) → r = none)
  not_occupied : ∀ i, r = some i →
    i < ht.bucket_count ∧ (entry_at ht.entries i).state ≠ HT_ENTRY_OCCUPIED

/-- A four-bucket table whose probe sequence from slot 1 meets an Occupied slot, a
Tombstone, a second Tombstone and then an Empty slot. -/
def target_sample : BaseHashTableOA :=
  { sample_table 4 with
    entries := [EMPTY_ENTRY, ⟨5, 50, HT_ENTRY_OCCUPIED⟩, ⟨0, 0, HT_ENTRY_TOMBSTONE⟩,
      ⟨0, 0, HT_ENTRY_TOMBSTONE⟩]
    item_count := 1
    tombstone_count := 2 }

/-- A table of 4 buckets holding the keys 1 and 2 (load 2/4). -/
def two_of_four : BaseHashTableOA :=
  (insert_all heap_ok (sample_table 4) [(1, 101), (2, 102)]).2

/-- A table of 10 buckets holding the keys 1 to 6 (load 6/10). -/
def six_of_ten : BaseHashTableOA :=
  (insert_all heap_ok (sample_table 10)
    [(1, 101), (2, 102), (3, 103), (4, 104), (5, 105), (6, 106)]).2

/-- The table states reached from `ht_oa_init`, called with a hash function that respects
the key equality, by `ht_oa_insert`, `ht_oa_put`, `ht_oa_remove`, `ht_oa_clear` and
`ht_oa_rehash`, with any allocator behaviour and any arguments. -/
inductive Built : BaseHashTableOA → Prop where
  | init (heap : Nat → Bool) (n : Nat) (hash_fn : Ptr → Nat) (key_equal_fn : Ptr → Ptr → Bool)
      (arena : Option Arena) (ht : BaseHashTableOA) :
      ht_oa_init heap n hash_fn key_equal_fn arena = some ht → LawfulKeys ht → Built ht
  | insert (heap : Nat → Bool) (ht : BaseHashTableOA) (key value : Ptr) :
      Built ht → Built (ht_oa_insert heap ht key value).2
  | put (heap : Nat → Bool) (ht : BaseHashTableOA) (key value : Ptr) :
      Built ht → Built (ht_oa_put heap ht key value).2
  | remove (ht : BaseHashTableOA) (key : Ptr) :
      Built ht → Built (ht_oa_remove ht key).2
  | clear (ht : BaseHashTableOA) : Built ht → Built (ht_oa_clear ht)
  | rehash (heap : Nat → Bool) (ht : BaseHashTableOA) (n : Nat) :
      Built ht → Built (ht_oa_rehash heap ht n).2

/-- A table of one bucket backed by an arena of 32 bytes, 24 of which the bucket array
takes. -/
def arena_sample : BaseHashTableOA :=
  { sample_table 1 with arena := some ⟨4096, 32, 0, 24⟩ }

/-- Whether a logged callback invocation is a call of the key free function. -/
def is_key_free : Callback → Bool
  | Callback.key_free _ => true
  | _ => false

/-- Whether a logged callback invocation is a call of the value free function. -/
def is_value_free : Callback → Bool
  | Callback.value_free _ => true
  | _ => false

/-- A fresh table of 4 buckets on which `ht_oa_set_managed_kv` has installed the two free
functions and no copy function. -/
def free_only_table : BaseHashTableOA :=
  ht_oa_set_managed_kv (sample_table 4) none true none true

/-- A sample value copy function: the clone of `p` lives at `p + 1000`. -/
def sample_clone : Ptr → Ptr := fun p => p + 1000

/-- A table of 4 buckets that owns its values (value copy and free function installed by
`ht_oa_set_managed_kv`), after `ht_oa_put(5, 7)`: it holds the key 5 with the owned clone
1007. -/
def owned_table : BaseHashTableOA :=
  (ht_oa_put heap_ok (ht_oa_set_managed_kv (sample_table 4) none false (some sample_clone) true)
    5 7).2

/-- The new, empty table `ht_oa_rehash` relocates the entries into, once the allocation of
the new bucket array has succeeded. -/
def rehash_fresh (heap : Nat → Bool) (ht : BaseHashTableOA) (new_bucket_count : Nat) :
    BaseHashTableOA :=
  { ht with
      entries := List.replicate (rehash_bucket_count ht new_bucket_count) EMPTY_ENTRY
      bucket_count := rehash_bucket_count ht new_bucket_count
      item_count := 0
      tombstone_count := 0
      arena := (alloc_entries heap ht.arena (rehash_bucket_count ht new_bucket_count)).2 }

/-- The state of the new table of `ht_oa_rehash` once the first `c` slots of the old array
have been visited, as far as the counts go: the new table has `nbc` buckets, no Tombstone,
as many items as there are Occupied slots among the first `c` old slots, and holds each of
them. -/
structure RelocInv (old : BaseHashTableOA) (nbc : Nat) (t : BaseHashTableOA) (c : Nat) :
    Prop where
  counts : CountInv t
  buckets : t.bucket_count = nbc
  no_tomb : t.tombstone_count = 0
  items : t.item_count = (old.entries.take c).countP is_occupied
  moved : ∀ i, i < c → (entry_at old.entries i).state = HT_ENTRY_OCCUPIED →
    ∃ j, entry_at t.entries j = entry_at old.entries i

/-- A table of 4 buckets holding the keys 1, 2 and 7 (3 items). -/
def three_of_four : BaseHashTableOA := (ht_oa_insert heap_ok two_of_four 7 70).2

/-- The table states reached from `ht_oa_init` by calls of the public functions that take
a mutable table (`ht_oa_rehash` and `ht_oa_find_slot` are `static`, these are not API
calls), with any functions and callbacks, any allocator behaviour and any arguments. -/
inductive ApiState : BaseHashTableOA → Prop where
  | init (heap : Nat → Bool) (n : Nat) (hash_fn : Ptr → Nat) (key_equal_fn : Ptr → Ptr → Bool)
      (arena : Option Arena) (ht : BaseHashTableOA) :
      ht_oa_init heap n hash_fn key_equal_fn arena = some ht → ApiState ht
  | set_managed_kv (ht : BaseHashTableOA) (kc : Option (Ptr → Ptr)) (kf : Bool)
      (vc : Option (Ptr → Ptr)) (vf : Bool) :
      ApiState ht → ApiState (ht_oa_set_managed_kv ht kc kf vc vf)
  | insert (heap : Nat → Bool) (ht : BaseHashTableOA) (key value : Ptr) :
      ApiState ht → ApiState (ht_oa_insert heap ht key value).2
  | put (heap : Nat → Bool) (ht : BaseHashTableOA) (key value : Ptr) :
      ApiState ht → ApiState (ht_oa_put heap ht key value).2
  | remove (ht : BaseHashTableOA) (key : Ptr) :
      ApiState ht → ApiState (ht_oa_remove ht key).2
  | clear (ht : BaseHashTableOA) : ApiState ht → ApiState (ht_oa_clear ht)
  | free (ht : BaseHashTableOA) : ApiState ht → ApiState (ht_oa_free ht)

/-- The count invariant together with room for one more item: a table with buckets has
fewer items than buckets. -/
structure Room (ht : BaseHashTableOA) : Prop where
  counts : CountInv ht
  room : 0 < ht.bucket_count → ht.item_count < ht.bucket_count

/-- A table of 4 buckets with the keys 1 and 2 and one Tombstone (load 3/4), that owns its
keys and values: the key copy function is `sample_clone`, and the value copy function
always fails. -/
def copy_fail_table : BaseHashTableOA :=
  ht_oa_set_managed_kv (ht_oa_remove three_of_four 7).2 (some sample_clone) true
    (some (fun _ => 0)) false

/-- A table of one bucket backed by an arena of 1024 bytes, 24 of which the bucket array
takes. -/
def arena_table : BaseHashTableOA :=
  { sample_table 1 with arena := some ⟨4096, 1024, 0, 24⟩ }

/-- The `do ... while` loop of `ht_oa_get` with a log: the result, the indices of the slots
examined, in order, and whether the loop has returned within the given number of
iterations. -/
def get_loop_log (ht : BaseHashTableOA) (key : Ptr) (start_idx : Nat) :
    Nat → Nat → Ptr × List Nat × Bool
  | 0, _ => (0, [], false)
  | fuel + 1, current_idx =>
    let entry := entry_at ht.entries current_idx
    if entry.state = HT_ENTRY_EMPTY then (0, [current_idx], true)
    else if entry.state = HT_ENTRY_OCCUPIED ∧ ht.key_equal_fn entry.key key = true then
      (entry.value, [current_idx], true)
    else
      let next_idx := (current_idx + 1) % ht.bucket_count
      if next_idx ≠ start_idx then
        let r := get_loop_log ht key start_idx fuel next_idx
        (r.1, current_idx :: r.2.1, r.2.2)
      else (0, [current_idx], true)

/-- The `do ... while` loop of `ht_oa_find_slot` with a log: the result, the indices of the
slots examined, in order, and whether the loop has returned within the given number of
iterations. -/
def find_slot_loop_log (ht : BaseHashTableOA) (key : Ptr) (start_idx : Nat) :
    Nat → Nat → Option Nat → (Option Nat × Bool) × List Nat × Bool
  | 0, _, first_tombstone_slot => ((first_tombstone_slot, false), [], false)
  | fuel + 1, current_idx, first_tombstone_slot =>
    let entry := entry_at ht.entries current_idx
    match entry.state with
    | HT_ENTRY_EMPTY =>
      ((some (first_tombstone_slot.getD current_idx), false), [current_idx], true)
    | HT_ENTRY_TOMBSTONE =>
      let first_tombstone_slot :=
        if first_tombstone_slot.isNone then some current_idx else first_tombstone_slot
      let next_idx := (current_idx + 1) % ht.bucket_count
      if next_idx ≠ start_idx then
        let r := find_slot_loop_log ht key start_idx fuel next_idx first_tombstone_slot
        (r.1, current_idx :: r.2.1, r.2.2)
      else ((first_tombstone_slot, false), [current_idx], true)
    | HT_ENTRY_OCCUPIED =>
      if ht.key_equal_fn entry.key key then ((some current_idx, true), [current_idx], true)
      else
        let next_idx := (current_idx + 1) % ht.bucket_count
        if next_idx ≠ start_idx then
          let r := find_slot_loop_log ht key start_idx fuel next_idx first_tombstone_slot
          (r.1, current_idx :: r.2.1, r.2.2)
        else ((first_tombstone_slot, false), [current_idx], true)

/-- The relocation loop of `ht_oa_rehash` with a log: the result, the indices of the slots
of the new array examined, in order, and whether the loop has finished within the given
number of iterations. -/
def rehash_probe_log (key value : Ptr) (start_idx : Nat) :
    Nat → BaseHashTableOA → Nat → (BaseHashTableOA × Bool) × List Nat × Bool
  | 0, ht, _ => ((ht, false), [], false)
  | fuel + 1, ht, current_idx =>
    if (entry_at ht.entries current_idx).state = HT_ENTRY_EMPTY then
      (({ ht with
          entries := ht.entries.set current_idx ⟨key, value, HT_ENTRY_OCCUPIED⟩
          item_count := usize_inc ht.item_count }, true), [current_idx], true)
    else
      let next_idx := (current_idx + 1) % ht.bucket_count
      if next_idx ≠ start_idx then
        let r := rehash_probe_log key value start_idx fuel ht next_idx
        (r.1, current_idx :: r.2.1, r.2.2)
      else ((ht, false), [current_idx], true)

/-- A probe sequence cut at the first index where `stop` holds, or when it comes back to
`start_idx`: the indices visited and whether the end was reached within the given number
of steps. -/
def probe_log (stop : Nat → Bool) (bucket_count start_idx : Nat) :
    Nat → Nat → List Nat × Bool
  | 0, _ => ([], false)
  | fuel + 1, current_idx =>
    if stop current_idx = true then ([current_idx], true)
    else
      let next_idx := (current_idx + 1) % bucket_count
      if next_idx ≠ start_idx then
        let r := probe_log stop bucket_count start_idx fuel next_idx
        (current_idx :: r.1, r.2)
      else ([current_idx], true)

/-- The test on which the loops of `ht_oa_get` and `ht_oa_find_slot` return before the
probe sequence is exhausted: the slot is Empty, or Occupied with a key equal to `key`. -/
def search_stop (ht : BaseHashTableOA) (key : Ptr) (i : Nat) : Bool :=
  decide ((entry_at ht.entries i).state = HT_ENTRY_EMPTY ∨
    ((entry_at ht.entries i).state = HT_ENTRY_OCCUPIED ∧
      ht.key_equal_fn (entry_at ht.entries i).key key = true))

/-- A table of 2 buckets without an Empty slot: the key 2 in slot 0 and a Tombstone in
slot 1. -/
def no_empty_table : BaseHashTableOA :=
  { sample_table 2 with
    entries := [⟨2, 20, HT_ENTRY_OCCUPIED⟩, ⟨0, 0, HT_ENTRY_TOMBSTONE⟩]
    item_count := 1
    tombstone_count := 1 }

/-! # Theorems -/

/-! ## The load test in `double` arithmetic -/

theorem round_half_even_ge (num den : Nat) : num / den ≤ round_half_even num den := by
  unfold round_half_even
  simp only
  split_ifs <;> omega

theorem round_half_even_le (num den : Nat) : round_half_even num den ≤ num / den + 1 := by
  unfold round_half_even
  simp only
  split_ifs <;> omega

theorem round_half_even_exact {num den : Nat} (hd : 0 < den) (h : num % den = 0) :
    round_half_even num den = num / den := by
  unfold round_half_even
  simp only
  rw [if_pos (by omega)]

theorem round_half_even_up {num den : Nat} (h : den < 2 * (num % den)) :
    round_half_even num den = num / den + 1 := by
  unfold round_half_even
  simp only
  rw [if_neg (by omega), if_pos h]

theorem leading_bit_step (x e k : Nat) (hu : x < 2 ^ (e + (k + k)))
    (hl : e = 0 ∨ 2 ^ e ≤ x) :
    x < 2 ^ ((if 2 ^ (e + k) ≤ x then e + k else e) + k) ∧
      ((if 2 ^ (e + k) ≤ x then e + k else e) = 0 ∨
        2 ^ (if 2 ^ (e + k) ≤ x then e + k else e) ≤ x) := by
  by_cases h : 2 ^ (e + k) ≤ x
  · rw [if_pos h]
    exact ⟨by rw [Nat.add_assoc]; exact hu, Or.inr h⟩
  · rw [if_neg h]
    exact ⟨by omega, hl⟩

/-- The bisection finds the leading binary digit. -/
theorem leading_bit_spec (x : Nat) (hx : x < 2 ^ 256) :
    x < 2 ^ (leading_bit x + 1) ∧ (0 < x → 2 ^ leading_bit x ≤ x) := by
  unfold leading_bit
  simp only [List.foldl]
  obtain ⟨u1, l1⟩ := leading_bit_step x 0 128 hx (Or.inl rfl)
  obtain ⟨u2, l2⟩ := leading_bit_step x _ 64 u1 l1
  obtain ⟨u3, l3⟩ := leading_bit_step x _ 32 u2 l2
  obtain ⟨u4, l4⟩ := leading_bit_step x _ 16 u3 l3
  obtain ⟨u5, l5⟩ := leading_bit_step x _ 8 u4 l4
  obtain ⟨u6, l6⟩ := leading_bit_step x _ 4 u5 l5
  obtain ⟨u7, l7⟩ := leading_bit_step x _ 2 u6 l6
  obtain ⟨u8, l8⟩ := leading_bit_step x _ 1 u7 l7
  refine ⟨u8, fun hpos => ?_⟩
  rcases l8 with h | h
  · rw [h]; exact hpos
  · exact h

theorem f64_of_usize_small {n : Nat} (h : n < 2 ^ 53) : f64_of_usize n = n := by
  unfold f64_of_usize
  rw [if_pos h]

/-- The rounded quotient against `0.7f`, for a divisor up to `2 ^ 30`: the rounding does
not change the outcome of the comparison. -/
theorem f64_div_gt_iff (n b : Nat) (hb : 0 < b) (hb30 : b ≤ 2 ^ 30) (hn : n < 2 ^ 53) :
    11744051 * 2 ^ 93 < f64_div_scaled n b ↔ 11744051 * b < n * 16777216 := by
  have e30 : (2 : Nat) ^ 30 = 1073741824 := by norm_num
  have e53 : (2 : Nat) ^ 53 = 9007199254740992 := by norm_num
  have e52 : (2 : Nat) ^ 52 = 4503599627370496 := by norm_num
  have e63 : (2 : Nat) ^ 63 = 9223372036854775808 := by norm_num
  have e64 : (2 : Nat) ^ 64 = 18446744073709551616 := by norm_num
  have e93 : (2 : Nat) ^ 93 = 9903520314283042199192993792 := by norm_num
  have e116 : (2 : Nat) ^ 116 = 83076749736557242056487941267521536 := by norm_num
  have e117 : (2 : Nat) ^ 117 = 166153499473114484112975882535043072 := by norm_num
  rw [e30] at hb30
  rw [e53] at hn
  rcases Nat.eq_zero_or_pos n with hn0 | hnpos
  · subst hn0
    have hl0 : leading_bit 0 = 0 := by decide
    unfold f64_div_scaled
    simp only [Nat.zero_mul, Nat.zero_div, hl0, Nat.zero_sub, pow_zero, Nat.mul_one]
    unfold round_half_even
    simp only [Nat.zero_div, Nat.zero_mod, Nat.mul_zero]
    rw [if_pos hb]
    omega
  unfold f64_div_scaled
  rw [e93]
  have hApos : b ≤ n * 2 ^ 117 := by rw [e117]; omega
  have hQpos : 0 < n * 2 ^ 117 / b := Nat.div_pos hApos hb
  have hQ256 : n * 2 ^ 117 / b < 2 ^ 256 := by
    apply lt_of_le_of_lt (Nat.div_le_self _ _)
    have h1 : n * 2 ^ 117 < 2 ^ 53 * 2 ^ 117 :=
      Nat.mul_lt_mul_of_pos_right (by rw [e53]; exact hn) (by positivity)
    have h2 : (2 : Nat) ^ 53 * 2 ^ 117 ≤ 2 ^ 256 := by
      rw [← pow_add]; exact Nat.pow_le_pow_right (by decide) (by decide)
    omega
  obtain ⟨hup, hlow0⟩ := leading_bit_spec _ hQ256
  have hlow := hlow0 hQpos
  have hQb : n * 2 ^ 117 / b * b ≤ n * 2 ^ 117 := Nat.div_mul_le_self _ _
  generalize hL : leading_bit (n * 2 ^ 117 / b) = L at hup hlow ⊢
  generalize hQ : n * 2 ^ 117 / b = Q at hup hlow hQb hQpos
  have hQle : ∀ t, n * 2 ^ 117 ≤ b * t → Q ≤ t := by
    intro t ht; rw [← hQ]; exact Nat.div_le_of_le_mul ht
  have hQge : ∀ t, t * b ≤ n * 2 ^ 117 → t ≤ Q := by
    intro t ht; rw [← hQ]; exact (Nat.le_div_iff_mul_le hb).mpr ht
  constructor
  · -- the rounded quotient is above the constant: so is the exact one
    intro hval
    by_contra hnot
    have hA : n * 2 ^ 117 ≤ b * 116307447650476076022474677935931392 := by
      rw [e117]; omega
    have hQT := hQle _ hA
    have hL117 : L < 117 := by
      by_contra hc
      have : (2 : Nat) ^ 117 ≤ 2 ^ L := Nat.pow_le_pow_right (by decide) (by omega)
      rw [e117] at this
      omega
    rcases Nat.lt_or_ge L 116 with hlt | hge
    · -- below one half
      have hs63 : (2 : Nat) ^ (L - 52) ≤ 2 ^ 63 := Nat.pow_le_pow_right (by decide) (by omega)
      have hQ116 : (2 : Nat) ^ (L + 1) ≤ 2 ^ 116 := Nat.pow_le_pow_right (by decide) (by omega)
      have hm := round_half_even_le (n * 2 ^ 117) (b * 2 ^ (L - 52))
      have hq : n * 2 ^ 117 / (b * 2 ^ (L - 52)) * 2 ^ (L - 52) ≤ Q := by
        apply hQge
        have := Nat.div_mul_le_self (n * 2 ^ 117) (b * 2 ^ (L - 52))
        calc n * 2 ^ 117 / (b * 2 ^ (L - 52)) * 2 ^ (L - 52) * b
            = n * 2 ^ 117 / (b * 2 ^ (L - 52)) * (b * 2 ^ (L - 52)) := by ring
          _ ≤ n * 2 ^ 117 := this
      have hval2 : round_half_even (n * 2 ^ 117) (b * 2 ^ (L - 52)) * 2 ^ (L - 52) ≤
          (n * 2 ^ 117 / (b * 2 ^ (L - 52)) + 1) * 2 ^ (L - 52) :=
        Nat.mul_le_mul_right _ hm
      rw [Nat.add_mul, Nat.one_mul] at hval2
      rw [e63] at hs63
      rw [e116] at hQ116
      omega
    · have hL116 : L = 116 := by omega
      subst hL116
      have hs : 116 - 52 = 64 := rfl
      rw [hs, e64] at hval
      have hD : 0 < b * 18446744073709551616 := by omega
      have hqM : n * 2 ^ 117 / (b * 18446744073709551616) ≤ 6305039370944512 := by
        apply Nat.div_le_of_le_mul
        rw [e117]; rw [e117] at hA; omega
      rcases Nat.lt_or_ge (n * 2 ^ 117 / (b * 18446744073709551616)) 6305039370944512
        with hq | hq
      · have hm := round_half_even_le (n * 2 ^ 117) (b * 18446744073709551616)
        omega
      · have hqe : n * 2 ^ 117 / (b * 18446744073709551616) = 6305039370944512 := by omega
        have hdm := Nat.div_add_mod (n * 2 ^ 117) (b * 18446744073709551616)
        rw [hqe] at hdm
        have hr : n * 2 ^ 117 % (b * 18446744073709551616) = 0 := by
          rw [e117] at hA hdm ⊢; omega
        rw [round_half_even_exact hD hr, hqe] at hval
        omega
  · -- the exact quotient is above the constant: so is the rounded one
    intro hgt
    have hA : 116307447650476076022474677935931392 * b + 9903520314283042199192993792 ≤
        n * 2 ^ 117 := by
      rw [e117]; omega
    have hQT := hQge 116307447650476076022474677935931392 (by omega)
    have hL116 : 116 ≤ L := by
      by_contra hc
      have : (2 : Nat) ^ (L + 1) ≤ 2 ^ 116 := Nat.pow_le_pow_right (by decide) (by omega)
      rw [e116] at this
      omega
    rcases Nat.eq_or_lt_of_le hL116 with heq | hlt
    · subst heq
      have hs : 116 - 52 = 64 := rfl
      rw [hs, e64]
      have hD : 0 < b * 18446744073709551616 := by omega
      have hqM : 6305039370944512 ≤ n * 2 ^ 117 / (b * 18446744073709551616) := by
        apply (Nat.le_div_iff_mul_le hD).mpr
        rw [e117]; rw [e117] at hA; omega
      rcases Nat.eq_or_lt_of_le hqM with hqe | hq
      · have hdm := Nat.div_add_mod (n * 2 ^ 117) (b * 18446744073709551616)
        rw [← hqe] at hdm
        have hup2 : b * 18446744073709551616 <
            2 * (n * 2 ^ 117 % (b * 18446744073709551616)) := by
          rw [e117] at hA hdm ⊢; omega
        rw [round_half_even_up hup2, ← hqe]
        omega
      · have hm := round_half_even_ge (n * 2 ^ 117) (b * 18446744073709551616)
        omega
    · have h117 : (2 : Nat) ^ 117 ≤ 2 ^ L := Nat.pow_le_pow_right (by decide) (by omega)
      have hLs : (2 : Nat) ^ 52 * 2 ^ (L - 52) = 2 ^ L := by
        have hadd : 52 + (L - 52) = L := by omega
        rw [← pow_add, hadd]
      have hq : 2 ^ 52 ≤ n * 2 ^ 117 / (b * 2 ^ (L - 52)) := by
        apply (Nat.le_div_iff_mul_le (by positivity)).mpr
        calc 2 ^ 52 * (b * 2 ^ (L - 52)) = 2 ^ 52 * 2 ^ (L - 52) * b := by ring
          _ = 2 ^ L * b := by rw [hLs]
          _ ≤ Q * b := Nat.mul_le_mul_right _ hlow
          _ ≤ n * 2 ^ 117 := hQb
      have hm := round_half_even_ge (n * 2 ^ 117) (b * 2 ^ (L - 52))
      calc 116307447650476076022474677935931392 < 2 ^ 117 := by rw [e117]; omega
        _ ≤ 2 ^ L := h117
        _ = 2 ^ 52 * 2 ^ (L - 52) := hLs.symm
        _ ≤ n * 2 ^ 117 / (b * 2 ^ (L - 52)) * 2 ^ (L - 52) := Nat.mul_le_mul_right _ hq
        _ ≤ round_half_even (n * 2 ^ 117) (b * 2 ^ (L - 52)) * 2 ^ (L - 52) :=
          Nat.mul_le_mul_right _ hm

/-- The load test on tables of at most `2 ^ 30` buckets: the rounded quotient is above
`0.7f` exactly when the exact quotient `n / b` is above `11744051 / 2 ^ 24`. -/
theorem load_exceeds_iff (n b : Nat) (hb : 0 < b) (hb30 : b ≤ 2 ^ 30) (hn : n < 2 ^ 53) :
    load_exceeds n b = true ↔ 11744051 * b < n * 16777216 := by
  have hb53 : b < 2 ^ 53 := by
    have e30 : (2 : Nat) ^ 30 = 1073741824 := by norm_num
    have e53 : (2 : Nat) ^ 53 = 9007199254740992 := by norm_num
    omega
  unfold load_exceeds
  rw [if_neg (by omega), decide_eq_true_iff, f64_of_usize_small hn, f64_of_usize_small hb53]
  exact f64_div_gt_iff n b hb hb30 hn

/-- Beyond `2 ^ 30` buckets the rounding matters: here the exact quotient is above
`11744051 / 2 ^ 24`, yet the rounded quotient equals the constant and the test fails. -/
theorem load_exceeds_rounds :
    11744051 * 1082130437 < 757491293 * 16777216 ∧
      load_exceeds 757491293 1082130437 = false := by
  decide

/-! ## Basic facts -/

theorem usize_inc_of_lt {x : Nat} (h : x + 1 < USIZE_MOD) : usize_inc x = x + 1 := by
  unfold usize_inc; exact Nat.mod_eq_of_lt h

theorem usize_dec_of_pos {x : Nat} (h0 : 0 < x) (h : x < USIZE_MOD) : usize_dec x = x - 1 := by
  unfold usize_dec
  have : x + USIZE_MOD - 1 = (x - 1) + USIZE_MOD := by omega
  rw [this, Nat.add_mod_right]
  exact Nat.mod_eq_of_lt (by omega)

theorem usize_add_of_lt {a b : Nat} (h : a + b < USIZE_MOD) : usize_add a b = a + b := by
  unfold usize_add; exact Nat.mod_eq_of_lt h

theorem usize_mul_of_lt {a b : Nat} (h : a * b < USIZE_MOD) : usize_mul a b = a * b := by
  unfold usize_mul; exact Nat.mod_eq_of_lt h

theorem entry_at_of_lt {es : List HashTableEntryOA} {i : Nat} (h : i < es.length) :
    entry_at es i = es[i] := by
  simp [entry_at, List.getD_eq_getElem?_getD, List.getElem?_eq_getElem h]

theorem entry_at_of_ge {es : List HashTableEntryOA} {i : Nat} (h : es.length ≤ i) :
    entry_at es i = EMPTY_ENTRY := by
  simp [entry_at, List.getD_eq_getElem?_getD, List.getElem?_eq_none h]

theorem entry_at_set (es : List HashTableEntryOA) (i j : Nat) (x : HashTableEntryOA) :
    entry_at (es.set i x) j = if i = j ∧ i < es.length then x else entry_at es j := by
  simp only [entry_at, List.getD_eq_getElem?_getD, List.getElem?_set]
  by_cases hij : i = j
  · subst hij
    by_cases hl : i < es.length
    · simp [hl]
    · simp [hl, List.getElem?_eq_none (Nat.le_of_not_lt hl)]
  · simp [hij]

theorem entry_at_set_self {es : List HashTableEntryOA} {i : Nat} (x : HashTableEntryOA)
    (h : i < es.length) : entry_at (es.set i x) i = x := by
  simp [entry_at_set, h]

theorem entry_at_set_ne {es : List HashTableEntryOA} {i j : Nat} (x : HashTableEntryOA)
    (h : i ≠ j) : entry_at (es.set i x) j = entry_at es j := by
  simp [entry_at_set, h]

theorem entry_at_replicate (n i : Nat) :
    entry_at (List.replicate n EMPTY_ENTRY) i = EMPTY_ENTRY := by
  simp only [entry_at, List.getD_eq_getElem?_getD, List.getElem?_replicate]
  split <;> rfl

theorem lt_length_of_state_ne_empty {es : List HashTableEntryOA} {i : Nat}
    (h : (entry_at es i).state ≠ HT_ENTRY_EMPTY) : i < es.length := by
  by_contra hc
  rw [entry_at_of_ge (Nat.le_of_not_lt hc)] at h
  exact h rfl

theorem lt_length_of_occupied {es : List HashTableEntryOA} {i : Nat}
    (h : (entry_at es i).state = HT_ENTRY_OCCUPIED) : i < es.length :=
  lt_length_of_state_ne_empty (by rw [h]; decide)

theorem Hit.lt_length {ht : BaseHashTableOA} {key : Ptr} {i : Nat} (h : Hit ht key i) :
    i < ht.entries.length := lt_length_of_occupied h.1

/-- Counting after an update of one slot. -/
theorem countP_set_entry (p : HashTableEntryOA → Bool) (es : List HashTableEntryOA) (i : Nat)
    (x : HashTableEntryOA) (h : i < es.length) :
    (es.set i x).countP p + (if p (entry_at es i) then 1 else 0) =
      es.countP p + (if p x then 1 else 0) := by
  rw [List.countP_set p es i x h, entry_at_of_lt h]
  have : (if p es[i] = true then 1 else 0) ≤ es.countP p := by
    have hm : es[i] ∈ es := List.getElem_mem h
    by_cases hp : p es[i] = true
    · simp only [hp, if_true]
      exact List.countP_pos_iff.mpr ⟨_, hm, hp⟩
    · simp [hp]
  omega

theorem countP_pos_of_entry (p : HashTableEntryOA → Bool) (es : List HashTableEntryOA) (i : Nat)
    (h : i < es.length) (hp : p (entry_at es i) = true) : 0 < es.countP p := by
  rw [entry_at_of_lt h] at hp
  exact List.countP_pos_iff.mpr ⟨_, List.getElem_mem h, hp⟩

/-- When fewer than all slots satisfy `p`, some slot does not. -/
theorem exists_not_of_countP_lt (p : HashTableEntryOA → Bool) (es : List HashTableEntryOA)
    (h : es.countP p < es.length) : ∃ i, i < es.length ∧ p (entry_at es i) = false := by
  by_contra hc
  have hall : ∀ a ∈ es, p a = true := by
    intro a ha
    obtain ⟨i, hi, rfl⟩ := List.getElem_of_mem ha
    by_contra hp
    exact hc ⟨i, hi, by rw [entry_at_of_lt hi]; simpa using hp⟩
  have := (List.countP_eq_length (p := p) (l := es)).mpr hall
  omega

/-! ## Probe sequence arithmetic -/

theorem probe_succ (b s n : Nat) : ((s + n) % b + 1) % b = (s + (n + 1)) % b := by
  rw [← Nat.add_assoc, Nat.add_mod (s + n) 1 b, Nat.add_mod ((s + n) % b) 1 b, Nat.mod_mod]

theorem probe_ne_start {b s n : Nat} (hs : s < b) (hn : n + 1 < b) :
    (s + (n + 1)) % b ≠ s := by
  intro h
  by_cases hlt : s + (n + 1) < b
  · rw [Nat.mod_eq_of_lt hlt] at h; omega
  · have h2 : s + (n + 1) = (s + (n + 1) - b) + b := by omega
    rw [h2, Nat.add_mod_right, Nat.mod_eq_of_lt (by omega)] at h
    omega

theorem probe_inj {b s n m : Nat} (hn : n < b) (hm : m < b)
    (h : (s + n) % b = (s + m) % b) : n = m := by
  have h1 : n % b = m % b := Nat.ModEq.add_left_cancel' s h
  rwa [Nat.mod_eq_of_lt hn, Nat.mod_eq_of_lt hm] at h1

theorem probe_surj {b s j : Nat} (hs : s < b) (hj : j < b) :
    ∃ n, n < b ∧ (s + n) % b = j := by
  by_cases h : s ≤ j
  · exact ⟨j - s, by omega, by rw [Nat.add_sub_cancel' h]; exact Nat.mod_eq_of_lt hj⟩
  · refine ⟨j + b - s, by omega, ?_⟩
    have : s + (j + b - s) = j + b := by omega
    rw [this, Nat.add_mod_right, Nat.mod_eq_of_lt hj]

theorem probe_lt {b s n : Nat} (hb : 0 < b) : (s + n) % b < b := Nat.mod_lt _ hb

/-! ## The probe loops -/

theorem get_loop_miss (ht : BaseHashTableOA) (key : Ptr) (s : Nat) (h : Absent ht key) :
    ∀ fuel cur, get_loop ht key s fuel cur = 0 := by
  intro fuel
  induction fuel with
  | zero => intro cur; rfl
  | succ f ih =>
    intro cur
    simp only [get_loop]
    split_ifs with h1 h2 h3
    · rfl
    · exact absurd h2 (h cur)
    · exact ih _
    · rfl

theorem get_loop_hit (ht : BaseHashTableOA) (key : Ptr) (s p0 : Nat)
    (hs : s < ht.bucket_count) (hp0 : p0 < ht.bucket_count)
    (hhit : Hit ht key ((s + p0) % ht.bucket_count)) :
    ∀ fuel n, n ≤ p0 → ht.bucket_count - n ≤ fuel →
      (∀ m, n ≤ m → m < p0 →
        (entry_at ht.entries ((s + m) % ht.bucket_count)).state ≠ HT_ENTRY_EMPTY ∧
          ¬ Hit ht key ((s + m) % ht.bucket_count)) →
      get_loop ht key s fuel ((s + n) % ht.bucket_count) =
        (entry_at ht.entries ((s + p0) % ht.bucket_count)).value := by
  intro fuel
  induction fuel with
  | zero => intro n hn hf _; omega
  | succ f ih =>
    intro n hn hf hbefore
    simp only [get_loop]
    rcases Nat.eq_or_lt_of_le hn with heq | hlt
    · subst heq
      have h1 : (entry_at ht.entries ((s + n) % ht.bucket_count)).state ≠ HT_ENTRY_EMPTY := by
        rw [hhit.1]; decide
      have hh : (entry_at ht.entries ((s + n) % ht.bucket_count)).state = HT_ENTRY_OCCUPIED ∧
          ht.key_equal_fn (entry_at ht.entries ((s + n) % ht.bucket_count)).key key = true := hhit
      rw [if_neg h1, if_pos hh]
    · obtain ⟨h1, h2⟩ := hbefore n (Nat.le_refl _) hlt
      have hh : ¬ ((entry_at ht.entries ((s + n) % ht.bucket_count)).state = HT_ENTRY_OCCUPIED ∧
          ht.key_equal_fn (entry_at ht.entries ((s + n) % ht.bucket_count)).key key = true) := h2
      rw [if_neg h1, if_neg hh, probe_succ, if_pos (probe_ne_start hs (by omega))]
      exact ih (n + 1) hlt (by omega) (fun m hm hm2 => hbefore m (by omega) hm2)

theorem find_loop_found_sound (ht : BaseHashTableOA) (key : Ptr) (s : Nat) :
    ∀ fuel cur ft, (find_slot_loop ht key s fuel cur ft).2 = true →
      ∃ i, (find_slot_loop ht key s fuel cur ft).1 = some i ∧ Hit ht key i := by
  intro fuel
  induction fuel with
  | zero => intro cur ft h; exact absurd h (by simp [find_slot_loop])
  | succ f ih =>
    intro cur ft
    simp only [find_slot_loop]
    cases hst : (entry_at ht.entries cur).state with
    | HT_ENTRY_EMPTY => intro h; exact absurd h (by simp)
    | HT_ENTRY_TOMBSTONE =>
      simp only
      generalize (if ft.isNone = true then some cur else ft) = ft2
      by_cases h1 : (cur + 1) % ht.bucket_count ≠ s
      · rw [if_pos h1]; exact ih _ _
      · rw [if_neg h1]; intro h; exact absurd h (by simp)
    | HT_ENTRY_OCCUPIED =>
      simp only
      split_ifs with h1 h2
      · intro _; exact ⟨cur, rfl, hst, h1⟩
      · exact ih _ _
      · intro h; exact absurd h (by simp)

theorem find_loop_miss (ht : BaseHashTableOA) (key : Ptr) (s : Nat) (h : Absent ht key)
    (fuel cur : Nat) (ft : Option Nat) : (find_slot_loop ht key s fuel cur ft).2 = false := by
  cases hr : (find_slot_loop ht key s fuel cur ft).2 with
  | false => rfl
  | true =>
    obtain ⟨i, _, hi⟩ := find_loop_found_sound ht key s fuel cur ft hr
    exact absurd hi (h i)

theorem find_loop_hit (ht : BaseHashTableOA) (key : Ptr) (s p0 : Nat)
    (hs : s < ht.bucket_count) (hp0 : p0 < ht.bucket_count)
    (hhit : Hit ht key ((s + p0) % ht.bucket_count)) :
    ∀ fuel n ft, n ≤ p0 → ht.bucket_count - n ≤ fuel →
      (∀ m, n ≤ m → m < p0 →
        (entry_at ht.entries ((s + m) % ht.bucket_count)).state ≠ HT_ENTRY_EMPTY ∧
          ¬ Hit ht key ((s + m) % ht.bucket_count)) →
      find_slot_loop ht key s fuel ((s + n) % ht.bucket_count) ft =
        (some ((s + p0) % ht.bucket_count), true) := by
  intro fuel
  induction fuel with
  | zero => intro n ft hn hf _; omega
  | succ f ih =>
    intro n ft hn hf hbefore
    simp only [find_slot_loop]
    rcases Nat.eq_or_lt_of_le hn with heq | hlt
    · subst heq
      split
      · rename_i hst; rw [hhit.1] at hst; exact absurd hst (by decide)
      · rename_i hst; rw [hhit.1] at hst; exact absurd hst (by decide)
      · rw [if_pos hhit.2]
    · obtain ⟨h1, h2⟩ := hbefore n (Nat.le_refl _) hlt
      have hne := probe_ne_start hs (show n + 1 < ht.bucket_count by omega)
      split
      · rename_i hst; exact absurd hst h1
      · rw [probe_succ, if_pos hne]
        exact ih (n + 1) _ hlt (by omega) (fun m hm hm2 => hbefore m (by omega) hm2)
      · rename_i hst
        have : ht.key_equal_fn (entry_at ht.entries ((s + n) % ht.bucket_count)).key key ≠ true :=
          fun hc => h2 ⟨hst, hc⟩
        rw [if_neg this, probe_succ, if_pos hne]
        exact ih (n + 1) _ hlt (by omega) (fun m hm hm2 => hbefore m (by omega) hm2)

/-- The slot `ht_oa_find_slot` proposes for a key that is not stored. -/
theorem find_loop_absent_slot (ht : BaseHashTableOA) (key : Ptr) (s : Nat)
    (hs : s < ht.bucket_count) (habs : Absent ht key) :
    ∀ fuel n ft, n < ht.bucket_count → ht.bucket_count - n ≤ fuel →
      (∀ m, m < n → (entry_at ht.entries ((s + m) % ht.bucket_count)).state ≠ HT_ENTRY_EMPTY) →
      (ft = none → ∀ m, m < n →
        (entry_at ht.entries ((s + m) % ht.bucket_count)).state = HT_ENTRY_OCCUPIED) →
      (∀ t, ft = some t → ∃ p, p < n ∧ t = (s + p) % ht.bucket_count ∧
        (entry_at ht.entries t).state = HT_ENTRY_TOMBSTONE) →
      (∀ i, (find_slot_loop ht key s fuel ((s + n) % ht.bucket_count) ft).1 = some i →
        ∃ p, p < ht.bucket_count ∧ i = (s + p) % ht.bucket_count ∧
          (entry_at ht.entries i).state ≠ HT_ENTRY_OCCUPIED ∧
          ∀ m, m < p → (entry_at ht.entries ((s + m) % ht.bucket_count)).state ≠ HT_ENTRY_EMPTY) ∧
      ((find_slot_loop ht key s fuel ((s + n) % ht.bucket_count) ft).1 = none →
        ∀ m, m < ht.bucket_count →
          (entry_at ht.entries ((s + m) % ht.bucket_count)).state = HT_ENTRY_OCCUPIED) := by
  intro fuel
  induction fuel with
  | zero => intro n ft hn hf; omega
  | succ f ih =>
    intro n ft hn hf hne hnone hsome
    simp only [find_slot_loop]
    split
    · -- Empty slot
      rename_i hst
      refine ⟨?_, by simp⟩
      intro i hi
      cases ft with
      | none =>
        simp at hi
        subst hi
        exact ⟨n, hn, rfl, by rw [hst]; decide, hne⟩
      | some t =>
        simp at hi
        subst hi
        obtain ⟨p, hp, ht1, ht2⟩ := hsome _ rfl
        exact ⟨p, by omega, ht1, by rw [ht2]; decide, fun m hm => hne m (by omega)⟩
    · -- Tombstone
      rename_i hst
      have hne2 : ∀ m, m < n + 1 →
          (entry_at ht.entries ((s + m) % ht.bucket_count)).state ≠ HT_ENTRY_EMPTY := by
        intro m hm
        rcases Nat.eq_or_lt_of_le (Nat.le_of_lt_succ hm) with heq | hlt
        · subst heq; rw [hst]; decide
        · exact hne m hlt
      have hsome2 : ∀ t, (if ft.isNone = true then some ((s + n) % ht.bucket_count) else ft) = some t →
          ∃ p, p < n + 1 ∧ t = (s + p) % ht.bucket_count ∧
            (entry_at ht.entries t).state = HT_ENTRY_TOMBSTONE := by
        intro t htt
        cases ft with
        | none => simp at htt; subst htt; exact ⟨n, by omega, rfl, hst⟩
        | some t0 =>
          simp at htt; subst htt
          obtain ⟨p, hp, h1, h2⟩ := hsome _ rfl
          exact ⟨p, by omega, h1, h2⟩
      have hnone2 : (if ft.isNone = true then some ((s + n) % ht.bucket_count) else ft) = none →
          ∀ m, m < n + 1 →
            (entry_at ht.entries ((s + m) % ht.bucket_count)).state = HT_ENTRY_OCCUPIED := by
        intro hc
        cases ft <;> simp at hc
      rw [probe_succ]
      by_cases hlast : n + 1 < ht.bucket_count
      · rw [if_pos (probe_ne_start hs hlast)]
        exact ih (n + 1) _ hlast (by omega) hne2 hnone2 hsome2
      · have hnb : n + 1 = ht.bucket_count := by omega
        have hstart : (s + (n + 1)) % ht.bucket_count = s := by
          rw [hnb, Nat.add_mod_right, Nat.mod_eq_of_lt hs]
        rw [if_neg (by simpa using hstart)]
        refine ⟨?_, ?_⟩
        · intro i hi
          obtain ⟨p, hp, h1, h2⟩ := hsome2 i hi
          exact ⟨p, by omega, h1, by rw [h2]; decide, fun m hm => hne2 m (by omega)⟩
        · intro hc m hm
          exact hnone2 hc m (by omega)
    · -- Occupied slot
      rename_i hst
      have hneq : ht.key_equal_fn (entry_at ht.entries ((s + n) % ht.bucket_count)).key key ≠ true :=
        fun hc => habs _ ⟨hst, hc⟩
      rw [if_neg hneq]
      have hne2 : ∀ m, m < n + 1 →
          (entry_at ht.entries ((s + m) % ht.bucket_count)).state ≠ HT_ENTRY_EMPTY := by
        intro m hm
        rcases Nat.eq_or_lt_of_le (Nat.le_of_lt_succ hm) with heq | hlt
        · subst heq; rw [hst]; decide
        · exact hne m hlt
      have hnone2 : ft = none → ∀ m, m < n + 1 →
            (entry_at ht.entries ((s + m) % ht.bucket_count)).state = HT_ENTRY_OCCUPIED := by
        intro hc m hm
        rcases Nat.eq_or_lt_of_le (Nat.le_of_lt_succ hm) with heq | hlt
        · subst heq; exact hst
        · exact hnone hc m hlt
      have hsome2 : ∀ t, ft = some t → ∃ p, p < n + 1 ∧ t = (s + p) % ht.bucket_count ∧
            (entry_at ht.entries t).state = HT_ENTRY_TOMBSTONE := by
        intro t htt
        obtain ⟨p, hp, h1, h2⟩ := hsome t htt
        exact ⟨p, by omega, h1, h2⟩
      rw [probe_succ]
      by_cases hlast : n + 1 < ht.bucket_count
      · rw [if_pos (probe_ne_start hs hlast)]
        exact ih (n + 1) _ hlast (by omega) hne2 hnone2 hsome2
      · have hnb : n + 1 = ht.bucket_count := by omega
        have hstart : (s + (n + 1)) % ht.bucket_count = s := by
          rw [hnb, Nat.add_mod_right, Nat.mod_eq_of_lt hs]
        rw [if_neg (by simpa using hstart)]
        refine ⟨?_, ?_⟩
        · intro i hi
          obtain ⟨p, hp, h1, h2⟩ := hsome2 i hi
          exact ⟨p, by omega, h1, by rw [h2]; decide, fun m hm => hne2 m (by omega)⟩
        · intro hc m hm
          exact hnone2 hc m (by omega)

/-! ## Lookup in a well-formed table -/

theorem start_index_lt (ht : BaseHashTableOA) (key : Ptr) (hb : 0 < ht.bucket_count) :
    start_index ht key < ht.bucket_count := Nat.mod_lt _ hb

theorem start_index_congr {ht : BaseHashTableOA} (hl : LawfulKeys ht) {a b : Ptr}
    (h : ht.key_equal_fn a b = true) : start_index ht a = start_index ht b := by
  unfold start_index; rw [hl.hash_eq a b h]

theorem absent_or_hit (ht : BaseHashTableOA) (key : Ptr) :
    Absent ht key ∨ ∃ i, Hit ht key i := by
  by_cases h : ∃ i, Hit ht key i
  · exact Or.inr h
  · exact Or.inl (fun i hi => h ⟨i, hi⟩)

theorem bucket_pos_of_hit {ht : BaseHashTableOA} (hc : CountInv ht) {key : Ptr} {j : Nat}
    (hj : Hit ht key j) : 0 < ht.bucket_count := by
  have := hj.lt_length; rw [hc.len] at this; omega

theorem item_pos_of_hit {ht : BaseHashTableOA} (hc : CountInv ht) {key : Ptr} {j : Nat}
    (hj : Hit ht key j) : 0 < ht.item_count := by
  rw [hc.items]
  exact countP_pos_of_entry is_occupied ht.entries j hj.lt_length (by simp [is_occupied, hj.1])

/-- The place of a stored key on its probe sequence. -/
theorem stored_position {ht : BaseHashTableOA} (hw : WF ht) (hl : LawfulKeys ht) {key : Ptr}
    {j : Nat} (hj : Hit ht key j) :
    ∃ p0, p0 < ht.bucket_count ∧ (start_index ht key + p0) % ht.bucket_count = j ∧
      ∀ m, 0 ≤ m → m < p0 →
        (entry_at ht.entries ((start_index ht key + m) % ht.bucket_count)).state ≠ HT_ENTRY_EMPTY ∧
          ¬ Hit ht key ((start_index ht key + m) % ht.bucket_count) := by
  have hb := bucket_pos_of_hit hw.counts hj
  have hjlt : j < ht.bucket_count := by have := hj.lt_length; rwa [hw.counts.len] at this
  have hs := start_index_lt ht key hb
  obtain ⟨p0, hp0, hp0j⟩ := probe_surj hs hjlt
  have hse : start_index ht (entry_at ht.entries j).key = start_index ht key :=
    start_index_congr hl hj.2
  refine ⟨p0, hp0, hp0j, ?_⟩
  intro m _ hm
  constructor
  · have := hw.reach j p0 hj.1 hp0 (by rw [hse]; exact hp0j) m hm
    rwa [hse] at this
  · intro hhit
    have heq : ht.key_equal_fn (entry_at ht.entries ((start_index ht key + m) % ht.bucket_count)).key
        (entry_at ht.entries j).key = true :=
      hl.trans _ _ _ hhit.2 (hl.symm _ _ hj.2)
    have hij := hw.unique _ _ hhit.1 hj.1 heq
    rw [← hp0j] at hij
    have := probe_inj (by omega) hp0 hij
    omega

theorem get_of_hit {ht : BaseHashTableOA} (hw : WF ht) (hl : LawfulKeys ht) {key : Ptr}
    {j : Nat} (hj : Hit ht key j) : ht_oa_get ht key = (entry_at ht.entries j).value := by
  have hb := bucket_pos_of_hit hw.counts hj
  have hi := item_pos_of_hit hw.counts hj
  obtain ⟨p0, hp0, hp0j, hbefore⟩ := stored_position hw hl hj
  unfold ht_oa_get
  rw [if_neg (by omega)]
  have h := get_loop_hit ht key (start_index ht key) p0 (start_index_lt ht key hb) hp0
    (by rw [hp0j]; exact hj) ht.bucket_count 0 (Nat.zero_le _) (by omega) hbefore
  rw [Nat.add_zero, Nat.mod_eq_of_lt (start_index_lt ht key hb), hp0j] at h
  exact h

theorem get_of_absent {ht : BaseHashTableOA} {key : Ptr} (h : Absent ht key) :
    ht_oa_get ht key = 0 := by
  unfold ht_oa_get
  split_ifs
  · rfl
  · exact get_loop_miss ht key _ h _ _

theorem find_slot_of_hit {ht : BaseHashTableOA} (hw : WF ht) (hl : LawfulKeys ht) {key : Ptr}
    {j : Nat} (hj : Hit ht key j) : ht_oa_find_slot ht key = (some j, true) := by
  have hb := bucket_pos_of_hit hw.counts hj
  obtain ⟨p0, hp0, hp0j, hbefore⟩ := stored_position hw hl hj
  unfold ht_oa_find_slot
  rw [if_neg (by omega)]
  have h := find_loop_hit ht key (start_index ht key) p0 (start_index_lt ht key hb) hp0
    (by rw [hp0j]; exact hj) ht.bucket_count 0 none (Nat.zero_le _) (by omega) hbefore
  rw [Nat.add_zero, Nat.mod_eq_of_lt (start_index_lt ht key hb), hp0j] at h
  exact h

theorem find_slot_found {ht : BaseHashTableOA} {key : Ptr}
    (h : (ht_oa_find_slot ht key).2 = true) :
    ∃ i, (ht_oa_find_slot ht key).1 = some i ∧ Hit ht key i := by
  unfold ht_oa_find_slot at h ⊢
  by_cases hb : ht.bucket_count = 0
  · rw [if_pos hb] at h; exact absurd h (by simp)
  · rw [if_neg hb] at h ⊢
    exact find_loop_found_sound ht key _ _ _ _ h

theorem find_slot_of_absent {ht : BaseHashTableOA} {key : Ptr} (h : Absent ht key) :
    (ht_oa_find_slot ht key).2 = false := by
  cases hr : (ht_oa_find_slot ht key).2 with
  | false => rfl
  | true =>
    obtain ⟨i, _, hi⟩ := find_slot_found hr
    exact absurd hi (h i)

theorem absent_of_not_found {ht : BaseHashTableOA} (hw : WF ht) (hl : LawfulKeys ht)
    {key : Ptr} (h : (ht_oa_find_slot ht key).2 = false) : Absent ht key := by
  intro i hi
  rw [find_slot_of_hit hw hl hi] at h
  simp at h

/-- The slot proposed for a key that is not stored: it is not Occupied and no Empty slot
precedes it on the probe sequence; and no slot is proposed only when every slot is
Occupied. -/
theorem find_slot_absent_spec {ht : BaseHashTableOA} {key : Ptr} (habs : Absent ht key) :
    (∀ i, (ht_oa_find_slot ht key).1 = some i →
      i < ht.bucket_count ∧ (entry_at ht.entries i).state ≠ HT_ENTRY_OCCUPIED ∧
      ∀ n, n < ht.bucket_count → (start_index ht key + n) % ht.bucket_count = i →
        ∀ m, m < n →
          (entry_at ht.entries ((start_index ht key + m) % ht.bucket_count)).state
            ≠ HT_ENTRY_EMPTY) ∧
    ((ht_oa_find_slot ht key).1 = none →
      ∀ i, i < ht.bucket_count → (entry_at ht.entries i).state = HT_ENTRY_OCCUPIED) := by
  unfold ht_oa_find_slot
  by_cases hb : ht.bucket_count = 0
  · rw [if_pos hb]
    exact ⟨by simp, fun _ i hi => by omega⟩
  · rw [if_neg hb]
    have hbpos : 0 < ht.bucket_count := Nat.pos_of_ne_zero hb
    have hs := start_index_lt ht key hbpos
    have h := find_loop_absent_slot ht key (start_index ht key) hs habs ht.bucket_count 0 none
      hbpos (by omega) (fun m hm => by omega) (fun _ m hm => by omega) (fun t ht0 => by simp at ht0)
    rw [Nat.add_zero, Nat.mod_eq_of_lt hs] at h
    obtain ⟨h1, h2⟩ := h
    refine ⟨?_, ?_⟩
    · intro i hi
      obtain ⟨p, hp, hip, hocc, hbefore⟩ := h1 i hi
      refine ⟨by rw [hip]; exact Nat.mod_lt _ hbpos, hocc, ?_⟩
      intro n hn hni m hm
      have : n = p := probe_inj hn hp (by rw [hni, hip])
      subst this
      exact hbefore m hm
    · intro hnone i hi
      obtain ⟨n, hn, hni⟩ := probe_surj hs hi
      rw [← hni]
      exact h2 hnone n hn

/-! ## Updating one slot -/

theorem start_index_eq {ht ht2 : BaseHashTableOA} (hh : ht2.hash_fn = ht.hash_fn)
    (hb : ht2.bucket_count = ht.bucket_count) (key : Ptr) :
    start_index ht2 key = start_index ht key := by
  unfold start_index; rw [hh, hb]

theorem state_ne_empty_set {es : List HashTableEntryOA} {i idx : Nat} {x : HashTableEntryOA}
    (h : (entry_at es idx).state ≠ HT_ENTRY_EMPTY) (hx : x.state ≠ HT_ENTRY_EMPTY) :
    (entry_at (es.set i x) idx).state ≠ HT_ENTRY_EMPTY := by
  rw [entry_at_set]
  split_ifs
  · exact hx
  · exact h

theorem count_le_bucket {ht : BaseHashTableOA} (hc : CountInv ht) :
    ht.item_count ≤ ht.bucket_count ∧ ht.tombstone_count ≤ ht.bucket_count := by
  rw [hc.items, hc.tombs, ← hc.len]
  exact ⟨List.countP_le_length _, List.countP_le_length _⟩

theorem bucket_lt_usize {ht : BaseHashTableOA} (hc : CountInv ht) :
    ht.bucket_count * 24 < 18446744073709551616 := hc.fits

theorem occ_count_set (es : List HashTableEntryOA) (i : Nat) (x : HashTableEntryOA)
    (h : i < es.length) :
    (es.set i x).countP is_occupied +
        (if (entry_at es i).state = HT_ENTRY_OCCUPIED then 1 else 0) =
      es.countP is_occupied + (if x.state = HT_ENTRY_OCCUPIED then 1 else 0) := by
  have := countP_set_entry is_occupied es i x h
  simpa [is_occupied] using this

theorem tomb_count_set (es : List HashTableEntryOA) (i : Nat) (x : HashTableEntryOA)
    (h : i < es.length) :
    (es.set i x).countP is_tombstone +
        (if (entry_at es i).state = HT_ENTRY_TOMBSTONE then 1 else 0) =
      es.countP is_tombstone + (if x.state = HT_ENTRY_TOMBSTONE then 1 else 0) := by
  have := countP_set_entry is_tombstone es i x h
  simpa [is_tombstone] using this

/-- The count invariant after an Empty or Tombstone slot becomes Occupied. -/
theorem countInv_place {ht ht2 : BaseHashTableOA} (hc : CountInv ht) {i : Nat} {k v : Ptr}
    (hi : i < ht.bucket_count)
    (hocc : (entry_at ht.entries i).state ≠ HT_ENTRY_OCCUPIED)
    (he : ht2.entries = ht.entries.set i ⟨k, v, HT_ENTRY_OCCUPIED⟩)
    (hb : ht2.bucket_count = ht.bucket_count)
    (hic : ht2.item_count = usize_inc ht.item_count)
    (htc : ht2.tombstone_count =
      if (entry_at ht.entries i).state = HT_ENTRY_TOMBSTONE then usize_dec ht.tombstone_count
      else ht.tombstone_count) : CountInv ht2 ∧ ht2.item_count = ht.item_count + 1 := by
  have hlen : i < ht.entries.length := by rw [hc.len]; exact hi
  have hle := count_le_bucket hc
  have hfit := bucket_lt_usize hc
  have h1 := occ_count_set ht.entries i ⟨k, v, HT_ENTRY_OCCUPIED⟩ hlen
  have h2 := tomb_count_set ht.entries i ⟨k, v, HT_ENTRY_OCCUPIED⟩ hlen
  have hitems := hc.items
  have htombs := hc.tombs
  unfold occupied_slots at hitems
  unfold tombstone_slots at htombs
  have hinc : usize_inc ht.item_count = ht.item_count + 1 :=
    usize_inc_of_lt (by unfold USIZE_MOD; omega)
  refine ⟨⟨by rw [he, List.length_set, hb]; exact hc.len, by rw [hb]; exact hc.fits, ?_, ?_⟩,
    by rw [hic, hinc]⟩
  · rw [hic, hinc]
    unfold occupied_slots
    rw [he]
    simp only [hocc, if_false, if_true] at h1
    omega
  · rw [htc]
    unfold tombstone_slots
    rw [he]
    by_cases hst : (entry_at ht.entries i).state = HT_ENTRY_TOMBSTONE
    · simp only [hst, if_true, reduceCtorEq, if_false] at h2 ⊢
      rw [usize_dec_of_pos (by omega) (by unfold USIZE_MOD; omega)]
      omega
    · simp only [hst, if_true, reduceCtorEq, if_false] at h2 ⊢
      omega

/-- The count invariant after an Occupied slot becomes a Tombstone. -/
theorem countInv_remove {ht ht2 : BaseHashTableOA} (hc : CountInv ht) {i : Nat}
    (hocc : (entry_at ht.entries i).state = HT_ENTRY_OCCUPIED)
    (he : ht2.entries = ht.entries.set i ⟨0, 0, HT_ENTRY_TOMBSTONE⟩)
    (hb : ht2.bucket_count = ht.bucket_count)
    (hic : ht2.item_count = usize_dec ht.item_count)
    (htc : ht2.tombstone_count = usize_inc ht.tombstone_count) :
    CountInv ht2 ∧ ht2.item_count + 1 = ht.item_count ∧
      ht2.tombstone_count = ht.tombstone_count + 1 := by
  have hlen : i < ht.entries.length := lt_length_of_occupied hocc
  have hle := count_le_bucket hc
  have hfit := bucket_lt_usize hc
  have h1 := occ_count_set ht.entries i ⟨0, 0, HT_ENTRY_TOMBSTONE⟩ hlen
  have h2 := tomb_count_set ht.entries i ⟨0, 0, HT_ENTRY_TOMBSTONE⟩ hlen
  have hitems := hc.items
  have htombs := hc.tombs
  unfold occupied_slots at hitems
  unfold tombstone_slots at htombs
  simp only [hocc, if_true, reduceCtorEq, if_false] at h1 h2
  have hlen2 := hc.len
  have hdec : usize_dec ht.item_count = ht.item_count - 1 :=
    usize_dec_of_pos (by omega) (by unfold USIZE_MOD; omega)
  have hinc : usize_inc ht.tombstone_count = ht.tombstone_count + 1 := by
    apply usize_inc_of_lt
    have : List.countP is_tombstone ht.entries + 1 ≤ ht.entries.length := by
      have := List.countP_le_length is_tombstone (l := ht.entries.set i ⟨0, 0, HT_ENTRY_TOMBSTONE⟩)
      rw [List.length_set] at this
      omega
    unfold USIZE_MOD; omega
  refine ⟨⟨by rw [he, List.length_set, hb]; exact hc.len, by rw [hb]; exact hc.fits, ?_, ?_⟩,
    by rw [hic, hdec]; omega, by rw [htc, hinc]⟩
  · rw [hic, hdec]
    unfold occupied_slots
    rw [he]
    omega
  · rw [htc, hinc]
    unfold tombstone_slots
    rw [he]
    omega

/-- The count invariant after the value of a slot is replaced. -/
theorem countInv_update {ht ht2 : BaseHashTableOA} (hc : CountInv ht) {i : Nat}
    {x : HashTableEntryOA} (hx : x.state = (entry_at ht.entries i).state)
    (he : ht2.entries = ht.entries.set i x)
    (hb : ht2.bucket_count = ht.bucket_count)
    (hic : ht2.item_count = ht.item_count)
    (htc : ht2.tombstone_count = ht.tombstone_count) : CountInv ht2 := by
  by_cases hlen : i < ht.entries.length
  · have h1 := occ_count_set ht.entries i x hlen
    have h2 := tomb_count_set ht.entries i x hlen
    rw [hx] at h1 h2
    refine ⟨by rw [he, List.length_set, hb]; exact hc.len, by rw [hb]; exact hc.fits, ?_, ?_⟩
    · rw [hic, hc.items]; unfold occupied_slots; rw [he]
      omega
    · rw [htc, hc.tombs]; unfold tombstone_slots; rw [he]
      omega
  · have hset : ht.entries.set i x = ht.entries :=
      List.set_eq_of_length_le (Nat.le_of_not_lt hlen)
    rw [hset] at he
    exact ⟨by rw [he, hb]; exact hc.len, by rw [hb]; exact hc.fits,
      by rw [hic, hc.items]; unfold occupied_slots; rw [he],
      by rw [htc, hc.tombs]; unfold tombstone_slots; rw [he]⟩

theorem lawful_of_eq {ht ht2 : BaseHashTableOA} (hl : LawfulKeys ht)
    (hh : ht2.hash_fn = ht.hash_fn) (hk : ht2.key_equal_fn = ht.key_equal_fn) :
    LawfulKeys ht2 := by
  constructor
  · rw [hk]; exact hl.refl
  · rw [hk]; exact hl.symm
  · rw [hk]; exact hl.trans
  · rw [hk, hh]; exact hl.hash_eq

/-- Well-formedness after a key that is not stored is placed in the slot found for it. -/
theorem wf_place {ht ht2 : BaseHashTableOA} (hw : WF ht) (hl : LawfulKeys ht) {i : Nat}
    {k v : Ptr} (habs : Absent ht k) (hi : i < ht.bucket_count)
    (hocc : (entry_at ht.entries i).state ≠ HT_ENTRY_OCCUPIED)
    (hpre : ∀ n, n < ht.bucket_count → (start_index ht k + n) % ht.bucket_count = i →
      ∀ m, m < n →
        (entry_at ht.entries ((start_index ht k + m) % ht.bucket_count)).state ≠ HT_ENTRY_EMPTY)
    (he : ht2.entries = ht.entries.set i ⟨k, v, HT_ENTRY_OCCUPIED⟩)
    (hb : ht2.bucket_count = ht.bucket_count)
    (hh : ht2.hash_fn = ht.hash_fn) (hk : ht2.key_equal_fn = ht.key_equal_fn)
    (hic : ht2.item_count = usize_inc ht.item_count)
    (htc : ht2.tombstone_count =
      if (entry_at ht.entries i).state = HT_ENTRY_TOMBSTONE then usize_dec ht.tombstone_count
      else ht.tombstone_count) : WF ht2 := by
  have hlen : i < ht.entries.length := by rw [hw.counts.len]; exact hi
  have hat : ∀ j, entry_at ht2.entries j =
      if i = j then ⟨k, v, HT_ENTRY_OCCUPIED⟩ else entry_at ht.entries j := by
    intro j; rw [he, entry_at_set]; simp [hlen]
  refine ⟨(countInv_place hw.counts hi hocc he hb hic htc).1, ?_, ?_⟩
  · intro a c ha hc hac
    rw [hat] at ha hc
    rw [hat a, hat c, hk] at hac
    rcases eq_or_ne i a with h1 | h1 <;> rcases eq_or_ne i c with h2 | h2
    · omega
    · rw [if_pos h1, if_neg h2] at hac
      rw [if_neg h2] at hc
      exact absurd ⟨hc, hl.symm _ _ hac⟩ (habs c)
    · rw [if_neg h1, if_pos h2] at hac
      rw [if_neg h1] at ha
      exact absurd ⟨ha, hac⟩ (habs a)
    · rw [if_neg h1, if_neg h2] at hac
      rw [if_neg h1] at ha
      rw [if_neg h2] at hc
      exact hw.unique a c ha hc hac
  · intro j n hj hn hjn m hm
    rw [hat] at hj
    rw [hat j] at hjn ⊢
    rw [start_index_eq hh hb, hb] at hjn ⊢
    rw [hb] at hn
    rw [hat]
    rcases eq_or_ne i j with h1 | h1
    · rw [if_pos h1] at hjn ⊢
      split_ifs
      · simp
      · exact hpre n hn (by rw [h1]; exact hjn) m hm
    · rw [if_neg h1] at hjn hj ⊢
      split_ifs
      · simp
      · exact hw.reach j n hj hn hjn m hm

theorem hit_place_self {ht ht2 : BaseHashTableOA} (hl : LawfulKeys ht) {i : Nat} {k v : Ptr}
    (hi : i < ht.entries.length)
    (he : ht2.entries = ht.entries.set i ⟨k, v, HT_ENTRY_OCCUPIED⟩)
    (hk : ht2.key_equal_fn = ht.key_equal_fn) :
    Hit ht2 k i ∧ (entry_at ht2.entries i).value = v := by
  unfold Hit
  rw [he, entry_at_set_self _ hi, hk]
  exact ⟨⟨rfl, hl.refl k⟩, rfl⟩

theorem hit_set_ne {ht ht2 : BaseHashTableOA} {i j : Nat} {x : HashTableEntryOA} (key : Ptr)
    (he : ht2.entries = ht.entries.set i x) (hk : ht2.key_equal_fn = ht.key_equal_fn)
    (hij : i ≠ j) : (Hit ht2 key j ↔ Hit ht key j) ∧
      (entry_at ht2.entries j).value = (entry_at ht.entries j).value := by
  unfold Hit
  rw [he, entry_at_set_ne _ hij, hk]
  exact ⟨Iff.rfl, rfl⟩

/-- Lookup of a key is decided by what is stored for it. -/
theorem get_eq_of_same {ht ht2 : BaseHashTableOA} (hw : WF ht) (hw2 : WF ht2)
    (hl : LawfulKeys ht) (hl2 : LawfulKeys ht2) {key : Ptr}
    (h1 : ∀ j, Hit ht key j → ∃ j2, Hit ht2 key j2 ∧
      (entry_at ht2.entries j2).value = (entry_at ht.entries j).value)
    (h2 : Absent ht key → Absent ht2 key) : ht_oa_get ht2 key = ht_oa_get ht key := by
  rcases absent_or_hit ht key with habs | ⟨j, hj⟩
  · rw [get_of_absent habs, get_of_absent (h2 habs)]
  · obtain ⟨j2, hj2, hv⟩ := h1 j hj
    rw [get_of_hit hw hl hj, get_of_hit hw2 hl2 hj2, hv]

/-- Placing a key: it is then found with its value, and every other key is looked up as
before. -/
theorem get_place {ht ht2 : BaseHashTableOA} (hw : WF ht) (hw2 : WF ht2) (hl : LawfulKeys ht)
    {i : Nat} {k v : Ptr} (hi : i < ht.bucket_count)
    (hocc : (entry_at ht.entries i).state ≠ HT_ENTRY_OCCUPIED)
    (he : ht2.entries = ht.entries.set i ⟨k, v, HT_ENTRY_OCCUPIED⟩)
    (hh : ht2.hash_fn = ht.hash_fn) (hk : ht2.key_equal_fn = ht.key_equal_fn) :
    ht_oa_get ht2 k = v ∧
      ∀ key, ht.key_equal_fn k key = false → ht_oa_get ht2 key = ht_oa_get ht key := by
  have hlen : i < ht.entries.length := by rw [hw.counts.len]; exact hi
  have hl2 := lawful_of_eq hl hh hk
  obtain ⟨hhit, hval⟩ := hit_place_self (v := v) hl hlen he hk
  refine ⟨by rw [get_of_hit hw2 hl2 hhit, hval], ?_⟩
  intro key hne
  apply get_eq_of_same hw hw2 hl hl2
  · intro j hj
    have hij : i ≠ j := by rintro rfl; exact hocc hj.1
    obtain ⟨h1, h2⟩ := hit_set_ne key he hk hij
    exact ⟨j, h1.mpr hj, h2⟩
  · intro habs j hj
    by_cases hij : i = j
    · subst hij
      unfold Hit at hj
      rw [he, entry_at_set_self _ hlen, hk] at hj
      simp only at hj
      rw [hne] at hj
      exact absurd hj.2 (by decide)
    · exact habs j ((hit_set_ne key he hk hij).1.mp hj)

/-- Well-formedness when no slot changes its state or key. -/
theorem wf_of_same_keys {ht ht2 : BaseHashTableOA} (hw : WF ht) (hc : CountInv ht2)
    (hb : ht2.bucket_count = ht.bucket_count)
    (hh : ht2.hash_fn = ht.hash_fn) (hk : ht2.key_equal_fn = ht.key_equal_fn)
    (hst : ∀ j, (entry_at ht2.entries j).state = (entry_at ht.entries j).state)
    (hkey : ∀ j, (entry_at ht2.entries j).key = (entry_at ht.entries j).key) : WF ht2 := by
  refine ⟨hc, ?_, ?_⟩
  · intro a c ha hc2 hac
    rw [hst] at ha hc2
    rw [hkey, hkey, hk] at hac
    exact hw.unique a c ha hc2 hac
  · intro j n hj hn hjn m hm
    rw [hst] at hj ⊢
    rw [hkey, start_index_eq hh hb, hb] at hjn ⊢
    rw [hb] at hn
    exact hw.reach j n hj hn hjn m hm

/-- Well-formedness after the value stored for a key is replaced. -/
theorem wf_update {ht ht2 : BaseHashTableOA} (hw : WF ht) {i : Nat} {x : HashTableEntryOA}
    (hxs : x.state = (entry_at ht.entries i).state) (hxk : x.key = (entry_at ht.entries i).key)
    (he : ht2.entries = ht.entries.set i x)
    (hb : ht2.bucket_count = ht.bucket_count)
    (hh : ht2.hash_fn = ht.hash_fn) (hk : ht2.key_equal_fn = ht.key_equal_fn)
    (hic : ht2.item_count = ht.item_count)
    (htc : ht2.tombstone_count = ht.tombstone_count) : WF ht2 := by
  apply wf_of_same_keys hw (countInv_update hw.counts hxs he hb hic htc) hb hh hk
  · intro j; rw [he, entry_at_set]; split_ifs with h
    · rw [hxs, h.1]
    · rfl
  · intro j; rw [he, entry_at_set]; split_ifs with h
    · rw [hxk, h.1]
    · rfl

/-- Replacing the value of a stored key: the key is then found with the new value and
every other key is looked up as before. -/
theorem get_update {ht ht2 : BaseHashTableOA} (hw : WF ht) (hw2 : WF ht2) (hl : LawfulKeys ht)
    {i : Nat} {k v : Ptr} {x : HashTableEntryOA} (hhit : Hit ht k i)
    (hxs : x.state = (entry_at ht.entries i).state) (hxk : x.key = (entry_at ht.entries i).key)
    (hxv : x.value = v)
    (he : ht2.entries = ht.entries.set i x)
    (hh : ht2.hash_fn = ht.hash_fn) (hk : ht2.key_equal_fn = ht.key_equal_fn) :
    ht_oa_get ht2 k = v ∧
      ∀ key, ht.key_equal_fn k key = false → ht_oa_get ht2 key = ht_oa_get ht key := by
  have hlen := hhit.lt_length
  have hl2 := lawful_of_eq hl hh hk
  have hhit2 : Hit ht2 k i := by
    unfold Hit; rw [he, entry_at_set_self _ hlen, hk, hxs, hxk]; exact hhit
  have hval : (entry_at ht2.entries i).value = v := by
    rw [he, entry_at_set_self _ hlen, hxv]
  refine ⟨by rw [get_of_hit hw2 hl2 hhit2, hval], ?_⟩
  intro key hne
  have hij : ∀ j, Hit ht key j → i ≠ j := by
    rintro j hj rfl
    have := hl.trans _ _ _ (hl.symm _ _ hhit.2) hj.2
    rw [hne] at this
    exact absurd this (by decide)
  apply get_eq_of_same hw hw2 hl hl2
  · intro j hj
    obtain ⟨h1, h2⟩ := hit_set_ne key he hk (hij j hj)
    exact ⟨j, h1.mpr hj, h2⟩
  · intro habs j hj
    by_cases h : i = j
    · subst h
      unfold Hit at hj
      rw [he, entry_at_set_self _ hlen, hk, hxs, hxk] at hj
      exact habs i hj
    · exact habs j ((hit_set_ne key he hk h).1.mp hj)

/-- Well-formedness after a stored key is removed. -/
theorem wf_remove {ht ht2 : BaseHashTableOA} (hw : WF ht) {i : Nat}
    (hocc : (entry_at ht.entries i).state = HT_ENTRY_OCCUPIED)
    (he : ht2.entries = ht.entries.set i ⟨0, 0, HT_ENTRY_TOMBSTONE⟩)
    (hb : ht2.bucket_count = ht.bucket_count)
    (hh : ht2.hash_fn = ht.hash_fn) (hk : ht2.key_equal_fn = ht.key_equal_fn)
    (hic : ht2.item_count = usize_dec ht.item_count)
    (htc : ht2.tombstone_count = usize_inc ht.tombstone_count) : WF ht2 := by
  have hlen := lt_length_of_occupied hocc
  have hat : ∀ j, entry_at ht2.entries j =
      if i = j then ⟨0, 0, HT_ENTRY_TOMBSTONE⟩ else entry_at ht.entries j := by
    intro j; rw [he, entry_at_set]; simp [hlen]
  have hocc2 : ∀ j, (entry_at ht2.entries j).state = HT_ENTRY_OCCUPIED →
      entry_at ht2.entries j = entry_at ht.entries j := by
    intro j hj
    rw [hat] at hj ⊢
    rcases eq_or_ne i j with h | h
    · rw [if_pos h] at hj; simp at hj
    · rw [if_neg h]
  refine ⟨(countInv_remove hw.counts hocc he hb hic htc).1, ?_, ?_⟩
  · intro a c ha hc hac
    rw [hocc2 a ha, hocc2 c hc, hk] at hac
    rw [hocc2 a ha] at ha
    rw [hocc2 c hc] at hc
    exact hw.unique a c ha hc hac
  · intro j n hj hn hjn m hm
    rw [hocc2 j hj] at hjn ⊢
    rw [hocc2 j hj] at hj
    rw [start_index_eq hh hb, hb] at hjn ⊢
    rw [hb] at hn
    rw [he]
    exact state_ne_empty_set (hw.reach j n hj hn hjn m hm) (by simp)

/-- Removing a stored key: the key is then not stored and every other key is looked up as
before. -/
theorem get_remove {ht ht2 : BaseHashTableOA} (hw : WF ht) (hw2 : WF ht2) (hl : LawfulKeys ht)
    {i : Nat} {k : Ptr} (hhit : Hit ht k i)
    (he : ht2.entries = ht.entries.set i ⟨0, 0, HT_ENTRY_TOMBSTONE⟩)
    (hh : ht2.hash_fn = ht.hash_fn) (hk : ht2.key_equal_fn = ht.key_equal_fn) :
    Absent ht2 k ∧
      ∀ key, ht.key_equal_fn k key = false → ht_oa_get ht2 key = ht_oa_get ht key := by
  have hlen := hhit.lt_length
  have hl2 := lawful_of_eq hl hh hk
  have hback : ∀ key j, Hit ht2 key j → i ≠ j ∧ Hit ht key j := by
    intro key j hj
    rcases eq_or_ne i j with h | h
    · subst h
      unfold Hit at hj
      rw [he, entry_at_set_self _ hlen] at hj
      exact absurd hj.1 (by simp)
    · exact ⟨h, (hit_set_ne key he hk h).1.mp hj⟩
  refine ⟨?_, ?_⟩
  · intro j hj
    obtain ⟨hne, hj1⟩ := hback k j hj
    exact hne (hw.unique i j hhit.1 hj1.1 (hl.trans _ _ _ hhit.2 (hl.symm _ _ hj1.2)))
  · intro key hne
    apply get_eq_of_same hw hw2 hl hl2
    · intro j hj
      have hij : i ≠ j := by
        rintro rfl
        have := hl.trans _ _ _ (hl.symm _ _ hhit.2) hj.2
        rw [hne] at this
        exact absurd this (by decide)
      obtain ⟨h1, h2⟩ := hit_set_ne key he hk hij
      exact ⟨j, h1.mpr hj, h2⟩
    · intro habs j hj
      exact habs j (hback key j hj).2

/-! ## Rehash -/

theorem state_cases (e : HashTableEntryOA) (h1 : e.state ≠ HT_ENTRY_OCCUPIED)
    (h2 : e.state ≠ HT_ENTRY_TOMBSTONE) : e.state = HT_ENTRY_EMPTY := by
  cases h : e.state <;> simp_all

/-- The relocation loop places the entry in the first Empty slot of its probe sequence. -/
theorem rehash_probe_spec (key value : Ptr) (ht : BaseHashTableOA) (s p0 : Nat)
    (hs : s < ht.bucket_count) (hp0 : p0 < ht.bucket_count)
    (hempty : (entry_at ht.entries ((s + p0) % ht.bucket_count)).state = HT_ENTRY_EMPTY) :
    ∀ fuel n, n ≤ p0 → ht.bucket_count - n ≤ fuel →
      (∀ m, n ≤ m → m < p0 →
        (entry_at ht.entries ((s + m) % ht.bucket_count)).state ≠ HT_ENTRY_EMPTY) →
      rehash_probe key value s fuel ht ((s + n) % ht.bucket_count) =
        ({ ht with
            entries := ht.entries.set ((s + p0) % ht.bucket_count)
              ⟨key, value, HT_ENTRY_OCCUPIED⟩
            item_count := usize_inc ht.item_count }, true) := by
  intro fuel
  induction fuel with
  | zero => intro n hn hf _; omega
  | succ f ih =>
    intro n hn hf hbefore
    simp only [rehash_probe]
    rcases Nat.eq_or_lt_of_le hn with heq | hlt
    · subst heq
      rw [if_pos hempty]
    · rw [if_neg (hbefore n (Nat.le_refl _) hlt), probe_succ,
        if_pos (probe_ne_start hs (by omega))]
      exact ih (n + 1) hlt (by omega) (fun m hm hm2 => hbefore m (by omega) hm2)

/-- The first Empty slot on a probe sequence, when the table has an Empty slot. -/
theorem first_empty_probe (ht : BaseHashTableOA) (s : Nat) (hs : s < ht.bucket_count)
    (j : Nat) (hj : j < ht.bucket_count)
    (hempty : (entry_at ht.entries j).state = HT_ENTRY_EMPTY) :
    ∃ p0, p0 < ht.bucket_count ∧
      (entry_at ht.entries ((s + p0) % ht.bucket_count)).state = HT_ENTRY_EMPTY ∧
      ∀ m, m < p0 →
        (entry_at ht.entries ((s + m) % ht.bucket_count)).state ≠ HT_ENTRY_EMPTY := by
  obtain ⟨n, hn, hnj⟩ := probe_surj hs hj
  have hex : ∃ p, p < ht.bucket_count ∧
      (entry_at ht.entries ((s + p) % ht.bucket_count)).state = HT_ENTRY_EMPTY :=
    ⟨n, hn, by rw [hnj]; exact hempty⟩
  classical
  refine ⟨Nat.find hex, (Nat.find_spec hex).1, (Nat.find_spec hex).2, ?_⟩
  intro m hm hc
  exact Nat.find_min hex hm ⟨by have := (Nat.find_spec hex).1; omega, hc⟩

theorem alloc_entries_fits {heap : Nat → Bool} {arena : Option Arena} {count : Nat}
    (h : (alloc_entries heap arena count).1 = true) : count * SIZEOF_ENTRY < USIZE_MOD := by
  unfold alloc_entries at h
  by_contra hc
  rw [if_pos (Nat.le_of_not_lt hc)] at h
  exact absurd h (by simp)

theorem sameConfig_refl (ht : BaseHashTableOA) : SameConfig ht ht :=
  ⟨rfl, rfl, rfl, rfl, rfl, rfl, rfl⟩

theorem sameConfig_trans {a b c : BaseHashTableOA} (h1 : SameConfig a b)
    (h2 : SameConfig b c) : SameConfig a c :=
  ⟨h2.1.trans h1.1, h2.2.trans h1.2, h2.3.trans h1.3, h2.4.trans h1.4, h2.5.trans h1.5,
    h2.6.trans h1.6, h2.7.trans h1.7⟩

theorem countP_take_succ (p : HashTableEntryOA → Bool) (es : List HashTableEntryOA) (c : Nat)
    (hc : c < es.length) :
    (es.take (c + 1)).countP p = (es.take c).countP p + (if p (entry_at es c) then 1 else 0) := by
  rw [List.take_succ, List.countP_append, List.getElem?_eq_getElem hc, entry_at_of_lt hc]
  simp [List.countP_cons]

theorem countP_take_le (p : HashTableEntryOA → Bool) (es : List HashTableEntryOA) (c : Nat) :
    (es.take c).countP p ≤ es.countP p :=
  (List.take_sublist c es).countP_le p

/-- An empty bucket array is well-formed. -/
theorem wf_fresh {t : BaseHashTableOA} {n : Nat} (he : t.entries = List.replicate n EMPTY_ENTRY)
    (hb : t.bucket_count = n) (hfit : n * SIZEOF_ENTRY < USIZE_MOD)
    (hic : t.item_count = 0) (htc : t.tombstone_count = 0) : WF t := by
  have hat : ∀ j, entry_at t.entries j = EMPTY_ENTRY := by
    intro j; rw [he, entry_at_replicate]
  refine ⟨⟨by rw [he, List.length_replicate, hb], by rw [hb]; exact hfit, ?_, ?_⟩, ?_, ?_⟩
  · rw [hic]; unfold occupied_slots; rw [he]
    symm; rw [List.countP_eq_zero]
    intro a ha
    rw [List.eq_of_mem_replicate ha]; decide
  · rw [htc]; unfold tombstone_slots; rw [he]
    symm; rw [List.countP_eq_zero]
    intro a ha
    rw [List.eq_of_mem_replicate ha]; decide
  · intro a c ha; rw [hat] at ha; exact absurd ha (by decide)
  · intro j n2 hj; rw [hat] at hj; exact absurd hj (by decide)

theorem no_tombstone_slot {t : BaseHashTableOA} (hc : CountInv t)
    (h0 : t.tombstone_count = 0) (j : Nat) :
    (entry_at t.entries j).state ≠ HT_ENTRY_TOMBSTONE := by
  intro hst
  have hlen : j < t.entries.length := lt_length_of_state_ne_empty (by rw [hst]; decide)
  have := countP_pos_of_entry is_tombstone t.entries j hlen (by simp [is_tombstone, hst])
  have h2 := hc.tombs
  unfold tombstone_slots at h2
  omega

theorem entry_eta (e : HashTableEntryOA) (h : e.state = HT_ENTRY_OCCUPIED) :
    (⟨e.key, e.value, HT_ENTRY_OCCUPIED⟩ : HashTableEntryOA) = e := by
  cases e; simp_all

/-- One step of the relocation loop of `ht_oa_rehash` keeps the invariant of the new table,
and its assertion holds. -/
theorem rehash_step_inv {old : BaseHashTableOA} (hwo : WF old) (hlo : LawfulKeys old)
    {nbc : Nat} (hn : old.item_count ≤ nbc) {t : BaseHashTableOA} {c : Nat}
    (hinv : RehashInv old nbc t c) (hc : c < old.entries.length) :
    RehashInv old nbc (rehash_step old.entries t c) (c + 1) ∧
      rehash_assert old.entries t c = true := by
  unfold rehash_step rehash_assert
  have htake := countP_take_succ is_occupied old.entries c hc
  by_cases hst : (entry_at old.entries c).state = HT_ENTRY_OCCUPIED
  · rw [if_pos hst, if_pos hst]
    simp only
    have hocc1 : is_occupied (entry_at old.entries c) = true := by simp [is_occupied, hst]
    rw [hocc1, if_pos rfl] at htake
    -- there is room in the new table
    have hle := countP_take_le is_occupied old.entries (c + 1)
    have hitems_old := hwo.counts.items
    unfold occupied_slots at hitems_old
    have hlen_t := hinv.wf.counts.len
    have hitems_t := hinv.wf.counts.items
    unfold occupied_slots at hitems_t
    have hroom : t.entries.countP is_occupied < t.entries.length := by
      rw [← hitems_t, hinv.items, hlen_t, hinv.buckets]; omega
    obtain ⟨j, hj, hjocc⟩ := exists_not_of_countP_lt is_occupied t.entries hroom
    have hjempty : (entry_at t.entries j).state = HT_ENTRY_EMPTY :=
      state_cases _ (by simpa [is_occupied] using hjocc)
        (no_tombstone_slot hinv.wf.counts hinv.no_tomb j)
    have hbpos : 0 < t.bucket_count := by omega
    have hs := start_index_lt t (entry_at old.entries c).key hbpos
    obtain ⟨p0, hp0, hp0e, hp0min⟩ :=
      first_empty_probe t _ hs j (by omega) hjempty
    have hspec := rehash_probe_spec (entry_at old.entries c).key (entry_at old.entries c).value
      t _ p0 hs hp0 hp0e t.bucket_count 0 (Nat.zero_le _) (by omega)
      (fun m _ hm => hp0min m hm)
    rw [Nat.add_zero, Nat.mod_eq_of_lt hs] at hspec
    rw [hspec]
    simp only [and_true]
    -- the new table
    have hlt : LawfulKeys t := lawful_of_eq hlo hinv.config.hash_fn hinv.config.key_equal_fn
    have hidx : (start_index t (entry_at old.entries c).key + p0) % t.bucket_count <
        t.bucket_count := Nat.mod_lt _ hbpos
    have habs : Absent t (entry_at old.entries c).key := by
      intro j2 hj2
      obtain ⟨i, hi, hie⟩ := hinv.from_old j2 hj2.1
      have h1 : (entry_at old.entries i).state = HT_ENTRY_OCCUPIED := by rw [hie]; exact hj2.1
      have h2 : old.key_equal_fn (entry_at old.entries i).key (entry_at old.entries c).key
          = true := by
        rw [hie, ← hinv.config.key_equal_fn]; exact hj2.2
      have := hwo.unique i c h1 hst h2
      omega
    have hnocc : (entry_at t.entries ((start_index t (entry_at old.entries c).key + p0) %
        t.bucket_count)).state ≠ HT_ENTRY_OCCUPIED := by rw [hp0e]; decide
    have hntomb : ¬ (entry_at t.entries ((start_index t (entry_at old.entries c).key + p0) %
        t.bucket_count)).state = HT_ENTRY_TOMBSTONE := by rw [hp0e]; decide
    have hpre : ∀ n, n < t.bucket_count →
        (start_index t (entry_at old.entries c).key + n) % t.bucket_count =
          (start_index t (entry_at old.entries c).key + p0) % t.bucket_count →
        ∀ m, m < n → (entry_at t.entries
          ((start_index t (entry_at old.entries c).key + m) % t.bucket_count)).state
            ≠ HT_ENTRY_EMPTY := by
      intro n hn2 hnn m hm
      have : n = p0 := probe_inj hn2 hp0 hnn
      subst this
      exact hp0min m hm
    have hwf : WF { t with
          entries := t.entries.set
            ((start_index t (entry_at old.entries c).key + p0) % t.bucket_count)
            ⟨(entry_at old.entries c).key, (entry_at old.entries c).value, HT_ENTRY_OCCUPIED⟩
          item_count := usize_inc t.item_count } := wf_place
      hinv.wf hlt habs hidx hnocc hpre rfl rfl rfl rfl rfl (by rw [if_neg hntomb])
    have hcnt : CountInv { t with
          entries := t.entries.set
            ((start_index t (entry_at old.entries c).key + p0) % t.bucket_count)
            ⟨(entry_at old.entries c).key, (entry_at old.entries c).value, HT_ENTRY_OCCUPIED⟩
          item_count := usize_inc t.item_count } ∧ _ := countInv_place
      hinv.wf.counts hidx hnocc rfl rfl rfl (by rw [if_neg hntomb])
    have hlenidx : (start_index t (entry_at old.entries c).key + p0) % t.bucket_count <
        t.entries.length := by rw [hlen_t]; exact hidx
    refine ⟨⟨hinv.config.1, hinv.config.2, hinv.config.3, hinv.config.4, hinv.config.5,
      hinv.config.6, hinv.config.7⟩, hwf, hinv.buckets, hinv.no_tomb, ?_, ?_, ?_⟩
    · rw [hcnt.2, hinv.items, htake]
    · intro i hi hio
      rcases Nat.eq_or_lt_of_le (Nat.le_of_lt_succ hi) with heq | hlt2
      · subst heq
        refine ⟨(start_index t (entry_at old.entries i).key + p0) % t.bucket_count, ?_⟩
        show entry_at (t.entries.set _ _) _ = _
        rw [entry_at_set_self _ hlenidx]; exact entry_eta _ hst
      · obtain ⟨j2, hj2⟩ := hinv.moved i hlt2 hio
        refine ⟨j2, ?_⟩
        show entry_at (t.entries.set _ _) _ = _
        rw [entry_at_set_ne, hj2]
        intro hc2
        have hocc2 : (entry_at t.entries j2).state = HT_ENTRY_OCCUPIED := by rw [hj2]; exact hio
        rw [← hc2, hp0e] at hocc2
        exact absurd hocc2 (by decide)
    · intro j2 hj2
      have hj2x : (entry_at (t.entries.set
          ((start_index t (entry_at old.entries c).key + p0) % t.bucket_count)
          ⟨(entry_at old.entries c).key, (entry_at old.entries c).value, HT_ENTRY_OCCUPIED⟩)
          j2).state = HT_ENTRY_OCCUPIED := hj2
      show ∃ i, i < c + 1 ∧ entry_at old.entries i = entry_at (t.entries.set _ _) j2
      rw [entry_at_set] at hj2x ⊢
      split_ifs at hj2x ⊢ with h
      · exact ⟨c, by omega, (entry_eta _ hst).symm⟩
      · obtain ⟨i, hi, hie⟩ := hinv.from_old j2 hj2x
        exact ⟨i, by omega, hie⟩
  · rw [if_neg hst, if_neg hst]
    have hocc1 : is_occupied (entry_at old.entries c) = false := by simp [is_occupied, hst]
    rw [hocc1] at htake
    simp only [Bool.false_eq_true, if_false, Nat.add_zero] at htake
    refine ⟨⟨hinv.config, hinv.wf, hinv.buckets, hinv.no_tomb, by rw [hinv.items, htake], ?_, ?_⟩,
      rfl⟩
    · intro i hi hio
      rcases Nat.eq_or_lt_of_le (Nat.le_of_lt_succ hi) with heq | hlt2
      · subst heq; exact absurd hio hst
      · exact hinv.moved i hlt2 hio
    · intro j2 hj2
      obtain ⟨i, hi, hie⟩ := hinv.from_old j2 hj2
      exact ⟨i, by omega, hie⟩

theorem rehash_fold_inv {old : BaseHashTableOA} (hwo : WF old) (hlo : LawfulKeys old)
    {nbc : Nat} (hn : old.item_count ≤ nbc) {fresh : BaseHashTableOA}
    (h0 : RehashInv old nbc fresh 0) :
    ∀ c, c ≤ old.entries.length →
      RehashInv old nbc ((List.range c).foldl (rehash_step old.entries) fresh) c := by
  intro c
  induction c with
  | zero => intro _; exact h0
  | succ c ih =>
    intro hc
    rw [List.range_succ, List.foldl_append]
    exact (rehash_step_inv hwo hlo hn (ih (by omega)) (by omega)).1

theorem rehash_bucket_count_ge {ht : BaseHashTableOA} (hc : CountInv ht) (n : Nat) :
    ht.item_count ≤ rehash_bucket_count ht n := by
  have hle := count_le_bucket hc
  have hfit := bucket_lt_usize hc
  unfold rehash_bucket_count
  simp only
  split_ifs with h1 h2
  · rw [usize_mul_of_lt (by unfold USIZE_MOD; omega)]; omega
  · omega
  · rw [usize_mul_of_lt (by unfold USIZE_MOD; omega)]; omega
  · omega

/-- A successful rehash: the new table is well-formed, holds the same Occupied slots, has
no Tombstone, and `item_count` is unchanged. -/
theorem rehash_success {heap : Nat → Bool} {ht ht2 : BaseHashTableOA} {n : Nat} (hw : WF ht)
    (hl : LawfulKeys ht) (h : ht_oa_rehash heap ht n = (true, ht2)) :
    WF ht2 ∧ SameConfig ht ht2 ∧ SameContent ht ht2 ∧ ht2.item_count = ht.item_count ∧
      ht2.tombstone_count = 0 ∧ ht2.bucket_count = rehash_bucket_count ht n := by
  unfold ht_oa_rehash at h
  simp only at h
  have hge := rehash_bucket_count_ge hw.counts n
  generalize rehash_bucket_count ht n = nbc at h hge ⊢
  by_cases ha : (alloc_entries heap ht.arena nbc).1 = false
  · rw [if_pos ha] at h
    exact absurd (Prod.mk.inj h).1 (by decide)
  rw [if_neg ha] at h
  have ha2 : (alloc_entries heap ht.arena nbc).1 = true := by simpa using ha
  have hfit := alloc_entries_fits ha2
  have hinv0 : RehashInv ht nbc
      { ht with
          entries := List.replicate nbc EMPTY_ENTRY
          bucket_count := nbc
          item_count := 0
          tombstone_count := 0
          arena := (alloc_entries heap ht.arena nbc).2 } 0 := by
    refine ⟨⟨rfl, rfl, rfl, rfl, rfl, rfl, rfl⟩, wf_fresh rfl rfl hfit rfl rfl, rfl, rfl, ?_, ?_, ?_⟩
    · simp
    · intro i hi; omega
    · intro j hj
      simp only [entry_at_replicate] at hj
      exact absurd hj (by decide)
  have hfin := rehash_fold_inv hw hl hge hinv0 ht.entries.length (Nat.le_refl _)
  rw [hw.counts.len] at hfin
  have heq := (Prod.mk.inj h).2
  rw [heq] at hfin
  have hitems := hfin.items
  rw [← hw.counts.len, List.take_length] at hitems
  have hitems_old := hw.counts.items
  unfold occupied_slots at hitems_old
  refine ⟨hfin.wf, hfin.config, ⟨?_, ?_⟩, by rw [hitems, hitems_old], hfin.no_tomb, hfin.buckets⟩
  · intro i hi
    exact hfin.moved i (by rw [← hw.counts.len]; exact lt_length_of_occupied hi) hi
  · intro j hj
    obtain ⟨i, _, hie⟩ := hfin.from_old j hj
    exact ⟨i, hie⟩

/-- A failed rehash changes nothing but possibly the arena. -/
theorem rehash_failure {heap : Nat → Bool} {ht : BaseHashTableOA} {n : Nat}
    (h : (ht_oa_rehash heap ht n).1 = false) :
    ∃ a, (ht_oa_rehash heap ht n).2 = { ht with arena := a } := by
  unfold ht_oa_rehash at h ⊢
  simp only at h ⊢
  by_cases ha : (alloc_entries heap ht.arena (rehash_bucket_count ht n)).1 = false
  · rw [if_pos ha]; exact ⟨_, rfl⟩
  · rw [if_neg ha] at h; exact absurd h (by simp)

theorem insert_of_growth_fail {heap : Nat → Bool} {ht : BaseHashTableOA} {key value : Ptr}
    (h : (insert_growth heap ht).1 = false) :
    ht_oa_insert heap ht key value = (false, (insert_growth heap ht).2) := by
  unfold ht_oa_insert
  unfold insert_growth at h ⊢
  simp only at h ⊢
  generalize (if ht.bucket_count = 0 then ht_oa_rehash heap ht BASE_HT_OA_DEFAULT_CAPACITY
    else (true, ht)) = r1 at h ⊢
  by_cases h1 : r1.1 = false
  · rw [if_pos h1, if_pos h1]
  · rw [if_neg h1] at h
    rw [if_neg h1, if_neg h1]
    generalize (if usize_add r1.2.item_count 1 ≥ r1.2.bucket_count ∨
        load_exceeds (usize_add r1.2.item_count r1.2.tombstone_count) r1.2.bucket_count = true then
      ht_oa_rehash heap r1.2
        (if r1.2.bucket_count > 0 then usize_mul r1.2.bucket_count 2
         else BASE_HT_OA_DEFAULT_CAPACITY)
      else (true, r1.2)) = r2 at h ⊢
    rw [if_pos h]

theorem insert_of_found {heap : Nat → Bool} {ht : BaseHashTableOA} {key value : Ptr}
    (h : (insert_growth heap ht).1 = true)
    (hf : (ht_oa_find_slot (insert_growth heap ht).2 key).2 = true) :
    ht_oa_insert heap ht key value = (false, (insert_growth heap ht).2) := by
  unfold ht_oa_insert
  unfold insert_growth at h hf ⊢
  simp only at h hf ⊢
  generalize (if ht.bucket_count = 0 then ht_oa_rehash heap ht BASE_HT_OA_DEFAULT_CAPACITY
    else (true, ht)) = r1 at h hf ⊢
  by_cases h1 : r1.1 = false
  · rw [if_pos h1] at h; exact absurd h (by simp)
  · rw [if_neg h1] at h hf
    rw [if_neg h1, if_neg h1]
    generalize (if usize_add r1.2.item_count 1 ≥ r1.2.bucket_count ∨
        load_exceeds (usize_add r1.2.item_count r1.2.tombstone_count) r1.2.bucket_count = true then
      ht_oa_rehash heap r1.2
        (if r1.2.bucket_count > 0 then usize_mul r1.2.bucket_count 2
         else BASE_HT_OA_DEFAULT_CAPACITY)
      else (true, r1.2)) = r2 at h hf ⊢
    rw [if_neg (by rw [h]; decide), if_pos hf]

theorem insert_of_slot {heap : Nat → Bool} {ht : BaseHashTableOA} {key value : Ptr} {slot : Nat}
    (h : (insert_growth heap ht).1 = true)
    (hf : ht_oa_find_slot (insert_growth heap ht).2 key = (some slot, false))
    (hs : (entry_at (insert_growth heap ht).2.entries slot).state ≠ HT_ENTRY_OCCUPIED)
    (hb : Borrowed (insert_growth heap ht).2) :
    ht_oa_insert heap ht key value = (true, place (insert_growth heap ht).2 slot key value) := by
  unfold ht_oa_insert
  unfold insert_growth at h hf hs hb ⊢
  simp only at h hf hs hb ⊢
  generalize (if ht.bucket_count = 0 then ht_oa_rehash heap ht BASE_HT_OA_DEFAULT_CAPACITY
    else (true, ht)) = r1 at h hf hs hb ⊢
  by_cases h1 : r1.1 = false
  · rw [if_pos h1] at h; exact absurd h (by simp)
  · rw [if_neg h1] at h hf hs hb
    rw [if_neg h1, if_neg h1]
    generalize (if usize_add r1.2.item_count 1 ≥ r1.2.bucket_count ∨
        load_exceeds (usize_add r1.2.item_count r1.2.tombstone_count) r1.2.bucket_count = true then
      ht_oa_rehash heap r1.2
        (if r1.2.bucket_count > 0 then usize_mul r1.2.bucket_count 2
         else BASE_HT_OA_DEFAULT_CAPACITY)
      else (true, r1.2)) = r2 at h hf hs hb ⊢
    rw [if_neg (by rw [h]; decide), hf]
    have hu : slot_unusable r2.2 (some slot) = false := by
      simp [slot_unusable, hs]
    simp only [hu, Bool.false_eq_true, if_false, hb.1, hb.2, Option.isSome_none, false_and,
      Option.getD_some, place, Bool.true_eq_false, copy_ptr]

theorem put_of_growth_fail {heap : Nat → Bool} {ht : BaseHashTableOA} {key value : Ptr}
    (h : (put_growth heap ht key).1 = false) :
    ht_oa_put heap ht key value = (false, (put_growth heap ht key).2) := by
  unfold ht_oa_put
  unfold put_growth at h ⊢
  simp only at h ⊢
  generalize (if ht.bucket_count = 0 then ht_oa_rehash heap ht BASE_HT_OA_DEFAULT_CAPACITY
    else (true, ht)) = r1 at h ⊢
  by_cases h1 : r1.1 = false
  · rw [if_pos h1, if_pos h1]
  · rw [if_neg h1] at h
    rw [if_neg h1, if_neg h1]
    generalize (if usize_add r1.2.item_count (if ht_oa_contains r1.2 key = true then 0 else 1) ≥
          r1.2.bucket_count ∨
        load_exceeds (usize_add (usize_add r1.2.item_count r1.2.tombstone_count)
          (if ht_oa_contains r1.2 key = true then 0 else 1)) r1.2.bucket_count = true then
      ht_oa_rehash heap r1.2
        (if r1.2.bucket_count > 0 then usize_mul r1.2.bucket_count 2
         else BASE_HT_OA_DEFAULT_CAPACITY)
      else (true, r1.2)) = r2 at h ⊢
    rw [if_pos h]

/-- The update path of `ht_oa_put` under borrowed semantics. -/
theorem put_of_found {heap : Nat → Bool} {ht : BaseHashTableOA} {key : Ptr} (value : Ptr)
    {slot : Nat} (h : (put_growth heap ht key).1 = true)
    (hf : ht_oa_find_slot (put_growth heap ht key).2 key = (some slot, true))
    (hb : Borrowed (put_growth heap ht key).2) :
    ∃ calls, ht_oa_put heap ht key value =
      (true, { (put_growth heap ht key).2 with
        entries := (put_growth heap ht key).2.entries.set slot
          ⟨(entry_at (put_growth heap ht key).2.entries slot).key, value,
            (entry_at (put_growth heap ht key).2.entries slot).state⟩
        calls := calls }) := by
  unfold ht_oa_put
  unfold put_growth at h hf hb ⊢
  simp only at h hf hb ⊢
  generalize (if ht.bucket_count = 0 then ht_oa_rehash heap ht BASE_HT_OA_DEFAULT_CAPACITY
    else (true, ht)) = r1 at h hf hb ⊢
  by_cases h1 : r1.1 = false
  · rw [if_pos h1] at h; exact absurd h (by simp)
  · rw [if_neg h1] at h hf hb
    rw [if_neg h1, if_neg h1]
    generalize (if usize_add r1.2.item_count (if ht_oa_contains r1.2 key = true then 0 else 1) ≥
          r1.2.bucket_count ∨
        load_exceeds (usize_add (usize_add r1.2.item_count r1.2.tombstone_count)
          (if ht_oa_contains r1.2 key = true then 0 else 1)) r1.2.bucket_count = true then
      ht_oa_rehash heap r1.2
        (if r1.2.bucket_count > 0 then usize_mul r1.2.bucket_count 2
         else BASE_HT_OA_DEFAULT_CAPACITY)
      else (true, r1.2)) = r2 at h hf hb ⊢
    rw [if_neg (by rw [h]; decide), hf]
    simp only [if_true, hb.1, hb.2, Option.isSome_none, false_and, Bool.false_eq_true, if_false,
      Option.getD_some, copy_ptr]
    exact ⟨_, rfl⟩

theorem put_of_slot {heap : Nat → Bool} {ht : BaseHashTableOA} {key value : Ptr} {slot : Nat}
    (h : (put_growth heap ht key).1 = true)
    (hf : ht_oa_find_slot (put_growth heap ht key).2 key = (some slot, false))
    (hs : (entry_at (put_growth heap ht key).2.entries slot).state ≠ HT_ENTRY_OCCUPIED)
    (hb : Borrowed (put_growth heap ht key).2) :
    ht_oa_put heap ht key value =
      (true, place (put_growth heap ht key).2 slot key value) := by
  unfold ht_oa_put
  unfold put_growth at h hf hs hb ⊢
  simp only at h hf hs hb ⊢
  generalize (if ht.bucket_count = 0 then ht_oa_rehash heap ht BASE_HT_OA_DEFAULT_CAPACITY
    else (true, ht)) = r1 at h hf hs hb ⊢
  by_cases h1 : r1.1 = false
  · rw [if_pos h1] at h; exact absurd h (by simp)
  · rw [if_neg h1] at h hf hs hb
    rw [if_neg h1, if_neg h1]
    generalize (if usize_add r1.2.item_count (if ht_oa_contains r1.2 key = true then 0 else 1) ≥
          r1.2.bucket_count ∨
        load_exceeds (usize_add (usize_add r1.2.item_count r1.2.tombstone_count)
          (if ht_oa_contains r1.2 key = true then 0 else 1)) r1.2.bucket_count = true then
      ht_oa_rehash heap r1.2
        (if r1.2.bucket_count > 0 then usize_mul r1.2.bucket_count 2
         else BASE_HT_OA_DEFAULT_CAPACITY)
      else (true, r1.2)) = r2 at h hf hs hb ⊢
    rw [if_neg (by rw [h]; decide), hf]
    have hu : slot_unusable r2.2 (some slot) = false := by
      simp [slot_unusable, hs]
    simp only [hu, Bool.false_eq_true, if_false, hb.1, hb.2, Option.isSome_none, false_and,
      Option.getD_some, place, Bool.true_eq_false, copy_ptr]

/-! ## The growth stage -/

theorem hit_of_content {ht ht2 : BaseHashTableOA} (hc : SameContent ht ht2)
    (hk : ht2.key_equal_fn = ht.key_equal_fn) {key : Ptr} {i : Nat} (h : Hit ht key i) :
    ∃ j, Hit ht2 key j ∧ (entry_at ht2.entries j).value = (entry_at ht.entries i).value := by
  obtain ⟨j, hj⟩ := hc.1 i h.1
  refine ⟨j, ?_, by rw [hj]⟩
  unfold Hit
  rw [hj, hk]
  exact h

theorem hit_of_content_rev {ht ht2 : BaseHashTableOA} (hc : SameContent ht ht2)
    (hk : ht2.key_equal_fn = ht.key_equal_fn) {key : Ptr} {j : Nat} (h : Hit ht2 key j) :
    ∃ i, Hit ht key i ∧ (entry_at ht.entries i).value = (entry_at ht2.entries j).value := by
  obtain ⟨i, hi⟩ := hc.2 j h.1
  refine ⟨i, ?_, by rw [hi]⟩
  unfold Hit
  rw [hi, ← hk]
  exact h

theorem Evolved.lawful {ht ht2 : BaseHashTableOA} (he : Evolved ht ht2) (hl : LawfulKeys ht) :
    LawfulKeys ht2 := lawful_of_eq hl he.config.hash_fn he.config.key_equal_fn

theorem Evolved.borrowed {ht ht2 : BaseHashTableOA} (he : Evolved ht ht2) (hb : Borrowed ht) :
    Borrowed ht2 :=
  ⟨by rw [he.config.key_copy_fn]; exact hb.1, by rw [he.config.value_copy_fn]; exact hb.2⟩

theorem Evolved.absent {ht ht2 : BaseHashTableOA} (he : Evolved ht ht2) {key : Ptr}
    (h : Absent ht key) : Absent ht2 key := by
  intro j hj
  obtain ⟨i, hi, _⟩ := hit_of_content_rev he.content he.config.key_equal_fn hj
  exact h i hi

theorem Evolved.absent_rev {ht ht2 : BaseHashTableOA} (he : Evolved ht ht2) {key : Ptr}
    (h : Absent ht2 key) : Absent ht key := by
  intro i hi
  obtain ⟨j, hj, _⟩ := hit_of_content he.content he.config.key_equal_fn hi
  exact h j hj

theorem Evolved.get {ht ht2 : BaseHashTableOA} (he : Evolved ht ht2) (hw : WF ht)
    (hl : LawfulKeys ht) (key : Ptr) : ht_oa_get ht2 key = ht_oa_get ht key :=
  get_eq_of_same hw he.wf hl (he.lawful hl)
    (fun _ hj => hit_of_content he.content he.config.key_equal_fn hj)
    (fun h => he.absent h)

theorem evolved_refl {ht : BaseHashTableOA} (hw : WF ht) : Evolved ht ht :=
  ⟨hw, sameConfig_refl ht, ⟨fun i _ => ⟨i, rfl⟩, fun j _ => ⟨j, rfl⟩⟩, rfl⟩

theorem evolved_trans {a b c : BaseHashTableOA} (h1 : Evolved a b) (h2 : Evolved b c) :
    Evolved a c := by
  refine ⟨h2.wf, sameConfig_trans h1.config h2.config, ⟨?_, ?_⟩, h2.items.trans h1.items⟩
  · intro i hi
    obtain ⟨j, hj⟩ := h1.content.1 i hi
    obtain ⟨k, hk⟩ := h2.content.1 j (by rw [hj]; exact hi)
    exact ⟨k, hk.trans hj⟩
  · intro k hk
    obtain ⟨j, hj⟩ := h2.content.2 k hk
    obtain ⟨i, hi⟩ := h1.content.2 j (by rw [hj]; exact hk)
    exact ⟨i, hi.trans hj⟩

/-- A table that differs only in its arena. -/
theorem evolved_arena {ht : BaseHashTableOA} (hw : WF ht) (a : Option Arena) :
    Evolved ht { ht with arena := a } :=
  ⟨wf_of_same_keys hw ⟨hw.counts.len, hw.counts.fits, hw.counts.items, hw.counts.tombs⟩
      rfl rfl rfl (fun _ => rfl) (fun _ => rfl),
    ⟨rfl, rfl, rfl, rfl, rfl, rfl, rfl⟩, ⟨fun i _ => ⟨i, rfl⟩, fun j _ => ⟨j, rfl⟩⟩, rfl⟩

/-- Whatever its outcome, `ht_oa_rehash` leaves a well-formed table with the same
Occupied slots. -/
theorem evolved_rehash {ht : BaseHashTableOA} (hw : WF ht) (hl : LawfulKeys ht)
    (heap : Nat → Bool) (n : Nat) : Evolved ht (ht_oa_rehash heap ht n).2 := by
  cases hr : (ht_oa_rehash heap ht n).1 with
  | false =>
    obtain ⟨a, ha⟩ := rehash_failure hr
    rw [ha]
    exact evolved_arena hw a
  | true =>
    have heq : ht_oa_rehash heap ht n = (true, (ht_oa_rehash heap ht n).2) := by
      rw [← hr]
    obtain ⟨h1, h2, h3, h4, _, _⟩ := rehash_success hw hl heq
    exact ⟨h1, h2, h3, h4⟩

theorem rehash_buckets {ht : BaseHashTableOA} (hw : WF ht) (hl : LawfulKeys ht)
    {heap : Nat → Bool} {n : Nat} (hr : (ht_oa_rehash heap ht n).1 = true) :
    (ht_oa_rehash heap ht n).2.bucket_count = rehash_bucket_count ht n := by
  have heq : ht_oa_rehash heap ht n = (true, (ht_oa_rehash heap ht n).2) := by
    rw [← hr]
  exact (rehash_success hw hl heq).2.2.2.2.2

theorem rehash_bucket_count_double {ht : BaseHashTableOA} (hc : CountInv ht)
    (hb : 0 < ht.bucket_count) :
    rehash_bucket_count ht (usize_mul ht.bucket_count 2) = ht.bucket_count * 2 := by
  have hle := count_le_bucket hc
  have hfit := bucket_lt_usize hc
  unfold rehash_bucket_count
  rw [usize_mul_of_lt (by unfold USIZE_MOD; omega)]
  simp only
  have h0 : ¬ ht.bucket_count * 2 = 0 := by omega
  rw [if_neg h0, if_neg (by omega)]

theorem rehash_bucket_count_default {ht : BaseHashTableOA} (hc : CountInv ht)
    (hb : ht.bucket_count = 0) :
    rehash_bucket_count ht BASE_HT_OA_DEFAULT_CAPACITY = 16 := by
  have hle := count_le_bucket hc
  unfold rehash_bucket_count BASE_HT_OA_DEFAULT_CAPACITY
  simp only
  rw [if_neg (by omega), if_neg (by omega)]

/-- The growth stage of `ht_oa_insert`. -/
theorem insert_growth_spec {ht : BaseHashTableOA} (hw : WF ht) (hl : LawfulKeys ht)
    (heap : Nat → Bool) :
    Evolved ht (insert_growth heap ht).2 ∧
      ((insert_growth heap ht).1 = true →
        (insert_growth heap ht).2.item_count < (insert_growth heap ht).2.bucket_count) := by
  unfold insert_growth
  simp only
  by_cases hb0 : ht.bucket_count = 0
  · rw [if_pos hb0]
    have hev := evolved_rehash hw hl heap BASE_HT_OA_DEFAULT_CAPACITY
    cases hr : (ht_oa_rehash heap ht BASE_HT_OA_DEFAULT_CAPACITY).1 with
    | false => exact ⟨by simpa using hev, by simp⟩
    | true =>
      have hbk := rehash_buckets hw hl hr
      rw [rehash_bucket_count_default hw.counts hb0] at hbk
      have hit : (ht_oa_rehash heap ht BASE_HT_OA_DEFAULT_CAPACITY).2.item_count = 0 := by
        rw [hev.items]; have := count_le_bucket hw.counts; omega
      have htc := count_le_bucket hev.wf.counts
      have hcond : ¬ (usize_add (ht_oa_rehash heap ht BASE_HT_OA_DEFAULT_CAPACITY).2.item_count 1 ≥
          (ht_oa_rehash heap ht BASE_HT_OA_DEFAULT_CAPACITY).2.bucket_count ∨
          load_exceeds (usize_add (ht_oa_rehash heap ht BASE_HT_OA_DEFAULT_CAPACITY).2.item_count
            (ht_oa_rehash heap ht BASE_HT_OA_DEFAULT_CAPACITY).2.tombstone_count)
            (ht_oa_rehash heap ht BASE_HT_OA_DEFAULT_CAPACITY).2.bucket_count = true) := by
        have heq : ht_oa_rehash heap ht BASE_HT_OA_DEFAULT_CAPACITY =
            (true, (ht_oa_rehash heap ht BASE_HT_OA_DEFAULT_CAPACITY).2) := by rw [← hr]
        have htz := (rehash_success hw hl heq).2.2.2.2.1
        rw [hit, hbk, htz]
        decide
      simp only [Bool.true_eq_false, if_false, if_neg hcond]
      exact ⟨hev, fun _ => by rw [hit, hbk]; omega⟩
  · rw [if_neg hb0]
    simp only [Bool.true_eq_false, if_false]
    have hbpos : 0 < ht.bucket_count := Nat.pos_of_ne_zero hb0
    have hle := count_le_bucket hw.counts
    have hfit := bucket_lt_usize hw.counts
    by_cases hcond : usize_add ht.item_count 1 ≥ ht.bucket_count ∨
        load_exceeds (usize_add ht.item_count ht.tombstone_count) ht.bucket_count = true
    · rw [if_pos hcond, if_pos hbpos]
      refine ⟨evolved_rehash hw hl heap _, ?_⟩
      intro hr
      rw [rehash_buckets hw hl hr, rehash_bucket_count_double hw.counts hbpos,
        (evolved_rehash hw hl heap _).items]
      omega
    · rw [if_neg hcond]
      refine ⟨evolved_refl hw, fun _ => ?_⟩
      have h1 : ¬ usize_add ht.item_count 1 ≥ ht.bucket_count := fun h => hcond (Or.inl h)
      rw [usize_add_of_lt (by unfold USIZE_MOD; omega)] at h1
      simp only
      omega

/-- The growth stage of `ht_oa_put`. -/
theorem put_growth_spec {ht : BaseHashTableOA} (hw : WF ht) (hl : LawfulKeys ht)
    (heap : Nat → Bool) (key : Ptr) :
    Evolved ht (put_growth heap ht key).2 ∧
      ((put_growth heap ht key).1 = true →
        (put_growth heap ht key).2.item_count < (put_growth heap ht key).2.bucket_count) := by
  unfold put_growth
  simp only
  by_cases hb0 : ht.bucket_count = 0
  · rw [if_pos hb0]
    have hev := evolved_rehash hw hl heap BASE_HT_OA_DEFAULT_CAPACITY
    cases hr : (ht_oa_rehash heap ht BASE_HT_OA_DEFAULT_CAPACITY).1 with
    | false => exact ⟨by simpa using hev, by simp⟩
    | true =>
      have hbk := rehash_buckets hw hl hr
      rw [rehash_bucket_count_default hw.counts hb0] at hbk
      have hit : (ht_oa_rehash heap ht BASE_HT_OA_DEFAULT_CAPACITY).2.item_count = 0 := by
        rw [hev.items]; have := count_le_bucket hw.counts; omega
      have heq : ht_oa_rehash heap ht BASE_HT_OA_DEFAULT_CAPACITY =
          (true, (ht_oa_rehash heap ht BASE_HT_OA_DEFAULT_CAPACITY).2) := by rw [← hr]
      have htz := (rehash_success hw hl heq).2.2.2.2.1
      simp only [Bool.true_eq_false, if_false]
      have hex : ∀ e : Nat, (e = 0 ∨ e = 1) →
          ¬ (usize_add (ht_oa_rehash heap ht BASE_HT_OA_DEFAULT_CAPACITY).2.item_count e ≥
            (ht_oa_rehash heap ht BASE_HT_OA_DEFAULT_CAPACITY).2.bucket_count ∨
          load_exceeds (usize_add (usize_add
              (ht_oa_rehash heap ht BASE_HT_OA_DEFAULT_CAPACITY).2.item_count
              (ht_oa_rehash heap ht BASE_HT_OA_DEFAULT_CAPACITY).2.tombstone_count) e)
            (ht_oa_rehash heap ht BASE_HT_OA_DEFAULT_CAPACITY).2.bucket_count = true) := by
        intro e he
        rw [hit, hbk, htz]
        rcases he with rfl | rfl <;> decide
      have h01 : (if ht_oa_contains (ht_oa_rehash heap ht BASE_HT_OA_DEFAULT_CAPACITY).2 key = true
          then 0 else 1) = 0 ∨
          (if ht_oa_contains (ht_oa_rehash heap ht BASE_HT_OA_DEFAULT_CAPACITY).2 key = true
          then 0 else 1) = 1 := by
        split_ifs
        · exact Or.inl rfl
        · exact Or.inr rfl
      generalize (if ht_oa_contains (ht_oa_rehash heap ht BASE_HT_OA_DEFAULT_CAPACITY).2 key = true
        then 0 else 1) = extra at h01
      rw [if_neg (hex extra h01)]
      exact ⟨hev, fun _ => by rw [hit, hbk]; omega⟩
  · rw [if_neg hb0]
    simp only [Bool.true_eq_false, if_false]
    have hbpos : 0 < ht.bucket_count := Nat.pos_of_ne_zero hb0
    have hle := count_le_bucket hw.counts
    have hfit := bucket_lt_usize hw.counts
    have hex : (if ht_oa_contains ht key = true then 0 else 1) ≤ 1 := by split_ifs <;> omega
    generalize (if ht_oa_contains ht key = true then 0 else 1) = extra at hex
    by_cases hcond : usize_add ht.item_count extra ≥ ht.bucket_count ∨
        load_exceeds (usize_add (usize_add ht.item_count ht.tombstone_count) extra)
          ht.bucket_count = true
    · rw [if_pos hcond, if_pos hbpos]
      refine ⟨evolved_rehash hw hl heap _, ?_⟩
      intro hr
      rw [rehash_buckets hw hl hr, rehash_bucket_count_double hw.counts hbpos,
        (evolved_rehash hw hl heap _).items]
      omega
    · rw [if_neg hcond]
      refine ⟨evolved_refl hw, fun _ => ?_⟩
      have h1 : ¬ usize_add ht.item_count extra ≥ ht.bucket_count := fun h => hcond (Or.inl h)
      rw [usize_add_of_lt (by unfold USIZE_MOD; omega)] at h1
      simp only
      omega

/-! ## Placement -/

/-- The slot `ht_oa_find_slot` returns for a key that is not stored, in a table that is not
full of Occupied slots. -/
theorem find_slot_room {ht : BaseHashTableOA} (hw : WF ht) {key : Ptr} (habs : Absent ht key)
    (hroom : ht.item_count < ht.bucket_count) :
    ∃ slot, ht_oa_find_slot ht key = (some slot, false) ∧ slot < ht.bucket_count ∧
      (entry_at ht.entries slot).state ≠ HT_ENTRY_OCCUPIED ∧
      ∀ n, n < ht.bucket_count → (start_index ht key + n) % ht.bucket_count = slot →
        ∀ m, m < n →
          (entry_at ht.entries ((start_index ht key + m) % ht.bucket_count)).state
            ≠ HT_ENTRY_EMPTY := by
  obtain ⟨h1, h2⟩ := find_slot_absent_spec habs
  have hf := find_slot_of_absent habs
  cases hs : (ht_oa_find_slot ht key).1 with
  | none =>
    exfalso
    have hall := h2 hs
    have hcount : ht.entries.countP is_occupied = ht.entries.length := by
      rw [List.countP_eq_length]
      intro a ha
      obtain ⟨i, hi, rfl⟩ := List.getElem_of_mem ha
      have := hall i (by rw [← hw.counts.len]; exact hi)
      rw [entry_at_of_lt hi] at this
      simp [is_occupied, this]
    have hitems := hw.counts.items
    unfold occupied_slots at hitems
    have hlen := hw.counts.len
    omega
  | some slot =>
    obtain ⟨h3, h4, h5⟩ := h1 slot hs
    refine ⟨slot, ?_, h3, h4, h5⟩
    rw [← hs, ← hf]

/-- What placing a key that is not stored achieves. -/
theorem place_spec {ht : BaseHashTableOA} (hw : WF ht) (hl : LawfulKeys ht) {slot : Nat}
    {key : Ptr} (value : Ptr) (habs : Absent ht key) (hi : slot < ht.bucket_count)
    (hocc : (entry_at ht.entries slot).state ≠ HT_ENTRY_OCCUPIED)
    (hpre : ∀ n, n < ht.bucket_count → (start_index ht key + n) % ht.bucket_count = slot →
      ∀ m, m < n →
        (entry_at ht.entries ((start_index ht key + m) % ht.bucket_count)).state
          ≠ HT_ENTRY_EMPTY) :
    WF (place ht slot key value) ∧ SameConfig ht (place ht slot key value) ∧
      (place ht slot key value).bucket_count = ht.bucket_count ∧
      (place ht slot key value).item_count = ht.item_count + 1 ∧
      ht_oa_get (place ht slot key value) key = value ∧
      (∀ k2, ht.key_equal_fn key k2 = false →
        ht_oa_get (place ht slot key value) k2 = ht_oa_get ht k2) ∧
      (place ht slot key value).entries =
        ht.entries.set slot ⟨key, value, HT_ENTRY_OCCUPIED⟩ := by
  have hwf : WF (place ht slot key value) :=
    wf_place hw hl habs hi hocc hpre rfl rfl rfl rfl rfl rfl
  have hcnt : CountInv (place ht slot key value) ∧
      (place ht slot key value).item_count = ht.item_count + 1 :=
    countInv_place (k := key) (v := value) hw.counts hi hocc rfl rfl rfl rfl
  have hget : ht_oa_get (place ht slot key value) key = value ∧
      ∀ k2, ht.key_equal_fn key k2 = false →
        ht_oa_get (place ht slot key value) k2 = ht_oa_get ht k2 :=
    get_place (k := key) (v := value) hw hwf hl hi hocc rfl rfl rfl
  exact ⟨hwf, ⟨rfl, rfl, rfl, rfl, rfl, rfl, rfl⟩, rfl, hcnt.2, hget.1, hget.2, rfl⟩

/-! ## Insert and put on well-formed tables -/

theorem place_tomb_le {ht : BaseHashTableOA} (hc : CountInv ht) {slot : Nat}
    (hs : slot < ht.bucket_count) (key value : Ptr) :
    (place ht slot key value).tombstone_count ≤ ht.tombstone_count := by
  unfold place
  simp only
  split_ifs with h
  · have hlen : slot < ht.entries.length := by rw [hc.len]; exact hs
    have hpos := countP_pos_of_entry is_tombstone ht.entries slot hlen
      (by simp [is_tombstone, h])
    have ht0 := hc.tombs
    unfold tombstone_slots at ht0
    have hle := count_le_bucket hc
    have hfit := bucket_lt_usize hc
    rw [usize_dec_of_pos (by omega) (by unfold USIZE_MOD; omega)]
    omega
  · exact Nat.le_refl _

/-- Inserting a key that is stored: the call fails and the table keeps its content. -/
theorem insert_present {ht : BaseHashTableOA} (hw : WF ht) (hl : LawfulKeys ht)
    (heap : Nat → Bool) {key : Ptr} (value : Ptr) {j : Nat} (hj : Hit ht key j) :
    (ht_oa_insert heap ht key value).1 = false ∧
      Evolved ht (ht_oa_insert heap ht key value).2 := by
  obtain ⟨hev, _⟩ := insert_growth_spec hw hl heap
  cases hg : (insert_growth heap ht).1 with
  | false =>
    rw [insert_of_growth_fail hg]
    exact ⟨rfl, hev⟩
  | true =>
    obtain ⟨j2, hj2, _⟩ := hit_of_content hev.content hev.config.key_equal_fn hj
    have hf := find_slot_of_hit hev.wf (hev.lawful hl) hj2
    rw [insert_of_found hg (by rw [hf])]
    exact ⟨rfl, hev⟩

/-- Inserting a key that is not stored, borrowed semantics: the call succeeds exactly when
the growth stage does, and then the key is stored with its value. -/
theorem insert_absent {ht : BaseHashTableOA} (hw : WF ht) (hl : LawfulKeys ht)
    (hb : Borrowed ht) (heap : Nat → Bool) {key : Ptr} (value : Ptr) (habs : Absent ht key) :
    (ht_oa_insert heap ht key value).1 = (insert_growth heap ht).1 ∧
    ((ht_oa_insert heap ht key value).1 = false →
      Evolved ht (ht_oa_insert heap ht key value).2) ∧
    ((ht_oa_insert heap ht key value).1 = true →
      WF (ht_oa_insert heap ht key value).2 ∧
      SameConfig ht (ht_oa_insert heap ht key value).2 ∧
      (ht_oa_insert heap ht key value).2.bucket_count =
        (insert_growth heap ht).2.bucket_count ∧
      (ht_oa_insert heap ht key value).2.item_count = ht.item_count + 1 ∧
      ht_oa_get (ht_oa_insert heap ht key value).2 key = value ∧
      (∀ k2, ht.key_equal_fn key k2 = false →
        ht_oa_get (ht_oa_insert heap ht key value).2 k2 = ht_oa_get ht k2) ∧
      (ht_oa_insert heap ht key value).2.tombstone_count ≤ (insert_growth heap ht).2.tombstone_count ∧
      ∃ slot, (ht_oa_insert heap ht key value).2.entries =
        (insert_growth heap ht).2.entries.set slot ⟨key, value, HT_ENTRY_OCCUPIED⟩) := by
  obtain ⟨hev, hroom⟩ := insert_growth_spec hw hl heap
  cases hg : (insert_growth heap ht).1 with
  | false =>
    rw [insert_of_growth_fail hg]
    exact ⟨rfl, fun _ => hev, fun h => absurd h (by simp)⟩
  | true =>
    obtain ⟨slot, hfs, hlt, hocc, hpre⟩ := find_slot_room hev.wf (hev.absent habs) (hroom hg)
    rw [insert_of_slot hg hfs hocc (hev.borrowed hb)]
    obtain ⟨p1, p2, p3, p4, p5, p6, _⟩ :=
      place_spec hev.wf (hev.lawful hl) value (hev.absent habs) hlt hocc hpre
    refine ⟨rfl, fun h => absurd h (by simp), fun _ => ⟨p1, sameConfig_trans hev.config p2, p3,
      by rw [p4, hev.items], p5, ?_, place_tomb_le hev.wf.counts hlt key value, slot, rfl⟩⟩
    intro k2 hk2
    rw [p6 k2 (by rw [hev.config.key_equal_fn]; exact hk2), hev.get hw hl]

/-- Putting a key that is not stored behaves like inserting it, with the growth stage of
`ht_oa_put`. -/
theorem put_absent {ht : BaseHashTableOA} (hw : WF ht) (hl : LawfulKeys ht)
    (hb : Borrowed ht) (heap : Nat → Bool) {key : Ptr} (value : Ptr) (habs : Absent ht key) :
    (ht_oa_put heap ht key value).1 = (put_growth heap ht key).1 ∧
    ((ht_oa_put heap ht key value).1 = false →
      Evolved ht (ht_oa_put heap ht key value).2) ∧
    ((ht_oa_put heap ht key value).1 = true →
      WF (ht_oa_put heap ht key value).2 ∧
      SameConfig ht (ht_oa_put heap ht key value).2 ∧
      (ht_oa_put heap ht key value).2.bucket_count =
        (put_growth heap ht key).2.bucket_count ∧
      (ht_oa_put heap ht key value).2.item_count = ht.item_count + 1 ∧
      ht_oa_get (ht_oa_put heap ht key value).2 key = value ∧
      (∀ k2, ht.key_equal_fn key k2 = false →
        ht_oa_get (ht_oa_put heap ht key value).2 k2 = ht_oa_get ht k2) ∧
      (ht_oa_put heap ht key value).2.tombstone_count ≤ (put_growth heap ht key).2.tombstone_count ∧
      ∃ slot, (ht_oa_put heap ht key value).2.entries =
        (put_growth heap ht key).2.entries.set slot ⟨key, value, HT_ENTRY_OCCUPIED⟩) := by
  obtain ⟨hev, hroom⟩ := put_growth_spec hw hl heap key
  cases hg : (put_growth heap ht key).1 with
  | false =>
    rw [put_of_growth_fail hg]
    exact ⟨rfl, fun _ => hev, fun h => absurd h (by simp)⟩
  | true =>
    obtain ⟨slot, hfs, hlt, hocc, hpre⟩ := find_slot_room hev.wf (hev.absent habs) (hroom hg)
    rw [put_of_slot hg hfs hocc (hev.borrowed hb)]
    obtain ⟨p1, p2, p3, p4, p5, p6, _⟩ :=
      place_spec hev.wf (hev.lawful hl) value (hev.absent habs) hlt hocc hpre
    refine ⟨rfl, fun h => absurd h (by simp), fun _ => ⟨p1, sameConfig_trans hev.config p2, p3,
      by rw [p4, hev.items], p5, ?_, place_tomb_le hev.wf.counts hlt key value, slot, rfl⟩⟩
    intro k2 hk2
    rw [p6 k2 (by rw [hev.config.key_equal_fn]; exact hk2), hev.get hw hl]

/-- Putting a key that is stored, borrowed semantics: unless the growth stage fails, the
value is replaced and nothing else changes. -/
theorem put_present {ht : BaseHashTableOA} (hw : WF ht) (hl : LawfulKeys ht)
    (hb : Borrowed ht) (heap : Nat → Bool) {key : Ptr} (value : Ptr) {j : Nat}
    (hj : Hit ht key j) :
    (ht_oa_put heap ht key value).1 = (put_growth heap ht key).1 ∧
    ((ht_oa_put heap ht key value).1 = false →
      Evolved ht (ht_oa_put heap ht key value).2) ∧
    ((ht_oa_put heap ht key value).1 = true →
      WF (ht_oa_put heap ht key value).2 ∧
      LawfulKeys (ht_oa_put heap ht key value).2 ∧
      Borrowed (ht_oa_put heap ht key value).2 ∧
      (ht_oa_put heap ht key value).2.bucket_count =
        (put_growth heap ht key).2.bucket_count ∧
      (ht_oa_put heap ht key value).2.item_count = ht.item_count ∧
      ht_oa_get (ht_oa_put heap ht key value).2 key = value ∧
      ∀ k2, ht.key_equal_fn key k2 = false →
        ht_oa_get (ht_oa_put heap ht key value).2 k2 = ht_oa_get ht k2) := by
  obtain ⟨hev, _⟩ := put_growth_spec hw hl heap key
  cases hg : (put_growth heap ht key).1 with
  | false =>
    rw [put_of_growth_fail hg]
    exact ⟨rfl, fun _ => hev, fun h => absurd h (by simp)⟩
  | true =>
    obtain ⟨j2, hj2, _⟩ := hit_of_content hev.content hev.config.key_equal_fn hj
    have hf := find_slot_of_hit hev.wf (hev.lawful hl) hj2
    obtain ⟨calls, hput⟩ := put_of_found value hg hf (hev.borrowed hb)
    rw [hput]
    have hl2 := hev.lawful hl
    have hwf2 : WF { (put_growth heap ht key).2 with
        entries := (put_growth heap ht key).2.entries.set j2
          ⟨(entry_at (put_growth heap ht key).2.entries j2).key, value,
            (entry_at (put_growth heap ht key).2.entries j2).state⟩
        calls := calls } :=
      wf_update (i := j2) (x := ⟨(entry_at (put_growth heap ht key).2.entries j2).key, value,
            (entry_at (put_growth heap ht key).2.entries j2).state⟩)
        hev.wf rfl rfl rfl rfl rfl rfl rfl rfl
    have hget := get_update (i := j2) (k := key) (v := value)
      (x := ⟨(entry_at (put_growth heap ht key).2.entries j2).key, value,
            (entry_at (put_growth heap ht key).2.entries j2).state⟩)
      hev.wf hwf2 hl2 hj2 rfl rfl rfl rfl rfl rfl
    refine ⟨rfl, fun h => absurd h (by simp), fun _ => ⟨hwf2, lawful_of_eq hl2 rfl rfl,
      hev.borrowed hb, rfl, hev.items, hget.1, ?_⟩⟩
    intro k2 hk2
    rw [hget.2 k2 (by rw [hev.config.key_equal_fn]; exact hk2), hev.get hw hl]

/-! ## Remove, clear and init -/

theorem remove_absent {ht : BaseHashTableOA} {key : Ptr} (habs : Absent ht key) :
    ht_oa_remove ht key = (false, ht) := by
  unfold ht_oa_remove
  simp only
  split_ifs with h1
  · rfl
  · rw [find_slot_of_absent habs]
    cases (ht_oa_find_slot ht key).1 <;> simp

/-- Removing a stored key, found in slot `j`. -/
theorem remove_present {ht : BaseHashTableOA} (hw : WF ht) (hl : LawfulKeys ht) {key : Ptr}
    {j : Nat} (hj : Hit ht key j) :
    (ht_oa_remove ht key).1 = true ∧
      (ht_oa_remove ht key).2.entries = ht.entries.set j ⟨0, 0, HT_ENTRY_TOMBSTONE⟩ ∧
      (ht_oa_remove ht key).2.bucket_count = ht.bucket_count ∧
      (ht_oa_remove ht key).2.item_count + 1 = ht.item_count ∧
      (ht_oa_remove ht key).2.tombstone_count = ht.tombstone_count + 1 ∧
      WF (ht_oa_remove ht key).2 ∧
      (ht_oa_remove ht key).2.hash_fn = ht.hash_fn ∧
      (ht_oa_remove ht key).2.key_equal_fn = ht.key_equal_fn ∧
      (ht_oa_remove ht key).2.key_copy_fn = ht.key_copy_fn ∧
      (ht_oa_remove ht key).2.value_copy_fn = ht.value_copy_fn ∧
      Absent (ht_oa_remove ht key).2 key ∧
      ∀ k2, ht.key_equal_fn key k2 = false →
        ht_oa_get (ht_oa_remove ht key).2 k2 = ht_oa_get ht k2 := by
  have hb := bucket_pos_of_hit hw.counts hj
  have hi := item_pos_of_hit hw.counts hj
  have hf := find_slot_of_hit hw hl hj
  have hstep : ∃ calls, ht_oa_remove ht key = (true, { ht with
      entries := ht.entries.set j ⟨0, 0, HT_ENTRY_TOMBSTONE⟩
      item_count := usize_dec ht.item_count
      tombstone_count := usize_inc ht.tombstone_count
      calls := calls }) := by
    unfold ht_oa_remove
    simp only
    rw [if_neg (by omega), hf]
    simp only [hj.1, and_self, if_true]
    exact ⟨_, rfl⟩
  obtain ⟨calls, hrem⟩ := hstep
  rw [hrem]
  have hcnt : CountInv { ht with
      entries := ht.entries.set j ⟨0, 0, HT_ENTRY_TOMBSTONE⟩
      item_count := usize_dec ht.item_count
      tombstone_count := usize_inc ht.tombstone_count
      calls := calls } ∧ _ ∧ _ := countInv_remove hw.counts hj.1 rfl rfl rfl rfl
  have hwf : WF { ht with
      entries := ht.entries.set j ⟨0, 0, HT_ENTRY_TOMBSTONE⟩
      item_count := usize_dec ht.item_count
      tombstone_count := usize_inc ht.tombstone_count
      calls := calls } := wf_remove hw hj.1 rfl rfl rfl rfl rfl rfl
  have hget := get_remove hw hwf hl hj rfl rfl rfl
  exact ⟨rfl, rfl, rfl, hcnt.2.1, hcnt.2.2, hwf, rfl, rfl, rfl, rfl, hget.1, hget.2⟩

/-- The loop of `ht_oa_clear`, after `c` iterations. -/
theorem clear_fold (ht : BaseHashTableOA) :
    ∀ c, ((List.range c).foldl clear_step ht).entries.length = ht.entries.length ∧
      ((List.range c).foldl clear_step ht).bucket_count = ht.bucket_count ∧
      ((List.range c).foldl clear_step ht).hash_fn = ht.hash_fn ∧
      ((List.range c).foldl clear_step ht).key_equal_fn = ht.key_equal_fn ∧
      ((List.range c).foldl clear_step ht).key_copy_fn = ht.key_copy_fn ∧
      ((List.range c).foldl clear_step ht).value_copy_fn = ht.value_copy_fn ∧
      ((List.range c).foldl clear_step ht).key_free_fn = ht.key_free_fn ∧
      ((List.range c).foldl clear_step ht).value_free_fn = ht.value_free_fn ∧
      ((List.range c).foldl clear_step ht).arena = ht.arena ∧
      ∀ j, entry_at ((List.range c).foldl clear_step ht).entries j =
        if j < c then EMPTY_ENTRY else entry_at ht.entries j := by
  intro c
  induction c with
  | zero => simp
  | succ c ih =>
    rw [List.range_succ, List.foldl_append]
    obtain ⟨h1, h2, h3, h4, h5, h6, h7, h8, h9, h10⟩ := ih
    simp only [List.foldl_cons, List.foldl_nil, clear_step, List.length_set]
    refine ⟨h1, h2, h3, h4, h5, h6, h7, h8, h9, ?_⟩
    intro j
    rw [entry_at_set, h10]
    by_cases hjc : c = j
    · subst hjc
      by_cases hl : c < ((List.range c).foldl clear_step ht).entries.length
      · simp [hl]
      · have hge : ht.entries.length ≤ c := by rw [← h1]; omega
        simp [hl, entry_at_of_ge hge]
    · have : ¬ (c = j ∧ c < ((List.range c).foldl clear_step ht).entries.length) :=
        fun h => hjc h.1
      rw [if_neg this]
      by_cases hlt : j < c
      · rw [if_pos hlt, if_pos (by omega)]
      · rw [if_neg hlt, if_neg (by omega)]

/-- The table `ht_oa_clear` leaves. -/
theorem clear_spec (ht : BaseHashTableOA) (hlen : ht.entries.length = ht.bucket_count) :
    (ht_oa_clear ht).entries = List.replicate ht.bucket_count EMPTY_ENTRY ∧
      (ht_oa_clear ht).bucket_count = ht.bucket_count ∧
      (ht_oa_clear ht).item_count = 0 ∧ (ht_oa_clear ht).tombstone_count = 0 ∧
      (ht_oa_clear ht).hash_fn = ht.hash_fn ∧
      (ht_oa_clear ht).key_equal_fn = ht.key_equal_fn ∧
      (ht_oa_clear ht).key_copy_fn = ht.key_copy_fn ∧
      (ht_oa_clear ht).value_copy_fn = ht.value_copy_fn := by
  obtain ⟨h1, h2, h3, h4, h5, h6, _, _, _, h10⟩ := clear_fold ht ht.bucket_count
  unfold ht_oa_clear
  simp only
  refine ⟨?_, h2, trivial, trivial, h3, h4, h5, h6⟩
  apply List.ext_getElem
  · rw [h1, hlen, List.length_replicate]
  · intro n hn1 hn2
    rw [List.getElem_replicate, ← entry_at_of_lt hn1, h10]
    rw [h1, hlen] at hn1
    rw [if_pos hn1]

theorem init_spec {heap : Nat → Bool} {n : Nat} {hash_fn : Ptr → Nat}
    {key_equal_fn : Ptr → Ptr → Bool} {arena : Option Arena} {ht : BaseHashTableOA}
    (h : ht_oa_init heap n hash_fn key_equal_fn arena = some ht) :
    WF ht ∧ Borrowed ht ∧ ht.hash_fn = hash_fn ∧ ht.key_equal_fn = key_equal_fn ∧
      ht.bucket_count = (if n = 0 then BASE_HT_OA_DEFAULT_CAPACITY else n) ∧
      ht.item_count = 0 ∧ ht.tombstone_count = 0 ∧
      ht.entries = List.replicate ht.bucket_count EMPTY_ENTRY := by
  unfold ht_oa_init at h
  simp only at h
  by_cases ha : (alloc_entries heap arena
      (if n = 0 then BASE_HT_OA_DEFAULT_CAPACITY else n)).1 = false
  · rw [if_pos ha] at h; exact absurd h (by simp)
  · rw [if_neg ha] at h
    have ha2 : (alloc_entries heap arena
      (if n = 0 then BASE_HT_OA_DEFAULT_CAPACITY else n)).1 = true := by simpa using ha
    have hfit := alloc_entries_fits ha2
    have heq := Option.some.inj h
    subst heq
    exact ⟨wf_fresh rfl rfl hfit rfl rfl, ⟨rfl, rfl⟩, rfl, rfl, rfl, rfl, rfl, rfl⟩

/-! ## The stages of insert and put -/

theorem insert_stages (heap : Nat → Bool) (ht : BaseHashTableOA) (key value : Ptr) :
    ht_oa_insert heap ht key value =
      if (insert_growth heap ht).1 = false then (false, (insert_growth heap ht).2)
      else if (ht_oa_find_slot (insert_growth heap ht).2 key).2 = true then
        (false, (insert_growth heap ht).2)
      else if (retry_stage heap (insert_growth heap ht).2 key
          (ht_oa_find_slot (insert_growth heap ht).2 key).1).1 = false then
        (false, (retry_stage heap (insert_growth heap ht).2 key
          (ht_oa_find_slot (insert_growth heap ht).2 key).1).2.1)
      else
        store_stage (retry_stage heap (insert_growth heap ht).2 key
            (ht_oa_find_slot (insert_growth heap ht).2 key).1).2.1
          ((retry_stage heap (insert_growth heap ht).2 key
            (ht_oa_find_slot (insert_growth heap ht).2 key).1).2.2.getD 0) key value := by
  unfold ht_oa_insert insert_growth
  simp only
  generalize (if ht.bucket_count = 0 then ht_oa_rehash heap ht BASE_HT_OA_DEFAULT_CAPACITY
    else (true, ht)) = r1
  by_cases h1 : r1.1 = false
  · simp only [h1, if_true]
  · simp only [h1, if_false]
    generalize (if usize_add r1.2.item_count 1 ≥ r1.2.bucket_count ∨
        load_exceeds (usize_add r1.2.item_count r1.2.tombstone_count) r1.2.bucket_count = true then
      ht_oa_rehash heap r1.2
        (if r1.2.bucket_count > 0 then usize_mul r1.2.bucket_count 2
         else BASE_HT_OA_DEFAULT_CAPACITY)
      else (true, r1.2)) = r2
    rfl

theorem put_stages (heap : Nat → Bool) (ht : BaseHashTableOA) (key value : Ptr) :
    ht_oa_put heap ht key value =
      if (put_growth heap ht key).1 = false then (false, (put_growth heap ht key).2)
      else if (ht_oa_find_slot (put_growth heap ht key).2 key).2 = true then
        update_stage (put_growth heap ht key).2
          ((ht_oa_find_slot (put_growth heap ht key).2 key).1.getD 0) value
      else if (retry_stage heap (put_growth heap ht key).2 key
          (ht_oa_find_slot (put_growth heap ht key).2 key).1).1 = false then
        (false, (retry_stage heap (put_growth heap ht key).2 key
          (ht_oa_find_slot (put_growth heap ht key).2 key).1).2.1)
      else
        store_stage (retry_stage heap (put_growth heap ht key).2 key
            (ht_oa_find_slot (put_growth heap ht key).2 key).1).2.1
          ((retry_stage heap (put_growth heap ht key).2 key
            (ht_oa_find_slot (put_growth heap ht key).2 key).1).2.2.getD 0) key value := by
  unfold ht_oa_put put_growth
  simp only
  generalize (if ht.bucket_count = 0 then ht_oa_rehash heap ht BASE_HT_OA_DEFAULT_CAPACITY
    else (true, ht)) = r1
  by_cases h1 : r1.1 = false
  · simp only [h1, if_true]
  · simp only [h1, if_false]
    generalize (if usize_add r1.2.item_count (if ht_oa_contains r1.2 key = true then 0 else 1) ≥
          r1.2.bucket_count ∨
        load_exceeds (usize_add (usize_add r1.2.item_count r1.2.tombstone_count)
          (if ht_oa_contains r1.2 key = true then 0 else 1)) r1.2.bucket_count = true then
      ht_oa_rehash heap r1.2
        (if r1.2.bucket_count > 0 then usize_mul r1.2.bucket_count 2
         else BASE_HT_OA_DEFAULT_CAPACITY)
      else (true, r1.2)) = r2
    rfl

/-! ## The count invariant, for arbitrary functions and callbacks -/

theorem countInv_congr {ht ht2 : BaseHashTableOA} (hc : CountInv ht)
    (he : ht2.entries = ht.entries) (hb : ht2.bucket_count = ht.bucket_count)
    (hi : ht2.item_count = ht.item_count) (ht0 : ht2.tombstone_count = ht.tombstone_count) :
    CountInv ht2 :=
  ⟨by rw [he, hb]; exact hc.len, by rw [hb]; exact hc.fits,
    by rw [hi, hc.items]; unfold occupied_slots; rw [he],
    by rw [ht0, hc.tombs]; unfold tombstone_slots; rw [he]⟩

theorem countInv_rehash_probe (key value : Ptr) (s : Nat) :
    ∀ fuel (t : BaseHashTableOA) (cur : Nat), CountInv t → cur < t.bucket_count →
      CountInv (rehash_probe key value s fuel t cur).1 ∧
        (rehash_probe key value s fuel t cur).1.bucket_count = t.bucket_count := by
  intro fuel
  induction fuel with
  | zero => intro t cur hc _; exact ⟨hc, rfl⟩
  | succ f ih =>
    intro t cur hc hcur
    simp only [rehash_probe]
    by_cases hst : (entry_at t.entries cur).state = HT_ENTRY_EMPTY
    · rw [if_pos hst]
      have hp : CountInv { t with
          entries := t.entries.set cur ⟨key, value, HT_ENTRY_OCCUPIED⟩
          item_count := usize_inc t.item_count } ∧ _ :=
        countInv_place hc hcur (by rw [hst]; decide) rfl rfl rfl
          (by rw [if_neg (by rw [hst]; decide)])
      exact ⟨hp.1, rfl⟩
    · rw [if_neg hst]
      split_ifs
      · exact ih t _ hc (Nat.mod_lt _ (by omega))
      · exact ⟨hc, rfl⟩

theorem countInv_rehash_step (old_entries : List HashTableEntryOA) (t : BaseHashTableOA)
    (i : Nat) (hc : CountInv t) :
    CountInv (rehash_step old_entries t i) ∧
      (rehash_step old_entries t i).bucket_count = t.bucket_count := by
  unfold rehash_step
  split_ifs
  · simp only
    by_cases hb : t.bucket_count = 0
    · rw [hb]; exact ⟨hc, hb.symm ▸ rfl⟩
    · exact countInv_rehash_probe _ _ _ _ t _ hc (start_index_lt t _ (Nat.pos_of_ne_zero hb))
  · exact ⟨hc, rfl⟩

theorem countInv_rehash_fold (old_entries : List HashTableEntryOA) (t : BaseHashTableOA)
    (hc : CountInv t) (l : List Nat) :
    CountInv (l.foldl (rehash_step old_entries) t) := by
  induction l generalizing t with
  | nil => exact hc
  | cons a l ih => exact ih _ (countInv_rehash_step old_entries t a hc).1

/-- The count invariant survives `ht_oa_rehash`, successful or not. -/
theorem countInv_rehash {ht : BaseHashTableOA} (hc : CountInv ht) (heap : Nat → Bool)
    (n : Nat) : CountInv (ht_oa_rehash heap ht n).2 := by
  unfold ht_oa_rehash
  simp only
  by_cases ha : (alloc_entries heap ht.arena (rehash_bucket_count ht n)).1 = false
  · rw [if_pos ha]
    exact countInv_congr hc rfl rfl rfl rfl
  · rw [if_neg ha]
    have ha2 : (alloc_entries heap ht.arena (rehash_bucket_count ht n)).1 = true := by
      simpa using ha
    apply countInv_rehash_fold
    exact (wf_fresh (n := rehash_bucket_count ht n) rfl rfl (alloc_entries_fits ha2) rfl rfl).counts

theorem find_loop_lt (ht : BaseHashTableOA) (key : Ptr) (s : Nat) (hb : 0 < ht.bucket_count) :
    ∀ fuel cur ft, cur < ht.bucket_count → (∀ t, ft = some t → t < ht.bucket_count) →
      ∀ i, (find_slot_loop ht key s fuel cur ft).1 = some i → i < ht.bucket_count := by
  intro fuel
  induction fuel with
  | zero => intro cur ft _ hft i hi; exact hft i hi
  | succ f ih =>
    intro cur ft hcur hft i
    simp only [find_slot_loop]
    cases hst : (entry_at ht.entries cur).state with
    | HT_ENTRY_EMPTY =>
      simp only
      intro hi
      cases ft with
      | none => simp at hi; omega
      | some t => simp at hi; subst hi; exact hft _ rfl
    | HT_ENTRY_TOMBSTONE =>
      simp only
      have hft2 : ∀ t, (if ft.isNone = true then some cur else ft) = some t →
          t < ht.bucket_count := by
        intro t htt
        cases ft with
        | none => simp at htt; omega
        | some t0 => simp at htt; subst htt; exact hft _ rfl
      generalize (if ft.isNone = true then some cur else ft) = ft2 at hft2
      split_ifs
      · exact ih _ _ (Nat.mod_lt _ hb) hft2 i
      · exact hft2 i
    | HT_ENTRY_OCCUPIED =>
      simp only
      split_ifs
      · intro hi; simp at hi; omega
      · exact ih _ _ (Nat.mod_lt _ hb) hft i
      · exact hft i

theorem find_slot_lt {ht : BaseHashTableOA} {key : Ptr} {i : Nat}
    (h : (ht_oa_find_slot ht key).1 = some i) : i < ht.bucket_count := by
  unfold ht_oa_find_slot at h
  by_cases hb : ht.bucket_count = 0
  · rw [if_pos hb] at h; exact absurd h (by simp)
  · rw [if_neg hb] at h
    have hbpos := Nat.pos_of_ne_zero hb
    exact find_loop_lt ht key _ hbpos _ _ _ (start_index_lt ht key hbpos)
      (fun t ht0 => by simp at ht0) i h

theorem countInv_insert_growth {ht : BaseHashTableOA} (hc : CountInv ht) (heap : Nat → Bool) :
    CountInv (insert_growth heap ht).2 := by
  unfold insert_growth
  simp only
  have h1 : CountInv (if ht.bucket_count = 0 then
      ht_oa_rehash heap ht BASE_HT_OA_DEFAULT_CAPACITY else (true, ht)).2 := by
    split_ifs
    · exact countInv_rehash hc heap _
    · exact hc
  generalize (if ht.bucket_count = 0 then ht_oa_rehash heap ht BASE_HT_OA_DEFAULT_CAPACITY
    else (true, ht)) = r1 at h1
  by_cases hr : r1.1 = false
  · rw [if_pos hr]; exact h1
  · rw [if_neg hr]
    by_cases hcond : usize_add r1.2.item_count 1 ≥ r1.2.bucket_count ∨
        load_exceeds (usize_add r1.2.item_count r1.2.tombstone_count) r1.2.bucket_count = true
    · rw [if_pos hcond]; exact countInv_rehash h1 heap _
    · rw [if_neg hcond]; exact h1

theorem countInv_put_growth {ht : BaseHashTableOA} (hc : CountInv ht) (heap : Nat → Bool)
    (key : Ptr) : CountInv (put_growth heap ht key).2 := by
  unfold put_growth
  simp only
  have h1 : CountInv (if ht.bucket_count = 0 then
      ht_oa_rehash heap ht BASE_HT_OA_DEFAULT_CAPACITY else (true, ht)).2 := by
    split_ifs
    · exact countInv_rehash hc heap _
    · exact hc
  generalize (if ht.bucket_count = 0 then ht_oa_rehash heap ht BASE_HT_OA_DEFAULT_CAPACITY
    else (true, ht)) = r1 at h1
  by_cases hr : r1.1 = false
  · rw [if_pos hr]; exact h1
  · rw [if_neg hr]
    generalize (if ht_oa_contains r1.2 key = true then 0 else 1) = extra
    by_cases hcond : usize_add r1.2.item_count extra ≥ r1.2.bucket_count ∨
        load_exceeds (usize_add (usize_add r1.2.item_count r1.2.tombstone_count) extra)
          r1.2.bucket_count = true
    · rw [if_pos hcond]; exact countInv_rehash h1 heap _
    · rw [if_neg hcond]; exact h1

theorem slot_usable {ht : BaseHashTableOA} {slot0 : Option Nat}
    (h : ¬ slot_unusable ht slot0 = true) :
    ∃ i, slot0 = some i ∧ (entry_at ht.entries i).state ≠ HT_ENTRY_OCCUPIED := by
  cases slot0 with
  | none => simp [slot_unusable] at h
  | some i => exact ⟨i, rfl, by simpa [slot_unusable] using h⟩

/-- The retry stage keeps the count invariant, and a slot it reports is inside the bucket
array and not Occupied. -/
theorem countInv_retry {ht : BaseHashTableOA} (hc : CountInv ht) (heap : Nat → Bool)
    (key : Ptr) :
    CountInv (retry_stage heap ht key (ht_oa_find_slot ht key).1).2.1 ∧
      ((retry_stage heap ht key (ht_oa_find_slot ht key).1).1 = true →
        ∃ i, (retry_stage heap ht key (ht_oa_find_slot ht key).1).2.2 = some i ∧
          i < (retry_stage heap ht key (ht_oa_find_slot ht key).1).2.1.bucket_count ∧
          (entry_at (retry_stage heap ht key (ht_oa_find_slot ht key).1).2.1.entries i).state
            ≠ HT_ENTRY_OCCUPIED) := by
  unfold retry_stage
  simp only
  by_cases hu : slot_unusable ht (ht_oa_find_slot ht key).1 = true
  · rw [if_pos hu]
    by_cases hfull : ht.item_count = ht.bucket_count ∧ ht.tombstone_count = 0
    · rw [if_pos hfull]
      have hcr := countInv_rehash hc heap (usize_mul ht.bucket_count 2)
      by_cases hr : (ht_oa_rehash heap ht (usize_mul ht.bucket_count 2)).1 = false
      · rw [if_pos hr]; exact ⟨hcr, by simp⟩
      · rw [if_neg hr]
        by_cases h2 : (ht_oa_find_slot (ht_oa_rehash heap ht (usize_mul ht.bucket_count 2)).2
            key).2 = true ∨ slot_unusable (ht_oa_rehash heap ht (usize_mul ht.bucket_count 2)).2
            (ht_oa_find_slot (ht_oa_rehash heap ht (usize_mul ht.bucket_count 2)).2 key).1 = true
        · rw [if_pos h2]; exact ⟨hcr, by simp⟩
        · rw [if_neg h2]
          refine ⟨hcr, fun _ => ?_⟩
          obtain ⟨i, hi, hocc⟩ := slot_usable (fun h => h2 (Or.inr h))
          exact ⟨i, hi, find_slot_lt hi, hocc⟩
    · rw [if_neg hfull]; exact ⟨hc, by simp⟩
  · rw [if_neg hu]
    refine ⟨hc, fun _ => ?_⟩
    obtain ⟨i, hi, hocc⟩ := slot_usable hu
    exact ⟨i, hi, find_slot_lt hi, hocc⟩

theorem countInv_store {ht : BaseHashTableOA} (hc : CountInv ht) {slot : Nat} (key value : Ptr)
    (hs : slot < ht.bucket_count)
    (hocc : (entry_at ht.entries slot).state ≠ HT_ENTRY_OCCUPIED) :
    CountInv (store_stage ht slot key value).2 := by
  unfold store_stage
  simp only
  generalize copy_ptr ht.key_copy_fn key = nk
  generalize copy_ptr ht.value_copy_fn value = nv
  by_cases h1 : ht.key_copy_fn.isSome = true ∧ nk = 0
  · rw [if_pos h1]; exact countInv_congr hc rfl rfl rfl rfl
  · rw [if_neg h1]
    by_cases h2 : ht.value_copy_fn.isSome = true ∧ nv = 0
    · rw [if_pos h2]; exact countInv_congr hc rfl rfl rfl rfl
    · rw [if_neg h2]
      have hp : CountInv (place ht slot nk nv) ∧ _ :=
        countInv_place (k := nk) (v := nv) hc hs hocc rfl rfl rfl rfl
      exact @countInv_congr (place ht slot nk nv) _ hp.1 rfl rfl rfl rfl

theorem countInv_update_stage {ht : BaseHashTableOA} (hc : CountInv ht) (slot : Nat)
    (value : Ptr) : CountInv (update_stage ht slot value).2 := by
  unfold update_stage
  simp only
  generalize copy_ptr ht.value_copy_fn value = nv
  by_cases h1 : ht.value_copy_fn.isSome = true ∧ nv = 0
  · rw [if_pos h1]; exact countInv_congr hc rfl rfl rfl rfl
  · rw [if_neg h1]
    exact countInv_update hc (i := slot)
      (x := ⟨(entry_at ht.entries slot).key, nv, (entry_at ht.entries slot).state⟩)
      rfl rfl rfl rfl rfl

theorem countInv_insert {ht : BaseHashTableOA} (hc : CountInv ht) (heap : Nat → Bool)
    (key value : Ptr) : CountInv (ht_oa_insert heap ht key value).2 := by
  rw [insert_stages]
  have hg := countInv_insert_growth hc heap
  obtain ⟨hr, hslot⟩ := countInv_retry hg heap key
  by_cases h1 : (insert_growth heap ht).1 = false
  · rw [if_pos h1]; exact hg
  · rw [if_neg h1]
    by_cases h2 : (ht_oa_find_slot (insert_growth heap ht).2 key).2 = true
    · rw [if_pos h2]; exact hg
    · rw [if_neg h2]
      by_cases h3 : (retry_stage heap (insert_growth heap ht).2 key
          (ht_oa_find_slot (insert_growth heap ht).2 key).1).1 = false
      · rw [if_pos h3]; exact hr
      · rw [if_neg h3]
        obtain ⟨i, hi, hlt, hocc⟩ := hslot (by simpa using h3)
        rw [hi]
        exact countInv_store hr key value hlt hocc

theorem countInv_put {ht : BaseHashTableOA} (hc : CountInv ht) (heap : Nat → Bool)
    (key value : Ptr) : CountInv (ht_oa_put heap ht key value).2 := by
  rw [put_stages]
  have hg := countInv_put_growth hc heap key
  obtain ⟨hr, hslot⟩ := countInv_retry hg heap key
  by_cases h1 : (put_growth heap ht key).1 = false
  · rw [if_pos h1]; exact hg
  · rw [if_neg h1]
    by_cases h2 : (ht_oa_find_slot (put_growth heap ht key).2 key).2 = true
    · rw [if_pos h2]; exact countInv_update_stage hg _ _
    · rw [if_neg h2]
      by_cases h3 : (retry_stage heap (put_growth heap ht key).2 key
          (ht_oa_find_slot (put_growth heap ht key).2 key).1).1 = false
      · rw [if_pos h3]; exact hr
      · rw [if_neg h3]
        obtain ⟨i, hi, hlt, hocc⟩ := hslot (by simpa using h3)
        rw [hi]
        exact countInv_store hr key value hlt hocc

theorem countInv_remove_op {ht : BaseHashTableOA} (hc : CountInv ht) (key : Ptr) :
    CountInv (ht_oa_remove ht key).2 := by
  unfold ht_oa_remove
  simp only
  by_cases h1 : ht.bucket_count = 0 ∨ ht.item_count = 0
  · rw [if_pos h1]; exact hc
  · rw [if_neg h1]
    cases hs : (ht_oa_find_slot ht key).1 with
    | none => exact hc
    | some slot =>
      simp only
      by_cases h2 : (ht_oa_find_slot ht key).2 = true ∧
          (entry_at ht.entries slot).state = HT_ENTRY_OCCUPIED
      · rw [if_pos h2]
        have hp : CountInv { ht with
            entries := ht.entries.set slot ⟨0, 0, HT_ENTRY_TOMBSTONE⟩
            item_count := usize_dec ht.item_count
            tombstone_count := usize_inc ht.tombstone_count } ∧ _ ∧ _ :=
          countInv_remove hc h2.2 rfl rfl rfl rfl
        exact countInv_congr hp.1 rfl rfl rfl rfl
      · rw [if_neg h2]; exact hc

theorem countInv_empty {t : BaseHashTableOA} {n : Nat}
    (he : t.entries = List.replicate n EMPTY_ENTRY)
    (hb : t.bucket_count = n) (hfit : n * SIZEOF_ENTRY < USIZE_MOD)
    (hic : t.item_count = 0) (htc : t.tombstone_count = 0) : CountInv t :=
  (wf_fresh he hb hfit hic htc).counts

theorem countInv_clear {ht : BaseHashTableOA} (hc : CountInv ht) : CountInv (ht_oa_clear ht) := by
  obtain ⟨h1, h2, h3, h4, _⟩ := clear_spec ht hc.len
  exact countInv_empty h1 h2 hc.fits h3 h4

theorem countInv_free (ht : BaseHashTableOA) : CountInv (ht_oa_free ht) := by
  unfold ht_oa_free
  exact countInv_empty (n := 0) rfl rfl (by decide) rfl rfl

/-- Every table state reached through the API satisfies the count invariant. -/
theorem countInv_of_reachable {ht : BaseHashTableOA} (h : Reachable ht) : CountInv ht := by
  induction h with
  | init heap n hash_fn key_equal_fn arena ht h => exact (init_spec h).1.counts
  | set_managed_kv ht kc kf vc vf _ ih => exact countInv_congr ih rfl rfl rfl rfl
  | insert heap ht key value _ ih => exact countInv_insert ih heap key value
  | put heap ht key value _ ih => exact countInv_put ih heap key value
  | remove ht key _ ih => exact countInv_remove_op ih key
  | clear ht _ ih => exact countInv_clear ih
  | free ht _ _ => exact countInv_free ht
  | rehash heap ht n _ ih => exact countInv_rehash ih heap n

/-! ## Operations keep tables well-formed -/

theorem lawful_sample {ht : BaseHashTableOA} (hh : ht.hash_fn = sample_hash)
    (hk : ht.key_equal_fn = sample_equal) : LawfulKeys ht := by
  constructor
  · intro a; rw [hk]; simp [sample_equal]
  · intro a b; rw [hk]; simp only [sample_equal, decide_eq_true_eq]; exact fun h => h.symm
  · intro a b c; rw [hk]; simp only [sample_equal, decide_eq_true_eq]
    exact fun h1 h2 => h1.trans h2
  · intro a b; rw [hk, hh]; simp only [sample_equal, decide_eq_true_eq, sample_hash]
    exact fun h => h

theorem absent_fresh {t : BaseHashTableOA} {n : Nat}
    (he : t.entries = List.replicate n EMPTY_ENTRY) (key : Ptr) : Absent t key := by
  intro i hi
  have := hi.1
  rw [he, entry_at_replicate] at this
  exact absurd this (by decide)

/-- Whatever it returns, `ht_oa_insert` leaves a well-formed table with the same
functions. -/
theorem insert_keeps {ht : BaseHashTableOA} (hw : WF ht) (hl : LawfulKeys ht)
    (hb : Borrowed ht) (heap : Nat → Bool) (key value : Ptr) :
    WF (ht_oa_insert heap ht key value).2 ∧ SameConfig ht (ht_oa_insert heap ht key value).2 := by
  rcases absent_or_hit ht key with habs | ⟨j, hj⟩
  · obtain ⟨_, h2, h3⟩ := insert_absent hw hl hb heap value habs
    cases hr : (ht_oa_insert heap ht key value).1 with
    | false => exact ⟨(h2 hr).wf, (h2 hr).config⟩
    | true => exact ⟨(h3 hr).1, (h3 hr).2.1⟩
  · obtain ⟨_, h2⟩ := insert_present hw hl heap value hj
    exact ⟨h2.wf, h2.config⟩

theorem lawful_of_config {ht ht2 : BaseHashTableOA} (hl : LawfulKeys ht)
    (hc : SameConfig ht ht2) : LawfulKeys ht2 := lawful_of_eq hl hc.hash_fn hc.key_equal_fn

theorem borrowed_of_config {ht ht2 : BaseHashTableOA} (hb : Borrowed ht)
    (hc : SameConfig ht ht2) : Borrowed ht2 :=
  ⟨by rw [hc.key_copy_fn]; exact hb.1, by rw [hc.value_copy_fn]; exact hb.2⟩

/-- Whatever it returns, `ht_oa_put` leaves a well-formed table with lawful functions and
borrowed semantics. -/
theorem put_keeps {ht : BaseHashTableOA} (hw : WF ht) (hl : LawfulKeys ht)
    (hb : Borrowed ht) (heap : Nat → Bool) (key value : Ptr) :
    WF (ht_oa_put heap ht key value).2 ∧ LawfulKeys (ht_oa_put heap ht key value).2 ∧
      Borrowed (ht_oa_put heap ht key value).2 := by
  rcases absent_or_hit ht key with habs | ⟨j, hj⟩
  · obtain ⟨_, h2, h3⟩ := put_absent hw hl hb heap value habs
    cases hr : (ht_oa_put heap ht key value).1 with
    | false => exact ⟨(h2 hr).wf, (h2 hr).lawful hl, (h2 hr).borrowed hb⟩
    | true =>
      exact ⟨(h3 hr).1, lawful_of_config hl (h3 hr).2.1, borrowed_of_config hb (h3 hr).2.1⟩
  · obtain ⟨_, h2, h3⟩ := put_present hw hl hb heap value hj
    cases hr : (ht_oa_put heap ht key value).1 with
    | false => exact ⟨(h2 hr).wf, (h2 hr).lawful hl, (h2 hr).borrowed hb⟩
    | true => exact ⟨(h3 hr).1, (h3 hr).2.1, (h3 hr).2.2.1⟩

/-- Whatever it returns, `ht_oa_remove` leaves a well-formed table with lawful functions
and borrowed semantics. -/
theorem remove_keeps {ht : BaseHashTableOA} (hw : WF ht) (hl : LawfulKeys ht)
    (hb : Borrowed ht) (key : Ptr) :
    WF (ht_oa_remove ht key).2 ∧ LawfulKeys (ht_oa_remove ht key).2 ∧
      Borrowed (ht_oa_remove ht key).2 := by
  rcases absent_or_hit ht key with habs | ⟨j, hj⟩
  · rw [remove_absent habs]; exact ⟨hw, hl, hb⟩
  · obtain ⟨_, _, _, _, _, h6, h7, h8, h9, h10, _⟩ := remove_present hw hl hj
    exact ⟨h6, lawful_of_eq hl h7 h8, ⟨by rw [h9]; exact hb.1, by rw [h10]; exact hb.2⟩⟩

theorem wf_sample_table {n : Nat} (h : n * SIZEOF_ENTRY < USIZE_MOD) :
    WF (sample_table n) ∧ LawfulKeys (sample_table n) ∧ Borrowed (sample_table n) :=
  ⟨wf_fresh rfl rfl h rfl rfl, lawful_sample rfl rfl, ⟨rfl, rfl⟩⟩

theorem contains_eq_false_of_absent {ht : BaseHashTableOA} {key : Ptr} (h : Absent ht key) :
    ht_oa_contains ht key = false := by
  unfold ht_oa_contains
  rw [get_of_absent h]
  decide

theorem countP_exclusive (es : List HashTableEntryOA) :
    es.countP is_occupied + es.countP is_tombstone ≤ es.length := by
  induction es with
  | nil => simp
  | cons e es ih =>
    simp only [List.countP_cons, List.length_cons]
    cases hst : e.state <;> simp [is_occupied, is_tombstone, hst] <;> omega

/-- C1. Round trip: on a well-formed table with lawful key functions and borrowed values,
whenever `ht_oa_put(K, V)` returns true, `ht_oa_get(K)` on the resulting table returns `V`,
whether or not the put rehashed. -/
theorem put_get_round_trip (heap : Nat → Bool) (ht : BaseHashTableOA) (K V : Ptr)
    (hw : WF ht) (hl : LawfulKeys ht) (hb : Borrowed ht)
    (h : (ht_oa_put heap ht K V).1 = true) :
    ht_oa_get (ht_oa_put heap ht K V).2 K = V := by
  rcases absent_or_hit ht K with habs | ⟨j, hj⟩
  · exact ((put_absent hw hl hb heap V habs).2.2 h).2.2.2.2.1
  · exact ((put_present hw hl hb heap V hj).2.2 h).2.2.2.2.2.1

/-- Witness for C1: a put that doubles a one-slot table and is then read back. -/
theorem put_get_round_trip_witness :
    WF (sample_table 1) ∧ (ht_oa_put heap_ok (sample_table 1) 5 50).1 = true ∧
      (ht_oa_put heap_ok (sample_table 1) 5 50).2.bucket_count = 2 ∧
      ht_oa_get (ht_oa_put heap_ok (sample_table 1) 5 50).2 5 = 50 :=
  ⟨(wf_sample_table (by decide)).1, by decide, by decide,
    put_get_round_trip heap_ok (sample_table 1) 5 50 (wf_sample_table (by decide)).1
      (wf_sample_table (by decide)).2.1 (wf_sample_table (by decide)).2.2 (by decide)⟩

/-- C2. Lookup is stable under mutation of other keys: when `ht_oa_get(K)` returns `V` and
`K2` does not compare equal to `K`, a successful `ht_oa_put(K2, V2)`, a successful
`ht_oa_insert(K2, V2)` and `ht_oa_remove(K2)` all leave `ht_oa_get(K)` returning `V`. -/
theorem lookup_stable (heap : Nat → Bool) (ht : BaseHashTableOA) (K V K2 V2 : Ptr)
    (hw : WF ht) (hl : LawfulKeys ht) (hb : Borrowed ht) (hget : ht_oa_get ht K = V)
    (hne : ht.key_equal_fn K2 K = false) :
    ((ht_oa_put heap ht K2 V2).1 = true → ht_oa_get (ht_oa_put heap ht K2 V2).2 K = V) ∧
    ((ht_oa_insert heap ht K2 V2).1 = true →
      ht_oa_get (ht_oa_insert heap ht K2 V2).2 K = V) ∧
    ht_oa_get (ht_oa_remove ht K2).2 K = V := by
  refine ⟨?_, ?_, ?_⟩
  · intro h
    rcases absent_or_hit ht K2 with habs | ⟨j, hj⟩
    · rw [((put_absent hw hl hb heap V2 habs).2.2 h).2.2.2.2.2.1 K hne, hget]
    · rw [((put_present hw hl hb heap V2 hj).2.2 h).2.2.2.2.2.2 K hne, hget]
  · intro h
    rcases absent_or_hit ht K2 with habs | ⟨j, hj⟩
    · rw [((insert_absent hw hl hb heap V2 habs).2.2 h).2.2.2.2.2.1 K hne, hget]
    · rw [(insert_present hw hl heap V2 hj).1] at h
      exact absurd h (by decide)
  · rcases absent_or_hit ht K2 with habs | ⟨j, hj⟩
    · rw [remove_absent habs]; exact hget
    · rw [(remove_present hw hl hj).2.2.2.2.2.2.2.2.2.2.2 K hne, hget]

/-- Witness for C2: key 5 keeps its value while key 6 is put (with a rehash from 2 to 4
buckets), inserted and removed. -/
theorem lookup_stable_witness :
    ht_oa_get (ht_oa_put heap_ok (sample_table 1) 5 50).2 5 = 50 ∧
      sample_equal 6 5 = false ∧
      (ht_oa_put heap_ok (ht_oa_put heap_ok (sample_table 1) 5 50).2 6 60).1 = true ∧
      (ht_oa_put heap_ok (ht_oa_put heap_ok (sample_table 1) 5 50).2 6 60).2.bucket_count = 4 ∧
      ht_oa_get (ht_oa_put heap_ok (ht_oa_put heap_ok (sample_table 1) 5 50).2 6 60).2 5 = 50 :=
  ⟨by decide, by decide, by decide, by decide,
    (lookup_stable heap_ok (ht_oa_put heap_ok (sample_table 1) 5 50).2 5 50 6 60
      (put_keeps (wf_sample_table (by decide)).1 (wf_sample_table (by decide)).2.1
        (wf_sample_table (by decide)).2.2 heap_ok 5 50).1
      (put_keeps (wf_sample_table (by decide)).1 (wf_sample_table (by decide)).2.1
        (wf_sample_table (by decide)).2.2 heap_ok 5 50).2.1
      (put_keeps (wf_sample_table (by decide)).1 (wf_sample_table (by decide)).2.1
        (wf_sample_table (by decide)).2.2 heap_ok 5 50).2.2
      (by decide) (by decide)).1 (by decide)⟩

/-- C3. Duplicate rejection: when key `K` is stored with value `V1`, `ht_oa_insert(K, V2)`
returns false, and afterwards `ht_oa_get(K)` still returns `V1` and `ht_oa_size` is
unchanged. -/
theorem insert_duplicate_rejected (heap : Nat → Bool) (ht : BaseHashTableOA) (K V1 V2 : Ptr)
    (hw : WF ht) (hl : LawfulKeys ht) (hs : Stored ht K V1) :
    (ht_oa_insert heap ht K V2).1 = false ∧
      ht_oa_get (ht_oa_insert heap ht K V2).2 K = V1 ∧
      ht_oa_size (ht_oa_insert heap ht K V2).2 = ht_oa_size ht := by
  obtain ⟨j, hj, hv⟩ := hs
  obtain ⟨h1, h2⟩ := insert_present hw hl heap V2 hj
  refine ⟨h1, ?_, h2.items⟩
  rw [h2.get hw hl, get_of_hit hw hl hj, hv]

/-- Witness for C3: `insert(97, 1)` then `insert(97, 2)` on a table of 16 buckets. -/
theorem insert_duplicate_rejected_witness :
    Stored (ht_oa_insert heap_ok (sample_table 16) 97 1).2 97 1 ∧
      (ht_oa_insert heap_ok (ht_oa_insert heap_ok (sample_table 16) 97 1).2 97 2).1 = false ∧
      ht_oa_get (ht_oa_insert heap_ok (ht_oa_insert heap_ok (sample_table 16) 97 1).2 97 2).2 97
        = 1 ∧
      ht_oa_size (ht_oa_insert heap_ok (ht_oa_insert heap_ok (sample_table 16) 97 1).2 97 2).2
        = 1 :=
  have hs : Stored (ht_oa_insert heap_ok (sample_table 16) 97 1).2 97 1 :=
    ⟨1, ⟨by decide, by decide⟩, by decide⟩
  have hk := insert_keeps (wf_sample_table (by decide)).1 (wf_sample_table (by decide)).2.1
    (wf_sample_table (by decide)).2.2 heap_ok 97 1
  have h := insert_duplicate_rejected heap_ok (ht_oa_insert heap_ok (sample_table 16) 97 1).2
    97 1 2 hk.1 (lawful_of_config (wf_sample_table (by decide)).2.1 hk.2) hs
  ⟨hs, h.1, h.2.1, h.2.2.trans (by decide)⟩

/-- C4. Upsert: when key `K` is already stored, a successful `ht_oa_put(K, V2)` leaves
`ht_oa_size` unchanged and makes `ht_oa_get(K)` return `V2`; and on an empty table two
successful puts of the same key, with `V1` and then `V2`, give `ht_oa_get(K) = V2` and
size 1. -/
theorem put_upsert (heap heap2 : Nat → Bool) (ht : BaseHashTableOA) (K V1 V2 : Ptr)
    (hw : WF ht) (hl : LawfulKeys ht) (hb : Borrowed ht) :
    ((∃ i, Hit ht K i) → (ht_oa_put heap ht K V2).1 = true →
      ht_oa_size (ht_oa_put heap ht K V2).2 = ht_oa_size ht ∧
        ht_oa_get (ht_oa_put heap ht K V2).2 K = V2) ∧
    (ht_oa_size ht = 0 → (ht_oa_put heap ht K V1).1 = true →
      (ht_oa_put heap2 (ht_oa_put heap ht K V1).2 K V2).1 = true →
      ht_oa_get (ht_oa_put heap2 (ht_oa_put heap ht K V1).2 K V2).2 K = V2 ∧
        ht_oa_size (ht_oa_put heap2 (ht_oa_put heap ht K V1).2 K V2).2 = 1) := by
  have key : ∀ (hp : Nat → Bool) (t : BaseHashTableOA) (v : Ptr), WF t → LawfulKeys t →
      Borrowed t → (∃ i, Hit t K i) → (ht_oa_put hp t K v).1 = true →
      ht_oa_size (ht_oa_put hp t K v).2 = ht_oa_size t ∧
        ht_oa_get (ht_oa_put hp t K v).2 K = v := by
    intro hp t v hwt hlt hbt hex h
    obtain ⟨j, hj⟩ := hex
    have h3 := (put_present hwt hlt hbt hp v hj).2.2 h
    exact ⟨h3.2.2.2.2.1, h3.2.2.2.2.2.1⟩
  refine ⟨key heap ht V2 hw hl hb, ?_⟩
  intro hsize h1 h2
  have habs : Absent ht K := by
    intro i hi
    have := item_pos_of_hit hw.counts hi
    unfold ht_oa_size at hsize
    omega
  have hp1 := (put_absent hw hl hb heap V1 habs).2.2 h1
  have hk := put_keeps hw hl hb heap K V1
  have hstored : ∃ i, Hit (ht_oa_put heap ht K V1).2 K i := by
    rcases absent_or_hit (ht_oa_put heap ht K V1).2 K with ha | hh
    · exfalso
      have hitem := hp1.2.2.2.1
      obtain ⟨slot, hslot⟩ := hp1.2.2.2.2.2.2.2
      have hcnt := hk.1.counts.items
      rw [hitem] at hcnt
      have hpos : 0 < occupied_slots (ht_oa_put heap ht K V1).2 := by omega
      unfold occupied_slots at hpos
      obtain ⟨e, hmem, hocc⟩ := List.countP_pos_iff.mp hpos
      obtain ⟨i, hi, rfl⟩ := List.getElem_of_mem hmem
      have hst : (entry_at (ht_oa_put heap ht K V1).2.entries i).state = HT_ENTRY_OCCUPIED := by
        rw [entry_at_of_lt hi]; simpa [is_occupied] using hocc
      -- the only Occupied slot holds K
      have hget := hp1.2.2.2.2.1
      by_cases hkey : (ht_oa_put heap ht K V1).2.key_equal_fn
          (entry_at (ht_oa_put heap ht K V1).2.entries i).key K = true
      · exact ha i ⟨hst, hkey⟩
      · rw [hslot, entry_at_set] at hst hkey
        split_ifs at hst hkey with hc
        · exact hkey (hk.2.1.refl K)
        · have hg := put_growth_spec hw hl heap K
          obtain ⟨i0, hi0⟩ := hg.1.content.2 i hst
          have h0 : (entry_at ht.entries i0).state = HT_ENTRY_OCCUPIED := by rw [hi0]; exact hst
          have := countP_pos_of_entry is_occupied ht.entries i0 (lt_length_of_occupied h0)
            (by simp [is_occupied, h0])
          have hit := hw.counts.items
          unfold occupied_slots at hit
          unfold ht_oa_size at hsize
          omega
    · exact hh
  have h4 := key heap2 (ht_oa_put heap ht K V1).2 V2 hk.1 hk.2.1 hk.2.2 hstored h2
  refine ⟨h4.2, ?_⟩
  rw [h4.1]
  unfold ht_oa_size at hsize ⊢
  rw [hp1.2.2.2.1, hsize]

/-- Witness for C4: `put(97, 1)`; `put(97, 2)` on an empty table of 16 buckets. -/
theorem put_upsert_witness :
    ht_oa_size (sample_table 16) = 0 ∧
      (ht_oa_put heap_ok (sample_table 16) 97 1).1 = true ∧
      (ht_oa_put heap_ok (ht_oa_put heap_ok (sample_table 16) 97 1).2 97 2).1 = true ∧
      ht_oa_get (ht_oa_put heap_ok (ht_oa_put heap_ok (sample_table 16) 97 1).2 97 2).2 97 = 2 ∧
      ht_oa_size (ht_oa_put heap_ok (ht_oa_put heap_ok (sample_table 16) 97 1).2 97 2).2 = 1 :=
  ⟨by decide, by decide, by decide,
    (put_upsert heap_ok heap_ok (sample_table 16) 97 1 2 (wf_sample_table (by decide)).1
      (wf_sample_table (by decide)).2.1 (wf_sample_table (by decide)).2.2).2
      (by decide) (by decide) (by decide)⟩

/-- C7. Count invariant: in every state reached from `ht_oa_init` through
`ht_oa_set_managed_kv`, `ht_oa_insert`, `ht_oa_put`, `ht_oa_remove`, `ht_oa_clear`,
`ht_oa_free` and `ht_oa_rehash` (successful or failed, with any functions, callbacks and
allocator), `item_count` is the number of Occupied slots, `tombstone_count` the number of
Tombstone slots, and `item_count + tombstone_count <= bucket_count`. -/
theorem count_invariant (ht : BaseHashTableOA) (h : Reachable ht) :
    ht.item_count = occupied_slots ht ∧ ht.tombstone_count = tombstone_slots ht ∧
      ht.item_count + ht.tombstone_count ≤ ht.bucket_count := by
  have hc := countInv_of_reachable h
  refine ⟨hc.items, hc.tombs, ?_⟩
  rw [hc.items, hc.tombs, ← hc.len]
  exact countP_exclusive ht.entries

/-- Witness for C7: the table after an insert, a failed rehash, a second insert, a remove
and a put. -/
theorem count_invariant_witness :
    Reachable (ht_oa_put heap_ok (ht_oa_remove (ht_oa_insert heap_ok
      (ht_oa_rehash heap_exhausted (ht_oa_insert heap_ok (sample_table 4) 1 101).2 8).2
      2 102).2 1).2 3 103).2 ∧
    (ht_oa_put heap_ok (ht_oa_remove (ht_oa_insert heap_ok
      (ht_oa_rehash heap_exhausted (ht_oa_insert heap_ok (sample_table 4) 1 101).2 8).2
      2 102).2 1).2 3 103).2.item_count = 2 ∧
    (ht_oa_put heap_ok (ht_oa_remove (ht_oa_insert heap_ok
      (ht_oa_rehash heap_exhausted (ht_oa_insert heap_ok (sample_table 4) 1 101).2 8).2
      2 102).2 1).2 3 103).2.item_count =
      occupied_slots (ht_oa_put heap_ok (ht_oa_remove (ht_oa_insert heap_ok
        (ht_oa_rehash heap_exhausted (ht_oa_insert heap_ok (sample_table 4) 1 101).2 8).2
        2 102).2 1).2 3 103).2 :=
  have hr : Reachable (ht_oa_put heap_ok (ht_oa_remove (ht_oa_insert heap_ok
      (ht_oa_rehash heap_exhausted (ht_oa_insert heap_ok (sample_table 4) 1 101).2 8).2
      2 102).2 1).2 3 103).2 :=
    Reachable.put _ _ _ _ (Reachable.remove _ _ (Reachable.insert _ _ _ _
      (Reachable.rehash _ _ _ (Reachable.insert _ _ _ _
        (Reachable.init heap_ok 4 sample_hash sample_equal none (sample_table 4) rfl)))))
  ⟨hr, by decide, (count_invariant _ hr).1⟩

/-- C8. Remove of a present key: when key `K` is stored in slot `j` of a well-formed
table, `ht_oa_remove(K)` returns true, turns slot `j` into a Tombstone with null key and
value and changes no other slot, decreases `item_count` by 1, increases `tombstone_count`
by 1, leaves `bucket_count` unchanged, and afterwards `ht_oa_get(K)` reports not found. -/
theorem remove_present_key (ht : BaseHashTableOA) (K : Ptr) (j : Nat) (hw : WF ht)
    (hl : LawfulKeys ht) (hj : Hit ht K j) :
    (ht_oa_remove ht K).1 = true ∧
      (ht_oa_remove ht K).2.entries = ht.entries.set j ⟨0, 0, HT_ENTRY_TOMBSTONE⟩ ∧
      (ht_oa_remove ht K).2.item_count + 1 = ht.item_count ∧
      (ht_oa_remove ht K).2.tombstone_count = ht.tombstone_count + 1 ∧
      (ht_oa_remove ht K).2.bucket_count = ht.bucket_count ∧
      ht_oa_get (ht_oa_remove ht K).2 K = 0 := by
  obtain ⟨h1, h2, h3, h4, h5, _, _, _, _, _, h11, _⟩ := remove_present hw hl hj
  exact ⟨h1, h2, h4, h5, h3, get_of_absent h11⟩

/-- Witness for C8: key 97, stored in slot 1 of a table of 16 buckets, is removed. -/
theorem remove_present_key_witness :
    Hit (ht_oa_insert heap_ok (sample_table 16) 97 1).2 97 1 ∧
      (ht_oa_remove (ht_oa_insert heap_ok (sample_table 16) 97 1).2 97).1 = true ∧
      ht_oa_get (ht_oa_remove (ht_oa_insert heap_ok (sample_table 16) 97 1).2 97).2 97 = 0 :=
  have hk := insert_keeps (wf_sample_table (by decide)).1 (wf_sample_table (by decide)).2.1
    (wf_sample_table (by decide)).2.2 heap_ok 97 1
  have hj : Hit (ht_oa_insert heap_ok (sample_table 16) 97 1).2 97 1 := ⟨by decide, by decide⟩
  have h := remove_present_key (ht_oa_insert heap_ok (sample_table 16) 97 1).2 97 1 hk.1
    (lawful_of_config (wf_sample_table (by decide)).2.1 hk.2) hj
  ⟨hj, h.1, h.2.2.2.2.2⟩

/-- C9. Remove of an absent key: when no Occupied slot holds a key equal to `K` (as in an
empty table), `ht_oa_remove(K)` returns false and leaves the whole table state unchanged,
and `ht_oa_get(K)` returns the not-found result. -/
theorem remove_absent_key (ht : BaseHashTableOA) (K : Ptr) (habs : Absent ht K) :
    ht_oa_remove ht K = (false, ht) ∧ ht_oa_get ht K = 0 ∧
      ht_oa_get (ht_oa_remove ht K).2 K = 0 := by
  refine ⟨remove_absent habs, get_of_absent habs, ?_⟩
  rw [remove_absent habs]
  exact get_of_absent habs

/-- Witness for C9: key 2 is removed from a table that holds key 1 only, and from the
empty table. -/
theorem remove_absent_key_witness :
    Absent (ht_oa_insert heap_ok (sample_table 4) 1 101).2 2 ∧
      (ht_oa_remove (ht_oa_insert heap_ok (sample_table 4) 1 101).2 2).1 = false ∧
      (ht_oa_remove (ht_oa_insert heap_ok (sample_table 4) 1 101).2 2).2.entries =
        (ht_oa_insert heap_ok (sample_table 4) 1 101).2.entries ∧
      (ht_oa_remove (sample_table 4) 2).1 = false :=
  have hk := insert_keeps (wf_sample_table (n := 4) (by decide)).1
    (wf_sample_table (by decide)).2.1 (wf_sample_table (by decide)).2.2 heap_ok 1 101
  have habs : Absent (ht_oa_insert heap_ok (sample_table 4) 1 101).2 2 :=
    absent_of_not_found hk.1 (lawful_of_config (wf_sample_table (by decide)).2.1 hk.2)
      (by decide)
  have h := remove_absent_key (ht_oa_insert heap_ok (sample_table 4) 1 101).2 2 habs
  have h0 := remove_absent_key (sample_table 4) 2 (absent_fresh rfl 2)
  ⟨habs, by rw [h.1], by rw [h.1], by rw [h0.1]⟩

/-- C10. Clear: for every table (whose bucket array has `bucket_count` slots),
`ht_oa_clear` sets every slot to Empty with null key and value, sets `item_count` and
`tombstone_count` to 0 and leaves `bucket_count` unchanged; afterwards `ht_oa_get(K)`
reports not found for every key and `ht_oa_is_empty` is true. -/
theorem clear_resets (ht : BaseHashTableOA) (hlen : ht.entries.length = ht.bucket_count) :
    (ht_oa_clear ht).entries = List.replicate ht.bucket_count ⟨0, 0, HT_ENTRY_EMPTY⟩ ∧
      (ht_oa_clear ht).item_count = 0 ∧ (ht_oa_clear ht).tombstone_count = 0 ∧
      (ht_oa_clear ht).bucket_count = ht.bucket_count ∧
      (∀ K, ht_oa_get (ht_oa_clear ht) K = 0) ∧
      ht_oa_is_empty (ht_oa_clear ht) = true := by
  obtain ⟨h1, h2, h3, h4, _⟩ := clear_spec ht hlen
  refine ⟨h1, h3, h4, h2, ?_, ?_⟩
  · intro K
    exact get_of_absent (absent_fresh h1 K)
  · unfold ht_oa_is_empty
    rw [h3]
    rfl

/-- Witness for C10: a table of 4 buckets holding keys 1 and 2 and the tombstone of key 7
is cleared. -/
theorem clear_resets_witness :
    (ht_oa_remove (ht_oa_insert heap_ok
        (insert_all heap_ok (sample_table 4) [(1, 101), (2, 102)]).2 7 70).2 7).2.entries.length
      = (ht_oa_remove (ht_oa_insert heap_ok
        (insert_all heap_ok (sample_table 4) [(1, 101), (2, 102)]).2 7 70).2 7).2.bucket_count ∧
    (ht_oa_remove (ht_oa_insert heap_ok
        (insert_all heap_ok (sample_table 4) [(1, 101), (2, 102)]).2 7 70).2 7).2.tombstone_count
      = 1 ∧
    (ht_oa_clear (ht_oa_remove (ht_oa_insert heap_ok
        (insert_all heap_ok (sample_table 4) [(1, 101), (2, 102)]).2 7 70).2 7).2).entries
      = List.replicate 4 ⟨0, 0, HT_ENTRY_EMPTY⟩ :=
  ⟨by decide, by decide,
    (clear_resets (ht_oa_remove (ht_oa_insert heap_ok
        (insert_all heap_ok (sample_table 4) [(1, 101), (2, 102)]).2 7 70).2 7).2
      (by decide)).1⟩

/-! ## Twelve insertions into sixteen buckets -/

theorem insert_growth_noop {heap : Nat → Bool} {ht : BaseHashTableOA}
    (hb : ht.bucket_count ≠ 0)
    (hcond : ¬ (usize_add ht.item_count 1 ≥ ht.bucket_count ∨
      load_exceeds (usize_add ht.item_count ht.tombstone_count) ht.bucket_count = true)) :
    insert_growth heap ht = (true, ht) := by
  unfold insert_growth
  simp only [hb, if_false, Bool.true_eq_false]
  rw [if_neg hcond]

theorem insert_all_append (heap : Nat → Bool) (ht : BaseHashTableOA) (l : List (Ptr × Ptr))
    (kv : Ptr × Ptr) :
    insert_all heap ht (l ++ [kv]) =
      ((ht_oa_insert heap (insert_all heap ht l).2 kv.1 kv.2).1 && (insert_all heap ht l).1,
        (ht_oa_insert heap (insert_all heap ht l).2 kv.1 kv.2).2) := by
  unfold insert_all
  rw [List.foldl_append]
  rfl

theorem absent_of_filled {ht0 t : BaseHashTableOA} {l : List (Ptr × Ptr)} (hf : Filled ht0 t l)
    {k : Ptr} (hk : ∀ kv, kv ∈ l → ht0.key_equal_fn kv.1 k = false) : Absent t k := by
  intro j hj
  obtain ⟨kv, hkv, hkey⟩ := hf.keys j hj.1
  have h2 := hj.2
  rw [hkey, hf.config.key_equal_fn, hk kv hkv] at h2
  exact absurd h2 (by decide)

/-- Inserting one more pairwise-distinct key while at most 11 are stored: no rehash. -/
theorem filled_step {ht0 t : BaseHashTableOA} {l : List (Ptr × Ptr)} (heap : Nat → Bool)
    (hl0 : LawfulKeys ht0) (hb0 : Borrowed ht0) (hf : Filled ht0 t l) (hlen : l.length ≤ 11)
    (kv : Ptr × Ptr) (hk : ∀ a, a ∈ l → ht0.key_equal_fn a.1 kv.1 = false) :
    (ht_oa_insert heap t kv.1 kv.2).1 = true ∧
      Filled ht0 (ht_oa_insert heap t kv.1 kv.2).2 (l ++ [kv]) := by
  have hl := lawful_of_config hl0 hf.config
  have hb := borrowed_of_config hb0 hf.config
  have habs := absent_of_filled hf hk
  have hcond : ¬ (usize_add t.item_count 1 ≥ t.bucket_count ∨
      load_exceeds (usize_add t.item_count t.tombstone_count) t.bucket_count = true) := by
    rw [hf.items, hf.tombs, hf.buckets]
    have h1 : usize_add l.length 1 = l.length + 1 := by
      unfold usize_add USIZE_MOD; exact Nat.mod_eq_of_lt (by omega)
    have h0 : usize_add l.length 0 = l.length := by
      unfold usize_add USIZE_MOD; exact Nat.mod_eq_of_lt (by omega)
    rw [h1, h0, load_exceeds_iff _ 16 (by decide) (by decide) (by norm_num; omega)]
    omega
  have hg : insert_growth heap t = (true, t) :=
    insert_growth_noop (by rw [hf.buckets]; decide) hcond
  obtain ⟨h1, _, h3⟩ := insert_absent hf.wf hl hb heap kv.2 habs
  rw [hg] at h1 h3
  have h1t : (ht_oa_insert heap t kv.1 kv.2).1 = true := h1
  obtain ⟨p1, p2, p3, p4, p5, p6, p7, slot, p8⟩ := h3 h1t
  refine ⟨h1t, ⟨p1, sameConfig_trans hf.config p2, by rw [p3]; exact hf.buckets,
    by rw [p4, hf.items, List.length_append]; rfl,
    by have := hf.tombs; simp only at p7; omega, ?_, ?_⟩⟩
  · intro a ha
    rcases List.mem_append.mp ha with hmem | hmem
    · have hne : t.key_equal_fn kv.1 a.1 = false := by
        cases hc : t.key_equal_fn kv.1 a.1 with
        | false => rfl
        | true =>
          have := hl.symm _ _ hc
          rw [hf.config.key_equal_fn, hk a hmem] at this
          exact absurd this (by decide)
      rw [p6 a.1 hne]
      exact hf.gets a hmem
    · rw [List.mem_singleton.mp hmem]; exact p5
  · intro j hj
    simp only at p8
    rw [p8, entry_at_set] at hj ⊢
    split_ifs at hj ⊢ with hc
    · exact ⟨kv, List.mem_append.mpr (Or.inr (List.mem_singleton.mpr rfl)), rfl⟩
    · obtain ⟨a, ha, hkey⟩ := hf.keys j hj
      exact ⟨a, List.mem_append.mpr (Or.inl ha), hkey⟩

/-- Up to 12 pairwise-distinct keys go into a fresh table of 16 buckets without a
rehash. -/
theorem insert_all_filled (heap : Nat → Bool) {ht0 : BaseHashTableOA} (hw0 : WF ht0)
    (hl0 : LawfulKeys ht0) (hb0 : Borrowed ht0) (hbk : ht0.bucket_count = 16)
    (hic : ht0.item_count = 0) (htc : ht0.tombstone_count = 0)
    (hent : ht0.entries = List.replicate ht0.bucket_count EMPTY_ENTRY) :
    ∀ l : List (Ptr × Ptr), l.length ≤ 12 →
      l.Pairwise (fun a b => ht0.key_equal_fn a.1 b.1 = false) →
      (insert_all heap ht0 l).1 = true ∧ Filled ht0 (insert_all heap ht0 l).2 l := by
  intro l
  induction l using List.reverseRecOn with
  | nil =>
    intro _ _
    refine ⟨rfl, ⟨hw0, sameConfig_refl ht0, hbk, hic, htc, fun kv h => absurd h (by simp), ?_⟩⟩
    intro j hj
    have : (entry_at ht0.entries j).state = HT_ENTRY_OCCUPIED := hj
    rw [hent, entry_at_replicate] at this
    exact absurd this (by decide)
  | append_singleton l kv ih =>
    intro hlen hpw
    rw [List.length_append, List.length_singleton] at hlen
    obtain ⟨hp1, _, hp3⟩ := List.pairwise_append.mp hpw
    obtain ⟨ih1, ih2⟩ := ih (by omega) hp1
    have hstep := filled_step heap hl0 hb0 ih2 (by omega) kv
      (fun a ha => hp3 a ha kv (List.mem_singleton.mpr rfl))
    rw [insert_all_append]
    exact ⟨by rw [hstep.1, ih1]; rfl, hstep.2⟩

theorem insert_growth_grow {heap : Nat → Bool} {ht : BaseHashTableOA}
    (hb : 0 < ht.bucket_count)
    (hcond : usize_add ht.item_count 1 ≥ ht.bucket_count ∨
      load_exceeds (usize_add ht.item_count ht.tombstone_count) ht.bucket_count = true) :
    insert_growth heap ht = ht_oa_rehash heap ht (usize_mul ht.bucket_count 2) := by
  unfold insert_growth
  have hb0 : ¬ ht.bucket_count = 0 := by omega
  simp only [hb0, if_false, Bool.true_eq_false]
  rw [if_pos hcond, if_pos hb]

/-- C6 as stated fails: twelve distinct keys inserted into a fresh table of 16 buckets
all succeed and leave `bucket_count` at 16, not 32. -/
theorem twelve_inserts_stay_at_16 :
    ht_oa_init heap_ok 16 sample_hash sample_equal none = some (sample_table 16) ∧
    (insert_all heap_ok (sample_table 16)
      [(1, 101), (2, 102), (3, 103), (4, 104), (5, 105), (6, 106), (7, 107), (8, 108),
        (9, 109), (10, 110), (11, 111), (12, 112)]).1 = true ∧
    ht_oa_size (insert_all heap_ok (sample_table 16)
      [(1, 101), (2, 102), (3, 103), (4, 104), (5, 105), (6, 106), (7, 107), (8, 108),
        (9, 109), (10, 110), (11, 111), (12, 112)]).2 = 12 ∧
    (insert_all heap_ok (sample_table 16)
      [(1, 101), (2, 102), (3, 103), (4, 104), (5, 105), (6, 106), (7, 107), (8, 108),
        (9, 109), (10, 110), (11, 111), (12, 112)]).2.bucket_count = 16 ∧
    (insert_all heap_ok (sample_table 16)
      [(1, 101), (2, 102), (3, 103), (4, 104), (5, 105), (6, 106), (7, 107), (8, 108),
        (9, 109), (10, 110), (11, 111), (12, 112)]).2.bucket_count ≠ 32 :=
  ⟨rfl, by decide, by decide, by decide, by decide⟩

/-- C6, amended. Rehash scenario: starting from `ht_oa_init` with initial capacity 16
(heap-backed, any hash function that respects the key equality), after `ht_oa_insert` of
12 pairwise-distinct keys every insertion has returned true, `ht_oa_size` is 12,
`bucket_count` is still 16 (the load checked before the 12th insertion is 11/16, which
does not exceed 0.7), and `ht_oa_get` of each of the 12 keys returns the value it was
inserted with; the rehash to 32 buckets happens in the 13th insertion: a successful insert
of a further distinct key leaves `bucket_count` at 32 and `ht_oa_size` at 13. -/
theorem rehash_scenario (heap0 heap heap13 : Nat → Bool) (hash_fn : Ptr → Nat)
    (key_equal_fn : Ptr → Ptr → Bool) (ht : BaseHashTableOA) (kvs : List (Ptr × Ptr))
    (hinit : ht_oa_init heap0 16 hash_fn key_equal_fn none = some ht)
    (hl : LawfulKeys ht) (hlen : kvs.length = 12)
    (hd : kvs.Pairwise (fun a b => key_equal_fn a.1 b.1 = false)) :
    (insert_all heap ht kvs).1 = true ∧
      ht_oa_size (insert_all heap ht kvs).2 = 12 ∧
      (insert_all heap ht kvs).2.bucket_count = 16 ∧
      (∀ kv, kv ∈ kvs → ht_oa_get (insert_all heap ht kvs).2 kv.1 = kv.2) ∧
      (∀ k v, (∀ kv, kv ∈ kvs → key_equal_fn kv.1 k = false) →
        (ht_oa_insert heap13 (insert_all heap ht kvs).2 k v).1 = true →
        (ht_oa_insert heap13 (insert_all heap ht kvs).2 k v).2.bucket_count = 32 ∧
          ht_oa_size (ht_oa_insert heap13 (insert_all heap ht kvs).2 k v).2 = 13) := by
  obtain ⟨hw, hb, _, hk, hbk, hic, htc, hent⟩ := init_spec hinit
  have hbk16 : ht.bucket_count = 16 := by rw [hbk]; rfl
  have hd2 : kvs.Pairwise (fun a b => ht.key_equal_fn a.1 b.1 = false) := by rw [hk]; exact hd
  obtain ⟨h1, hf⟩ := insert_all_filled heap hw hl hb hbk16 hic htc hent kvs (by omega) hd2
  refine ⟨h1, by unfold ht_oa_size; rw [hf.items, hlen], hf.buckets, hf.gets, ?_⟩
  intro k v hk2 hsucc
  have hlt := lawful_of_config hl hf.config
  have hbt := borrowed_of_config hb hf.config
  have habs : Absent (insert_all heap ht kvs).2 k :=
    absent_of_filled hf (by rw [hk]; exact hk2)
  obtain ⟨g1, _, g3⟩ := insert_absent hf.wf hlt hbt heap13 v habs
  have hcond : usize_add (insert_all heap ht kvs).2.item_count 1 ≥
        (insert_all heap ht kvs).2.bucket_count ∨
      load_exceeds (usize_add (insert_all heap ht kvs).2.item_count
        (insert_all heap ht kvs).2.tombstone_count)
        (insert_all heap ht kvs).2.bucket_count = true := by
    rw [hf.items, hf.tombs, hf.buckets, hlen]
    exact Or.inr (by decide)
  have hbpos : 0 < (insert_all heap ht kvs).2.bucket_count := by rw [hf.buckets]; decide
  have hg : insert_growth heap13 (insert_all heap ht kvs).2 =
      ht_oa_rehash heap13 (insert_all heap ht kvs).2
        (usize_mul (insert_all heap ht kvs).2.bucket_count 2) :=
    insert_growth_grow hbpos hcond
  obtain ⟨p1, p2, p3, p4, _⟩ := g3 hsucc
  rw [hsucc, hg] at g1
  refine ⟨?_, by unfold ht_oa_size; rw [p4, hf.items, hlen]⟩
  rw [p3, hg, rehash_buckets hf.wf hlt g1.symm, rehash_bucket_count_double hf.wf.counts hbpos,
    hf.buckets]

/-- Witness for C6 (amended): keys 1 to 12 in a table of 16 buckets, then key 13. -/
theorem rehash_scenario_witness :
    (insert_all heap_ok (sample_table 16)
      [(1, 101), (2, 102), (3, 103), (4, 104), (5, 105), (6, 106), (7, 107), (8, 108),
        (9, 109), (10, 110), (11, 111), (12, 112)]).2.bucket_count = 16 ∧
    ht_oa_get (insert_all heap_ok (sample_table 16)
      [(1, 101), (2, 102), (3, 103), (4, 104), (5, 105), (6, 106), (7, 107), (8, 108),
        (9, 109), (10, 110), (11, 111), (12, 112)]).2 12 = 112 ∧
    (ht_oa_insert heap_ok (insert_all heap_ok (sample_table 16)
      [(1, 101), (2, 102), (3, 103), (4, 104), (5, 105), (6, 106), (7, 107), (8, 108),
        (9, 109), (10, 110), (11, 111), (12, 112)]).2 13 113).2.bucket_count = 32 :=
  have h := rehash_scenario heap_ok heap_ok heap_ok sample_hash sample_equal (sample_table 16)
    [(1, 101), (2, 102), (3, 103), (4, 104), (5, 105), (6, 106), (7, 107), (8, 108),
      (9, 109), (10, 110), (11, 111), (12, 112)] rfl (wf_sample_table (by decide)).2.1 rfl
    (by decide)
  ⟨h.2.2.1, h.2.2.2.1 (12, 112) (by decide), (h.2.2.2.2 13 113 (by decide) (by decide)).1⟩

/-! ## Construction -/

/-- C11. Construction: whenever the allocation of the bucket array succeeds,
`ht_oa_init(n, hash, eq, arena)` returns a table with `bucket_count = 16` when `n = 0` and
`bucket_count = n` otherwise, `item_count = 0`, `tombstone_count = 0`, a bucket array of
`bucket_count` slots that are all Empty with null key and value, the given hash and
equality functions, and no copy or free callback installed. -/
theorem init_constructs (heap : Nat → Bool) (n : Nat) (hash_fn : Ptr → Nat)
    (key_equal_fn : Ptr → Ptr → Bool) (arena : Option Arena)
    (halloc : (alloc_entries heap arena (if n = 0 then 16 else n)).1 = true) :
    ∃ ht, ht_oa_init heap n hash_fn key_equal_fn arena = some ht ∧
      ht.bucket_count = (if n = 0 then 16 else n) ∧
      ht.item_count = 0 ∧ ht.tombstone_count = 0 ∧
      ht.entries.length = ht.bucket_count ∧
      (∀ i, i < ht.bucket_count → entry_at ht.entries i = ⟨0, 0, HT_ENTRY_EMPTY⟩) ∧
      ht.hash_fn = hash_fn ∧ ht.key_equal_fn = key_equal_fn ∧
      ht.key_copy_fn = none ∧ ht.key_free_fn = false ∧
      ht.value_copy_fn = none ∧ ht.value_free_fn = false := by
  have ha : ¬ (alloc_entries heap arena
      (if n = 0 then BASE_HT_OA_DEFAULT_CAPACITY else n)).1 = false := by
    have h16 : BASE_HT_OA_DEFAULT_CAPACITY = 16 := rfl
    rw [h16, halloc]
    simp
  unfold ht_oa_init
  simp only
  rw [if_neg ha]
  refine ⟨_, rfl, rfl, rfl, rfl, by simp, ?_, rfl, rfl, rfl, rfl, rfl, rfl⟩
  intro i _
  exact entry_at_replicate _ i

/-- Every table `ht_oa_init` returns comes from a successful allocation of its bucket
array. -/
theorem init_some_alloc (heap : Nat → Bool) (n : Nat) (hash_fn : Ptr → Nat)
    (key_equal_fn : Ptr → Ptr → Bool) (arena : Option Arena) (ht : BaseHashTableOA)
    (h : ht_oa_init heap n hash_fn key_equal_fn arena = some ht) :
    (alloc_entries heap arena (if n = 0 then 16 else n)).1 = true := by
  unfold ht_oa_init at h
  simp only at h
  by_cases ha : (alloc_entries heap arena
      (if n = 0 then BASE_HT_OA_DEFAULT_CAPACITY else n)).1 = false
  · rw [if_pos ha] at h; exact absurd h (by simp)
  · simpa using ha

/-- Witness for C11: the default capacity, and a capacity of 4, on a heap that can
allocate. -/
theorem init_constructs_witness :
    (∃ ht, ht_oa_init heap_ok 0 sample_hash sample_equal none = some ht ∧
      ht.bucket_count = 16 ∧ ht.item_count = 0 ∧ ht.tombstone_count = 0) ∧
    (∃ ht, ht_oa_init heap_ok 4 sample_hash sample_equal none = some ht ∧
      ht.bucket_count = 4 ∧ ht.entries = List.replicate 4 ⟨0, 0, HT_ENTRY_EMPTY⟩) :=
  ⟨(init_constructs heap_ok 0 sample_hash sample_equal none rfl).imp
      (fun _ h => ⟨h.1, h.2.1, h.2.2.1, h.2.2.2.1⟩),
    ⟨sample_table 4, rfl, rfl, rfl⟩⟩

/-! ## Iteration -/

theorem usize_inc_below {i b : Nat} (hi : i < b) (hb : b < USIZE_MOD) : usize_inc i = i + 1 := by
  unfold usize_inc
  exact Nat.mod_eq_of_lt (by omega)

theorem bucket_count_lt_of_countInv {ht : BaseHashTableOA} (h : CountInv ht) :
    ht.bucket_count < USIZE_MOD := by
  have := h.fits
  unfold SIZEOF_ENTRY at this
  omega

theorem iterator_skip_ge (ht : BaseHashTableOA) (idx : Nat) (hge : ht.bucket_count ≤ idx)
    (fuel : Nat) : iterator_skip ht fuel idx = idx := by
  cases fuel with
  | zero => rfl
  | succ fuel =>
    unfold iterator_skip
    rw [if_neg (by omega)]

/-- The scan of the iterator stops at the first Occupied slot at or after its start: the
Occupied indices from `idx` on are the stop index followed by those after it, or none when
the scan reaches the end. -/
theorem iterator_skip_filter (ht : BaseHashTableOA) (hb : ht.bucket_count < USIZE_MOD) :
    ∀ (fuel idx : Nat), idx ≤ ht.bucket_count → ht.bucket_count - idx ≤ fuel →
      iterator_skip ht fuel idx ≤ ht.bucket_count ∧
      (List.range' idx (ht.bucket_count - idx)).filter
          (fun i => is_occupied (entry_at ht.entries i)) =
        (if iterator_skip ht fuel idx < ht.bucket_count then
          iterator_skip ht fuel idx ::
            (List.range' (iterator_skip ht fuel idx + 1)
              (ht.bucket_count - (iterator_skip ht fuel idx + 1))).filter
              (fun i => is_occupied (entry_at ht.entries i))
        else []) := by
  intro fuel
  induction fuel with
  | zero =>
    intro idx hle hfuel
    have hidx : idx = ht.bucket_count := by omega
    subst hidx
    simp [iterator_skip]
  | succ fuel ih =>
    intro idx hle hfuel
    by_cases hlt : idx < ht.bucket_count
    · have hrange : List.range' idx (ht.bucket_count - idx) =
          idx :: List.range' (idx + 1) (ht.bucket_count - (idx + 1)) := by
        have : ht.bucket_count - idx = (ht.bucket_count - (idx + 1)) + 1 := by omega
        rw [this, List.range'_succ]
      by_cases hocc : (entry_at ht.entries idx).state = HT_ENTRY_OCCUPIED
      · have hskip : iterator_skip ht (fuel + 1) idx = idx := by
          unfold iterator_skip
          rw [if_neg (by intro hc; exact hc.2 hocc)]
        rw [hskip, if_pos hlt, hrange, List.filter_cons_of_pos (by simp [is_occupied, hocc])]
        exact ⟨hle, rfl⟩
      · have hskip : iterator_skip ht (fuel + 1) idx = iterator_skip ht fuel (idx + 1) := by
          conv_lhs => unfold iterator_skip
          rw [if_pos ⟨hlt, hocc⟩, usize_inc_below hlt hb]
        rw [hskip, hrange, List.filter_cons_of_neg (by simp [is_occupied, hocc])]
        exact ih (idx + 1) hlt (by omega)
    · have hidx : idx = ht.bucket_count := by omega
      subst hidx
      rw [iterator_skip_ge ht _ (Nat.le_refl _)]
      simp

/-- Running the iterator from the cursor the scan reaches from `idx`: the pairs of the
Occupied slots from `idx` on, in index order, then the not-found signal. -/
theorem iterator_run_from (ht : BaseHashTableOA) (hb : ht.bucket_count < USIZE_MOD) :
    ∀ (n idx : Nat), idx ≤ ht.bucket_count →
      iterator_run n ⟨ht, iterator_skip ht ht.bucket_count idx⟩ =
        (((List.range' idx (ht.bucket_count - idx)).filter
            (fun i => is_occupied (entry_at ht.entries i))).map
          (fun i => some ((entry_at ht.entries i).key, (entry_at ht.entries i).value))).take n ++
        List.replicate
          (n - ((List.range' idx (ht.bucket_count - idx)).filter
            (fun i => is_occupied (entry_at ht.entries i))).length) none := by
  intro n
  induction n with
  | zero => intro idx _; simp [iterator_run]
  | succ n ih =>
    intro idx hle
    obtain ⟨hjle, hfilter⟩ := iterator_skip_filter ht hb ht.bucket_count idx hle (by omega)
    rw [hfilter]
    generalize iterator_skip ht ht.bucket_count idx = j at hjle ⊢
    by_cases hj : j < ht.bucket_count
    · rw [if_pos hj]
      have hnext : ht_oa_iterator_next ⟨ht, j⟩ =
          (some ((entry_at ht.entries j).key, (entry_at ht.entries j).value),
            ⟨ht, iterator_skip ht ht.bucket_count (j + 1)⟩) := by
        unfold ht_oa_iterator_next
        simp only
        rw [if_neg (by omega), usize_inc_below hj hb]
      unfold iterator_run
      rw [hnext]
      simp only [List.map_cons, List.take_succ_cons, List.cons_append, List.length_cons,
        Nat.add_sub_add_right]
      rw [ih (j + 1) hj]
    · rw [if_neg hj]
      have hjb : j = ht.bucket_count := by omega
      subst hjb
      have hnext : ht_oa_iterator_next ⟨ht, ht.bucket_count⟩ = (none, ⟨ht, ht.bucket_count⟩) := by
        unfold ht_oa_iterator_next
        simp
      unfold iterator_run
      rw [hnext]
      simp only
      have h2 := ih ht.bucket_count (Nat.le_refl _)
      rw [iterator_skip_ge ht _ (Nat.le_refl _)] at h2
      rw [h2]
      simp [List.replicate_succ]

theorem filter_range_length {α : Type} (p : α → Bool) (d : α) (es : List α) :
    ((List.range es.length).filter (fun i => p (es.getD i d))).length = es.countP p := by
  induction es using List.reverseRecOn with
  | nil => simp
  | append_singleton es a ih =>
    rw [List.length_append, List.length_singleton, List.range_succ, List.filter_append,
      List.length_append, List.countP_append]
    have h1 : (List.range es.length).filter (fun i => p ((es ++ [a]).getD i d)) =
        (List.range es.length).filter (fun i => p (es.getD i d)) := by
      apply List.filter_congr
      intro i hi
      have hi2 : i < es.length := List.mem_range.mp hi
      simp [List.getD_eq_getElem?_getD, List.getElem?_append_left hi2]
    rw [h1, ih]
    congr 1
    simp [List.getD_eq_getElem?_getD, List.countP_cons]
    split <;> simp_all

theorem occupied_indices_length {ht : BaseHashTableOA} (h : CountInv ht) :
    (occupied_indices ht).length = ht.item_count := by
  unfold occupied_indices
  rw [h.items, ← h.len]
  exact filter_range_length is_occupied EMPTY_ENTRY ht.entries

/-- C12. Iteration: for every table that satisfies the count invariant (as every table built
through the API does), `ht_oa_iterator_begin` followed by `n` calls of
`ht_oa_iterator_next` yields the key/value pairs of the Occupied slots in strictly
increasing bucket-index order, each Occupied slot exactly once, and after them only the
not-found signal: the Occupied indices number `item_count`, so exactly `item_count` calls
return true and every later call returns false. -/
theorem iteration_yields_occupied (ht : BaseHashTableOA) (h : CountInv ht) :
    (∀ n, iterator_run n (ht_oa_iterator_begin ht) =
      ((occupied_indices ht).map
          (fun i => some ((entry_at ht.entries i).key, (entry_at ht.entries i).value))).take n ++
        List.replicate (n - ht.item_count) none) ∧
      (occupied_indices ht).length = ht.item_count ∧
      (occupied_indices ht).Pairwise (fun i j => i < j) ∧
      (∀ i, i ∈ occupied_indices ht ↔
        i < ht.bucket_count ∧ (entry_at ht.entries i).state = HT_ENTRY_OCCUPIED) := by
  have hlen := occupied_indices_length h
  refine ⟨?_, hlen, ?_, ?_⟩
  · intro n
    have hrun := iterator_run_from ht (bucket_count_lt_of_countInv h) n 0 (Nat.zero_le _)
    rw [Nat.sub_zero, ← List.range_eq_range'] at hrun
    have hlen2 : ((List.range ht.bucket_count).filter
        (fun i => is_occupied (entry_at ht.entries i))).length = ht.item_count := hlen
    rw [hlen2] at hrun
    exact hrun
  · exact List.Pairwise.filter _ (List.pairwise_lt_range _)
  · intro i
    unfold occupied_indices
    simp [List.mem_filter, is_occupied]

/-- Witness for C12: a four-bucket table with two Occupied slots (indices 1 and 3), an Empty
slot and a Tombstone; five calls yield the two pairs in index order, then not-found. -/
theorem iteration_yields_occupied_witness :
    CountInv iteration_sample ∧
      iterator_run 5 (ht_oa_iterator_begin iteration_sample) =
        [some (5, 50), some (7, 70), none, none, none] ∧
      occupied_indices iteration_sample = [1, 3] :=
  have hinv : CountInv iteration_sample := ⟨rfl, by decide, rfl, rfl⟩
  ⟨hinv, ((iteration_yields_occupied iteration_sample hinv).1 5).trans (by decide), by decide⟩

/-! ## Arena: alignment and allocation when no `usize` sum wraps -/

theorem land_high_mask (x k : Nat) (hk : k ≤ 64) (hx : x < 2 ^ 64) :
    Nat.land x (2 ^ 64 - 2 ^ k) = x / 2 ^ k * 2 ^ k := by
  show x &&& (2 ^ 64 - 2 ^ k) = x / 2 ^ k * 2 ^ k
  apply Nat.eq_of_testBit_eq
  intro i
  have hpos : 0 < 2 ^ k := Nat.two_pow_pos k
  have hle : 2 ^ k ≤ 2 ^ 64 := Nat.pow_le_pow_right (by decide) hk
  have hmask : 2 ^ 64 - 2 ^ k = 2 ^ 64 - ((2 ^ k - 1) + 1) := by omega
  rw [Nat.testBit_and, hmask, Nat.testBit_two_pow_sub_succ (by omega),
    Nat.testBit_two_pow_sub_one, Nat.mul_comm, Nat.testBit_mul_pow_two,
    ← Nat.shiftRight_eq_div_pow, Nat.testBit_shiftRight]
  by_cases hik : i < k
  · simp [hik, Nat.not_le.mpr hik]
  · have hki : k ≤ i := Nat.le_of_not_lt hik
    have hadd : k + (i - k) = i := by omega
    rw [hadd]
    by_cases hi : i < 64
    · simp [hik, hki, hi]
    · have hxi : x < 2 ^ i :=
        Nat.lt_of_lt_of_le hx (Nat.pow_le_pow_right (by decide) (Nat.le_of_not_lt hi))
      simp [Nat.testBit_lt_two_pow hxi]

/-- The macro `ALIGN_UP` at a power-of-two alignment, when `value + alignment - 1` fits a
`usize`: the value rounded up to a multiple of the alignment. -/
theorem align_up_no_wrap (value k : Nat) (hk : k < 64)
    (hfit : value + 2 ^ k ≤ USIZE_MOD) :
    ALIGN_UP value (2 ^ k) = (value + 2 ^ k - 1) / 2 ^ k * 2 ^ k := by
  have hpos : 0 < 2 ^ k := Nat.two_pow_pos k
  have hlt : 2 ^ k < 2 ^ 64 := Nat.pow_lt_pow_right (by decide) hk
  have hM : USIZE_MOD = 2 ^ 64 := by decide
  rw [hM] at hfit
  have h1 : usize_dec (usize_add value (2 ^ k)) = value + 2 ^ k - 1 := by
    unfold usize_dec usize_add
    rw [hM]
    by_cases he : value + 2 ^ k = 2 ^ 64
    · rw [he, Nat.mod_self, Nat.zero_add]
      exact Nat.mod_eq_of_lt (by omega)
    · have hv : (value + 2 ^ k) % 2 ^ 64 = value + 2 ^ k := Nat.mod_eq_of_lt (by omega)
      have : value + 2 ^ k + 2 ^ 64 - 1 = (value + 2 ^ k - 1) + 2 ^ 64 := by omega
      rw [hv, this, Nat.add_mod_right]
      exact Nat.mod_eq_of_lt (by omega)
  have h2 : usize_not (usize_dec (2 ^ k)) = 2 ^ 64 - 2 ^ k := by
    unfold usize_not usize_dec
    rw [hM]
    have : 2 ^ k + 2 ^ 64 - 1 = (2 ^ k - 1) + 2 ^ 64 := by omega
    rw [this, Nat.add_mod_right, Nat.mod_mod, Nat.mod_eq_of_lt (by omega)]
    omega
  unfold ALIGN_UP
  rw [h1, h2]
  exact land_high_mask _ k (Nat.le_of_lt hk) (by omega)

/-- Rounding up to a multiple of `a`: the result is the least multiple of `a` that is at
least `value`, so the padding is less than `a`. -/
theorem round_up_least (value a : Nat) (ha : 0 < a) :
    ((value + a - 1) / a * a) % a = 0 ∧ value ≤ (value + a - 1) / a * a ∧
      (value + a - 1) / a * a < value + a ∧
      (∀ m, m % a = 0 → value ≤ m → (value + a - 1) / a * a ≤ m) := by
  have hdm := Nat.div_add_mod (value + a - 1) a
  have hmod := Nat.mod_lt (value + a - 1) ha
  rw [Nat.mul_comm] at hdm
  refine ⟨Nat.mul_mod_left _ _, by omega, by omega, ?_⟩
  intro m hm hvm
  obtain ⟨c, hc⟩ := Nat.dvd_of_mod_eq_zero hm
  subst hc
  rw [Nat.mul_comm a c]
  apply Nat.mul_le_mul_right
  have hq : (value + a - 1) / a < c + 1 := by
    apply Nat.div_lt_of_lt_mul
    rw [Nat.mul_add, Nat.mul_one]
    omega
  omega

theorem arena_alloc_aligned_frame (arena : Arena) (item_size alignment : Nat) :
    (arena_alloc_aligned arena item_size alignment).2.buffer = arena.buffer ∧
      (arena_alloc_aligned arena item_size alignment).2.total_size = arena.total_size ∧
      (arena_alloc_aligned arena item_size alignment).2.prev_offset = arena.prev_offset := by
  unfold arena_alloc_aligned
  simp only
  split <;> exact ⟨rfl, rfl, rfl⟩

theorem alloc_all_frame (reqs : List (Nat × Nat)) : ∀ (arena : Arena),
    (alloc_all arena reqs).2.buffer = arena.buffer ∧
      (alloc_all arena reqs).2.total_size = arena.total_size ∧
      (alloc_all arena reqs).2.prev_offset = arena.prev_offset := by
  induction reqs with
  | nil => intro arena; exact ⟨rfl, rfl, rfl⟩
  | cons req rest ih =>
    intro arena
    obtain ⟨h1, h2, h3⟩ := ih (arena_alloc_aligned arena req.1 req.2).2
    obtain ⟨f1, f2, f3⟩ := arena_alloc_aligned_frame arena req.1 req.2
    exact ⟨h1.trans f1, h2.trans f2, h3.trans f3⟩

/-- The function `arena_alloc_aligned` when neither `usize` sum wraps: with `o` the current
offset rounded up to the alignment, it succeeds exactly when `o + item_size <= total_size`,
returns `buffer + o` and moves `current_offset` to `o + item_size`; otherwise it returns
null and leaves the arena as it was. -/
theorem arena_alloc_aligned_no_wrap (arena : Arena) (item_size k : Nat) (hk : k < 64)
    (hfit : arena.current_offset + 2 ^ k + item_size ≤ USIZE_MOD) :
    arena_alloc_aligned arena item_size (2 ^ k) =
      (if (arena.current_offset + 2 ^ k - 1) / 2 ^ k * 2 ^ k + item_size ≤ arena.total_size then
        (arena.buffer + (arena.current_offset + 2 ^ k - 1) / 2 ^ k * 2 ^ k,
          { arena with current_offset :=
              (arena.current_offset + 2 ^ k - 1) / 2 ^ k * 2 ^ k + item_size })
      else (0, arena)) := by
  have hpos : 0 < 2 ^ k := Nat.two_pow_pos k
  have halign := align_up_no_wrap arena.current_offset k hk (by omega)
  obtain ⟨_, _, hlt, _⟩ := round_up_least arena.current_offset (2 ^ k) hpos
  unfold arena_alloc_aligned
  simp only
  rw [halign]
  generalize (arena.current_offset + 2 ^ k - 1) / 2 ^ k * 2 ^ k = o at hlt ⊢
  have hadd : usize_add o item_size = o + item_size := by
    unfold usize_add
    exact Nat.mod_eq_of_lt (by omega)
  rw [hadd]
  by_cases h : o + item_size ≤ arena.total_size
  · rw [if_pos h, if_neg (by omega)]
  · rw [if_neg h, if_pos (by omega)]

/-- Exhaustion when no `usize` sum wraps: a request larger than the remaining space returns
null and leaves the arena unchanged. -/
theorem arena_exhaustion_no_wrap (arena : Arena) (item_size k : Nat) (hk : k < 64)
    (hfit : arena.current_offset + 2 ^ k + item_size ≤ USIZE_MOD)
    (hbig : arena.total_size - arena.current_offset < item_size) :
    arena_alloc_aligned arena item_size (2 ^ k) = (0, arena) := by
  rw [arena_alloc_aligned_no_wrap arena item_size k hk hfit]
  obtain ⟨_, hge, _, _⟩ := round_up_least arena.current_offset (2 ^ k) (Nat.two_pow_pos k)
  rw [if_neg (by omega)]

/-- The arena invariant is kept by an allocation when no `usize` sum wraps. -/
theorem arenaInv_alloc_no_wrap (arena : Arena) (item_size k : Nat) (hk : k < 64)
    (hfit : arena.current_offset + 2 ^ k + item_size ≤ USIZE_MOD) (hinv : ArenaInv arena) :
    ArenaInv (arena_alloc_aligned arena item_size (2 ^ k)).2 := by
  rw [arena_alloc_aligned_no_wrap arena item_size k hk hfit]
  obtain ⟨_, hge, _, _⟩ := round_up_least arena.current_offset (2 ^ k) (Nat.two_pow_pos k)
  by_cases h : (arena.current_offset + 2 ^ k - 1) / 2 ^ k * 2 ^ k + item_size ≤ arena.total_size
  · rw [if_pos h]
    exact ⟨by have := hinv.1; show arena.prev_offset ≤ _ + item_size; omega, h⟩
  · rw [if_neg h]; exact hinv

theorem arenaInv_lifecycle (arena : Arena) (hinv : ArenaInv arena) :
    ArenaInv (arena_reset arena) ∧ ArenaInv (arena_mark_temp arena) ∧
      ArenaInv (arena_release_temp arena) ∧ ArenaInv (arena_free_all arena) :=
  ⟨⟨Nat.le_refl _, Nat.zero_le _⟩, ⟨Nat.le_refl _, hinv.2⟩,
    ⟨Nat.le_refl _, Nat.le_trans hinv.1 hinv.2⟩, ⟨Nat.le_refl _, Nat.le_refl _⟩⟩

/-- C16. Arena scoped rollback: for every arena, after `arena_mark_temp`, any sequence of
`arena_alloc_aligned` calls and then `arena_release_temp`, `current_offset` equals its
value at the mark (the whole arena is again the arena as marked), hence an allocation made
next returns what the same request returned as the first allocation after the mark. -/
theorem scoped_rollback (arena : Arena) (reqs : List (Nat × Nat)) :
    (arena_release_temp (alloc_all (arena_mark_temp arena) reqs).2).current_offset =
        arena.current_offset ∧
      arena_release_temp (alloc_all (arena_mark_temp arena) reqs).2 = arena_mark_temp arena ∧
      (∀ item_size alignment,
        arena_alloc_aligned (arena_release_temp (alloc_all (arena_mark_temp arena) reqs).2)
            item_size alignment =
          arena_alloc_aligned (arena_mark_temp arena) item_size alignment) := by
  obtain ⟨h1, h2, h3⟩ := alloc_all_frame reqs (arena_mark_temp arena)
  have hrel : arena_release_temp (alloc_all (arena_mark_temp arena) reqs).2 =
      arena_mark_temp arena := by
    unfold arena_release_temp
    rw [h3]
    generalize (alloc_all (arena_mark_temp arena) reqs).2 = b at h1 h2 h3 ⊢
    cases b
    simp only at h1 h2 h3
    subst h1 h2 h3
    rfl
  refine ⟨by rw [hrel]; rfl, hrel, ?_⟩
  intro item_size alignment
  rw [hrel]

/-- C13, evaluated at the failing input: with `current_offset = 16` of `total_size = 100`,
a request of `2^64 - 16` bytes (far more than the 84 remaining) at alignment 16 makes
`aligned_current_offset + item_size` wrap to 0, so the call returns the non-null pointer
`buffer + 16` and sets `current_offset` to 0. -/
theorem exhaustion_check_wraps :
    (⟨4096, 100, 0, 16⟩ : Arena).current_offset ≤ (⟨4096, 100, 0, 16⟩ : Arena).total_size ∧
      (⟨4096, 100, 0, 16⟩ : Arena).total_size - (⟨4096, 100, 0, 16⟩ : Arena).current_offset
        < 18446744073709551600 ∧
      18446744073709551600 < USIZE_MOD ∧
      arena_alloc_aligned ⟨4096, 100, 0, 16⟩ 18446744073709551600 16 =
        (4112, ⟨4096, 100, 0, 0⟩) := by
  decide

/-- C14, evaluated at the failing input: with `current_offset = 8` of `total_size = 64` a
request of `2^64 - 4` bytes at alignment 8 has `o = 8` and `o + size > total_size`, yet
the call succeeds (returns `buffer + 8`) and the new `current_offset` is 4, which is
neither `o + size` nor at least the old offset. -/
theorem alloc_result_wraps :
    ALIGN_UP 8 8 = 8 ∧ (64 : Nat) < 8 + 18446744073709551612 ∧
      arena_alloc_aligned ⟨4096, 64, 0, 8⟩ 18446744073709551612 8 =
        (4104, ⟨4096, 64, 0, 4⟩) := by
  decide

/-- C15, evaluated at the failing input: on a fresh arena of 100 bytes the requests of 16,
`2^64 - 16` and 16 bytes (alignment 16) all succeed and return the offsets 0, 16 and 0:
the offsets decrease, and the first and third spans are the same bytes. -/
theorem alloc_sequence_wraps :
    arena_init (fun _ => 4096) 100 = some ⟨4096, 100, 0, 0⟩ ∧
      alloc_all ⟨4096, 100, 0, 0⟩ [(16, 16), (18446744073709551600, 16), (16, 16)] =
        ([4096, 4112, 4096], ⟨4096, 100, 0, 16⟩) := by
  decide

/-- C17, evaluated at the failing input: from `arena_init(100)`, an allocation of 16 bytes,
`arena_mark_temp`, and an allocation of `2^64 - 16` bytes (alignment 16) that succeeds,
the state has `prev_offset = 16 > current_offset = 0`, and the span returned last starts
at offset 16 and is `2^64 - 16` bytes long, far beyond `total_size = 100`. -/
theorem arena_invariant_wraps :
    arena_init (fun _ => 4096) 100 = some ⟨4096, 100, 0, 0⟩ ∧
      arena_alloc_aligned
          (arena_mark_temp (arena_alloc_aligned ⟨4096, 100, 0, 0⟩ 16 16).2)
          18446744073709551600 16 =
        (4112, ⟨4096, 100, 16, 0⟩) ∧
      ¬ ArenaInv ⟨4096, 100, 16, 0⟩ := by
  refine ⟨by decide, by decide, ?_⟩
  intro h
  exact absurd h.1 (by decide)

/-! ## Hash and equality helpers -/

theorem u64_mul_eq_fnv1a_step (h byte : Nat) :
    u64_mul (Nat.xor h byte) FNV_PRIME_64 = fnv1a_step h byte := rfl

theorem base_hash_bytes_loop_spec (bytes : List Nat) (len : Nat) (hlen : len ≤ bytes.length) :
    ∀ (fuel i hash : Nat), i ≤ len → len - i ≤ fuel →
      base_hash_bytes_loop bytes len fuel i hash =
        (((bytes.take len).drop i).map (fun c => c % 256)).foldl fnv1a_step hash := by
  intro fuel
  induction fuel with
  | zero =>
    intro i hash hi hfuel
    have hdrop : (bytes.take len).drop i = [] :=
      List.drop_eq_nil_of_le (by rw [List.length_take]; omega)
    rw [hdrop]
    rfl
  | succ fuel ih =>
    intro i hash hi hfuel
    unfold base_hash_bytes_loop
    by_cases hlt : i < len
    · have hil : i < (bytes.take len).length := by rw [List.length_take]; omega
      rw [if_pos hlt, ih (i + 1) _ hlt (by omega), List.drop_eq_getElem_cons hil,
        List.map_cons, List.foldl_cons, u64_mul_eq_fnv1a_step]
      congr 2
      rw [List.getElem_take, List.getD_eq_getElem?_getD,
        List.getElem?_eq_getElem (by omega), Option.getD_some]
    · have hdrop : (bytes.take len).drop i = [] :=
        List.drop_eq_nil_of_le (by rw [List.length_take]; omega)
      rw [if_neg hlt, hdrop]
      rfl

/-- C18. The function `base_hash_bytes` is 64-bit FNV-1a: for every byte sequence and every
`len` within it, `base_hash_bytes(b, len)` is the left fold of
`h := ((h xor byte) * 0x100000001B3) mod 2^64` over the first `len` bytes, starting from
`0xCBF29CE484222325`; the empty span hashes to `0xCBF29CE484222325` and the single byte
`0x61` to `0xAF63DC4C8601EC8C`. -/
theorem hash_bytes_is_fnv1a :
    (∀ (bytes : List Nat) (len : Nat), len ≤ bytes.length →
      base_hash_bytes bytes len =
        ((bytes.take len).map (fun c => c % 256)).foldl
          (fun h byte => ((Nat.xor h byte) * 0x100000001B3) % 2 ^ 64) 0xCBF29CE484222325) ∧
      base_hash_bytes [] 0 = 0xCBF29CE484222325 ∧
      base_hash_bytes [0x61] 1 = 0xAF63DC4C8601EC8C := by
  refine ⟨?_, by decide, by decide⟩
  intro bytes len hlen
  unfold base_hash_bytes
  rw [base_hash_bytes_loop_spec bytes len hlen len 0 _ (Nat.zero_le _) (by omega),
    List.drop_zero]
  rfl

/-- Witness for C18: the two bytes "ab" of a three-byte buffer. -/
theorem hash_bytes_is_fnv1a_witness :
    base_hash_bytes [0x61, 0x62, 0x63] 2 =
      ((([0x61, 0x62, 0x63] : List Nat).take 2).map (fun c => c % 256)).foldl
        (fun h byte => ((Nat.xor h byte) * 0x100000001B3) % 2 ^ 64) 0xCBF29CE484222325 :=
  hash_bytes_is_fnv1a.1 [0x61, 0x62, 0x63] 2 (by decide)

theorem char_to_u64_mod (char_signed : Bool) (c : Nat) :
    char_to_u64 char_signed (c % 256) = char_to_u64 char_signed c := by
  unfold char_to_u64
  rw [Nat.mod_mod]

/-- The loop of `base_hash_string` reads the bytes before the terminator only. -/
theorem base_hash_string_loop_spec (char_signed : Bool) : ∀ (s : List Nat) (hash : Nat),
    base_hash_string_loop char_signed s hash =
      (string_bytes s).foldl
        (fun h c => u64_mul (Nat.xor h (char_to_u64 char_signed c)) FNV_PRIME_64) hash := by
  intro s
  induction s with
  | nil => intro hash; rfl
  | cons c rest ih =>
    intro hash
    unfold base_hash_string_loop string_bytes
    by_cases hc : c % 256 = 0
    · rw [if_pos hc, if_pos hc]; rfl
    · rw [if_neg hc, if_neg hc, ih, List.foldl_cons, char_to_u64_mod]

theorem take_strlen (s : List Nat) :
    (s.take (strlen s)).map (fun c => c % 256) = string_bytes s ∧ strlen s ≤ s.length := by
  induction s with
  | nil => exact ⟨rfl, Nat.le_refl _⟩
  | cons c rest ih =>
    unfold strlen string_bytes
    by_cases hc : c % 256 = 0
    · rw [if_pos hc, if_pos hc]; exact ⟨rfl, Nat.zero_le _⟩
    · rw [if_neg hc, if_neg hc, List.take_succ_cons, List.map_cons, ih.1]
      exact ⟨rfl, Nat.succ_le_succ ih.2⟩

theorem string_bytes_lt (s : List Nat) : ∀ c, c ∈ string_bytes s → c < 256 := by
  induction s with
  | nil => intro c hc; simp [string_bytes] at hc
  | cons a rest ih =>
    intro c hc
    unfold string_bytes at hc
    by_cases ha : a % 256 = 0
    · rw [if_pos ha] at hc; simp at hc
    · rw [if_neg ha] at hc
      rcases List.mem_cons.mp hc with h | h
      · rw [h]; exact Nat.mod_lt _ (by decide)
      · exact ih c h

theorem foldl_congr_mem {α β : Type} (f g : β → α → β) (l : List α)
    (h : ∀ b a, a ∈ l → f b a = g b a) : ∀ b, l.foldl f b = l.foldl g b := by
  induction l with
  | nil => intro b; rfl
  | cons a rest ih =>
    intro b
    rw [List.foldl_cons, List.foldl_cons, h b a (List.mem_cons_self _ _)]
    exact ih (fun b x hx => h b x (List.mem_cons_of_mem _ hx)) _

/-- The two hash helpers agree on every string whose bytes `*p` convert to `u64` without
sign extension: where `char` is unsigned, or where every byte is below `0x80`. -/
theorem hash_helpers_agree (char_signed : Bool) (str_at : Ptr → List Nat) (key : Ptr)
    (hkey : key ≠ 0)
    (h : char_signed = false ∨ ∀ c, c ∈ string_bytes (str_at key) → c < 128) :
    base_hash_string char_signed str_at key =
      base_hash_bytes (str_at key) (strlen (str_at key)) := by
  obtain ⟨htake, hlen⟩ := take_strlen (str_at key)
  unfold base_hash_string base_hash_bytes
  rw [if_neg hkey, base_hash_string_loop_spec,
    base_hash_bytes_loop_spec _ _ hlen _ 0 _ (Nat.zero_le _) (by omega), List.drop_zero, htake]
  apply foldl_congr_mem
  intro b c hc
  have hc256 := string_bytes_lt _ c hc
  have hch : char_to_u64 char_signed c = c := by
    unfold char_to_u64
    rw [Nat.mod_eq_of_lt hc256]
    rcases h with h | h
    · rw [if_neg (by rw [h]; simp)]
    · rw [if_neg (by have := h c hc; omega)]
  rw [hch]
  rfl

/-- C19, evaluated at the failing input: for the one-byte string "\x80", where `char` is
signed the conversion `(u64)(*p)` sign-extends the byte to `0xFFFFFFFFFFFFFF80`, so
`base_hash_string` returns 5808531584386460767 while `base_hash_bytes` over the same
byte, the FNV-1a hash, is 12638293853183578463. -/
theorem hash_string_sign_extends :
    strlen [0x80] = 1 ∧
      char_to_u64 true 0x80 = 0xFFFFFFFFFFFFFF80 ∧
      base_hash_string true (fun _ => [0x80]) 1 = 5808531584386460767 ∧
      base_hash_bytes [0x80] (strlen [0x80]) = 12638293853183578463 ∧
      base_hash_string true (fun _ => [0x80]) 1 ≠ base_hash_bytes [0x80] (strlen [0x80]) := by
  decide

/-- The function `strcmp` returns 0 exactly when the two strings have the same bytes before
their terminators. -/
theorem strcmp_eq_zero_iff : ∀ (s1 s2 : List Nat),
    strcmp s1 s2 = 0 ↔ string_bytes s1 = string_bytes s2 := by
  intro s1
  induction s1 with
  | nil =>
    intro s2
    cases s2 with
    | nil => simp [strcmp, string_bytes]
    | cons c2 rest2 =>
      unfold strcmp string_bytes
      by_cases h2 : c2 % 256 = 0
      · simp [h2]
      · rw [if_neg h2]
        constructor
        · intro h; omega
        · intro h; simp at h
  | cons c1 rest1 ih =>
    intro s2
    cases s2 with
    | nil =>
      unfold strcmp string_bytes
      by_cases h1 : c1 % 256 = 0
      · simp [h1]
      · rw [if_neg h1]
        constructor
        · intro h; omega
        · intro h; simp at h
    | cons c2 rest2 =>
      unfold strcmp
      rw [string_bytes, string_bytes]
      by_cases hne : c1 % 256 ≠ c2 % 256
      · rw [if_pos hne]
        constructor
        · intro h; omega
        · intro h
          exfalso
          by_cases h1 : c1 % 256 = 0
          · rw [if_pos h1, if_neg (by omega)] at h; simp at h
          · rw [if_neg h1] at h
            by_cases h2 : c2 % 256 = 0
            · rw [if_pos h2] at h; simp at h
            · rw [if_neg h2] at h
              exact hne (List.cons.inj h).1
      · have heq : c1 % 256 = c2 % 256 := by omega
        rw [if_neg hne, ← heq]
        by_cases h1 : c1 % 256 = 0
        · simp only [if_pos h1]
        · simp only [if_neg h1]
          rw [ih rest2]
          constructor
          · intro h; rw [h]
          · intro h; exact (List.cons.inj h).2

theorem base_key_equal_string_nonnull (str_at : Ptr → List Nat) (key1 key2 : Ptr)
    (h1 : key1 ≠ 0) (h2 : key2 ≠ 0) :
    base_key_equal_string str_at key1 key2 = true ↔
      string_bytes (str_at key1) = string_bytes (str_at key2) := by
  unfold base_key_equal_string
  by_cases he : key1 = key2
  · rw [if_pos he, he]; simp
  · rw [if_neg he, if_neg (not_or.mpr ⟨h1, h2⟩), decide_eq_true_iff]
    exact strcmp_eq_zero_iff _ _

theorem base_key_equal_string_null (str_at : Ptr → List Nat) (key : Ptr) (h : key ≠ 0) :
    base_key_equal_string str_at key 0 = false ∧ base_key_equal_string str_at 0 key = false := by
  unfold base_key_equal_string
  rw [if_neg h, if_pos (Or.inr rfl), if_neg (Ne.symm h), if_pos (Or.inl rfl)]
  exact ⟨rfl, rfl⟩

theorem base_key_equal_string_symm (str_at : Ptr → List Nat) (key1 key2 : Ptr) :
    base_key_equal_string str_at key1 key2 = base_key_equal_string str_at key2 key1 := by
  by_cases h1 : key1 = 0
  · by_cases h2 : key2 = 0
    · rw [h1, h2]
    · rw [h1, (base_key_equal_string_null str_at key2 h2).1,
        (base_key_equal_string_null str_at key2 h2).2]
  · by_cases h2 : key2 = 0
    · rw [h2, (base_key_equal_string_null str_at key1 h1).1,
        (base_key_equal_string_null str_at key1 h1).2]
    · have ha := base_key_equal_string_nonnull str_at key1 key2 h1 h2
      have hb := base_key_equal_string_nonnull str_at key2 key1 h2 h1
      rw [Bool.eq_iff_iff, ha, hb]
      exact eq_comm

theorem base_key_equal_string_refl (str_at : Ptr → List Nat) (key : Ptr) :
    base_key_equal_string str_at key key = true := by
  unfold base_key_equal_string
  rw [if_pos rfl]

/-- C20. The function `base_key_equal_string` is a null-safe byte-wise equality compatible
with the hash: true for the same pointer (both null included), false when exactly one
argument is null, and for two non-null strings true exactly when their byte sequences up to
the terminator are identical; it is reflexive, symmetric and transitive, and two non-null
strings it finds equal have the same `base_hash_string` (whatever the signedness of
`char`). -/
theorem key_equal_string_spec (str_at : Ptr → List Nat) :
    (∀ key, base_key_equal_string str_at key key = true) ∧
      (∀ key, key ≠ 0 → base_key_equal_string str_at key 0 = false ∧
        base_key_equal_string str_at 0 key = false) ∧
      (∀ key1 key2, key1 ≠ 0 → key2 ≠ 0 →
        (base_key_equal_string str_at key1 key2 = true ↔
          string_bytes (str_at key1) = string_bytes (str_at key2))) ∧
      (∀ key1 key2,
        base_key_equal_string str_at key1 key2 = base_key_equal_string str_at key2 key1) ∧
      (∀ key1 key2 key3, base_key_equal_string str_at key1 key2 = true →
        base_key_equal_string str_at key2 key3 = true →
        base_key_equal_string str_at key1 key3 = true) ∧
      (∀ char_signed key1 key2, key1 ≠ 0 → key2 ≠ 0 →
        base_key_equal_string str_at key1 key2 = true →
        base_hash_string char_signed str_at key1 = base_hash_string char_signed str_at key2) := by
  refine ⟨base_key_equal_string_refl str_at, base_key_equal_string_null str_at,
    base_key_equal_string_nonnull str_at, base_key_equal_string_symm str_at, ?_, ?_⟩
  · intro key1 key2 key3 h12 h23
    by_cases h1 : key1 = 0
    · subst h1
      by_cases h2 : key2 = 0
      · subst h2; exact h23
      · rw [(base_key_equal_string_null str_at key2 h2).2] at h12
        exact absurd h12 (by simp)
    · by_cases h2 : key2 = 0
      · subst h2
        rw [(base_key_equal_string_null str_at key1 h1).1] at h12
        exact absurd h12 (by simp)
      · by_cases h3 : key3 = 0
        · subst h3
          rw [(base_key_equal_string_null str_at key2 h2).1] at h23
          exact absurd h23 (by simp)
        · rw [base_key_equal_string_nonnull str_at _ _ h1 h2] at h12
          rw [base_key_equal_string_nonnull str_at _ _ h2 h3] at h23
          rw [base_key_equal_string_nonnull str_at _ _ h1 h3]
          exact h12.trans h23
  · intro char_signed key1 key2 h1 h2 h12
    rw [base_key_equal_string_nonnull str_at _ _ h1 h2] at h12
    unfold base_hash_string
    rw [if_neg h1, if_neg h2, base_hash_string_loop_spec, base_hash_string_loop_spec, h12]

/-- Witness for C20: two copies of "ab" at the addresses 1 and 2 compare equal and hash
alike; the null pointer differs from the string at address 1. -/
theorem key_equal_string_spec_witness :
    base_key_equal_string sample_strings 1 2 = true ∧
      string_bytes (sample_strings 1) = string_bytes (sample_strings 2) ∧
      base_hash_string true sample_strings 1 = base_hash_string true sample_strings 2 ∧
      base_key_equal_string sample_strings 1 0 = false ∧
      base_key_equal_string sample_strings 1 3 = false :=
  ⟨by decide,
    ((key_equal_string_spec sample_strings).2.2.1 1 2 (by decide) (by decide)).mp (by decide),
    (key_equal_string_spec sample_strings).2.2.2.2.2 true 1 2 (by decide) (by decide)
      (by decide),
    ((key_equal_string_spec sample_strings).2.1 1 (by decide)).1, by decide⟩

/-! ## The insertion target of the slot search -/

/-- The loop of `ht_oa_find_slot`, entered at position `n` of the probe sequence with the
first Tombstone of the positions before `n` remembered: when it does not find the key, the
slot it returns is the insertion target. -/
theorem find_loop_target (ht : BaseHashTableOA) (key : Ptr)
    (hs : start_index ht key < ht.bucket_count) :
    ∀ fuel n ft, n < ht.bucket_count → ht.bucket_count - n ≤ fuel →
      (∀ m, m < n → probe_state ht key m ≠ HT_ENTRY_EMPTY) →
      (ft = none → ∀ m, m < n → probe_state ht key m ≠ HT_ENTRY_TOMBSTONE) →
      (∀ t, ft = some t → ∃ p, p < n ∧ t = (start_index ht key + p) % ht.bucket_count ∧
        probe_state ht key p = HT_ENTRY_TOMBSTONE ∧
        ∀ m, m < p → probe_state ht key m ≠ HT_ENTRY_TOMBSTONE) →
      (find_slot_loop ht key (start_index ht key) fuel
        ((start_index ht key + n) % ht.bucket_count) ft).2 = false →
      InsertionTarget ht key (find_slot_loop ht key (start_index ht key) fuel
        ((start_index ht key + n) % ht.bucket_count) ft).1 := by
  intro fuel
  induction fuel with
  | zero => intro n ft hn hf; omega
  | succ f ih =>
    intro n ft hn hf hne hnone hsome
    have hb : 0 < ht.bucket_count := by omega
    -- what the loop returns when it stops with the remembered Tombstone `g`
    have hstop : ∀ g : Option Nat, n + 1 = ht.bucket_count →
        probe_state ht key n ≠ HT_ENTRY_EMPTY →
        (g = none → ∀ m, m < n + 1 → probe_state ht key m ≠ HT_ENTRY_TOMBSTONE) →
        (∀ t, g = some t → ∃ p, p < n + 1 ∧ t = (start_index ht key + p) % ht.bucket_count ∧
          probe_state ht key p = HT_ENTRY_TOMBSTONE ∧
          ∀ m, m < p → probe_state ht key m ≠ HT_ENTRY_TOMBSTONE) →
        InsertionTarget ht key g := by
      intro g hnb hst hgn hgs
      have hall : ∀ m, m < ht.bucket_count → probe_state ht key m ≠ HT_ENTRY_EMPTY := by
        intro m hm
        rcases Nat.eq_or_lt_of_le (Nat.le_of_lt_succ (by omega : m < n + 1)) with heq | hlt
        · rw [heq]; exact hst
        · exact hne m hlt
      refine ⟨?_, ?_, ?_⟩
      · intro e he hee _
        exact absurd hee (hall e he)
      · intro _
        refine ⟨?_, ?_⟩
        · intro t ht1 ht2 ht3
          cases g with
          | none => exact absurd ht2 (hgn rfl t (by omega))
          | some t0 =>
            obtain ⟨p, hp, h1, h2, h3⟩ := hgs t0 rfl
            have hpt : p = t := by
              rcases Nat.lt_trichotomy p t with h | h | h
              · exact absurd h2 (ht3 p h)
              · exact h
              · exact absurd ht2 (h3 t h)
            rw [h1, hpt]
        · intro hnt
          cases g with
          | none => rfl
          | some t0 =>
            obtain ⟨p, hp, _, h2, _⟩ := hgs t0 rfl
            exact absurd h2 (hnt p (by omega))
      · intro i hi
        obtain ⟨p, hp, h1, h2, _⟩ := hgs i hi
        rw [h1]
        exact ⟨Nat.mod_lt _ hb, by
          have : (entry_at ht.entries ((start_index ht key + p) % ht.bucket_count)).state =
            HT_ENTRY_TOMBSTONE := h2
          rw [this]; decide⟩
    simp only [find_slot_loop]
    split
    · -- Empty slot
      rename_i hst
      intro _
      have hstn : probe_state ht key n = HT_ENTRY_EMPTY := hst
      have hfirst : ∀ e, probe_state ht key e = HT_ENTRY_EMPTY →
          (∀ m, m < e → probe_state ht key m ≠ HT_ENTRY_EMPTY) → e = n := by
        intro e he1 he2
        rcases Nat.lt_trichotomy e n with h | h | h
        · exact absurd he1 (hne e h)
        · exact h
        · exact absurd hstn (he2 n h)
      refine ⟨?_, ?_, ?_⟩
      · intro e _ he1 he2
        have hen := hfirst e he1 he2
        subst hen
        refine ⟨?_, ?_⟩
        · intro t ht1 ht2 ht3
          cases ft with
          | none => exact absurd ht2 (hnone rfl t ht1)
          | some t0 =>
            obtain ⟨p, hp, h1, h2, h3⟩ := hsome t0 rfl
            have hpt : p = t := by
              rcases Nat.lt_trichotomy p t with h | h | h
              · exact absurd h2 (ht3 p h)
              · exact h
              · exact absurd ht2 (h3 t h)
            simp only [Option.getD_some]
            rw [h1, hpt]
        · intro hnt
          cases ft with
          | none => rfl
          | some t0 =>
            obtain ⟨p, hp, _, h2, _⟩ := hsome t0 rfl
            exact absurd h2 (hnt p hp)
      · intro hall
        exact absurd hstn (hall n hn)
      · intro i hi
        cases ft with
        | none =>
          simp only [Option.getD_none, Option.some.injEq] at hi
          subst hi
          exact ⟨Nat.mod_lt _ hb, by rw [hst]; decide⟩
        | some t0 =>
          simp only [Option.getD_some, Option.some.injEq] at hi
          subst hi
          obtain ⟨p, hp, h1, h2, _⟩ := hsome _ rfl
          rw [h1]
          exact ⟨Nat.mod_lt _ hb, by
            have : (entry_at ht.entries ((start_index ht key + p) % ht.bucket_count)).state =
              HT_ENTRY_TOMBSTONE := h2
            rw [this]; decide⟩
    · -- Tombstone
      rename_i hst
      have hstn : probe_state ht key n = HT_ENTRY_TOMBSTONE := hst
      have hne2 : ∀ m, m < n + 1 → probe_state ht key m ≠ HT_ENTRY_EMPTY := by
        intro m hm
        rcases Nat.eq_or_lt_of_le (Nat.le_of_lt_succ hm) with heq | hlt
        · rw [heq, hstn]; decide
        · exact hne m hlt
      have hnone2 : (if ft.isNone = true then some ((start_index ht key + n) % ht.bucket_count)
          else ft) = none → ∀ m, m < n + 1 → probe_state ht key m ≠ HT_ENTRY_TOMBSTONE := by
        intro hc
        cases ft <;> simp at hc
      have hsome2 : ∀ t, (if ft.isNone = true then
          some ((start_index ht key + n) % ht.bucket_count) else ft) = some t →
          ∃ p, p < n + 1 ∧ t = (start_index ht key + p) % ht.bucket_count ∧
            probe_state ht key p = HT_ENTRY_TOMBSTONE ∧
            ∀ m, m < p → probe_state ht key m ≠ HT_ENTRY_TOMBSTONE := by
        intro t htt
        cases ft with
        | none =>
          simp at htt; subst htt
          exact ⟨n, by omega, rfl, hstn, hnone rfl⟩
        | some t0 =>
          simp at htt; subst htt
          obtain ⟨p, hp, h1, h2, h3⟩ := hsome _ rfl
          exact ⟨p, by omega, h1, h2, h3⟩
      rw [probe_succ]
      by_cases hlast : n + 1 < ht.bucket_count
      · rw [if_pos (probe_ne_start hs hlast)]
        exact ih (n + 1) _ hlast (by omega) hne2 hnone2 hsome2
      · have hnb : n + 1 = ht.bucket_count := by omega
        have hstart : (start_index ht key + (n + 1)) % ht.bucket_count = start_index ht key := by
          rw [hnb, Nat.add_mod_right, Nat.mod_eq_of_lt hs]
        rw [if_neg (by simpa using hstart)]
        intro _
        exact hstop _ hnb (by rw [hstn]; decide) hnone2 hsome2
    · -- Occupied slot
      rename_i hst
      have hstn : probe_state ht key n = HT_ENTRY_OCCUPIED := hst
      by_cases heq : ht.key_equal_fn
          (entry_at ht.entries ((start_index ht key + n) % ht.bucket_count)).key key = true
      · rw [if_pos heq]
        intro hc
        exact absurd hc (by simp)
      · rw [if_neg heq]
        have hne2 : ∀ m, m < n + 1 → probe_state ht key m ≠ HT_ENTRY_EMPTY := by
          intro m hm
          rcases Nat.eq_or_lt_of_le (Nat.le_of_lt_succ hm) with heq | hlt
          · rw [heq, hstn]; decide
          · exact hne m hlt
        have hnone2 : ft = none → ∀ m, m < n + 1 → probe_state ht key m ≠ HT_ENTRY_TOMBSTONE := by
          intro hc m hm
          rcases Nat.eq_or_lt_of_le (Nat.le_of_lt_succ hm) with heq | hlt
          · rw [heq, hstn]; decide
          · exact hnone hc m hlt
        have hsome2 : ∀ t, ft = some t →
            ∃ p, p < n + 1 ∧ t = (start_index ht key + p) % ht.bucket_count ∧
              probe_state ht key p = HT_ENTRY_TOMBSTONE ∧
              ∀ m, m < p → probe_state ht key m ≠ HT_ENTRY_TOMBSTONE := by
          intro t htt
          obtain ⟨p, hp, h1, h2, h3⟩ := hsome t htt
          exact ⟨p, by omega, h1, h2, h3⟩
        rw [probe_succ]
        by_cases hlast : n + 1 < ht.bucket_count
        · rw [if_pos (probe_ne_start hs hlast)]
          exact ih (n + 1) _ hlast (by omega) hne2 hnone2 hsome2
        · have hnb : n + 1 = ht.bucket_count := by omega
          have hstart : (start_index ht key + (n + 1)) % ht.bucket_count =
              start_index ht key := by
            rw [hnb, Nat.add_mod_right, Nat.mod_eq_of_lt hs]
          rw [if_neg (by simpa using hstart)]
          intro _
          exact hstop _ hnb (by rw [hstn]; decide) hnone2 hsome2

/-- C30. The insertion target of `ht_oa_find_slot`: for every table with `bucket_count > 0`
and every key the search does not find, the slot returned is, scanning the probe sequence
from `hash(K) mod bucket_count`, the first Tombstone met before the first Empty slot if
there is one, and otherwise that first Empty slot; when the scan goes fully round without
meeting an Empty slot, it is the first Tombstone met if there is one, and otherwise no
slot; the slot returned is never Occupied.  (The search is a function of the table: it
has no way to modify it.) -/
theorem find_slot_insertion_target (ht : BaseHashTableOA) (K : Ptr)
    (hb : 0 < ht.bucket_count) (hnf : (ht_oa_find_slot ht K).2 = false) :
    InsertionTarget ht K (ht_oa_find_slot ht K).1 := by
  have hs := start_index_lt ht K hb
  have hloop := find_loop_target ht K hs ht.bucket_count 0 none hb (by omega)
    (fun m hm => absurd hm (Nat.not_lt_zero m)) (fun _ m hm => absurd hm (Nat.not_lt_zero m))
    (fun t ht0 => absurd ht0 (by simp))
  rw [Nat.add_zero, Nat.mod_eq_of_lt hs] at hloop
  unfold ht_oa_find_slot at hnf ⊢
  rw [if_neg (by omega)] at hnf ⊢
  exact hloop hnf

/-- Witness for C30: in a four-bucket table whose probe sequence for the key 9 starts at
slot 1 and meets an Occupied slot, two Tombstones and then the Empty slot 0, the search
returns slot 2, the first Tombstone. -/
theorem find_slot_insertion_target_witness :
    ht_oa_find_slot target_sample 9 = (some 2, false) ∧
      InsertionTarget target_sample 9 (some 2) :=
  ⟨by decide, find_slot_insertion_target target_sample 9 (by decide) (by decide)⟩

/-! ## The growth stage and the bucket count -/

theorem retry_noop (heap : Nat → Bool) (t : BaseHashTableOA) (key : Ptr) {slot : Nat}
    (hocc : (entry_at t.entries slot).state ≠ HT_ENTRY_OCCUPIED) :
    retry_stage heap t key (some slot) = (true, t, some slot) := by
  unfold retry_stage
  rw [if_neg (by simp [slot_unusable, hocc])]

theorem store_stage_frame (t : BaseHashTableOA) (slot : Nat) (key value : Ptr) :
    (store_stage t slot key value).2.bucket_count = t.bucket_count ∧
      (store_stage t slot key value).2.arena = t.arena := by
  unfold store_stage
  simp only
  split
  · exact ⟨rfl, rfl⟩
  · split <;> exact ⟨rfl, rfl⟩

theorem update_stage_frame (t : BaseHashTableOA) (slot : Nat) (value : Ptr) :
    (update_stage t slot value).2.bucket_count = t.bucket_count ∧
      (update_stage t slot value).2.arena = t.arena := by
  unfold update_stage
  simp only
  split <;> exact ⟨rfl, rfl⟩

/-- The function `ht_oa_rehash` succeeds exactly when the allocation of the new bucket array
does. -/
theorem rehash_result_alloc (heap : Nat → Bool) (ht : BaseHashTableOA) (n : Nat) :
    (ht_oa_rehash heap ht n).1 = (alloc_entries heap ht.arena (rehash_bucket_count ht n)).1 := by
  unfold ht_oa_rehash
  simp only
  cases h : (alloc_entries heap ht.arena (rehash_bucket_count ht n)).1 with
  | false => rw [if_pos rfl]
  | true => rw [if_neg (by simp)]

/-- After its growth stage, `ht_oa_insert` does not change the bucket count of a well-formed
table any more. -/
theorem insert_bucket_count {ht : BaseHashTableOA} (hw : WF ht) (hl : LawfulKeys ht)
    (heap : Nat → Bool) (key value : Ptr) :
    (ht_oa_insert heap ht key value).2.bucket_count =
      (insert_growth heap ht).2.bucket_count := by
  obtain ⟨hev, hroom⟩ := insert_growth_spec hw hl heap
  rw [insert_stages]
  cases hg : (insert_growth heap ht).1 with
  | false => rw [if_pos rfl]
  | true =>
    rw [if_neg (by simp)]
    by_cases hf : (ht_oa_find_slot (insert_growth heap ht).2 key).2 = true
    · rw [if_pos hf]
    · rw [if_neg hf]
      have habs := absent_of_not_found hev.wf (hev.lawful hl) (by simpa using hf)
      obtain ⟨slot, hfs, _, hocc, _⟩ := find_slot_room hev.wf habs (hroom hg)
      rw [hfs]
      simp only [retry_noop heap _ key hocc]
      rw [if_neg (by simp)]
      exact (store_stage_frame _ _ _ _).1

/-- After its growth stage, `ht_oa_put` does not change the bucket count of a well-formed
table any more. -/
theorem put_bucket_count {ht : BaseHashTableOA} (hw : WF ht) (hl : LawfulKeys ht)
    (heap : Nat → Bool) (key value : Ptr) :
    (ht_oa_put heap ht key value).2.bucket_count =
      (put_growth heap ht key).2.bucket_count := by
  obtain ⟨hev, hroom⟩ := put_growth_spec hw hl heap key
  rw [put_stages]
  cases hg : (put_growth heap ht key).1 with
  | false => rw [if_pos rfl]
  | true =>
    rw [if_neg (by simp)]
    by_cases hf : (ht_oa_find_slot (put_growth heap ht key).2 key).2 = true
    · rw [if_pos hf]
      exact (update_stage_frame _ _ _).1
    · rw [if_neg hf]
      have habs := absent_of_not_found hev.wf (hev.lawful hl) (by simpa using hf)
      obtain ⟨slot, hfs, _, hocc, _⟩ := find_slot_room hev.wf habs (hroom hg)
      rw [hfs]
      simp only [retry_noop heap _ key hocc]
      rw [if_neg (by simp)]
      exact (store_stage_frame _ _ _ _).1

/-- The outcome of the rehash the growth checks request for a table with buckets: the
bucket count is doubled when the new array can be allocated, and the call fails with the
bucket count unchanged otherwise. -/
theorem rehash_double {ht : BaseHashTableOA} (hw : WF ht) (hl : LawfulKeys ht)
    (hb : 0 < ht.bucket_count) (heap : Nat → Bool) :
    (ht_oa_rehash heap ht (usize_mul ht.bucket_count 2)).1 =
        (alloc_entries heap ht.arena (ht.bucket_count * 2)).1 ∧
      ((alloc_entries heap ht.arena (ht.bucket_count * 2)).1 = true →
        (ht_oa_rehash heap ht (usize_mul ht.bucket_count 2)).2.bucket_count =
          ht.bucket_count * 2) ∧
      ((alloc_entries heap ht.arena (ht.bucket_count * 2)).1 = false →
        (ht_oa_rehash heap ht (usize_mul ht.bucket_count 2)).2.bucket_count =
          ht.bucket_count) := by
  have hd := rehash_bucket_count_double hw.counts hb
  have hres := rehash_result_alloc heap ht (usize_mul ht.bucket_count 2)
  rw [hd] at hres
  refine ⟨hres, ?_, ?_⟩
  · intro ha
    rw [rehash_buckets hw hl (by rw [hres]; exact ha), hd]
  · intro ha
    obtain ⟨a, h⟩ := rehash_failure (by rw [hres]; exact ha :
      (ht_oa_rehash heap ht (usize_mul ht.bucket_count 2)).1 = false)
    rw [h]

theorem counts_no_wrap {ht : BaseHashTableOA} (hc : CountInv ht) :
    usize_add ht.item_count 1 = ht.item_count + 1 ∧
      usize_add ht.item_count ht.tombstone_count = ht.item_count + ht.tombstone_count ∧
      usize_add (usize_add ht.item_count ht.tombstone_count) 1 =
        ht.item_count + ht.tombstone_count + 1 := by
  have h1 := count_le_bucket hc
  have h2 := hc.fits
  unfold SIZEOF_ENTRY USIZE_MOD at h2
  have hM : USIZE_MOD = 18446744073709551616 := rfl
  unfold usize_add
  rw [hM]
  refine ⟨Nat.mod_eq_of_lt (by omega), Nat.mod_eq_of_lt (by omega), ?_⟩
  rw [Nat.mod_eq_of_lt (by omega : ht.item_count + ht.tombstone_count < 18446744073709551616)]
  exact Nat.mod_eq_of_lt (by omega)

theorem insert_all_keeps (heap : Nat → Bool) (l : List (Ptr × Ptr)) :
    ∀ (acc : Bool) (ht : BaseHashTableOA), WF ht → LawfulKeys ht → Borrowed ht →
      WF (l.foldl (fun acc kv => ((ht_oa_insert heap acc.2 kv.1 kv.2).1 && acc.1,
          (ht_oa_insert heap acc.2 kv.1 kv.2).2)) (acc, ht)).2 ∧
        LawfulKeys (l.foldl (fun acc kv => ((ht_oa_insert heap acc.2 kv.1 kv.2).1 && acc.1,
          (ht_oa_insert heap acc.2 kv.1 kv.2).2)) (acc, ht)).2 ∧
        Borrowed (l.foldl (fun acc kv => ((ht_oa_insert heap acc.2 kv.1 kv.2).1 && acc.1,
          (ht_oa_insert heap acc.2 kv.1 kv.2).2)) (acc, ht)).2 := by
  induction l with
  | nil => intro acc ht hw hl hb; exact ⟨hw, hl, hb⟩
  | cons kv rest ih =>
    intro acc ht hw hl hb
    have h := insert_keeps hw hl hb heap kv.1 kv.2
    exact ih _ _ h.1 (lawful_of_config hl h.2) (borrowed_of_config hb h.2)

theorem wf_insert_all (heap : Nat → Bool) {ht : BaseHashTableOA} (hw : WF ht)
    (hl : LawfulKeys ht) (hb : Borrowed ht) (l : List (Ptr × Ptr)) :
    WF (insert_all heap ht l).2 ∧ LawfulKeys (insert_all heap ht l).2 ∧
      Borrowed (insert_all heap ht l).2 :=
  insert_all_keeps heap l true ht hw hl hb

theorem wf_two_of_four : WF two_of_four ∧ LawfulKeys two_of_four ∧ Borrowed two_of_four :=
  have h0 := wf_sample_table (n := 4) (by decide)
  wf_insert_all heap_ok h0.1 h0.2.1 h0.2.2 _

theorem wf_six_of_ten : WF six_of_ten ∧ LawfulKeys six_of_ten ∧ Borrowed six_of_ten :=
  have h0 := wf_sample_table (n := 10) (by decide)
  wf_insert_all heap_ok h0.1 h0.2.1 h0.2.2 _

/-- The growth stage of `ht_oa_put` for a table with buckets and a key `ht_oa_contains`
does not report: the check counts the incoming item. -/
theorem put_growth_new (heap : Nat → Bool) {ht : BaseHashTableOA} {key : Ptr}
    (hb : 0 < ht.bucket_count) (hc : ht_oa_contains ht key = false) :
    put_growth heap ht key =
      if usize_add ht.item_count 1 ≥ ht.bucket_count ∨
          load_exceeds (usize_add (usize_add ht.item_count ht.tombstone_count) 1)
            ht.bucket_count = true then
        ht_oa_rehash heap ht (usize_mul ht.bucket_count 2)
      else (true, ht) := by
  unfold put_growth
  have hb0 : ¬ ht.bucket_count = 0 := by omega
  simp only [hb0, if_false, Bool.true_eq_false, hc, hb, if_true]
  rfl

/-- The growth stage of `ht_oa_insert` for a table with buckets: the check uses the current
load. -/
theorem insert_growth_cases (heap : Nat → Bool) {ht : BaseHashTableOA}
    (hb : 0 < ht.bucket_count) :
    insert_growth heap ht =
      if usize_add ht.item_count 1 ≥ ht.bucket_count ∨
          load_exceeds (usize_add ht.item_count ht.tombstone_count) ht.bucket_count = true then
        ht_oa_rehash heap ht (usize_mul ht.bucket_count 2)
      else (true, ht) := by
  by_cases hcond : usize_add ht.item_count 1 ≥ ht.bucket_count ∨
      load_exceeds (usize_add ht.item_count ht.tombstone_count) ht.bucket_count = true
  · rw [if_pos hcond, insert_growth_grow hb hcond]
  · rw [if_neg hcond, insert_growth_noop (by omega) hcond]

/-- C27 as stated fails: with 2 items in 4 buckets, accepting one more item would push the
load to 3/4, above 0.7, yet `ht_oa_insert` of a new key succeeds without a rehash and
leaves `bucket_count` at 4. -/
theorem insert_ignores_incoming_item :
    WF two_of_four ∧ two_of_four.bucket_count = 4 ∧ two_of_four.item_count = 2 ∧
      two_of_four.tombstone_count = 0 ∧
      7 * two_of_four.bucket_count <
        10 * (two_of_four.item_count + two_of_four.tombstone_count + 1) ∧
      (ht_oa_insert heap_ok two_of_four 7 70).1 = true ∧
      (ht_oa_insert heap_ok two_of_four 7 70).2.bucket_count = 4 :=
  ⟨wf_two_of_four.1, by decide, by decide, by decide, by decide, by decide, by decide⟩

/-- The growth rule of `ht_oa_insert` in a well-formed table with buckets: the check uses the
current load, without the incoming item. -/
theorem insert_rule (heap : Nat → Bool) (ht : BaseHashTableOA) (K V : Ptr)
    (hw : WF ht) (hl : LawfulKeys ht) (hb : 0 < ht.bucket_count) :
    ((ht.item_count + 1 ≥ ht.bucket_count ∨
        load_exceeds (ht.item_count + ht.tombstone_count) ht.bucket_count = true) →
      ((alloc_entries heap ht.arena (ht.bucket_count * 2)).1 = true →
        (ht_oa_insert heap ht K V).2.bucket_count = ht.bucket_count * 2) ∧
      ((alloc_entries heap ht.arena (ht.bucket_count * 2)).1 = false →
        (ht_oa_insert heap ht K V).1 = false ∧
          (ht_oa_insert heap ht K V).2.bucket_count = ht.bucket_count)) ∧
    (¬ (ht.item_count + 1 ≥ ht.bucket_count ∨
        load_exceeds (ht.item_count + ht.tombstone_count) ht.bucket_count = true) →
      (ht_oa_insert heap ht K V).2.bucket_count = ht.bucket_count) := by
  obtain ⟨h1, h2, _⟩ := counts_no_wrap hw.counts
  have hcases := insert_growth_cases heap hb
  rw [h1, h2] at hcases
  have hbc := insert_bucket_count hw hl heap K V
  obtain ⟨r1, r2, r3⟩ := rehash_double hw hl hb heap
  refine ⟨fun hcond => ⟨?_, ?_⟩, ?_⟩
  · intro ha
    rw [hbc, hcases, if_pos hcond]
    exact r2 ha
  · intro ha
    have hg : insert_growth heap ht = ht_oa_rehash heap ht (usize_mul ht.bucket_count 2) := by
      rw [hcases, if_pos hcond]
    have hfail : (insert_growth heap ht).1 = false := by rw [hg, r1, ha]
    refine ⟨?_, ?_⟩
    · rw [insert_of_growth_fail hfail]
    · rw [hbc, hg]; exact r3 ha
  · intro hcond
    rw [hbc, hcases, if_neg hcond]

/-- C27, amended. Insert growth rule: for every well-formed table with `bucket_count > 0`
and every key, `ht_oa_insert` rehashes before placing exactly when
`item_count + 1 >= bucket_count` or the current load
`(item_count + tombstone_count) / bucket_count`, without the incoming item, is above
`BASE_HT_OA_MAX_LOAD_FACTOR`: then `bucket_count` is doubled when the new bucket array
can be allocated, and otherwise the call returns false with `bucket_count` unchanged; when
the check does not fire, `bucket_count` is unchanged. -/
theorem insert_growth_rule (heap : Nat → Bool) (ht : BaseHashTableOA) (K V : Ptr)
    (hw : WF ht) (hl : LawfulKeys ht) (hb : 0 < ht.bucket_count) :
    ((ht.item_count + 1 ≥ ht.bucket_count ∨
        load_exceeds (ht.item_count + ht.tombstone_count) ht.bucket_count = true) →
      ((alloc_entries heap ht.arena (ht.bucket_count * 2)).1 = true →
        (ht_oa_insert heap ht K V).2.bucket_count = ht.bucket_count * 2) ∧
      ((alloc_entries heap ht.arena (ht.bucket_count * 2)).1 = false →
        (ht_oa_insert heap ht K V).1 = false ∧
          (ht_oa_insert heap ht K V).2.bucket_count = ht.bucket_count)) ∧
    (¬ (ht.item_count + 1 ≥ ht.bucket_count ∨
        load_exceeds (ht.item_count + ht.tombstone_count) ht.bucket_count = true) →
      (ht_oa_insert heap ht K V).2.bucket_count = ht.bucket_count) :=
  insert_rule heap ht K V hw hl hb

/-- Witness for C27: the table of 4 buckets with 2 items (the check does not fire), and the
same table after one more insertion (3 items: the check fires and the heap can allocate). -/
theorem insert_growth_rule_witness :
    (ht_oa_insert heap_ok two_of_four 7 70).2.bucket_count = two_of_four.bucket_count ∧
      (ht_oa_insert heap_ok two_of_four 7 70).2.bucket_count = 4 ∧
      (ht_oa_insert heap_ok (ht_oa_insert heap_ok two_of_four 7 70).2 8 80).2.bucket_count =
        (ht_oa_insert heap_ok two_of_four 7 70).2.bucket_count * 2 ∧
      (ht_oa_insert heap_ok (ht_oa_insert heap_ok two_of_four 7 70).2 8 80).2.bucket_count = 8 :=
  have h3 := insert_keeps wf_two_of_four.1 wf_two_of_four.2.1 wf_two_of_four.2.2 heap_ok 7 70
  ⟨(insert_growth_rule heap_ok two_of_four 7 70 wf_two_of_four.1 wf_two_of_four.2.1
      (by decide)).2 (by decide), by decide,
    ((insert_growth_rule heap_ok (ht_oa_insert heap_ok two_of_four 7 70).2 8 80 h3.1
      (lawful_of_config wf_two_of_four.2.1 h3.2) (by decide)).1 (Or.inl (by decide))).1 rfl,
    by decide⟩

/-- The growth rule of `ht_oa_put` for a key that is not stored, in a well-formed table with
buckets: the check counts the incoming item. -/
theorem put_new_key_rule (heap : Nat → Bool) (ht : BaseHashTableOA) (K V : Ptr)
    (hw : WF ht) (hl : LawfulKeys ht) (habs : Absent ht K) (hb : 0 < ht.bucket_count) :
    ((ht.item_count + 1 ≥ ht.bucket_count ∨
        load_exceeds (ht.item_count + ht.tombstone_count + 1) ht.bucket_count = true) →
      ((alloc_entries heap ht.arena (ht.bucket_count * 2)).1 = true →
        (ht_oa_put heap ht K V).2.bucket_count = ht.bucket_count * 2) ∧
      ((alloc_entries heap ht.arena (ht.bucket_count * 2)).1 = false →
        (ht_oa_put heap ht K V).1 = false ∧
          (ht_oa_put heap ht K V).2.bucket_count = ht.bucket_count)) ∧
    (¬ (ht.item_count + 1 ≥ ht.bucket_count ∨
        load_exceeds (ht.item_count + ht.tombstone_count + 1) ht.bucket_count = true) →
      (ht_oa_put heap ht K V).2.bucket_count = ht.bucket_count) := by
  obtain ⟨h1, _, h3⟩ := counts_no_wrap hw.counts
  have hcases := put_growth_new heap hb (contains_eq_false_of_absent habs)
  rw [h1, h3] at hcases
  have hbc := put_bucket_count hw hl heap K V
  obtain ⟨r1, r2, r3⟩ := rehash_double hw hl hb heap
  refine ⟨fun hcond => ⟨?_, ?_⟩, ?_⟩
  · intro ha
    rw [hbc, hcases, if_pos hcond]
    exact r2 ha
  · intro ha
    have hg : put_growth heap ht K = ht_oa_rehash heap ht (usize_mul ht.bucket_count 2) := by
      rw [hcases, if_pos hcond]
    have hfail : (put_growth heap ht K).1 = false := by rw [hg, r1, ha]
    refine ⟨?_, ?_⟩
    · rw [put_of_growth_fail hfail]
    · rw [hbc, hg]; exact r3 ha
  · intro hcond
    rw [hbc, hcases, if_neg hcond]

/-- For a key that is not stored, the growth stages of `ht_oa_put` and `ht_oa_insert`
coincide whenever the two load checks decide alike. -/
theorem put_growth_eq_insert_growth (heap : Nat → Bool) (ht : BaseHashTableOA) (K : Ptr)
    (hw : WF ht) (hl : LawfulKeys ht) (habs : Absent ht K)
    (hagree : ht.item_count + 1 ≥ ht.bucket_count ∨
      load_exceeds (ht.item_count + ht.tombstone_count + 1) ht.bucket_count =
        load_exceeds (ht.item_count + ht.tombstone_count) ht.bucket_count) :
    put_growth heap ht K = insert_growth heap ht := by
  by_cases hb : 0 < ht.bucket_count
  · obtain ⟨h1, h2, h3⟩ := counts_no_wrap hw.counts
    rw [put_growth_new heap hb (contains_eq_false_of_absent habs), insert_growth_cases heap hb,
      h1, h3, h2]
    rcases hagree with h | h
    · rw [if_pos (Or.inl h), if_pos (Or.inl h)]
    · rw [h]
  · have hb0 : ht.bucket_count = 0 := by omega
    have hev := evolved_rehash hw hl heap BASE_HT_OA_DEFAULT_CAPACITY
    have hcont := contains_eq_false_of_absent (hev.absent habs)
    unfold put_growth insert_growth
    simp only [hb0, if_true]
    cases hr : (ht_oa_rehash heap ht BASE_HT_OA_DEFAULT_CAPACITY).1 with
    | false => simp
    | true =>
      have hsucc := rehash_success hw hl (Prod.ext hr rfl :
        ht_oa_rehash heap ht BASE_HT_OA_DEFAULT_CAPACITY =
          (true, (ht_oa_rehash heap ht BASE_HT_OA_DEFAULT_CAPACITY).2))
      have hic : (ht_oa_rehash heap ht BASE_HT_OA_DEFAULT_CAPACITY).2.item_count = 0 := by
        rw [hsucc.2.2.2.1]
        have := (count_le_bucket hw.counts).1
        omega
      have htc := hsucc.2.2.2.2.1
      have hbc : (ht_oa_rehash heap ht BASE_HT_OA_DEFAULT_CAPACITY).2.bucket_count = 16 := by
        rw [hsucc.2.2.2.2.2, rehash_bucket_count_default hw.counts hb0]
      simp only [Bool.true_eq_false, if_false, hic, htc, hbc, hcont]
      rw [if_neg (by decide), if_neg (by decide)]

/-- C28 as stated fails: with 2 items in 4 buckets and the absent key 7, `ht_oa_insert`
places the key without a rehash (`bucket_count` stays 4) while `ht_oa_put` rehashes first
(`bucket_count` becomes 8): the two calls do not produce the same table. -/
theorem put_rehashes_where_insert_does_not :
    WF two_of_four ∧ Absent two_of_four 7 ∧
      (ht_oa_insert heap_ok two_of_four 7 70).1 = true ∧
      (ht_oa_put heap_ok two_of_four 7 70).1 = true ∧
      (ht_oa_insert heap_ok two_of_four 7 70).2.bucket_count = 4 ∧
      (ht_oa_put heap_ok two_of_four 7 70).2.bucket_count = 8 :=
  ⟨wf_two_of_four.1, absent_of_not_found wf_two_of_four.1 wf_two_of_four.2.1 (by decide),
    by decide, by decide, by decide, by decide⟩

/-- C28, amended. Put and insert on a new key: for every well-formed table, every key `K`
absent from it and every value `V`, `ht_oa_put(K, V)` and `ht_oa_insert(K, V)` return the
same result and produce the same table whenever their growth checks decide alike, that is
when `item_count + 1 >= bucket_count` or the load check (the `double` quotient
compared with `0.7f`, as the code evaluates it) gives the same answer with
(put) and without (insert) the incoming item; when only put's check fires, put rehashes
to the double bucket count (if the new array can be allocated) while insert leaves
`bucket_count` unchanged. -/
theorem put_equals_insert_on_new_key (heap : Nat → Bool) (ht : BaseHashTableOA) (K V : Ptr)
    (hw : WF ht) (hl : LawfulKeys ht) (habs : Absent ht K) :
    ((ht.item_count + 1 ≥ ht.bucket_count ∨
        load_exceeds (ht.item_count + ht.tombstone_count + 1) ht.bucket_count =
          load_exceeds (ht.item_count + ht.tombstone_count) ht.bucket_count) →
      ht_oa_put heap ht K V = ht_oa_insert heap ht K V) ∧
    (ht.item_count + 1 < ht.bucket_count →
      load_exceeds (ht.item_count + ht.tombstone_count + 1) ht.bucket_count = true →
      load_exceeds (ht.item_count + ht.tombstone_count) ht.bucket_count = false →
      (ht_oa_insert heap ht K V).2.bucket_count = ht.bucket_count ∧
      ((alloc_entries heap ht.arena (ht.bucket_count * 2)).1 = true →
        (ht_oa_put heap ht K V).2.bucket_count = ht.bucket_count * 2)) := by
  refine ⟨?_, ?_⟩
  · intro hagree
    have hg := put_growth_eq_insert_growth heap ht K hw hl habs hagree
    have hev := (insert_growth_spec hw hl heap).1
    have hf : ¬ (ht_oa_find_slot (insert_growth heap ht).2 K).2 = true := by
      rw [find_slot_of_absent (hev.absent habs)]; simp
    rw [put_stages, insert_stages, hg]
    by_cases hgf : (insert_growth heap ht).1 = false
    · rw [if_pos hgf, if_pos hgf]
    · rw [if_neg hgf, if_neg hgf, if_neg hf, if_neg hf]
  · intro hroom hput hins
    have hb : 0 < ht.bucket_count := by omega
    refine ⟨?_, ?_⟩
    · apply (insert_rule heap ht K V hw hl hb).2
      intro hc
      rcases hc with h | h
      · omega
      · rw [hins] at h; exact absurd h (by simp)
    · exact ((put_new_key_rule heap ht K V hw hl habs hb).1 (Or.inr hput)).1

/-- Witness for C28: on the empty table of 16 buckets both checks stay silent, and put and
insert of the key 7 give the same table; on the table of 4 buckets with 2 items only the
check of put fires (load 3/4 with the incoming item, 2/4 without), so insert leaves 4
buckets and put makes 8. -/
theorem put_equals_insert_on_new_key_witness :
    Absent (sample_table 16) 7 ∧
      ht_oa_put heap_ok (sample_table 16) 7 70 = ht_oa_insert heap_ok (sample_table 16) 7 70 ∧
      (ht_oa_put heap_ok (sample_table 16) 7 70).1 = true ∧
      Absent two_of_four 7 ∧
      (ht_oa_insert heap_ok two_of_four 7 70).2.bucket_count = two_of_four.bucket_count ∧
      (ht_oa_put heap_ok two_of_four 7 70).2.bucket_count = two_of_four.bucket_count * 2 :=
  have h0 := wf_sample_table (n := 16) (by decide)
  have habs : Absent (sample_table 16) 7 := absent_fresh rfl 7
  have habs2 : Absent two_of_four 7 :=
    absent_of_not_found wf_two_of_four.1 wf_two_of_four.2.1 (by decide)
  have h2 := (put_equals_insert_on_new_key heap_ok two_of_four 7 70 wf_two_of_four.1
    wf_two_of_four.2.1 habs2).2 (by decide) (by decide) (by decide)
  ⟨habs, (put_equals_insert_on_new_key heap_ok (sample_table 16) 7 70 h0.1 h0.2.1 habs).1
    (Or.inr (by decide)), by decide, habs2, h2.1, h2.2 (by decide)⟩

/-- C29 as stated fails: with 6 items and no tombstone in 10 buckets, the load with the
incoming item is exactly 7/10, and `ht_oa_put` of the absent key 7 does rehash:
`bucket_count` becomes 20. -/
theorem put_rehashes_at_exact_load :
    WF six_of_ten ∧ Absent six_of_ten 7 ∧ six_of_ten.bucket_count = 10 ∧
      six_of_ten.item_count + 1 < six_of_ten.bucket_count ∧
      10 * (six_of_ten.item_count + six_of_ten.tombstone_count + 1) =
        7 * six_of_ten.bucket_count ∧
      (ht_oa_put heap_ok six_of_ten 7 70).1 = true ∧
      (ht_oa_put heap_ok six_of_ten 7 70).2.bucket_count = 20 :=
  ⟨wf_six_of_ten.1, absent_of_not_found wf_six_of_ten.1 wf_six_of_ten.2.1 (by decide),
    by decide, by decide, by decide, by decide, by decide⟩

/-- C29, amended. The load-factor threshold is the single-precision constant `0.7f`, which
is `11744051 / 16777216` and lies below 7/10: for every well-formed table of at most
`2 ^ 30` buckets and absent key `K` with `item_count + 1 < bucket_count`, when
`(item_count + tombstone_count + 1) / bucket_count` is exactly 7/10, or anything above
`11744051 / 16777216`, `ht_oa_put(K, V)` does rehash (`bucket_count` is doubled when the
new bucket array can be allocated, and the call returns false with `bucket_count`
unchanged otherwise); `ht_oa_put` leaves `bucket_count` unchanged exactly when the
quotient is at most `11744051 / 16777216`.  (Up to `2 ^ 30` buckets the rounding of the
`double` quotient does not change the outcome of the comparison; beyond, a quotient
slightly above the constant may round to it.) -/
theorem put_threshold_single_precision (heap : Nat → Bool) (ht : BaseHashTableOA) (K V : Ptr)
    (hw : WF ht) (hl : LawfulKeys ht) (habs : Absent ht K)
    (hroom : ht.item_count + 1 < ht.bucket_count) (hsize : ht.bucket_count ≤ 2 ^ 30) :
    (10 * (ht.item_count + ht.tombstone_count + 1) = 7 * ht.bucket_count →
      11744051 * ht.bucket_count < (ht.item_count + ht.tombstone_count + 1) * 16777216) ∧
    (11744051 * ht.bucket_count < (ht.item_count + ht.tombstone_count + 1) * 16777216 →
      ((alloc_entries heap ht.arena (ht.bucket_count * 2)).1 = true →
        (ht_oa_put heap ht K V).2.bucket_count = ht.bucket_count * 2) ∧
      ((alloc_entries heap ht.arena (ht.bucket_count * 2)).1 = false →
        (ht_oa_put heap ht K V).1 = false ∧
          (ht_oa_put heap ht K V).2.bucket_count = ht.bucket_count)) ∧
    ((ht.item_count + ht.tombstone_count + 1) * 16777216 ≤ 11744051 * ht.bucket_count →
      (ht_oa_put heap ht K V).2.bucket_count = ht.bucket_count) := by
  have hb : 0 < ht.bucket_count := by omega
  have hle := count_le_bucket hw.counts
  have e30 : (2 : Nat) ^ 30 = 1073741824 := by norm_num
  have e53 : (2 : Nat) ^ 53 = 9007199254740992 := by norm_num
  have hn : ht.item_count + ht.tombstone_count + 1 < 2 ^ 53 := by
    rw [e30] at hsize; rw [e53]; omega
  have hiff := load_exceeds_iff (ht.item_count + ht.tombstone_count + 1) ht.bucket_count hb
    hsize hn
  obtain ⟨r1, r2⟩ := put_new_key_rule heap ht K V hw hl habs hb
  refine ⟨by omega, ?_, ?_⟩
  · intro hload
    exact r1 (Or.inr (hiff.mpr hload))
  · intro hload
    apply r2
    intro hc
    rcases hc with h | h
    · omega
    · have := hiff.mp h
      omega

/-- Witness for C29: the table of 10 buckets with 6 items, where the load with the incoming
item is exactly 7/10 and the heap can allocate: put doubles `bucket_count`. -/
theorem put_threshold_single_precision_witness :
    Absent six_of_ten 7 ∧
      (ht_oa_put heap_ok six_of_ten 7 70).2.bucket_count = six_of_ten.bucket_count * 2 :=
  have habs : Absent six_of_ten 7 :=
    absent_of_not_found wf_six_of_ten.1 wf_six_of_ten.2.1 (by decide)
  have h := put_threshold_single_precision heap_ok six_of_ten 7 70 wf_six_of_ten.1
    wf_six_of_ten.2.1 habs (by decide) (by decide)
  ⟨habs, (h.2.1 (h.1 (by decide))).1 rfl⟩

/-! ## The reachability invariant -/

theorem wf_clear {ht : BaseHashTableOA} (hw : WF ht) (hl : LawfulKeys ht) (hb : Borrowed ht) :
    WF (ht_oa_clear ht) ∧ LawfulKeys (ht_oa_clear ht) ∧ Borrowed (ht_oa_clear ht) := by
  obtain ⟨c1, c2, c3, c4, c5, c6, c7, c8⟩ := clear_spec ht hw.counts.len
  refine ⟨wf_fresh c1 c2 hw.counts.fits c3 c4, lawful_of_eq hl c5 c6, ?_⟩
  exact ⟨c7.trans hb.1, c8.trans hb.2⟩

/-- Every table built through the API from a lawful `ht_oa_init` is well-formed, with
lawful key functions and no copy function. -/
theorem wf_of_built {ht : BaseHashTableOA} (h : Built ht) :
    WF ht ∧ LawfulKeys ht ∧ Borrowed ht := by
  induction h with
  | init heap n hash_fn key_equal_fn arena ht hinit hl =>
    exact ⟨(init_spec hinit).1, hl, (init_spec hinit).2.1⟩
  | insert heap ht key value _ ih =>
    have h := insert_keeps ih.1 ih.2.1 ih.2.2 heap key value
    exact ⟨h.1, lawful_of_config ih.2.1 h.2, borrowed_of_config ih.2.2 h.2⟩
  | put heap ht key value _ ih => exact put_keeps ih.1 ih.2.1 ih.2.2 heap key value
  | remove ht key _ ih => exact remove_keeps ih.1 ih.2.1 ih.2.2 key
  | clear ht _ ih => exact wf_clear ih.1 ih.2.1 ih.2.2
  | rehash heap ht n _ ih =>
    have hev := evolved_rehash ih.1 ih.2.1 heap n
    exact ⟨hev.wf, hev.lawful ih.2.1, hev.borrowed ih.2.2⟩

/-- C26. The reachability invariant: in every table state reached from `ht_oa_init` (with
a hash function that respects the key equality) by `ht_oa_insert`, `ht_oa_put`,
`ht_oa_remove`, `ht_oa_clear` and rehash, every Occupied slot `j` lies on the probe
sequence `(hash(K) + n) mod bucket_count` of its key `K`, no slot of that sequence
strictly before `j` is Empty, and no other Occupied slot holds a key equal to `K`. -/
theorem reachability_invariant (ht : BaseHashTableOA) (h : Built ht) (j : Nat)
    (hocc : (entry_at ht.entries j).state = HT_ENTRY_OCCUPIED) :
    (∃ n, n < ht.bucket_count ∧
      (start_index ht (entry_at ht.entries j).key + n) % ht.bucket_count = j ∧
      ∀ m, m < n → probe_state ht (entry_at ht.entries j).key m ≠ HT_ENTRY_EMPTY) ∧
    (∀ i, (entry_at ht.entries i).state = HT_ENTRY_OCCUPIED →
      ht.key_equal_fn (entry_at ht.entries i).key (entry_at ht.entries j).key = true →
      i = j) := by
  obtain ⟨hw, _, _⟩ := wf_of_built h
  have hj : j < ht.bucket_count := by
    rw [← hw.counts.len]; exact lt_length_of_occupied hocc
  have hb : 0 < ht.bucket_count := by omega
  obtain ⟨n, hn, hp⟩ := probe_surj (start_index_lt ht (entry_at ht.entries j).key hb) hj
  exact ⟨⟨n, hn, hp, hw.reach j n hocc hn hp⟩, fun i hi he => hw.unique i j hi hocc he⟩

/-- Witness for C26: the table of 4 buckets after the insertion of the keys 1 and 5, which
both hash to slot 1: the key 5 sits in slot 2, one step down its probe sequence. -/
theorem reachability_invariant_witness :
    Built (ht_oa_insert heap_ok (ht_oa_insert heap_ok (sample_table 4) 1 101).2 5 105).2 ∧
      (entry_at (ht_oa_insert heap_ok
        (ht_oa_insert heap_ok (sample_table 4) 1 101).2 5 105).2.entries 2) =
        ⟨5, 105, HT_ENTRY_OCCUPIED⟩ ∧
      (∀ i, (entry_at (ht_oa_insert heap_ok
          (ht_oa_insert heap_ok (sample_table 4) 1 101).2 5 105).2.entries i).state =
            HT_ENTRY_OCCUPIED →
        sample_equal (entry_at (ht_oa_insert heap_ok
          (ht_oa_insert heap_ok (sample_table 4) 1 101).2 5 105).2.entries i).key 5 = true →
        i = 2) :=
  have hb : Built (ht_oa_insert heap_ok (ht_oa_insert heap_ok (sample_table 4) 1 101).2 5 105).2 :=
    Built.insert heap_ok _ 5 105 (Built.insert heap_ok _ 1 101
      (Built.init heap_ok 4 sample_hash sample_equal none (sample_table 4) rfl
        (lawful_sample rfl rfl)))
  ⟨hb, by decide, (reachability_invariant _ hb 2 (by decide)).2⟩

/-! ## Growth failure on an arena-backed table -/

theorem arena_alloc_null_unchanged (a : Arena) (item_size alignment : Nat)
    (hbuf : a.buffer ≠ 0) (h : (arena_alloc_aligned a item_size alignment).1 = 0) :
    (arena_alloc_aligned a item_size alignment).2 = a := by
  unfold arena_alloc_aligned at h ⊢
  simp only at h ⊢
  split
  · rfl
  · rename_i hc
    rw [if_neg hc] at h
    have h2 : a.buffer + ALIGN_UP a.current_offset alignment = 0 := h
    exact absurd (Nat.add_eq_zero_iff.mp h2).1 hbuf

theorem alloc_entries_fail_arena (heap : Nat → Bool) (a : Arena) (count : Nat)
    (hbuf : a.buffer ≠ 0) (h : (alloc_entries heap (some a) count).1 = false) :
    (alloc_entries heap (some a) count).2 = some a := by
  unfold alloc_entries at h ⊢
  by_cases hc : USIZE_MOD ≤ count * SIZEOF_ENTRY
  · rw [if_pos hc]
  · rw [if_neg hc] at h ⊢
    simp only at h ⊢
    have h0 : (arena_alloc a (count * SIZEOF_ENTRY)).1 = 0 := by simpa using h
    unfold arena_alloc at h0 ⊢
    rw [arena_alloc_null_unchanged a _ _ hbuf h0]

/-- A rehash whose allocation the arena cannot satisfy returns false and leaves the table,
its arena included, as it was. -/
theorem rehash_fail_unchanged (heap : Nat → Bool) (ht : BaseHashTableOA) (a : Arena) (n : Nat)
    (harena : ht.arena = some a) (hbuf : a.buffer ≠ 0)
    (hfail : (alloc_entries heap ht.arena (rehash_bucket_count ht n)).1 = false) :
    ht_oa_rehash heap ht n = (false, ht) := by
  have h2 : (alloc_entries heap ht.arena (rehash_bucket_count ht n)).2 = ht.arena := by
    rw [harena] at hfail ⊢
    exact alloc_entries_fail_arena heap a _ hbuf hfail
  unfold ht_oa_rehash
  simp only
  rw [if_pos hfail, h2]

/-- The growth failure of `ht_oa_insert` and `ht_oa_put` on an arena-backed table, from the
rehash the call requires. -/
theorem growth_fail_unchanged (heap : Nat → Bool) (ht : BaseHashTableOA) (a : Arena)
    (K V : Ptr) (harena : ht.arena = some a) (hbuf : a.buffer ≠ 0)
    (hfail : (alloc_entries heap ht.arena
      (rehash_bucket_count ht
        (if ht.bucket_count > 0 then usize_mul ht.bucket_count 2
         else BASE_HT_OA_DEFAULT_CAPACITY))).1 = false) :
    ((ht.bucket_count = 0 ∨ usize_add ht.item_count 1 ≥ ht.bucket_count ∨
        load_exceeds (usize_add ht.item_count ht.tombstone_count) ht.bucket_count = true) →
      ht_oa_insert heap ht K V = (false, ht)) ∧
    ((ht.bucket_count = 0 ∨
        usize_add ht.item_count (if ht_oa_contains ht K = true then 0 else 1)
          ≥ ht.bucket_count ∨
        load_exceeds (usize_add (usize_add ht.item_count ht.tombstone_count)
          (if ht_oa_contains ht K = true then 0 else 1)) ht.bucket_count = true) →
      ht_oa_put heap ht K V = (false, ht)) := by
  by_cases hb : ht.bucket_count = 0
  · have hnb : ¬ ht.bucket_count > 0 := by omega
    rw [if_neg hnb] at hfail
    have hr := rehash_fail_unchanged heap ht a _ harena hbuf hfail
    refine ⟨fun _ => ?_, fun _ => ?_⟩
    · have hg : insert_growth heap ht = (false, ht) := by
        unfold insert_growth
        simp only [hb, if_true, hr]
      rw [insert_of_growth_fail (by rw [hg]), hg]
    · have hg : put_growth heap ht K = (false, ht) := by
        unfold put_growth
        simp only [hb, if_true, hr]
      rw [put_of_growth_fail (by rw [hg]), hg]
  · have hpos : ht.bucket_count > 0 := by omega
    rw [if_pos hpos] at hfail
    have hr := rehash_fail_unchanged heap ht a _ harena hbuf hfail
    refine ⟨fun hneed => ?_, fun hneed => ?_⟩
    · have hcond := hneed.resolve_left hb
      have hg : insert_growth heap ht = (false, ht) := by
        rw [insert_growth_grow hpos hcond, hr]
      rw [insert_of_growth_fail (by rw [hg]), hg]
    · have hcond := hneed.resolve_left hb
      have hg : put_growth heap ht K = (false, ht) := by
        unfold put_growth
        simp only [hb, if_false, Bool.true_eq_false]
        rw [if_pos hcond, if_pos hpos, hr]
      rw [put_of_growth_fail (by rw [hg]), hg]

/-- C23. Growth failure is recoverable and atomic: for every table backed by a live arena
that cannot satisfy the allocation of the bucket array the rehash needs, an `ht_oa_insert`
or `ht_oa_put` that requires that rehash (the table has no buckets, or its growth check
fires) returns false and leaves the table (entries, `bucket_count`, `item_count`,
`tombstone_count`) and the arena, so its `current_offset`, unchanged; hence `ht_oa_get`
returns for every key what it returned before. -/
theorem growth_failure_atomic (heap : Nat → Bool) (ht : BaseHashTableOA) (a : Arena)
    (K V : Ptr) (harena : ht.arena = some a) (hbuf : a.buffer ≠ 0)
    (hfail : (alloc_entries heap ht.arena
      (rehash_bucket_count ht
        (if ht.bucket_count > 0 then usize_mul ht.bucket_count 2
         else BASE_HT_OA_DEFAULT_CAPACITY))).1 = false) :
    ((ht.bucket_count = 0 ∨ usize_add ht.item_count 1 ≥ ht.bucket_count ∨
        load_exceeds (usize_add ht.item_count ht.tombstone_count) ht.bucket_count = true) →
      ht_oa_insert heap ht K V = (false, ht) ∧
        (ht_oa_insert heap ht K V).2.arena = some a ∧
        ∀ k, ht_oa_get (ht_oa_insert heap ht K V).2 k = ht_oa_get ht k) ∧
    ((ht.bucket_count = 0 ∨
        usize_add ht.item_count (if ht_oa_contains ht K = true then 0 else 1)
          ≥ ht.bucket_count ∨
        load_exceeds (usize_add (usize_add ht.item_count ht.tombstone_count)
          (if ht_oa_contains ht K = true then 0 else 1)) ht.bucket_count = true) →
      ht_oa_put heap ht K V = (false, ht) ∧
        (ht_oa_put heap ht K V).2.arena = some a ∧
        ∀ k, ht_oa_get (ht_oa_put heap ht K V).2 k = ht_oa_get ht k) := by
  obtain ⟨h1, h2⟩ := growth_fail_unchanged heap ht a K V harena hbuf hfail
  refine ⟨fun hneed => ?_, fun hneed => ?_⟩
  · rw [h1 hneed]
    exact ⟨rfl, harena, fun _ => rfl⟩
  · rw [h2 hneed]
    exact ⟨rfl, harena, fun _ => rfl⟩

/-- Witness for C23: a table of one bucket in an arena of 32 bytes, 24 of them used; the
insertion of a key needs 2 buckets (48 bytes), which the arena cannot give. -/
theorem growth_failure_atomic_witness :
    arena_sample.arena = some ⟨4096, 32, 0, 24⟩ ∧
      ht_oa_insert heap_ok arena_sample 5 50 = (false, arena_sample) ∧
      ht_oa_put heap_ok arena_sample 5 50 = (false, arena_sample) :=
  have h := growth_failure_atomic heap_ok arena_sample ⟨4096, 32, 0, 24⟩ 5 50 rfl (by decide)
    (by decide)
  ⟨rfl, (h.1 (Or.inr (Or.inl (by decide)))).1, (h.2 (Or.inr (Or.inl (by decide)))).1⟩

/-! ## Presence test -/

/-- What `ht_oa_contains` reports on a well-formed table: that the key is stored with a
value pointer that is not null. -/
theorem contains_iff {ht : BaseHashTableOA} (hw : WF ht) (hl : LawfulKeys ht) (key : Ptr) :
    ht_oa_contains ht key = true ↔
      ∃ j, Hit ht key j ∧ (entry_at ht.entries j).value ≠ 0 := by
  rcases absent_or_hit ht key with habs | ⟨j, hj⟩
  · rw [contains_eq_false_of_absent habs]
    constructor
    · intro h; exact absurd h (by simp)
    · intro ⟨j, hj, _⟩; exact absurd hj (habs j)
  · unfold ht_oa_contains
    rw [decide_eq_true_iff, get_of_hit hw hl hj]
    constructor
    · intro h; exact ⟨j, hj, h⟩
    · intro ⟨j2, hj2, hv⟩
      have h1 := get_of_hit hw hl hj
      have h2 := get_of_hit hw hl hj2
      rw [← h1, h2]
      exact hv

/-- A key stored with a non-null value is reported by `ht_oa_contains`; this covers every
successful insert or put of a non-null value without a value copy function. -/
theorem contains_of_stored {ht : BaseHashTableOA} (hw : WF ht) (hl : LawfulKeys ht)
    {key value : Ptr} (hs : Stored ht key value) (hv : value ≠ 0) :
    ht_oa_contains ht key = true := by
  obtain ⟨j, hj, hval⟩ := hs
  exact (contains_iff hw hl key).mpr ⟨j, hj, by rw [hval]; exact hv⟩

/-- C24, evaluated at the failing input: after the successful `ht_oa_insert(5, NULL)` (or
`ht_oa_put(5, NULL)`) into a fresh borrowed table of 4 buckets, the key 5 is stored in the
Occupied slot 1 and a second `ht_oa_insert(5, _)` is rejected as a duplicate, yet
`ht_oa_contains(5)` returns false, because it tests `ht_oa_get(5) != NULL`. -/
theorem contains_misses_null_value :
    (ht_oa_insert heap_ok (sample_table 4) 5 0).1 = true ∧
      entry_at (ht_oa_insert heap_ok (sample_table 4) 5 0).2.entries 1 =
        ⟨5, 0, HT_ENTRY_OCCUPIED⟩ ∧
      ht_oa_find_slot (ht_oa_insert heap_ok (sample_table 4) 5 0).2 5 = (some 1, true) ∧
      (ht_oa_insert heap_ok (ht_oa_insert heap_ok (sample_table 4) 5 0).2 5 1).1 = false ∧
      ht_oa_contains (ht_oa_insert heap_ok (sample_table 4) 5 0).2 5 = false ∧
      (ht_oa_put heap_ok (sample_table 4) 5 0).1 = true ∧
      ht_oa_contains (ht_oa_put heap_ok (sample_table 4) 5 0).2 5 = false := by
  decide

/-! ## Functions, callbacks and the callback log through the stages of insert and put -/

theorem rehash_probe_config (key value : Ptr) (s : Nat) :
    ∀ fuel (t : BaseHashTableOA) (cur : Nat),
      SameConfig t (rehash_probe key value s fuel t cur).1 := by
  intro fuel
  induction fuel with
  | zero => intro t cur; exact sameConfig_refl t
  | succ f ih =>
    intro t cur
    simp only [rehash_probe]
    by_cases hst : (entry_at t.entries cur).state = HT_ENTRY_EMPTY
    · rw [if_pos hst]
      exact ⟨rfl, rfl, rfl, rfl, rfl, rfl, rfl⟩
    · rw [if_neg hst]
      split_ifs
      · exact ih t _
      · exact sameConfig_refl t

theorem rehash_step_config (old_entries : List HashTableEntryOA) (t : BaseHashTableOA)
    (i : Nat) : SameConfig t (rehash_step old_entries t i) := by
  unfold rehash_step
  split_ifs
  · exact rehash_probe_config _ _ _ _ t _
  · exact sameConfig_refl t

theorem rehash_fold_config (old_entries : List HashTableEntryOA) (l : List Nat) :
    ∀ t : BaseHashTableOA, SameConfig t (l.foldl (rehash_step old_entries) t) := by
  induction l with
  | nil => intro t; exact sameConfig_refl t
  | cons a l ih =>
    intro t
    exact sameConfig_trans (rehash_step_config old_entries t a) (ih _)

/-- The function `ht_oa_rehash` keeps the functions, the callbacks and the callback log of
any table: it invokes no callback. -/
theorem rehash_config (heap : Nat → Bool) (ht : BaseHashTableOA) (n : Nat) :
    SameConfig ht (ht_oa_rehash heap ht n).2 := by
  unfold ht_oa_rehash
  simp only
  by_cases ha : (alloc_entries heap ht.arena (rehash_bucket_count ht n)).1 = false
  · rw [if_pos ha]
    exact ⟨rfl, rfl, rfl, rfl, rfl, rfl, rfl⟩
  · rw [if_neg ha]
    exact sameConfig_trans (⟨rfl, rfl, rfl, rfl, rfl, rfl, rfl⟩ : SameConfig ht
      { ht with
        entries := List.replicate (rehash_bucket_count ht n) EMPTY_ENTRY
        bucket_count := rehash_bucket_count ht n
        item_count := 0
        tombstone_count := 0
        arena := (alloc_entries heap ht.arena (rehash_bucket_count ht n)).2 })
      (rehash_fold_config _ _ _)

theorem insert_growth_config (heap : Nat → Bool) (ht : BaseHashTableOA) :
    SameConfig ht (insert_growth heap ht).2 := by
  unfold insert_growth
  simp only
  have h1 : SameConfig ht (if ht.bucket_count = 0 then
      ht_oa_rehash heap ht BASE_HT_OA_DEFAULT_CAPACITY else (true, ht)).2 := by
    split_ifs
    · exact rehash_config heap ht _
    · exact sameConfig_refl ht
  generalize (if ht.bucket_count = 0 then
      ht_oa_rehash heap ht BASE_HT_OA_DEFAULT_CAPACITY else (true, ht)) = r1 at h1 ⊢
  split_ifs
  · exact h1
  · exact sameConfig_trans h1 (rehash_config heap _ _)
  · exact sameConfig_trans h1 (rehash_config heap _ _)
  · exact h1

theorem put_growth_config (heap : Nat → Bool) (ht : BaseHashTableOA) (key : Ptr) :
    SameConfig ht (put_growth heap ht key).2 := by
  unfold put_growth
  simp only
  have h1 : SameConfig ht (if ht.bucket_count = 0 then
      ht_oa_rehash heap ht BASE_HT_OA_DEFAULT_CAPACITY else (true, ht)).2 := by
    split_ifs
    · exact rehash_config heap ht _
    · exact sameConfig_refl ht
  generalize (if ht.bucket_count = 0 then
      ht_oa_rehash heap ht BASE_HT_OA_DEFAULT_CAPACITY else (true, ht)) = r1 at h1 ⊢
  by_cases hf : r1.1 = false
  · rw [if_pos hf]; exact h1
  · rw [if_neg hf]
    split_ifs
    all_goals first
      | exact h1
      | exact sameConfig_trans h1 (rehash_config heap _ _)

theorem retry_config (heap : Nat → Bool) (ht : BaseHashTableOA) (key : Ptr)
    (slot0 : Option Nat) : SameConfig ht (retry_stage heap ht key slot0).2.1 := by
  unfold retry_stage
  simp only
  split_ifs
  · exact rehash_config heap ht _
  · exact rehash_config heap ht _
  · exact rehash_config heap ht _
  · exact sameConfig_refl ht
  · exact sameConfig_refl ht

theorem store_stage_stores (t : BaseHashTableOA) {slot : Nat} (key value : Ptr)
    (hs : slot < t.entries.length) (h : (store_stage t slot key value).1 = true) :
    entry_at (store_stage t slot key value).2.entries slot =
      ⟨copy_ptr t.key_copy_fn key, copy_ptr t.value_copy_fn value, HT_ENTRY_OCCUPIED⟩ := by
  unfold store_stage at h ⊢
  simp only at h ⊢
  by_cases h1 : t.key_copy_fn.isSome = true ∧ copy_ptr t.key_copy_fn key = 0
  · rw [if_pos h1] at h; exact absurd h (by simp)
  · rw [if_neg h1] at h ⊢
    by_cases h2 : t.value_copy_fn.isSome = true ∧ copy_ptr t.value_copy_fn value = 0
    · rw [if_pos h2] at h; exact absurd h (by simp)
    · rw [if_neg h2]
      exact entry_at_set_self _ hs

/-- The callbacks `store_stage` invokes: never the value free function, and the key free
function only when one is installed. -/
theorem store_stage_frees (t : BaseHashTableOA) (slot : Nat) (key value : Ptr) :
    (store_stage t slot key value).2.calls.filter is_value_free =
        t.calls.filter is_value_free ∧
      (t.key_free_fn = false →
        (store_stage t slot key value).2.calls.filter is_key_free =
          t.calls.filter is_key_free) := by
  unfold store_stage
  simp only
  refine ⟨?_, fun hf => ?_⟩
  · split_ifs <;> simp [List.filter_append, is_value_free]
  · split_ifs <;> simp_all [List.filter_append, is_key_free]

theorem update_stage_stores (t : BaseHashTableOA) {slot : Nat} (value : Ptr)
    (hs : slot < t.entries.length) (h : (update_stage t slot value).1 = true) :
    entry_at (update_stage t slot value).2.entries slot =
      ⟨(entry_at t.entries slot).key, copy_ptr t.value_copy_fn value,
        (entry_at t.entries slot).state⟩ := by
  unfold update_stage at h ⊢
  simp only at h ⊢
  by_cases h1 : t.value_copy_fn.isSome = true ∧ copy_ptr t.value_copy_fn value = 0
  · rw [if_pos h1] at h; exact absurd h (by simp)
  · rw [if_neg h1]
    exact entry_at_set_self _ hs

/-- The callbacks `update_stage` invokes: never the key free function, and the value free
function only when one is installed. -/
theorem update_stage_frees (t : BaseHashTableOA) (slot : Nat) (value : Ptr) :
    (update_stage t slot value).2.calls.filter is_key_free = t.calls.filter is_key_free ∧
      (t.value_free_fn = false →
        (update_stage t slot value).2.calls.filter is_value_free =
          t.calls.filter is_value_free) := by
  unfold update_stage
  simp only
  refine ⟨?_, fun hf => ?_⟩
  · split_ifs <;> simp [List.filter_append, is_key_free]
  · split_ifs <;> simp_all [List.filter_append, is_value_free]

/-- The callbacks `ht_oa_remove` invokes: a free function only when it is installed. -/
theorem remove_frees (ht : BaseHashTableOA) (key : Ptr) :
    (ht.key_free_fn = false →
      (ht_oa_remove ht key).2.calls.filter is_key_free = ht.calls.filter is_key_free) ∧
    (ht.value_free_fn = false →
      (ht_oa_remove ht key).2.calls.filter is_value_free =
        ht.calls.filter is_value_free) := by
  unfold ht_oa_remove
  simp only
  refine ⟨fun hf => ?_, fun hf => ?_⟩
  · by_cases h0 : ht.bucket_count = 0 ∨ ht.item_count = 0
    · rw [if_pos h0]
    · rw [if_neg h0]
      cases (ht_oa_find_slot ht key).1 with
      | none => rfl
      | some slot =>
        simp only
        split_ifs <;> simp_all [List.filter_append, is_key_free]
  · by_cases h0 : ht.bucket_count = 0 ∨ ht.item_count = 0
    · rw [if_pos h0]
    · rw [if_neg h0]
      cases (ht_oa_find_slot ht key).1 with
      | none => rfl
      | some slot =>
        simp only
        split_ifs <;> simp_all [List.filter_append, is_value_free]

theorem clear_step_frees (t : BaseHashTableOA) (i : Nat) :
    (t.key_free_fn = false →
      (clear_step t i).calls.filter is_key_free = t.calls.filter is_key_free) ∧
    (t.value_free_fn = false →
      (clear_step t i).calls.filter is_value_free = t.calls.filter is_value_free) := by
  unfold clear_step
  simp only
  refine ⟨fun hf => ?_, fun hf => ?_⟩
  · split_ifs <;> simp_all [List.filter_append, is_key_free]
  · split_ifs <;> simp_all [List.filter_append, is_value_free]

theorem clear_fold_frees (ht : BaseHashTableOA) : ∀ c,
    (ht.key_free_fn = false →
      ((List.range c).foldl clear_step ht).calls.filter is_key_free =
        ht.calls.filter is_key_free) ∧
    (ht.value_free_fn = false →
      ((List.range c).foldl clear_step ht).calls.filter is_value_free =
        ht.calls.filter is_value_free) := by
  intro c
  induction c with
  | zero => exact ⟨fun _ => rfl, fun _ => rfl⟩
  | succ c ih =>
    rw [List.range_succ, List.foldl_append]
    simp only [List.foldl_cons, List.foldl_nil]
    obtain ⟨_, _, _, _, _, _, hk, hv, _, _⟩ := clear_fold ht c
    refine ⟨fun hf => ?_, fun hf => ?_⟩
    · rw [(clear_step_frees _ c).1 (by rw [hk]; exact hf)]
      exact ih.1 hf
    · rw [(clear_step_frees _ c).2 (by rw [hv]; exact hf)]
      exact ih.2 hf

/-- The callbacks `ht_oa_clear` and `ht_oa_free` invoke: a free function only when it is
installed. -/
theorem clear_frees (ht : BaseHashTableOA) :
    (ht.key_free_fn = false →
      (ht_oa_clear ht).calls.filter is_key_free = ht.calls.filter is_key_free ∧
        (ht_oa_free ht).calls.filter is_key_free = ht.calls.filter is_key_free) ∧
    (ht.value_free_fn = false →
      (ht_oa_clear ht).calls.filter is_value_free = ht.calls.filter is_value_free ∧
        (ht_oa_free ht).calls.filter is_value_free = ht.calls.filter is_value_free) := by
  obtain ⟨h1, h2⟩ := clear_fold_frees ht ht.bucket_count
  exact ⟨fun hf => ⟨h1 hf, h1 hf⟩, fun hf => ⟨h2 hf, h2 hf⟩⟩

/-- A successful `ht_oa_insert` stores, in some slot, the key and the value as the copy
functions of the table give them: the caller's pointers themselves where no copy function
is installed. -/
theorem insert_stores {ht : BaseHashTableOA} (hc : CountInv ht) (heap : Nat → Bool)
    (key value : Ptr) (h : (ht_oa_insert heap ht key value).1 = true) :
    ∃ slot, entry_at (ht_oa_insert heap ht key value).2.entries slot =
      ⟨copy_ptr ht.key_copy_fn key, copy_ptr ht.value_copy_fn value, HT_ENTRY_OCCUPIED⟩ := by
  have hcfg := sameConfig_trans (insert_growth_config heap ht)
    (retry_config heap (insert_growth heap ht).2 key
      (ht_oa_find_slot (insert_growth heap ht).2 key).1)
  obtain ⟨hct, hslot⟩ := countInv_retry (countInv_insert_growth hc heap) heap key
  rw [insert_stages] at h ⊢
  by_cases hg : (insert_growth heap ht).1 = false
  · rw [if_pos hg] at h; exact absurd h (by simp)
  · rw [if_neg hg] at h ⊢
    by_cases hf : (ht_oa_find_slot (insert_growth heap ht).2 key).2 = true
    · rw [if_pos hf] at h; exact absurd h (by simp)
    · rw [if_neg hf] at h ⊢
      by_cases hr : (retry_stage heap (insert_growth heap ht).2 key
          (ht_oa_find_slot (insert_growth heap ht).2 key).1).1 = false
      · rw [if_pos hr] at h; exact absurd h (by simp)
      · rw [if_neg hr] at h ⊢
        obtain ⟨i, hi, hlt, _⟩ := hslot (by simpa using hr)
        rw [hi] at h ⊢
        simp only [Option.getD_some] at h ⊢
        refine ⟨i, ?_⟩
        rw [store_stage_stores _ key value (by rw [hct.len]; exact hlt) h,
          hcfg.key_copy_fn, hcfg.value_copy_fn]

/-- The callbacks `ht_oa_insert` invokes: never the value free function, and the key free
function only when one is installed. -/
theorem insert_frees (heap : Nat → Bool) (ht : BaseHashTableOA) (key value : Ptr) :
    (ht_oa_insert heap ht key value).2.calls.filter is_value_free =
        ht.calls.filter is_value_free ∧
      (ht.key_free_fn = false →
        (ht_oa_insert heap ht key value).2.calls.filter is_key_free =
          ht.calls.filter is_key_free) := by
  have hg := insert_growth_config heap ht
  have hcfg := sameConfig_trans hg
    (retry_config heap (insert_growth heap ht).2 key
      (ht_oa_find_slot (insert_growth heap ht).2 key).1)
  rw [insert_stages]
  split_ifs
  · exact ⟨by rw [hg.calls], fun _ => by rw [hg.calls]⟩
  · exact ⟨by rw [hg.calls], fun _ => by rw [hg.calls]⟩
  · exact ⟨by rw [hcfg.calls], fun _ => by rw [hcfg.calls]⟩
  · obtain ⟨s1, s2⟩ := store_stage_frees (retry_stage heap (insert_growth heap ht).2 key
        (ht_oa_find_slot (insert_growth heap ht).2 key).1).2.1
      ((retry_stage heap (insert_growth heap ht).2 key
        (ht_oa_find_slot (insert_growth heap ht).2 key).1).2.2.getD 0) key value
    refine ⟨by rw [s1, hcfg.calls], fun hf => ?_⟩
    rw [s2 (by rw [hcfg.key_free_fn]; exact hf), hcfg.calls]

/-- A successful `ht_oa_put` leaves, in some slot, the value as the value copy function gives
it, next to the key as the key copy function gives it (a new key) or next to the stored key
that compares equal (a replacement). -/
theorem put_stores {ht : BaseHashTableOA} (hc : CountInv ht) (heap : Nat → Bool)
    (key value : Ptr) (h : (ht_oa_put heap ht key value).1 = true) :
    ∃ slot, (entry_at (ht_oa_put heap ht key value).2.entries slot).state = HT_ENTRY_OCCUPIED ∧
      (entry_at (ht_oa_put heap ht key value).2.entries slot).value =
        copy_ptr ht.value_copy_fn value ∧
      ((entry_at (ht_oa_put heap ht key value).2.entries slot).key =
          copy_ptr ht.key_copy_fn key ∨
        ht.key_equal_fn (entry_at (ht_oa_put heap ht key value).2.entries slot).key key
          = true) := by
  have hgc := put_growth_config heap ht key
  have hcfg := sameConfig_trans hgc
    (retry_config heap (put_growth heap ht key).2 key
      (ht_oa_find_slot (put_growth heap ht key).2 key).1)
  obtain ⟨hct, hslot⟩ := countInv_retry (countInv_put_growth hc heap key) heap key
  rw [put_stages] at h ⊢
  by_cases hg : (put_growth heap ht key).1 = false
  · rw [if_pos hg] at h; exact absurd h (by simp)
  · rw [if_neg hg] at h ⊢
    by_cases hf : (ht_oa_find_slot (put_growth heap ht key).2 key).2 = true
    · rw [if_pos hf] at h ⊢
      obtain ⟨i, hi, hhit⟩ := find_slot_found hf
      rw [hi] at h ⊢
      simp only [Option.getD_some] at h ⊢
      refine ⟨i, ?_⟩
      rw [update_stage_stores _ value hhit.lt_length h]
      refine ⟨hhit.1, by rw [hgc.value_copy_fn], Or.inr ?_⟩
      have := hhit.2
      rw [hgc.key_equal_fn] at this
      exact this
    · rw [if_neg hf] at h ⊢
      by_cases hr : (retry_stage heap (put_growth heap ht key).2 key
          (ht_oa_find_slot (put_growth heap ht key).2 key).1).1 = false
      · rw [if_pos hr] at h; exact absurd h (by simp)
      · rw [if_neg hr] at h ⊢
        obtain ⟨i, hi, hlt, _⟩ := hslot (by simpa using hr)
        rw [hi] at h ⊢
        simp only [Option.getD_some] at h ⊢
        refine ⟨i, ?_⟩
        rw [store_stage_stores _ key value (by rw [hct.len]; exact hlt) h,
          hcfg.key_copy_fn, hcfg.value_copy_fn]
        exact ⟨rfl, rfl, Or.inl rfl⟩

/-- The callbacks `ht_oa_put` invokes: a free function only when it is installed. -/
theorem put_frees (heap : Nat → Bool) (ht : BaseHashTableOA) (key value : Ptr) :
    (ht.key_free_fn = false →
      (ht_oa_put heap ht key value).2.calls.filter is_key_free =
        ht.calls.filter is_key_free) ∧
    (ht.value_free_fn = false →
      (ht_oa_put heap ht key value).2.calls.filter is_value_free =
        ht.calls.filter is_value_free) := by
  have hg := put_growth_config heap ht key
  have hcfg := sameConfig_trans hg
    (retry_config heap (put_growth heap ht key).2 key
      (ht_oa_find_slot (put_growth heap ht key).2 key).1)
  rw [put_stages]
  split_ifs
  · exact ⟨fun _ => by rw [hg.calls], fun _ => by rw [hg.calls]⟩
  · obtain ⟨u1, u2⟩ := update_stage_frees (put_growth heap ht key).2
      ((ht_oa_find_slot (put_growth heap ht key).2 key).1.getD 0) value
    refine ⟨fun _ => by rw [u1, hg.calls], fun hf => ?_⟩
    rw [u2 (by rw [hg.value_free_fn]; exact hf), hg.calls]
  · exact ⟨fun _ => by rw [hcfg.calls], fun _ => by rw [hcfg.calls]⟩
  · obtain ⟨s1, s2⟩ := store_stage_frees (retry_stage heap (put_growth heap ht key).2 key
        (ht_oa_find_slot (put_growth heap ht key).2 key).1).2.1
      ((retry_stage heap (put_growth heap ht key).2 key
        (ht_oa_find_slot (put_growth heap ht key).2 key).1).2.2.getD 0) key value
    refine ⟨fun hf => ?_, fun _ => by rw [s1, hcfg.calls]⟩
    rw [s2 (by rw [hcfg.key_free_fn]; exact hf), hcfg.calls]

/-- C21 as stated fails: on a table with free functions but no copy function installed,
`ht_oa_insert(5, 50)` stores the caller's two pointers verbatim, and then `ht_oa_remove`,
the replacement by `ht_oa_put`, `ht_oa_clear` and `ht_oa_free` do invoke the free functions
on the stored key and value. -/
theorem free_functions_reach_borrowed_pointers :
    free_only_table.key_copy_fn = none ∧ free_only_table.value_copy_fn = none ∧
      (ht_oa_insert heap_ok free_only_table 5 50).1 = true ∧
      entry_at (ht_oa_insert heap_ok free_only_table 5 50).2.entries 1 =
        ⟨5, 50, HT_ENTRY_OCCUPIED⟩ ∧
      (ht_oa_remove (ht_oa_insert heap_ok free_only_table 5 50).2 5).2.calls =
        [Callback.key_free 5, Callback.value_free 50] ∧
      (ht_oa_put heap_ok (ht_oa_insert heap_ok free_only_table 5 50).2 5 60).2.calls =
        [Callback.value_free 50] ∧
      (ht_oa_clear (ht_oa_insert heap_ok free_only_table 5 50).2).calls =
        [Callback.key_free 5, Callback.value_free 50] ∧
      (ht_oa_free (ht_oa_insert heap_ok free_only_table 5 50).2).calls =
        [Callback.key_free 5, Callback.value_free 50] :=
  ⟨rfl, rfl, by decide⟩

/-- C21, amended. Borrowed semantics: for every table (with the count invariant) on which
no key copy function (resp. no value copy function) is installed, a successful
`ht_oa_insert` or `ht_oa_put` stores the caller's key (resp. value) pointer verbatim (for
`ht_oa_put` of a stored key, the value next to the stored key); and when moreover no key
free function (resp. value free function) is installed, no operation (`ht_oa_insert`,
`ht_oa_put`, `ht_oa_remove`, `ht_oa_clear`, `ht_oa_free`) invokes a free function on a key
(resp. value): the logged free calls stay as they were. -/
theorem borrowed_semantics (heap : Nat → Bool) (ht : BaseHashTableOA) (K V : Ptr)
    (hc : CountInv ht) :
    (ht.key_copy_fn = none → (ht_oa_insert heap ht K V).1 = true →
      ∃ slot, (entry_at (ht_oa_insert heap ht K V).2.entries slot).state = HT_ENTRY_OCCUPIED ∧
        (entry_at (ht_oa_insert heap ht K V).2.entries slot).key = K ∧
        (entry_at (ht_oa_insert heap ht K V).2.entries slot).value =
          copy_ptr ht.value_copy_fn V) ∧
    (ht.value_copy_fn = none → (ht_oa_insert heap ht K V).1 = true →
      ∃ slot, (entry_at (ht_oa_insert heap ht K V).2.entries slot).state = HT_ENTRY_OCCUPIED ∧
        (entry_at (ht_oa_insert heap ht K V).2.entries slot).key =
          copy_ptr ht.key_copy_fn K ∧
        (entry_at (ht_oa_insert heap ht K V).2.entries slot).value = V) ∧
    (ht.key_copy_fn = none → (ht_oa_put heap ht K V).1 = true →
      ∃ slot, (entry_at (ht_oa_put heap ht K V).2.entries slot).state = HT_ENTRY_OCCUPIED ∧
        (entry_at (ht_oa_put heap ht K V).2.entries slot).value =
          copy_ptr ht.value_copy_fn V ∧
        ((entry_at (ht_oa_put heap ht K V).2.entries slot).key = K ∨
          ht.key_equal_fn (entry_at (ht_oa_put heap ht K V).2.entries slot).key K = true)) ∧
    (ht.value_copy_fn = none → (ht_oa_put heap ht K V).1 = true →
      ∃ slot, (entry_at (ht_oa_put heap ht K V).2.entries slot).state = HT_ENTRY_OCCUPIED ∧
        (entry_at (ht_oa_put heap ht K V).2.entries slot).value = V ∧
        ((entry_at (ht_oa_put heap ht K V).2.entries slot).key = copy_ptr ht.key_copy_fn K ∨
          ht.key_equal_fn (entry_at (ht_oa_put heap ht K V).2.entries slot).key K = true)) ∧
    (ht.key_free_fn = false →
      (ht_oa_insert heap ht K V).2.calls.filter is_key_free = ht.calls.filter is_key_free ∧
      (ht_oa_put heap ht K V).2.calls.filter is_key_free = ht.calls.filter is_key_free ∧
      (ht_oa_remove ht K).2.calls.filter is_key_free = ht.calls.filter is_key_free ∧
      (ht_oa_clear ht).calls.filter is_key_free = ht.calls.filter is_key_free ∧
      (ht_oa_free ht).calls.filter is_key_free = ht.calls.filter is_key_free) ∧
    (ht.value_free_fn = false →
      (ht_oa_insert heap ht K V).2.calls.filter is_value_free =
        ht.calls.filter is_value_free ∧
      (ht_oa_put heap ht K V).2.calls.filter is_value_free = ht.calls.filter is_value_free ∧
      (ht_oa_remove ht K).2.calls.filter is_value_free = ht.calls.filter is_value_free ∧
      (ht_oa_clear ht).calls.filter is_value_free = ht.calls.filter is_value_free ∧
      (ht_oa_free ht).calls.filter is_value_free = ht.calls.filter is_value_free) := by
  refine ⟨?_, ?_, ?_, ?_, ?_, ?_⟩
  · intro hk h
    obtain ⟨slot, hs⟩ := insert_stores hc heap K V h
    refine ⟨slot, ?_⟩
    rw [hs, hk]
    exact ⟨rfl, rfl, rfl⟩
  · intro hv h
    obtain ⟨slot, hs⟩ := insert_stores hc heap K V h
    refine ⟨slot, ?_⟩
    rw [hs, hv]
    exact ⟨rfl, rfl, rfl⟩
  · intro hk h
    obtain ⟨slot, h1, h2, h3⟩ := put_stores hc heap K V h
    rw [hk] at h3
    exact ⟨slot, h1, h2, h3⟩
  · intro hv h
    obtain ⟨slot, h1, h2, h3⟩ := put_stores hc heap K V h
    rw [hv] at h2
    exact ⟨slot, h1, h2, h3⟩
  · intro hf
    exact ⟨(insert_frees heap ht K V).2 hf, (put_frees heap ht K V).1 hf,
      (remove_frees ht K).1 hf, ((clear_frees ht).1 hf).1, ((clear_frees ht).1 hf).2⟩
  · intro hf
    exact ⟨(insert_frees heap ht K V).1, (put_frees heap ht K V).2 hf,
      (remove_frees ht K).2 hf, ((clear_frees ht).2 hf).1, ((clear_frees ht).2 hf).2⟩

/-- Witness for C21: the fresh table of 4 buckets, with no callback installed; the key 5 and
the value 50 are stored verbatim in slot 1, and no free call is logged. -/
theorem borrowed_semantics_witness :
    CountInv (sample_table 4) ∧
      (∃ slot, (entry_at (ht_oa_insert heap_ok (sample_table 4) 5 50).2.entries slot).state =
          HT_ENTRY_OCCUPIED ∧
        (entry_at (ht_oa_insert heap_ok (sample_table 4) 5 50).2.entries slot).key = 5 ∧
        (entry_at (ht_oa_insert heap_ok (sample_table 4) 5 50).2.entries slot).value =
          copy_ptr (sample_table 4).value_copy_fn 50) ∧
      (ht_oa_remove (ht_oa_insert heap_ok (sample_table 4) 5 50).2 5).2.calls = [] :=
  have hc : CountInv (sample_table 4) := (wf_sample_table (n := 4) (by decide)).1.counts
  ⟨hc, (borrowed_semantics heap_ok (sample_table 4) 5 50 hc).1 rfl (by decide), by decide⟩

/-! ## Replacement of an owned value -/

/-- The replacement stage of `ht_oa_put` on a table that owns its values: the clone is
stored, and the old value is freed unless it is null, is the caller's pointer, or is the
clone. -/
theorem update_stage_owned (t : BaseHashTableOA) (slot : Nat) (V : Ptr) (f : Ptr → Ptr)
    (hcopy : t.value_copy_fn = some f) (hfree : t.value_free_fn = true) :
    (f V = 0 → (update_stage t slot V).1 = false) ∧
    (f V ≠ 0 → update_stage t slot V =
      (true, { t with
        entries := t.entries.set slot
          ⟨(entry_at t.entries slot).key, f V, (entry_at t.entries slot).state⟩
        calls := t.calls ++ [Callback.value_copy V] ++
          (if (entry_at t.entries slot).value ≠ 0 ∧ (entry_at t.entries slot).value ≠ V ∧
              (entry_at t.entries slot).value ≠ f V then
            [Callback.value_free (entry_at t.entries slot).value] else []) })) := by
  unfold update_stage
  simp only [hcopy, hfree, copy_ptr, Option.isSome_some, Option.isNone_some, true_and,
    Bool.false_eq_true, false_or, if_true]
  refine ⟨fun h0 => by rw [if_pos h0], fun h0 => ?_⟩
  rw [if_neg h0]
  by_cases hc : (entry_at t.entries slot).value ≠ 0 ∧ (entry_at t.entries slot).value ≠ V ∧
      (entry_at t.entries slot).value ≠ f V
  · rw [if_pos hc, if_pos hc]
  · rw [if_neg hc, if_neg hc, List.append_nil]

/-- C22 as stated fails: on a table that owns its values and holds the key 5 with the owned
clone 1007, `ht_oa_put(5, 1007)`, whose value argument is the stored pointer, succeeds and
stores the fresh clone 2007, but does not invoke the value free function on 1007. -/
theorem replacement_skips_free_on_same_pointer :
    owned_table.value_free_fn = true ∧
      owned_table.value_copy_fn.isSome = true ∧
      ht_oa_get owned_table 5 = 1007 ∧
      (ht_oa_put heap_ok owned_table 5 1007).1 = true ∧
      ht_oa_get (ht_oa_put heap_ok owned_table 5 1007).2 5 = 2007 ∧
      (ht_oa_put heap_ok owned_table 5 1007).2.calls =
        owned_table.calls ++ [Callback.value_copy 1007] ∧
      (ht_oa_put heap_ok owned_table 5 1007).2.calls.filter is_value_free = [] := by
  decide

/-- C22, amended. Owned replacement: for every well-formed table with `value_copy_fn` and
`value_free_fn` installed and key `K` stored with the non-null value pointer `P`, every
successful `ht_oa_put(K, V)` stores the clone of `V` (so `ht_oa_get(K)` returns it) and
invokes, after the copy, `value_free_fn` on `P` exactly once when `V` differs from `P` and
the clone differs from `P`; when `V` is the stored pointer `P` itself (or the copy function
returns `P`) it does not invoke `value_free_fn` at all. -/
theorem owned_replacement (heap : Nat → Bool) (ht : BaseHashTableOA) (K V P : Ptr)
    (f : Ptr → Ptr) (j : Nat) (hw : WF ht) (hl : LawfulKeys ht)
    (hcopy : ht.value_copy_fn = some f) (hfree : ht.value_free_fn = true)
    (hj : Hit ht K j) (hP : (entry_at ht.entries j).value = P) (hP0 : P ≠ 0)
    (hput : (ht_oa_put heap ht K V).1 = true) :
    f V ≠ 0 ∧ ht_oa_get (ht_oa_put heap ht K V).2 K = f V ∧
      (V ≠ P → f V ≠ P →
        (ht_oa_put heap ht K V).2.calls =
          ht.calls ++ [Callback.value_copy V, Callback.value_free P]) ∧
      (V = P ∨ f V = P →
        (ht_oa_put heap ht K V).2.calls = ht.calls ++ [Callback.value_copy V]) := by
  obtain ⟨hev, _⟩ := put_growth_spec hw hl heap K
  obtain ⟨j2, hj2, hval⟩ := hit_of_content hev.content hev.config.key_equal_fn hj
  have hfs := find_slot_of_hit hev.wf (hev.lawful hl) hj2
  have hcopy2 : (put_growth heap ht K).2.value_copy_fn = some f := by
    rw [hev.config.value_copy_fn]; exact hcopy
  have hfree2 : (put_growth heap ht K).2.value_free_fn = true := by
    rw [hev.config.value_free_fn]; exact hfree
  have hold : (entry_at (put_growth heap ht K).2.entries j2).value = P := by rw [hval, hP]
  obtain ⟨u1, u2⟩ := update_stage_owned (put_growth heap ht K).2 j2 V f hcopy2 hfree2
  rw [put_stages] at hput ⊢
  by_cases hg : (put_growth heap ht K).1 = false
  · rw [if_pos hg] at hput; exact absurd hput (by simp)
  · rw [if_neg hg, hfs] at hput ⊢
    simp only [if_true, Option.getD_some] at hput ⊢
    have hne : f V ≠ 0 := by
      intro h0
      rw [u1 h0] at hput
      exact absurd hput (by simp)
    rw [u2 hne, hold]
    refine ⟨hne, ?_, ?_, ?_⟩
    · have hw2 : WF { (put_growth heap ht K).2 with
          entries := (put_growth heap ht K).2.entries.set j2
            ⟨(entry_at (put_growth heap ht K).2.entries j2).key, f V,
              (entry_at (put_growth heap ht K).2.entries j2).state⟩
          calls := (put_growth heap ht K).2.calls ++ [Callback.value_copy V] ++
            (if P ≠ 0 ∧ P ≠ V ∧ P ≠ f V then [Callback.value_free P] else []) } :=
        wf_update (i := j2)
          (x := ⟨(entry_at (put_growth heap ht K).2.entries j2).key, f V,
            (entry_at (put_growth heap ht K).2.entries j2).state⟩)
          hev.wf rfl rfl rfl rfl rfl rfl rfl rfl
      exact (get_update (i := j2) (k := K) (v := f V)
        (x := ⟨(entry_at (put_growth heap ht K).2.entries j2).key, f V,
          (entry_at (put_growth heap ht K).2.entries j2).state⟩)
        hev.wf hw2 (hev.lawful hl) hj2 rfl rfl rfl rfl rfl rfl).1
    · intro h1 h2
      simp only
      rw [if_pos ⟨hP0, Ne.symm h1, Ne.symm h2⟩, hev.config.calls]
      simp
    · intro h
      simp only
      rw [if_neg (by
        intro hc
        rcases h with h | h
        · exact hc.2.1 h.symm
        · exact hc.2.2 h.symm), hev.config.calls]
      simp

/-- Witness for C22: the owned table holding the key 5 with the clone 1007; `ht_oa_put(5, 8)`
stores the clone 1008 and frees 1007 once. -/
theorem owned_replacement_witness :
    Hit owned_table 5 1 ∧ (entry_at owned_table.entries 1).value = 1007 ∧
      ht_oa_get (ht_oa_put heap_ok owned_table 5 8).2 5 = sample_clone 8 ∧
      (ht_oa_put heap_ok owned_table 5 8).2.calls =
        owned_table.calls ++ [Callback.value_copy 8, Callback.value_free 1007] :=
  have htwin := put_keeps (wf_sample_table (n := 4) (by decide)).1
    (wf_sample_table (n := 4) (by decide)).2.1 (wf_sample_table (n := 4) (by decide)).2.2
    heap_ok 5 1007
  have hw : WF owned_table :=
    wf_of_same_keys htwin.1 ⟨by decide, by decide, by decide, by decide⟩ (by decide) rfl rfl
      (fun j => by
        rw [show owned_table.entries = (ht_oa_put heap_ok (sample_table 4) 5 1007).2.entries
          from by decide])
      (fun j => by
        rw [show owned_table.entries = (ht_oa_put heap_ok (sample_table 4) 5 1007).2.entries
          from by decide])
  have hl : LawfulKeys owned_table := lawful_sample rfl rfl
  have hhit : Hit owned_table 5 1 := ⟨by decide, by decide⟩
  have h := owned_replacement heap_ok owned_table 5 8 1007 sample_clone 1 hw hl rfl rfl hhit
    (by decide) (by decide) (by decide)
  ⟨hhit, by decide, h.2.1, h.2.2.1 (by decide) (by decide)⟩

/-! ## The cache budget -/

/-- The main arena of a database that `db_init` initialised: its size is the cache size in
megabytes times `1024 * 1024`, reduced modulo `2^32`. -/
theorem db_init_main_arena (malloc_main malloc_temp : Nat → Ptr) (open_existing create_new : Bool)
    (db db2 : Database) (config : DatabaseConfig)
    (h : db_init malloc_main malloc_temp open_existing create_new db config = some (true, db2)) :
    db2.main_arena.total_size = (config.cache_size_mb * 1048576) % 4294967296 := by
  unfold db_init at h
  simp only at h
  have hsize : u32_mul (u32_mul config.cache_size_mb 1024) 1024 =
      (config.cache_size_mb * 1048576) % 4294967296 := by
    unfold u32_mul
    omega
  rw [hsize] at h
  unfold arena_init at h
  simp only at h
  split_ifs at h <;> simp only [Option.some.injEq, Prod.mk.injEq, Bool.false_eq_true,
    false_and, reduceCtorEq] at h
  obtain ⟨_, h2⟩ := h
  rw [← h2]

/-- The cache sizes below 4096 MB: `db_init` gives the main arena `c * 1024 * 1024` bytes. -/
theorem db_init_small_cache (malloc_main malloc_temp : Nat → Ptr)
    (open_existing create_new : Bool) (db db2 : Database) (config : DatabaseConfig)
    (hc : config.cache_size_mb < 4096)
    (h : db_init malloc_main malloc_temp open_existing create_new db config = some (true, db2)) :
    db2.main_arena.total_size = config.cache_size_mb * 1024 * 1024 := by
  rw [db_init_main_arena _ _ _ _ _ _ _ h]
  omega

/-- C25, evaluated at the failing input: the cache size 4096 is accepted by
`db_config_from_args`, and `db_init` (the allocator returning a block for `malloc(0)`, the
file opening) then creates the main arena with `total_size = 0`, not `4096 * 1024 * 1024`:
the product `cache_size_mb * 1024 * 1024` is evaluated in 32 bits and wraps. -/
theorem cache_budget_wraps :
    db_config_from_args_cache 4096 = some 4096 ∧
      u32_mul (u32_mul 4096 1024) 1024 = 0 ∧
      db_init (fun _ => 4096) (fun _ => 8192) true true ⟨⟨0, 0, 0, 0⟩, ⟨0, 0, 0, 0⟩, false⟩
          ⟨4096, false⟩ =
        some (true, ⟨⟨4096, 0, 0, 0⟩, ⟨8192, 1048576, 0, 0⟩, true⟩) ∧
      (0 : Nat) ≠ 4096 * 1024 * 1024 ∧
      db_config_from_args_cache 8192 = some 8192 ∧
      u32_mul (u32_mul 8192 1024) 1024 = 0 ∧
      u32_mul (u32_mul 4097 1024) 1024 = 1048576 := by
  decide

/-! ## Lookup and slot search -/

/-- The loops of `ht_oa_get` and `ht_oa_find_slot` walk the same slots: where the search
finds the key, the lookup returns the value of that slot, and where the search does not
find it, the lookup returns null. -/
theorem get_find_loop_agree (ht : BaseHashTableOA) (key : Ptr) (s : Nat) :
    ∀ fuel cur ft,
      ((find_slot_loop ht key s fuel cur ft).2 = true →
        ∃ i, (find_slot_loop ht key s fuel cur ft).1 = some i ∧
          get_loop ht key s fuel cur = (entry_at ht.entries i).value) ∧
      ((find_slot_loop ht key s fuel cur ft).2 = false → get_loop ht key s fuel cur = 0) := by
  intro fuel
  induction fuel with
  | zero => intro cur ft; exact ⟨fun h => absurd h (by simp [find_slot_loop]), fun _ => rfl⟩
  | succ f ih =>
    intro cur ft
    have hadv : ∀ ft2 : Option Nat,
        ((if (cur + 1) % ht.bucket_count ≠ s then
            find_slot_loop ht key s f ((cur + 1) % ht.bucket_count) ft2
          else (ft2, false)).2 = true →
          ∃ i, (if (cur + 1) % ht.bucket_count ≠ s then
              find_slot_loop ht key s f ((cur + 1) % ht.bucket_count) ft2
            else (ft2, false)).1 = some i ∧
            (if (cur + 1) % ht.bucket_count ≠ s then
              get_loop ht key s f ((cur + 1) % ht.bucket_count) else 0) =
              (entry_at ht.entries i).value) ∧
        ((if (cur + 1) % ht.bucket_count ≠ s then
            find_slot_loop ht key s f ((cur + 1) % ht.bucket_count) ft2
          else (ft2, false)).2 = false →
          (if (cur + 1) % ht.bucket_count ≠ s then
            get_loop ht key s f ((cur + 1) % ht.bucket_count) else 0) = 0) := by
      intro ft2
      by_cases hn : (cur + 1) % ht.bucket_count ≠ s
      · rw [if_pos hn, if_pos hn]; exact ih _ _
      · rw [if_neg hn, if_neg hn]
        exact ⟨fun h => absurd h (by simp), fun _ => rfl⟩
    cases hst : (entry_at ht.entries cur).state with
    | HT_ENTRY_EMPTY =>
      simp [find_slot_loop, get_loop, hst]
    | HT_ENTRY_TOMBSTONE =>
      simp only [find_slot_loop, get_loop, hst, reduceCtorEq, if_false, false_and]
      exact hadv _
    | HT_ENTRY_OCCUPIED =>
      simp only [find_slot_loop, get_loop, hst, reduceCtorEq, if_false, true_and]
      by_cases heq : ht.key_equal_fn (entry_at ht.entries cur).key key = true
      · rw [if_pos heq, if_pos heq]
        exact ⟨fun _ => ⟨cur, rfl, rfl⟩, fun h => absurd h (by simp)⟩
      · rw [if_neg heq, if_neg heq]
        exact hadv _

/-- The lookup agrees with the slot search, for a table with buckets in which
`item_count = 0` only if no slot is Occupied. -/
theorem get_find_slot_agree (ht : BaseHashTableOA) (K : Ptr) (hb : 0 < ht.bucket_count)
    (hc : CountInv ht) :
    (∀ i, ht_oa_find_slot ht K = (some i, true) →
      ht_oa_get ht K = (entry_at ht.entries i).value) ∧
    ((ht_oa_find_slot ht K).2 = false → ht_oa_get ht K = 0) := by
  have hloop := get_find_loop_agree ht K (start_index ht K) ht.bucket_count
    (start_index ht K) none
  have hfs : ht_oa_find_slot ht K = find_slot_loop ht K (start_index ht K) ht.bucket_count
      (start_index ht K) none := by
    unfold ht_oa_find_slot
    rw [if_neg (by omega)]
  by_cases hi : ht.item_count = 0
  · have hget : ht_oa_get ht K = 0 := by
      unfold ht_oa_get
      rw [if_pos (Or.inr hi)]
    refine ⟨fun i h => ?_, fun _ => hget⟩
    obtain ⟨j, hj, hhit⟩ := find_slot_found (by rw [h] : (ht_oa_find_slot ht K).2 = true)
    have := item_pos_of_hit hc hhit
    omega
  · have hget : ht_oa_get ht K = get_loop ht K (start_index ht K) ht.bucket_count
        (start_index ht K) := by
      unfold ht_oa_get
      rw [if_neg (by omega)]
    rw [hfs, hget]
    refine ⟨fun i h => ?_, hloop.2⟩
    obtain ⟨j, hj, hv⟩ := hloop.1 (by rw [h])
    rw [h] at hj
    rw [hv, Option.some.inj hj]

/-- C31 as stated fails: in the table of 4 buckets that holds the key 5 with a null value,
`ht_oa_find_slot(5)` reports the key as found in slot 1, and `ht_oa_get(5)` returns null,
the not-found result. -/
theorem get_null_for_found_key :
    (ht_oa_insert heap_ok (sample_table 4) 5 0).2.bucket_count = 4 ∧
      ht_oa_find_slot (ht_oa_insert heap_ok (sample_table 4) 5 0).2 5 = (some 1, true) ∧
      (entry_at (ht_oa_insert heap_ok (sample_table 4) 5 0).2.entries 1).value = 0 ∧
      ht_oa_get (ht_oa_insert heap_ok (sample_table 4) 5 0).2 5 = 0 ∧
      ht_oa_get (ht_oa_insert heap_ok (sample_table 4) 5 0).2 6 = 0 ∧
      (ht_oa_find_slot (ht_oa_insert heap_ok (sample_table 4) 5 0).2 6).2 = false := by
  decide

/-- C31, amended. The lookup agrees with the slot search: for every table with
`bucket_count > 0` that satisfies the count invariant and every key `K`, `ht_oa_get(K)`
returns the value stored in the slot that `ht_oa_find_slot(K)` reports as found, and
returns null when `ht_oa_find_slot` reports not found; it returns null also for a key
found with a stored null value, so `ht_oa_get(K)` is non-null exactly when the key is
found with a non-null value.  (The lookup is a function of the table: it has no way to
modify it.) -/
theorem get_agrees_with_find_slot (ht : BaseHashTableOA) (K : Ptr)
    (hb : 0 < ht.bucket_count) (hc : CountInv ht) :
    (∀ i, ht_oa_find_slot ht K = (some i, true) →
      ht_oa_get ht K = (entry_at ht.entries i).value) ∧
    ((ht_oa_find_slot ht K).2 = false → ht_oa_get ht K = 0) ∧
    (ht_oa_get ht K ≠ 0 ↔
      ∃ i, ht_oa_find_slot ht K = (some i, true) ∧ (entry_at ht.entries i).value ≠ 0) := by
  obtain ⟨h1, h2⟩ := get_find_slot_agree ht K hb hc
  refine ⟨h1, h2, ?_, ?_⟩
  · intro hne
    cases hf : (ht_oa_find_slot ht K).2 with
    | false => exact absurd (h2 hf) hne
    | true =>
      obtain ⟨i, hi, _⟩ := find_slot_found hf
      have he : ht_oa_find_slot ht K = (some i, true) := Prod.ext hi hf
      exact ⟨i, he, by rw [← h1 i he]; exact hne⟩
  · intro ⟨i, he, hv⟩
    rw [h1 i he]
    exact hv

/-- Witness for C31: the table of 4 buckets holding the key 5 with the value 50. -/
theorem get_agrees_with_find_slot_witness :
    ht_oa_find_slot (ht_oa_insert heap_ok (sample_table 4) 5 50).2 5 = (some 1, true) ∧
      ht_oa_get (ht_oa_insert heap_ok (sample_table 4) 5 50).2 5 =
        (entry_at (ht_oa_insert heap_ok (sample_table 4) 5 50).2.entries 1).value ∧
      ht_oa_get (ht_oa_insert heap_ok (sample_table 4) 5 50).2 5 = 50 :=
  ⟨by decide,
    (get_agrees_with_find_slot (ht_oa_insert heap_ok (sample_table 4) 5 50).2 5 (by decide)
      (countInv_insert (wf_sample_table (n := 4) (by decide)).1.counts heap_ok 5 50)).1 1
      (by decide),
    by decide⟩

/-! ## Relocation in `ht_oa_rehash`, from the count invariant alone -/

/-- One step of the relocation loop of `ht_oa_rehash`: there is an Empty slot for the entry,
so the assertion `inserted` holds, and the counts of the new table follow. -/
theorem reloc_step {old : BaseHashTableOA} (hitems : old.item_count = occupied_slots old)
    {nbc : Nat} (hn : old.item_count ≤ nbc) {t : BaseHashTableOA} {c : Nat}
    (hinv : RelocInv old nbc t c) (hc : c < old.entries.length) :
    RelocInv old nbc (rehash_step old.entries t c) (c + 1) ∧
      rehash_assert old.entries t c = true := by
  unfold rehash_step rehash_assert
  have htake := countP_take_succ is_occupied old.entries c hc
  by_cases hst : (entry_at old.entries c).state = HT_ENTRY_OCCUPIED
  · rw [if_pos hst, if_pos hst]
    simp only
    have hocc1 : is_occupied (entry_at old.entries c) = true := by simp [is_occupied, hst]
    rw [hocc1, if_pos rfl] at htake
    have hle := countP_take_le is_occupied old.entries (c + 1)
    unfold occupied_slots at hitems
    have hlen_t := hinv.counts.len
    have hitems_t := hinv.counts.items
    unfold occupied_slots at hitems_t
    have hroom : t.entries.countP is_occupied < t.entries.length := by
      rw [← hitems_t, hinv.items, hlen_t, hinv.buckets]; omega
    obtain ⟨j, hj, hjocc⟩ := exists_not_of_countP_lt is_occupied t.entries hroom
    have hjempty : (entry_at t.entries j).state = HT_ENTRY_EMPTY :=
      state_cases _ (by simpa [is_occupied] using hjocc)
        (no_tombstone_slot hinv.counts hinv.no_tomb j)
    have hbpos : 0 < t.bucket_count := by omega
    have hs := start_index_lt t (entry_at old.entries c).key hbpos
    obtain ⟨p0, hp0, hp0e, hp0min⟩ :=
      first_empty_probe t _ hs j (by omega) hjempty
    have hspec := rehash_probe_spec (entry_at old.entries c).key (entry_at old.entries c).value
      t _ p0 hs hp0 hp0e t.bucket_count 0 (Nat.zero_le _) (by omega)
      (fun m _ hm => hp0min m hm)
    rw [Nat.add_zero, Nat.mod_eq_of_lt hs] at hspec
    rw [hspec]
    simp only [and_true]
    have hidx : (start_index t (entry_at old.entries c).key + p0) % t.bucket_count <
        t.bucket_count := Nat.mod_lt _ hbpos
    have hnocc : (entry_at t.entries ((start_index t (entry_at old.entries c).key + p0) %
        t.bucket_count)).state ≠ HT_ENTRY_OCCUPIED := by rw [hp0e]; decide
    have hntomb : ¬ (entry_at t.entries ((start_index t (entry_at old.entries c).key + p0) %
        t.bucket_count)).state = HT_ENTRY_TOMBSTONE := by rw [hp0e]; decide
    have hcnt : CountInv { t with
          entries := t.entries.set
            ((start_index t (entry_at old.entries c).key + p0) % t.bucket_count)
            ⟨(entry_at old.entries c).key, (entry_at old.entries c).value, HT_ENTRY_OCCUPIED⟩
          item_count := usize_inc t.item_count } ∧ _ := countInv_place
      hinv.counts hidx hnocc rfl rfl rfl (by rw [if_neg hntomb])
    have hlenidx : (start_index t (entry_at old.entries c).key + p0) % t.bucket_count <
        t.entries.length := by rw [hlen_t]; exact hidx
    refine ⟨hcnt.1, hinv.buckets, hinv.no_tomb, ?_, ?_⟩
    · rw [hcnt.2, hinv.items, htake]
    · intro i hi hio
      rcases Nat.eq_or_lt_of_le (Nat.le_of_lt_succ hi) with heq | hlt2
      · subst heq
        refine ⟨(start_index t (entry_at old.entries i).key + p0) % t.bucket_count, ?_⟩
        show entry_at (t.entries.set _ _) _ = _
        rw [entry_at_set_self _ hlenidx]; exact entry_eta _ hst
      · obtain ⟨j2, hj2⟩ := hinv.moved i hlt2 hio
        refine ⟨j2, ?_⟩
        show entry_at (t.entries.set _ _) _ = _
        rw [entry_at_set_ne, hj2]
        intro hc2
        have hocc2 : (entry_at t.entries j2).state = HT_ENTRY_OCCUPIED := by rw [hj2]; exact hio
        rw [← hc2, hp0e] at hocc2
        exact absurd hocc2 (by decide)
  · rw [if_neg hst, if_neg hst]
    have hocc1 : is_occupied (entry_at old.entries c) = false := by simp [is_occupied, hst]
    rw [hocc1] at htake
    simp only [Bool.false_eq_true, if_false, Nat.add_zero] at htake
    refine ⟨⟨hinv.counts, hinv.buckets, hinv.no_tomb, by rw [hinv.items, htake], ?_⟩, rfl⟩
    intro i hi hio
    rcases Nat.eq_or_lt_of_le (Nat.le_of_lt_succ hi) with heq | hlt2
    · subst heq; exact absurd hio hst
    · exact hinv.moved i hlt2 hio

theorem reloc_fold {old : BaseHashTableOA} (hitems : old.item_count = occupied_slots old)
    {nbc : Nat} (hn : old.item_count ≤ nbc) {fresh : BaseHashTableOA}
    (h0 : RelocInv old nbc fresh 0) :
    ∀ c, c ≤ old.entries.length →
      RelocInv old nbc ((List.range c).foldl (rehash_step old.entries) fresh) c := by
  intro c
  induction c with
  | zero => intro _; exact h0
  | succ c ih =>
    intro hc
    rw [List.range_succ, List.foldl_append]
    exact (reloc_step hitems hn (ih (by omega)) (by omega)).1

theorem reloc_fresh (heap : Nat → Bool) {ht : BaseHashTableOA} (n : Nat)
    (halloc : (alloc_entries heap ht.arena (rehash_bucket_count ht n)).1 = true) :
    RelocInv ht (rehash_bucket_count ht n) (rehash_fresh heap ht n) 0 :=
  ⟨countInv_empty (n := rehash_bucket_count ht n) rfl rfl (alloc_entries_fits halloc) rfl rfl,
    rfl, rfl, by simp [rehash_fresh], fun i hi => absurd hi (Nat.not_lt_zero i)⟩

theorem rehash_eq_fold (heap : Nat → Bool) (ht : BaseHashTableOA) (n : Nat)
    (halloc : (alloc_entries heap ht.arena (rehash_bucket_count ht n)).1 = true) :
    ht_oa_rehash heap ht n =
      (true, (List.range ht.bucket_count).foldl (rehash_step ht.entries)
        (rehash_fresh heap ht n)) := by
  unfold ht_oa_rehash
  simp only
  rw [if_neg (by rw [halloc]; simp)]
  rfl

/-- A successful rehash of a table with the count invariant: the new table has the count
invariant, the bucket count `ht_oa_rehash` settled on, no Tombstone, the item count of the
old table, and holds every Occupied entry of the old array. -/
theorem rehash_counts {heap : Nat → Bool} {ht : BaseHashTableOA} (n : Nat) (hc : CountInv ht)
    (halloc : (alloc_entries heap ht.arena (rehash_bucket_count ht n)).1 = true) :
    RelocInv ht (rehash_bucket_count ht n) (ht_oa_rehash heap ht n).2 ht.bucket_count ∧
      (ht_oa_rehash heap ht n).2.item_count = ht.item_count := by
  rw [rehash_eq_fold heap ht n halloc]
  have h := reloc_fold hc.items (rehash_bucket_count_ge hc n) (reloc_fresh heap n halloc)
    ht.bucket_count (by rw [hc.len])
  refine ⟨h, ?_⟩
  rw [h.items, hc.items]
  unfold occupied_slots
  rw [← hc.len, List.take_length]

/-- C36. The relocation assertion of `ht_oa_rehash` always holds: for every table that
satisfies the count invariant and every requested bucket count, once the new bucket array
is allocated, the relocation loop finds an Empty slot in the new array for every Occupied
entry of the old array (`inserted` is true at each `ASSERT_MSG`), and no entry is dropped:
the new table holds every Occupied entry of the old one and `item_count` is as before. -/
theorem rehash_assertion_holds (heap : Nat → Bool) (ht : BaseHashTableOA) (n : Nat)
    (hc : CountInv ht)
    (halloc : (alloc_entries heap ht.arena (rehash_bucket_count ht n)).1 = true) :
    (∀ i, i < ht.bucket_count →
      rehash_assert ht.entries
        ((List.range i).foldl (rehash_step ht.entries) (rehash_fresh heap ht n)) i = true) ∧
    (ht_oa_rehash heap ht n).1 = true ∧
    (ht_oa_rehash heap ht n).2 =
      (List.range ht.bucket_count).foldl (rehash_step ht.entries) (rehash_fresh heap ht n) ∧
    (ht_oa_rehash heap ht n).2.item_count = ht.item_count ∧
    (∀ i, (entry_at ht.entries i).state = HT_ENTRY_OCCUPIED →
      ∃ j, entry_at (ht_oa_rehash heap ht n).2.entries j = entry_at ht.entries i) := by
  obtain ⟨hinv, hitems⟩ := rehash_counts n hc halloc
  have hfold := rehash_eq_fold heap ht n halloc
  refine ⟨?_, by rw [hfold], by rw [hfold], hitems, ?_⟩
  · intro i hi
    have hi2 : i < ht.entries.length := by rw [hc.len]; exact hi
    exact (reloc_step hc.items (rehash_bucket_count_ge hc n)
      (reloc_fold hc.items (rehash_bucket_count_ge hc n) (reloc_fresh heap n halloc) i
        (by omega)) hi2).2
  · intro i hocc
    have hi : i < ht.bucket_count := by rw [← hc.len]; exact lt_length_of_occupied hocc
    exact hinv.moved i hi hocc

/-- Witness for C36: the rehash of the table of 4 buckets with 3 items to the same number
of buckets. -/
theorem rehash_assertion_holds_witness :
    CountInv three_of_four ∧ (ht_oa_rehash heap_ok three_of_four 4).1 = true ∧
      (ht_oa_rehash heap_ok three_of_four 4).2.item_count = three_of_four.item_count ∧
      rehash_assert three_of_four.entries
        ((List.range 3).foldl (rehash_step three_of_four.entries)
          (rehash_fresh heap_ok three_of_four 4)) 3 = true :=
  have hc : CountInv three_of_four := countInv_insert wf_two_of_four.1.counts heap_ok 7 70
  have h := rehash_assertion_holds heap_ok three_of_four 4 hc (by decide)
  ⟨hc, h.2.1, h.2.2.2.1, h.1 3 (by decide)⟩

/-! ## Rehash: sizing and content -/

/-- C32 as stated fails: the table of 4 buckets holds 3 items, and a rehash to 4 buckets
succeeds and leaves `bucket_count = 4`, below `item_count * 2 = 6`. -/
theorem rehash_keeps_small_request :
    three_of_four.item_count = 3 ∧
      (ht_oa_rehash heap_ok three_of_four 4).1 = true ∧
      (ht_oa_rehash heap_ok three_of_four 4).2.bucket_count = 4 ∧
      (ht_oa_rehash heap_ok three_of_four 4).2.bucket_count <
        max 4 (three_of_four.item_count * 2) := by
  decide

/-- C32, amended. Rehash sizing: for every table that satisfies the count invariant and
every requested `new_bucket_count`, a successful `ht_oa_rehash` leaves `bucket_count`
equal to the request (16 when 0 is requested) if that is at least `item_count`, and to
`item_count * 2` otherwise; so `bucket_count >= max(new_bucket_count, item_count)`, and
for the request `ht_oa_insert` and `ht_oa_put` make, twice the current `bucket_count`,
the new `bucket_count` is that request and at least `item_count * 2`. -/
theorem rehash_sizing (heap : Nat → Bool) (ht : BaseHashTableOA) (n : Nat) (hc : CountInv ht)
    (h : (ht_oa_rehash heap ht n).1 = true) :
    (ht_oa_rehash heap ht n).2.bucket_count =
        (if (if n = 0 then 16 else n) < ht.item_count then ht.item_count * 2
         else (if n = 0 then 16 else n)) ∧
      max n ht.item_count ≤ (ht_oa_rehash heap ht n).2.bucket_count ∧
      (0 < ht.bucket_count → n = usize_mul ht.bucket_count 2 →
        (ht_oa_rehash heap ht n).2.bucket_count = ht.bucket_count * 2 ∧
        max n (ht.item_count * 2) ≤ (ht_oa_rehash heap ht n).2.bucket_count) := by
  have halloc : (alloc_entries heap ht.arena (rehash_bucket_count ht n)).1 = true := by
    rw [← rehash_result_alloc]; exact h
  obtain ⟨hinv, _⟩ := rehash_counts n hc halloc
  have hle := count_le_bucket hc
  have hfit := bucket_lt_usize hc
  have hmul : usize_mul ht.item_count 2 = ht.item_count * 2 :=
    usize_mul_of_lt (by unfold USIZE_MOD; omega)
  have hb : rehash_bucket_count ht n =
      (if (if n = 0 then 16 else n) < ht.item_count then ht.item_count * 2
       else (if n = 0 then 16 else n)) := by
    unfold rehash_bucket_count
    simp only [hmul]
    rfl
  rw [hinv.buckets]
  refine ⟨hb, ?_, ?_⟩
  · rw [hb]
    split_ifs <;> omega
  · intro hpos hn
    have hd := rehash_bucket_count_double hc hpos
    rw [← hn] at hd
    rw [hd]
    have hn2 : n = ht.bucket_count * 2 := by
      rw [hn]; exact usize_mul_of_lt (by unfold USIZE_MOD; omega)
    exact ⟨rfl, by omega⟩

/-- Witness for C32: the rehash of the table of 4 buckets with 3 items to 2 buckets, fewer
than its items, gives 6 buckets. -/
theorem rehash_sizing_witness :
    CountInv three_of_four ∧ (ht_oa_rehash heap_ok three_of_four 2).2.bucket_count = 6 ∧
      max 2 three_of_four.item_count ≤ (ht_oa_rehash heap_ok three_of_four 2).2.bucket_count :=
  have hc : CountInv three_of_four := countInv_insert wf_two_of_four.1.counts heap_ok 7 70
  have h := rehash_sizing heap_ok three_of_four 2 hc (by decide)
  ⟨hc, h.1.trans (by decide), h.2.1⟩

/-- C33. Rehash preserves content: for every well-formed table with lawful key functions,
a successful `ht_oa_rehash` leaves `item_count` unchanged, sets `tombstone_count` to 0 with
no Tombstone slot in the new array, stores exactly the (key pointer, value pointer) pairs
stored before, invokes no callback (the callback log is unchanged), and `ht_oa_get(K)`
returns the same result as before for every key `K`. -/
theorem rehash_preserves_content (heap : Nat → Bool) (ht : BaseHashTableOA) (n : Nat)
    (hw : WF ht) (hl : LawfulKeys ht) (h : (ht_oa_rehash heap ht n).1 = true) :
    (ht_oa_rehash heap ht n).2.item_count = ht.item_count ∧
      (ht_oa_rehash heap ht n).2.tombstone_count = 0 ∧
      (∀ j, (entry_at (ht_oa_rehash heap ht n).2.entries j).state ≠ HT_ENTRY_TOMBSTONE) ∧
      (∀ i, (entry_at ht.entries i).state = HT_ENTRY_OCCUPIED →
        ∃ j, entry_at (ht_oa_rehash heap ht n).2.entries j = entry_at ht.entries i) ∧
      (∀ j, (entry_at (ht_oa_rehash heap ht n).2.entries j).state = HT_ENTRY_OCCUPIED →
        ∃ i, entry_at ht.entries i = entry_at (ht_oa_rehash heap ht n).2.entries j) ∧
      (ht_oa_rehash heap ht n).2.calls = ht.calls ∧
      (∀ K, ht_oa_get (ht_oa_rehash heap ht n).2 K = ht_oa_get ht K) := by
  obtain ⟨hw2, hcfg, hcont, hic, htc, _⟩ := rehash_success hw hl
    (Prod.ext h rfl : ht_oa_rehash heap ht n = (true, (ht_oa_rehash heap ht n).2))
  exact ⟨hic, htc, no_tombstone_slot hw2.counts htc, hcont.1, hcont.2, hcfg.calls,
    (evolved_rehash hw hl heap n).get hw hl⟩

/-- Witness for C33: the table of 4 buckets with the keys 1 and 2, a third key inserted and
removed (a Tombstone), rehashed to 8 buckets. -/
theorem rehash_preserves_content_witness :
    (ht_oa_remove three_of_four 7).2.tombstone_count = 1 ∧
      (ht_oa_rehash heap_ok (ht_oa_remove three_of_four 7).2 8).2.tombstone_count = 0 ∧
      (ht_oa_rehash heap_ok (ht_oa_remove three_of_four 7).2 8).2.item_count = 2 ∧
      ht_oa_get (ht_oa_rehash heap_ok (ht_oa_remove three_of_four 7).2 8).2 2 =
        ht_oa_get (ht_oa_remove three_of_four 7).2 2 :=
  have h3 := insert_keeps wf_two_of_four.1 wf_two_of_four.2.1 wf_two_of_four.2.2 heap_ok 7 70
  have hr := remove_keeps h3.1 (lawful_of_config wf_two_of_four.2.1 h3.2)
    (borrowed_of_config wf_two_of_four.2.2 h3.2) 7
  have h := rehash_preserves_content heap_ok (ht_oa_remove three_of_four 7).2 8 hr.1 hr.2.1
    (by decide)
  ⟨by decide, h.2.1, h.1.trans (by decide), h.2.2.2.2.2.2 2⟩

/-! ## Rejected duplicate insert -/

theorem wf_three_of_four :
    WF three_of_four ∧ LawfulKeys three_of_four ∧ Borrowed three_of_four :=
  have h := insert_keeps wf_two_of_four.1 wf_two_of_four.2.1 wf_two_of_four.2.2 heap_ok 7 70
  ⟨h.1, lawful_of_config wf_two_of_four.2.1 h.2, borrowed_of_config wf_two_of_four.2.2 h.2⟩

/-- C38 as stated fails: the table of 4 buckets holds the keys 1, 2 and 7; the call
`ht_oa_insert(1, 999)` is rejected, but the growth check ran first (`3 + 1 >= 4`) and
the table now has 8 buckets, with the key 7 relocated from slot 3 to slot 7. -/
theorem duplicate_insert_rehashes :
    WF three_of_four ∧ Hit three_of_four 1 1 ∧ three_of_four.bucket_count = 4 ∧
      (ht_oa_insert heap_ok three_of_four 1 999).1 = false ∧
      (ht_oa_insert heap_ok three_of_four 1 999).2.bucket_count = 8 ∧
      entry_at three_of_four.entries 3 = ⟨7, 70, HT_ENTRY_OCCUPIED⟩ ∧
      entry_at (ht_oa_insert heap_ok three_of_four 1 999).2.entries 3 = EMPTY_ENTRY ∧
      entry_at (ht_oa_insert heap_ok three_of_four 1 999).2.entries 7 =
        ⟨7, 70, HT_ENTRY_OCCUPIED⟩ :=
  ⟨wf_three_of_four.1, ⟨by decide, by decide⟩, by decide, by decide, by decide, by decide,
    by decide, by decide⟩

/-- A rejected duplicate insert: the result and what the growth check leaves behind. -/
theorem duplicate_insert_rule (heap : Nat → Bool) (ht : BaseHashTableOA) (K V : Ptr) (j : Nat)
    (hw : WF ht) (hl : LawfulKeys ht) (hj : Hit ht K j) :
    ht_oa_insert heap ht K V = (false, (insert_growth heap ht).2) ∧
      Evolved ht (insert_growth heap ht).2 ∧
      (¬ (ht.item_count + 1 ≥ ht.bucket_count ∨
          load_exceeds (ht.item_count + ht.tombstone_count) ht.bucket_count = true) →
        (insert_growth heap ht).2 = ht) ∧
      ((ht.item_count + 1 ≥ ht.bucket_count ∨
          load_exceeds (ht.item_count + ht.tombstone_count) ht.bucket_count = true) →
        insert_growth heap ht = ht_oa_rehash heap ht (usize_mul ht.bucket_count 2)) := by
  have hb := bucket_pos_of_hit hw.counts hj
  obtain ⟨hev, _⟩ := insert_growth_spec hw hl heap
  obtain ⟨h1, h2, _⟩ := counts_no_wrap hw.counts
  have hcases := insert_growth_cases heap hb
  rw [h1, h2] at hcases
  refine ⟨?_, hev, ?_, ?_⟩
  · cases hg : (insert_growth heap ht).1 with
    | false => exact insert_of_growth_fail hg
    | true =>
      obtain ⟨j2, hj2, _⟩ := hit_of_content hev.content hev.config.key_equal_fn hj
      have hf := find_slot_of_hit hev.wf (hev.lawful hl) hj2
      exact insert_of_found hg (by rw [hf])
  · intro hcond
    rw [hcases, if_neg hcond]
  · intro hcond
    rw [hcases, if_pos hcond]

/-- C38, amended. A rejected duplicate insert keeps the content: for every well-formed
table in which key K is stored, `ht_oa_insert(K, V2)` returns false and leaves
`item_count`, the set of stored entries, the functions and the result of every lookup
unchanged. When the growth check does not fire (`item_count + 1 < bucket_count` and the
load is at most `BASE_HT_OA_MAX_LOAD_FACTOR`) the entire table state is unchanged. When it
fires, the table is rehashed before the duplicate is detected: if the new bucket array
can be allocated, `bucket_count` is doubled and `tombstone_count` is 0 afterwards, the
entries being relocated; if it cannot, `bucket_count`, `item_count`, `tombstone_count`
and every slot are unchanged. -/
theorem duplicate_insert_keeps_content (heap : Nat → Bool) (ht : BaseHashTableOA) (K V2 : Ptr)
    (j : Nat) (hw : WF ht) (hl : LawfulKeys ht) (hj : Hit ht K j) :
    (ht_oa_insert heap ht K V2).1 = false ∧
      (ht_oa_insert heap ht K V2).2.item_count = ht.item_count ∧
      SameContent ht (ht_oa_insert heap ht K V2).2 ∧
      SameConfig ht (ht_oa_insert heap ht K V2).2 ∧
      WF (ht_oa_insert heap ht K V2).2 ∧
      (∀ k, ht_oa_get (ht_oa_insert heap ht K V2).2 k = ht_oa_get ht k) ∧
      (¬ (ht.item_count + 1 ≥ ht.bucket_count ∨
          load_exceeds (ht.item_count + ht.tombstone_count) ht.bucket_count = true) →
        (ht_oa_insert heap ht K V2).2 = ht) ∧
      ((ht.item_count + 1 ≥ ht.bucket_count ∨
          load_exceeds (ht.item_count + ht.tombstone_count) ht.bucket_count = true) →
        ((alloc_entries heap ht.arena (ht.bucket_count * 2)).1 = true →
          (ht_oa_insert heap ht K V2).2.bucket_count = ht.bucket_count * 2 ∧
            (ht_oa_insert heap ht K V2).2.tombstone_count = 0) ∧
        ((alloc_entries heap ht.arena (ht.bucket_count * 2)).1 = false →
          (ht_oa_insert heap ht K V2).2.bucket_count = ht.bucket_count ∧
            (ht_oa_insert heap ht K V2).2.tombstone_count = ht.tombstone_count ∧
            (ht_oa_insert heap ht K V2).2.entries = ht.entries)) := by
  have hb := bucket_pos_of_hit hw.counts hj
  obtain ⟨hins, hev, hno, hyes⟩ := duplicate_insert_rule heap ht K V2 j hw hl hj
  obtain ⟨r1, r2, _⟩ := rehash_double hw hl hb heap
  rw [hins]
  refine ⟨rfl, hev.items, hev.content, hev.config, hev.wf, fun k => hev.get hw hl k, hno,
    fun hcond => ⟨fun ha => ?_, fun ha => ?_⟩⟩
  · have hg := hyes hcond
    simp only [hg]
    have hr : (ht_oa_rehash heap ht (usize_mul ht.bucket_count 2)).1 = true := by
      rw [r1]; exact ha
    have hs := rehash_success hw hl
      (show ht_oa_rehash heap ht (usize_mul ht.bucket_count 2) =
        (true, (ht_oa_rehash heap ht (usize_mul ht.bucket_count 2)).2) by
        rw [← hr])
    exact ⟨r2 ha, hs.2.2.2.2.1⟩
  · have hg := hyes hcond
    simp only [hg]
    have hr : (ht_oa_rehash heap ht (usize_mul ht.bucket_count 2)).1 = false := by
      rw [r1]; exact ha
    obtain ⟨a, hfa⟩ := rehash_failure hr
    rw [hfa]
    exact ⟨rfl, rfl, rfl⟩

/-- Witness for C38: the duplicate insert of key 1 into the table of 4 buckets with the
keys 1 and 2 (the check does not fire: the table is unchanged), and into the table with
the keys 1, 2 and 7 (the check fires: 8 buckets afterwards). -/
theorem duplicate_insert_keeps_content_witness :
    Hit two_of_four 1 1 ∧
      (ht_oa_insert heap_ok two_of_four 1 999).1 = false ∧
      (ht_oa_insert heap_ok two_of_four 1 999).2 = two_of_four ∧
      (ht_oa_insert heap_ok three_of_four 1 999).2.bucket_count =
        three_of_four.bucket_count * 2 ∧
      (ht_oa_insert heap_ok three_of_four 1 999).2.item_count = 3 :=
  have h2 := duplicate_insert_keeps_content heap_ok two_of_four 1 999 1 wf_two_of_four.1
    wf_two_of_four.2.1 ⟨by decide, by decide⟩
  have h3 := duplicate_insert_keeps_content heap_ok three_of_four 1 999 1 wf_three_of_four.1
    wf_three_of_four.2.1 ⟨by decide, by decide⟩
  ⟨⟨by decide, by decide⟩, h2.1, h2.2.2.2.2.2.2.1 (by decide),
    (h3.2.2.2.2.2.2.2 (by decide)).1 (by decide) |>.1, by rw [h3.2.1]; decide⟩

/-! ## A free slot always exists -/

theorem first_below {P : Nat → Prop} {e : Nat} (h : ∃ t, t < e ∧ P t) :
    ∃ t, t < e ∧ P t ∧ ∀ m, m < t → ¬ P m := by
  classical
  refine ⟨Nat.find h, (Nat.find_spec h).1, (Nat.find_spec h).2, ?_⟩
  intro m hm hc
  exact Nat.find_min h hm ⟨by have := (Nat.find_spec h).1; omega, hc⟩

/-- The slot an unsuccessful search returns is the insertion target. -/
theorem find_slot_target (ht : BaseHashTableOA) (K : Ptr)
    (hb : 0 < ht.bucket_count) (hnf : (ht_oa_find_slot ht K).2 = false) :
    InsertionTarget ht K (ht_oa_find_slot ht K).1 := by
  have hs := start_index_lt ht K hb
  have hloop := find_loop_target ht K hs ht.bucket_count 0 none hb (by omega)
    (fun m hm => absurd hm (Nat.not_lt_zero m)) (fun _ m hm => absurd hm (Nat.not_lt_zero m))
    (fun t ht0 => absurd ht0 (by simp))
  rw [Nat.add_zero, Nat.mod_eq_of_lt hs] at hloop
  unfold ht_oa_find_slot at hnf ⊢
  rw [if_neg (by omega)] at hnf ⊢
  exact hloop hnf

/-- In a table with fewer items than buckets, an unsuccessful search returns a slot, and
that slot is not Occupied. -/
theorem find_slot_usable {ht : BaseHashTableOA} (hc : CountInv ht)
    (hroom : ht.item_count < ht.bucket_count) (K : Ptr)
    (hnf : (ht_oa_find_slot ht K).2 = false) :
    ∃ i, (ht_oa_find_slot ht K).1 = some i ∧ i < ht.bucket_count ∧
      (entry_at ht.entries i).state ≠ HT_ENTRY_OCCUPIED := by
  have hb : 0 < ht.bucket_count := by omega
  have htg := find_slot_target ht K hb hnf
  cases hr : (ht_oa_find_slot ht K).1 with
  | some i => exact ⟨i, rfl, htg.not_occupied i hr⟩
  | none =>
    exfalso
    rw [hr] at htg
    have hs := start_index_lt ht K hb
    have hlt : ht.entries.countP is_occupied < ht.entries.length := by
      have := hc.items
      unfold occupied_slots at this
      rw [← this, hc.len]; exact hroom
    obtain ⟨i, hi, hp⟩ := exists_not_of_countP_lt is_occupied _ hlt
    rw [hc.len] at hi
    have hocc : (entry_at ht.entries i).state ≠ HT_ENTRY_OCCUPIED := by
      simpa [is_occupied] using hp
    by_cases hE : ∃ j, j < ht.bucket_count ∧ (entry_at ht.entries j).state = HT_ENTRY_EMPTY
    · obtain ⟨j, hj, hje⟩ := hE
      obtain ⟨p0, hp0, hp0e, hp0m⟩ := first_empty_probe ht (start_index ht K) hs j hj hje
      obtain ⟨h1, h2⟩ := htg.before_empty p0 hp0 hp0e hp0m
      by_cases hT : ∃ t, t < p0 ∧ probe_state ht K t = HT_ENTRY_TOMBSTONE
      · obtain ⟨t, ht1, ht2, ht3⟩ := first_below hT
        exact absurd (h1 t ht1 ht2 ht3) (by simp)
      · exact absurd (h2 (fun m hm hc2 => hT ⟨m, hm, hc2⟩)) (by simp)
    · have hnoE : ∀ m, m < ht.bucket_count → probe_state ht K m ≠ HT_ENTRY_EMPTY := by
        intro m _ hm
        exact hE ⟨_, Nat.mod_lt _ hb, hm⟩
      obtain ⟨h1, _⟩ := htg.wrapped hnoE
      have hit : (entry_at ht.entries i).state = HT_ENTRY_TOMBSTONE := by
        by_contra hnt
        exact hE ⟨i, hi, state_cases _ hocc hnt⟩
      obtain ⟨n, hn, hni⟩ := probe_surj hs hi
      have hT : ∃ t, t < ht.bucket_count ∧ probe_state ht K t = HT_ENTRY_TOMBSTONE :=
        ⟨n, hn, by unfold probe_state; rw [hni]; exact hit⟩
      obtain ⟨t, ht1, ht2, ht3⟩ := first_below hT
      exact absurd (h1 t ht1 ht2 ht3) (by simp)

/-- With a usable slot the retry stage does nothing. -/
theorem retry_of_room (heap : Nat → Bool) {ht : BaseHashTableOA} (hc : CountInv ht)
    (hroom : ht.item_count < ht.bucket_count) (K : Ptr)
    (hnf : (ht_oa_find_slot ht K).2 = false) :
    slot_unusable ht (ht_oa_find_slot ht K).1 = false ∧
      retry_stage heap ht K (ht_oa_find_slot ht K).1 = (true, ht, (ht_oa_find_slot ht K).1) := by
  obtain ⟨i, hi, _, hocc⟩ := find_slot_usable hc hroom K hnf
  rw [hi]
  exact ⟨by simp [slot_unusable, hocc], retry_noop heap ht K hocc⟩

theorem room_congr {ht ht2 : BaseHashTableOA} (hr : Room ht)
    (he : ht2.entries = ht.entries) (hb : ht2.bucket_count = ht.bucket_count)
    (hi : ht2.item_count = ht.item_count) (ht0 : ht2.tombstone_count = ht.tombstone_count) :
    Room ht2 :=
  ⟨countInv_congr hr.counts he hb hi ht0, by rw [hb, hi]; exact hr.room⟩

/-- Doubling the bucket array keeps room, and leaves room for one more item when it
succeeds. -/
theorem room_rehash_double (heap : Nat → Bool) {t : BaseHashTableOA} (hr : Room t)
    (hb : 0 < t.bucket_count) :
    Room (ht_oa_rehash heap t (usize_mul t.bucket_count 2)).2 ∧
      ((ht_oa_rehash heap t (usize_mul t.bucket_count 2)).1 = true →
        (ht_oa_rehash heap t (usize_mul t.bucket_count 2)).2.item_count + 1 <
          (ht_oa_rehash heap t (usize_mul t.bucket_count 2)).2.bucket_count) := by
  cases hres : (ht_oa_rehash heap t (usize_mul t.bucket_count 2)).1 with
  | false =>
    obtain ⟨a, ha⟩ := rehash_failure hres
    rw [ha]
    exact ⟨room_congr hr rfl rfl rfl rfl, fun h => absurd h (by simp)⟩
  | true =>
    have halloc : (alloc_entries heap t.arena
        (rehash_bucket_count t (usize_mul t.bucket_count 2))).1 = true := by
      rw [← rehash_result_alloc]; exact hres
    obtain ⟨hinv, hitems⟩ := rehash_counts (usize_mul t.bucket_count 2) hr.counts halloc
    have hbk := hinv.buckets
    rw [rehash_bucket_count_double hr.counts hb] at hbk
    have hroom := hr.room hb
    have hlt : (ht_oa_rehash heap t (usize_mul t.bucket_count 2)).2.item_count + 1 <
        (ht_oa_rehash heap t (usize_mul t.bucket_count 2)).2.bucket_count := by
      rw [hbk, hitems]; omega
    exact ⟨⟨hinv.counts, fun _ => by omega⟩, fun _ => hlt⟩

/-- The first allocation of a table without buckets gives 16 buckets and no item. -/
theorem room_rehash_default (heap : Nat → Bool) {t : BaseHashTableOA} (hc : CountInv t)
    (hb : t.bucket_count = 0) :
    Room (ht_oa_rehash heap t BASE_HT_OA_DEFAULT_CAPACITY).2 ∧
      ((ht_oa_rehash heap t BASE_HT_OA_DEFAULT_CAPACITY).1 = true →
        0 < (ht_oa_rehash heap t BASE_HT_OA_DEFAULT_CAPACITY).2.bucket_count) := by
  have hle := count_le_bucket hc
  cases hres : (ht_oa_rehash heap t BASE_HT_OA_DEFAULT_CAPACITY).1 with
  | false =>
    obtain ⟨a, ha⟩ := rehash_failure hres
    rw [ha]
    exact ⟨⟨countInv_congr hc rfl rfl rfl rfl, fun h => absurd hb (by
      have h2 : 0 < t.bucket_count := h
      omega)⟩, fun h => absurd h (by simp)⟩
  | true =>
    have halloc : (alloc_entries heap t.arena
        (rehash_bucket_count t BASE_HT_OA_DEFAULT_CAPACITY)).1 = true := by
      rw [← rehash_result_alloc]; exact hres
    obtain ⟨hinv, hitems⟩ := rehash_counts BASE_HT_OA_DEFAULT_CAPACITY hc halloc
    have hbk := hinv.buckets
    rw [rehash_bucket_count_default hc hb] at hbk
    exact ⟨⟨hinv.counts, fun _ => by rw [hbk, hitems]; omega⟩, fun _ => by rw [hbk]; omega⟩

/-- The growth check of `ht_oa_insert` keeps room, and leaves room for one more item when
it succeeds. -/
theorem insert_growth_room (heap : Nat → Bool) {ht : BaseHashTableOA} (hr : Room ht) :
    Room (insert_growth heap ht).2 ∧
      ((insert_growth heap ht).1 = true →
        (insert_growth heap ht).2.item_count + 1 < (insert_growth heap ht).2.bucket_count) := by
  unfold insert_growth
  simp only
  have h1 : Room (if ht.bucket_count = 0 then
      ht_oa_rehash heap ht BASE_HT_OA_DEFAULT_CAPACITY else (true, ht)).2 ∧
      ((if ht.bucket_count = 0 then
        ht_oa_rehash heap ht BASE_HT_OA_DEFAULT_CAPACITY else (true, ht)).1 = true →
        0 < (if ht.bucket_count = 0 then
          ht_oa_rehash heap ht BASE_HT_OA_DEFAULT_CAPACITY else (true, ht)).2.bucket_count) := by
    by_cases hb0 : ht.bucket_count = 0
    · simp only [if_pos hb0]; exact room_rehash_default heap hr.counts hb0
    · simp only [if_neg hb0]; exact ⟨hr, fun _ => by omega⟩
  generalize (if ht.bucket_count = 0 then ht_oa_rehash heap ht BASE_HT_OA_DEFAULT_CAPACITY
    else (true, ht)) = r1 at h1
  by_cases hres : r1.1 = false
  · rw [if_pos hres]; exact ⟨h1.1, fun h => absurd h (by simp [hres])⟩
  · rw [if_neg hres]
    have hb := h1.2 (by simpa using hres)
    obtain ⟨n1, _, _⟩ := counts_no_wrap h1.1.counts
    by_cases hcond : usize_add r1.2.item_count 1 ≥ r1.2.bucket_count ∨
        load_exceeds (usize_add r1.2.item_count r1.2.tombstone_count) r1.2.bucket_count = true
    · rw [if_pos hcond, if_pos hb]; exact room_rehash_double heap h1.1 hb
    · rw [if_neg hcond]
      refine ⟨h1.1, fun _ => ?_⟩
      have := (not_or.mp hcond).1
      rw [n1] at this
      show r1.2.item_count + 1 < r1.2.bucket_count
      omega

/-- The growth check of `ht_oa_put` keeps room; when it succeeds the table has buckets and
either room for one more item or the key with a non-null value. -/
theorem put_growth_room (heap : Nat → Bool) {ht : BaseHashTableOA} (hr : Room ht) (key : Ptr) :
    Room (put_growth heap ht key).2 ∧
      ((put_growth heap ht key).1 = true →
        0 < (put_growth heap ht key).2.bucket_count ∧
        ((put_growth heap ht key).2.item_count + 1 < (put_growth heap ht key).2.bucket_count ∨
          ht_oa_contains (put_growth heap ht key).2 key = true)) := by
  unfold put_growth
  simp only
  have h1 : Room (if ht.bucket_count = 0 then
      ht_oa_rehash heap ht BASE_HT_OA_DEFAULT_CAPACITY else (true, ht)).2 ∧
      ((if ht.bucket_count = 0 then
        ht_oa_rehash heap ht BASE_HT_OA_DEFAULT_CAPACITY else (true, ht)).1 = true →
        0 < (if ht.bucket_count = 0 then
          ht_oa_rehash heap ht BASE_HT_OA_DEFAULT_CAPACITY else (true, ht)).2.bucket_count) := by
    by_cases hb0 : ht.bucket_count = 0
    · simp only [if_pos hb0]; exact room_rehash_default heap hr.counts hb0
    · simp only [if_neg hb0]; exact ⟨hr, fun _ => by omega⟩
  generalize (if ht.bucket_count = 0 then ht_oa_rehash heap ht BASE_HT_OA_DEFAULT_CAPACITY
    else (true, ht)) = r1 at h1
  by_cases hres : r1.1 = false
  · rw [if_pos hres]; exact ⟨h1.1, fun h => absurd h (by simp [hres])⟩
  · rw [if_neg hres]
    have hb := h1.2 (by simpa using hres)
    obtain ⟨n1, _, _⟩ := counts_no_wrap h1.1.counts
    by_cases hcond : usize_add r1.2.item_count
          (if ht_oa_contains r1.2 key = true then 0 else 1) ≥ r1.2.bucket_count ∨
        load_exceeds (usize_add (usize_add r1.2.item_count r1.2.tombstone_count)
          (if ht_oa_contains r1.2 key = true then 0 else 1)) r1.2.bucket_count = true
    · rw [if_pos hcond, if_pos hb]
      have h2 := room_rehash_double heap h1.1 hb
      exact ⟨h2.1, fun h => ⟨by have := h2.2 h; omega, Or.inl (h2.2 h)⟩⟩
    · rw [if_neg hcond]
      refine ⟨h1.1, fun _ => ⟨hb, ?_⟩⟩
      by_cases hcon : ht_oa_contains r1.2 key = true
      · exact Or.inr hcon
      · left
        have := (not_or.mp hcond).1
        rw [if_neg hcon, n1] at this
        show r1.2.item_count + 1 < r1.2.bucket_count
        omega

/-- Storing into a slot that is not Occupied, in a table with room for one more item. -/
theorem room_store {t : BaseHashTableOA} (hc : CountInv t) {slot : Nat} (key value : Ptr)
    (hs : slot < t.bucket_count)
    (hocc : (entry_at t.entries slot).state ≠ HT_ENTRY_OCCUPIED)
    (hroom : t.item_count + 1 < t.bucket_count) :
    Room (store_stage t slot key value).2 := by
  refine ⟨countInv_store hc key value hs hocc, fun _ => ?_⟩
  have hfit := bucket_lt_usize hc
  have hinc : usize_inc t.item_count = t.item_count + 1 :=
    usize_inc_of_lt (by unfold USIZE_MOD; omega)
  rw [(store_stage_frame t slot key value).1]
  unfold store_stage
  simp only
  split_ifs <;> simp only [hinc] <;> omega

theorem room_update {t : BaseHashTableOA} (hr : Room t) (slot : Nat) (value : Ptr) :
    Room (update_stage t slot value).2 := by
  refine ⟨countInv_update_stage hr.counts slot value, ?_⟩
  rw [(update_stage_frame t slot value).1]
  have hi : (update_stage t slot value).2.item_count = t.item_count := by
    unfold update_stage
    simp only
    split_ifs <;> rfl
  rw [hi]; exact hr.room

/-- The function `ht_oa_insert` keeps room. -/
theorem room_insert (heap : Nat → Bool) {ht : BaseHashTableOA} (hr : Room ht)
    (key value : Ptr) : Room (ht_oa_insert heap ht key value).2 := by
  rw [insert_stages]
  obtain ⟨hg, hg1⟩ := insert_growth_room heap hr
  by_cases h1 : (insert_growth heap ht).1 = false
  · rw [if_pos h1]; exact hg
  · rw [if_neg h1]
    by_cases h2 : (ht_oa_find_slot (insert_growth heap ht).2 key).2 = true
    · rw [if_pos h2]; exact hg
    · rw [if_neg h2]
      have hone := hg1 (by simpa using h1)
      have hnf : (ht_oa_find_slot (insert_growth heap ht).2 key).2 = false := by simpa using h2
      obtain ⟨i, hi, hlt, hocc⟩ := find_slot_usable hg.counts (by omega) key hnf
      rw [hi, retry_noop heap _ key hocc]
      simp only [Bool.true_eq_false, if_false, Option.getD_some]
      exact room_store hg.counts key value hlt hocc hone

/-- The function `ht_oa_put` keeps room. -/
theorem room_put (heap : Nat → Bool) {ht : BaseHashTableOA} (hr : Room ht)
    (key value : Ptr) : Room (ht_oa_put heap ht key value).2 := by
  rw [put_stages]
  obtain ⟨hg, hg1⟩ := put_growth_room heap hr key
  by_cases h1 : (put_growth heap ht key).1 = false
  · rw [if_pos h1]; exact hg
  · rw [if_neg h1]
    by_cases h2 : (ht_oa_find_slot (put_growth heap ht key).2 key).2 = true
    · rw [if_pos h2]; exact room_update hg _ _
    · rw [if_neg h2]
      obtain ⟨hb, hone⟩ := hg1 (by simpa using h1)
      have hnf : (ht_oa_find_slot (put_growth heap ht key).2 key).2 = false := by simpa using h2
      have hget := (get_find_slot_agree _ key hb hg.counts).2 hnf
      have hone2 : (put_growth heap ht key).2.item_count + 1 <
          (put_growth heap ht key).2.bucket_count := by
        rcases hone with h | h
        · exact h
        · unfold ht_oa_contains at h
          rw [hget] at h
          exact absurd h (by simp)
      obtain ⟨i, hi, hlt, hocc⟩ := find_slot_usable hg.counts (by omega) key hnf
      rw [hi, retry_noop heap _ key hocc]
      simp only [Bool.true_eq_false, if_false, Option.getD_some]
      exact room_store hg.counts key value hlt hocc hone2

/-- The function `ht_oa_remove` keeps room. -/
theorem room_remove {ht : BaseHashTableOA} (hr : Room ht) (key : Ptr) :
    Room (ht_oa_remove ht key).2 := by
  have hc := hr.counts
  unfold ht_oa_remove
  simp only
  by_cases h1 : ht.bucket_count = 0 ∨ ht.item_count = 0
  · rw [if_pos h1]; exact hr
  · rw [if_neg h1]
    cases hs : (ht_oa_find_slot ht key).1 with
    | none => exact hr
    | some slot =>
      simp only
      by_cases h2 : (ht_oa_find_slot ht key).2 = true ∧
          (entry_at ht.entries slot).state = HT_ENTRY_OCCUPIED
      · rw [if_pos h2]
        have hp : CountInv { ht with
            entries := ht.entries.set slot ⟨0, 0, HT_ENTRY_TOMBSTONE⟩
            item_count := usize_dec ht.item_count
            tombstone_count := usize_inc ht.tombstone_count } ∧ _ ∧ _ :=
          countInv_remove hc h2.2 rfl rfl rfl rfl
        refine ⟨countInv_congr hp.1 rfl rfl rfl rfl, fun hb => ?_⟩
        have h3 := hp.2.1
        have h4 := hr.room hb
        show usize_dec ht.item_count < ht.bucket_count
        have h5 : usize_dec ht.item_count + 1 = ht.item_count := h3
        omega
      · rw [if_neg h2]; exact hr

/-- Every table state reached through the API has room: with buckets,
`item_count < bucket_count`. -/
theorem room_of_api {ht : BaseHashTableOA} (h : ApiState ht) : Room ht := by
  induction h with
  | init heap n hash_fn key_equal_fn arena ht h =>
    obtain ⟨hw, _, _, _, _, hi, _⟩ := init_spec h
    exact ⟨hw.counts, fun hb => by rw [hi]; exact hb⟩
  | set_managed_kv ht kc kf vc vf _ ih => exact room_congr ih rfl rfl rfl rfl
  | insert heap ht key value _ ih => exact room_insert heap ih key value
  | put heap ht key value _ ih => exact room_put heap ih key value
  | remove ht key _ ih => exact room_remove ih key
  | clear ht _ ih =>
    obtain ⟨_, h2, h3, _⟩ := clear_spec ht ih.counts.len
    exact ⟨countInv_clear ih.counts, fun hb => by rw [h3]; exact hb⟩
  | free ht _ ih =>
    refine ⟨countInv_free ht, fun hb => ?_⟩
    exact absurd hb (by unfold ht_oa_free; simp)

theorem api_three_of_four : ApiState three_of_four :=
  ApiState.insert heap_ok _ 7 70
    (ApiState.insert heap_ok _ 2 102
      (ApiState.insert heap_ok _ 1 101
        (ApiState.init heap_ok 4 sample_hash sample_equal none (sample_table 4) rfl)))

/-- After a successful growth check with room for one more item, an unsuccessful search
returns an Empty or Tombstone slot and the retry stage is skipped. -/
theorem usable_after_growth (heap : Nat → Bool) {g : BaseHashTableOA} (hc : CountInv g)
    (hroom : g.item_count < g.bucket_count) (K : Ptr)
    (hnf : (ht_oa_find_slot g K).2 = false) :
    ∃ i, (ht_oa_find_slot g K).1 = some i ∧ i < g.bucket_count ∧
      ((entry_at g.entries i).state = HT_ENTRY_EMPTY ∨
        (entry_at g.entries i).state = HT_ENTRY_TOMBSTONE) ∧
      slot_unusable g (ht_oa_find_slot g K).1 = false ∧
      retry_stage heap g K (ht_oa_find_slot g K).1 = (true, g, some i) := by
  obtain ⟨i, hi, hlt, hocc⟩ := find_slot_usable hc hroom K hnf
  refine ⟨i, hi, hlt, ?_, ?_, ?_⟩
  · by_cases ht : (entry_at g.entries i).state = HT_ENTRY_TOMBSTONE
    · exact Or.inr ht
    · exact Or.inl (state_cases _ hocc ht)
  · rw [hi]; simp [slot_unusable, hocc]
  · rw [hi]; exact retry_noop heap g K hocc

/-- C37. A free slot always exists: in every table state reached from `ht_oa_init` by API
calls, a table with `bucket_count > 0` has `item_count < bucket_count` (after every
`ht_oa_insert` and `ht_oa_put` in particular). Consequently, after a successful growth
check of `ht_oa_insert` or `ht_oa_put`, `ht_oa_find_slot` for a key it does not find
returns a slot inside the bucket array that is Empty or a Tombstone; the test
`!slot || slot->state == HT_ENTRY_OCCUPIED` is false, the branch it guards is not entered,
and the call goes straight on to store the key in that slot. -/
theorem free_slot_always_exists (ht : BaseHashTableOA) (h : ApiState ht) (heap : Nat → Bool)
    (K V : Ptr) :
    (0 < ht.bucket_count → ht.item_count < ht.bucket_count) ∧
    ((insert_growth heap ht).1 = true →
      (ht_oa_find_slot (insert_growth heap ht).2 K).2 = false →
      ∃ i, (ht_oa_find_slot (insert_growth heap ht).2 K).1 = some i ∧
        i < (insert_growth heap ht).2.bucket_count ∧
        ((entry_at (insert_growth heap ht).2.entries i).state = HT_ENTRY_EMPTY ∨
          (entry_at (insert_growth heap ht).2.entries i).state = HT_ENTRY_TOMBSTONE) ∧
        slot_unusable (insert_growth heap ht).2
          (ht_oa_find_slot (insert_growth heap ht).2 K).1 = false ∧
        retry_stage heap (insert_growth heap ht).2 K
          (ht_oa_find_slot (insert_growth heap ht).2 K).1 =
            (true, (insert_growth heap ht).2, some i) ∧
        ht_oa_insert heap ht K V = store_stage (insert_growth heap ht).2 i K V) ∧
    ((put_growth heap ht K).1 = true →
      (ht_oa_find_slot (put_growth heap ht K).2 K).2 = false →
      ∃ i, (ht_oa_find_slot (put_growth heap ht K).2 K).1 = some i ∧
        i < (put_growth heap ht K).2.bucket_count ∧
        ((entry_at (put_growth heap ht K).2.entries i).state = HT_ENTRY_EMPTY ∨
          (entry_at (put_growth heap ht K).2.entries i).state = HT_ENTRY_TOMBSTONE) ∧
        slot_unusable (put_growth heap ht K).2
          (ht_oa_find_slot (put_growth heap ht K).2 K).1 = false ∧
        retry_stage heap (put_growth heap ht K).2 K
          (ht_oa_find_slot (put_growth heap ht K).2 K).1 =
            (true, (put_growth heap ht K).2, some i) ∧
        ht_oa_put heap ht K V = store_stage (put_growth heap ht K).2 i K V) := by
  have hr := room_of_api h
  refine ⟨hr.room, ?_, ?_⟩
  · intro hg hnf
    obtain ⟨hgr, hone⟩ := insert_growth_room heap hr
    have hlt := hone hg
    obtain ⟨i, h1, h2, h3, h4, h5⟩ :=
      usable_after_growth heap hgr.counts (by omega) K hnf
    refine ⟨i, h1, h2, h3, h4, h5, ?_⟩
    rw [insert_stages, if_neg (by simp [hg]), if_neg (by simp [hnf]), h5]
    simp
  · intro hg hnf
    obtain ⟨hgr, hone⟩ := put_growth_room heap hr K
    obtain ⟨hb, hor⟩ := hone hg
    have hget := (get_find_slot_agree _ K hb hgr.counts).2 hnf
    have hlt : (put_growth heap ht K).2.item_count + 1 <
        (put_growth heap ht K).2.bucket_count := by
      rcases hor with h | h
      · exact h
      · unfold ht_oa_contains at h
        rw [hget] at h
        exact absurd h (by simp)
    obtain ⟨i, h1, h2, h3, h4, h5⟩ :=
      usable_after_growth heap hgr.counts (by omega) K hnf
    refine ⟨i, h1, h2, h3, h4, h5, ?_⟩
    rw [put_stages, if_neg (by simp [hg]), if_neg (by simp [hnf]), h5]
    simp

/-- Witness for C37: the table of 4 buckets after three insertions is reached through the
API and holds 3 items; the insert of the new key 9 grows it to 8 buckets, and the search
then returns a slot in which the key is stored. -/
theorem free_slot_always_exists_witness :
    ApiState three_of_four ∧ three_of_four.item_count < three_of_four.bucket_count ∧
      ∃ i, (ht_oa_find_slot (insert_growth heap_ok three_of_four).2 9).1 = some i ∧
        ht_oa_insert heap_ok three_of_four 9 90 =
          store_stage (insert_growth heap_ok three_of_four).2 i 9 90 :=
  have h := free_slot_always_exists three_of_four api_three_of_four heap_ok 9 90
  ⟨api_three_of_four, h.1 (by decide),
    (h.2.1 (by decide) (by decide)).imp (fun _ hi => ⟨hi.1, hi.2.2.2.2.2⟩)⟩

/-! ## Copy failure in `ht_oa_insert` -/

theorem wf_copy_fail_table :
    WF copy_fail_table ∧ LawfulKeys copy_fail_table ∧ Absent copy_fail_table 9 := by
  have h := remove_keeps wf_three_of_four.1 wf_three_of_four.2.1 wf_three_of_four.2.2 7
  refine ⟨wf_of_same_keys h.1 (countInv_congr h.1.counts rfl rfl rfl rfl) rfl rfl rfl
    (fun _ => rfl) (fun _ => rfl), lawful_of_eq h.2.1 rfl rfl, ?_⟩
  intro i hi
  have hlt : i < 4 := hi.lt_length
  interval_cases i <;> exact absurd hi (by unfold Hit; decide)

theorem stage_tombs {t : BaseHashTableOA} (hw : WF t) (hl : LawfulKeys t) (heap : Nat → Bool)
    (c : Prop) [Decidable c] (n : Nat) (hnt : t.tombstone_count = 0)
    (h : (if c then ht_oa_rehash heap t n else (true, t)).1 = true) :
    (if c then ht_oa_rehash heap t n else (true, t)).2.tombstone_count = 0 := by
  by_cases hc : c
  · rw [if_pos hc] at h ⊢
    exact (rehash_success hw hl
      (show ht_oa_rehash heap t n = (true, (ht_oa_rehash heap t n).2) by rw [← h])).2.2.2.2.1
  · rw [if_neg hc]; exact hnt

/-- The growth check of `ht_oa_insert`, when it succeeds: the table is unchanged, or it was
rehashed, with more buckets and no Tombstone. -/
theorem insert_growth_tombs {ht : BaseHashTableOA} (hw : WF ht) (hl : LawfulKeys ht)
    (heap : Nat → Bool) (hg : (insert_growth heap ht).1 = true) :
    (0 < ht.bucket_count →
      ¬ (ht.item_count + 1 ≥ ht.bucket_count ∨
        load_exceeds (ht.item_count + ht.tombstone_count) ht.bucket_count = true) →
      (insert_growth heap ht).2 = ht) ∧
    ((ht.bucket_count = 0 ∨ ht.item_count + 1 ≥ ht.bucket_count ∨
        load_exceeds (ht.item_count + ht.tombstone_count) ht.bucket_count = true) →
      (insert_growth heap ht).2.tombstone_count = 0 ∧
        ht.bucket_count < (insert_growth heap ht).2.bucket_count) := by
  obtain ⟨n1, n2, _⟩ := counts_no_wrap hw.counts
  refine ⟨fun hb hcond => ?_, fun hcond => ?_⟩
  · rw [insert_growth_noop (by omega) (by rw [n1, n2]; exact hcond)]
  · by_cases hb : 0 < ht.bucket_count
    · have hc2 : ht.item_count + 1 ≥ ht.bucket_count ∨
          load_exceeds (ht.item_count + ht.tombstone_count) ht.bucket_count = true := by
        rcases hcond with h | h
        · omega
        · exact h
      have hgg : insert_growth heap ht = ht_oa_rehash heap ht (usize_mul ht.bucket_count 2) :=
        insert_growth_grow hb (by rw [n1, n2]; exact hc2)
      rw [hgg] at hg ⊢
      have hs := rehash_success hw hl
        (show ht_oa_rehash heap ht (usize_mul ht.bucket_count 2) =
          (true, (ht_oa_rehash heap ht (usize_mul ht.bucket_count 2)).2) by rw [← hg])
      refine ⟨hs.2.2.2.2.1, ?_⟩
      rw [hs.2.2.2.2.2, rehash_bucket_count_double hw.counts hb]; omega
    · have hb0 : ht.bucket_count = 0 := by omega
      have hroom := (insert_growth_spec hw hl heap).2 hg
      refine ⟨?_, by omega⟩
      unfold insert_growth at hg ⊢
      simp only [hb0, if_true] at hg ⊢
      cases h1 : (ht_oa_rehash heap ht BASE_HT_OA_DEFAULT_CAPACITY).1 with
      | false => simp [h1] at hg
      | true =>
        have hs := rehash_success hw hl
          (show ht_oa_rehash heap ht BASE_HT_OA_DEFAULT_CAPACITY =
            (true, (ht_oa_rehash heap ht BASE_HT_OA_DEFAULT_CAPACITY).2) by rw [← h1])
        simp only [h1, Bool.true_eq_false, if_false] at hg ⊢
        exact stage_tombs hs.1 (lawful_of_config hl hs.2.1) heap _ _ hs.2.2.2.2.1 hg

/-- C34 as stated fails: the table of 4 buckets holds the keys 1 and 2 and one Tombstone,
with a key copy, a key free and a (failing) value copy function installed; the key 9 is
absent. `ht_oa_insert(9, 90)` returns false after the value copy failed and the key clone
1009 was freed, but the growth check ran first: `tombstone_count` went from 1 to 0 (and
`bucket_count` from 4 to 8). -/
theorem copy_failure_after_rehash :
    WF copy_fail_table ∧ Absent copy_fail_table 9 ∧
      copy_fail_table.key_copy_fn.isSome = true ∧ copy_fail_table.key_free_fn = true ∧
      copy_ptr copy_fail_table.value_copy_fn 90 = 0 ∧
      copy_fail_table.tombstone_count = 1 ∧ copy_fail_table.bucket_count = 4 ∧
      (ht_oa_insert heap_ok copy_fail_table 9 90).1 = false ∧
      (ht_oa_insert heap_ok copy_fail_table 9 90).2.calls =
        [Callback.key_copy 9, Callback.value_copy 90, Callback.key_free 1009] ∧
      (ht_oa_insert heap_ok copy_fail_table 9 90).2.tombstone_count = 0 ∧
      (ht_oa_insert heap_ok copy_fail_table 9 90).2.bucket_count = 8 :=
  ⟨wf_copy_fail_table.1, wf_copy_fail_table.2.2, rfl, rfl, rfl, by decide, by decide,
    by decide, by decide, by decide, by decide⟩

/-- The result of `ht_oa_insert` for an absent key when a copy fails, the table owning its
keys and values. -/
theorem insert_copy_fail (heap : Nat → Bool) (ht : BaseHashTableOA) (K V : Ptr)
    (kf vf : Ptr → Ptr) (hw : WF ht) (hl : LawfulKeys ht)
    (hkc : ht.key_copy_fn = some kf) (hkf : ht.key_free_fn = true)
    (hvc : ht.value_copy_fn = some vf) (habs : Absent ht K)
    (hg : (insert_growth heap ht).1 = true) :
    (kf K = 0 →
      ht_oa_insert heap ht K V =
        (false, { (insert_growth heap ht).2 with
          calls := ht.calls ++ [Callback.key_copy K] })) ∧
    (kf K ≠ 0 → vf V = 0 →
      ht_oa_insert heap ht K V =
        (false, { (insert_growth heap ht).2 with
          calls := ht.calls ++ [Callback.key_copy K, Callback.value_copy V] ++
            (if kf K ≠ K then [Callback.key_free (kf K)] else []) })) := by
  obtain ⟨hev, hroom⟩ := insert_growth_spec hw hl heap
  obtain ⟨slot, hfs, hlt, hocc, _⟩ := find_slot_room hev.wf (hev.absent habs) (hroom hg)
  have hkc2 : (insert_growth heap ht).2.key_copy_fn = some kf := by
    rw [hev.config.key_copy_fn]; exact hkc
  have hkf2 : (insert_growth heap ht).2.key_free_fn = true := by
    rw [hev.config.key_free_fn]; exact hkf
  have hvc2 : (insert_growth heap ht).2.value_copy_fn = some vf := by
    rw [hev.config.value_copy_fn]; exact hvc
  have hcalls := hev.config.calls
  have hins : ht_oa_insert heap ht K V = store_stage (insert_growth heap ht).2 slot K V := by
    rw [insert_stages, if_neg (by simp [hg]), hfs, if_neg (by simp),
      retry_noop heap _ K hocc]
    simp
  rw [hins]
  unfold store_stage
  simp only [hkc2, hkf2, hvc2, hcalls, copy_ptr, Option.isSome_some, if_true, true_and]
  refine ⟨fun h1 => ?_, fun h1 h2 => ?_⟩
  · rw [if_pos h1]
  · rw [if_neg h1, if_pos h2]
    by_cases h3 : kf K = K
    · simp [h3]
    · simp [h3]

/-- C34, amended. Copy failure aborts the insert: for every well-formed table with lawful
key functions, with `key_copy_fn`, `key_free_fn` and `value_copy_fn` installed and key K
absent, once the growth check of `ht_oa_insert(K, V)` has succeeded: if `value_copy_fn`
fails (returns null, the key copy having succeeded) the call returns false after invoking
`key_copy_fn` on K, `value_copy_fn` on V and then `key_free_fn` exactly once on the key
clone, unless the clone is the pointer K itself, in which case nothing is freed; if
`key_copy_fn` fails it returns false having invoked `key_copy_fn` only, neither
`value_copy_fn` nor any free function. In both cases the table is left as the growth
check left it, apart from the call log: `item_count` and the set of stored entries are
those before the call; `tombstone_count` and every slot are unchanged when the growth
check did not rehash, whereas after a rehash `tombstone_count` is 0 and `bucket_count`
is larger. -/
theorem insert_copy_failure (heap : Nat → Bool) (ht : BaseHashTableOA) (K V : Ptr)
    (kf vf : Ptr → Ptr) (hw : WF ht) (hl : LawfulKeys ht)
    (hkc : ht.key_copy_fn = some kf) (hkf : ht.key_free_fn = true)
    (hvc : ht.value_copy_fn = some vf) (habs : Absent ht K)
    (hg : (insert_growth heap ht).1 = true) :
    (kf K ≠ 0 → vf V = 0 →
      ht_oa_insert heap ht K V =
        (false, { (insert_growth heap ht).2 with
          calls := ht.calls ++ [Callback.key_copy K, Callback.value_copy V] ++
            (if kf K ≠ K then [Callback.key_free (kf K)] else []) })) ∧
    (kf K = 0 →
      ht_oa_insert heap ht K V =
        (false, { (insert_growth heap ht).2 with
          calls := ht.calls ++ [Callback.key_copy K] })) ∧
    (insert_growth heap ht).2.item_count = ht.item_count ∧
    SameContent ht (insert_growth heap ht).2 ∧
    Absent (insert_growth heap ht).2 K ∧
    (0 < ht.bucket_count →
      ¬ (ht.item_count + 1 ≥ ht.bucket_count ∨
        load_exceeds (ht.item_count + ht.tombstone_count) ht.bucket_count = true) →
      (insert_growth heap ht).2 = ht) ∧
    ((ht.bucket_count = 0 ∨ ht.item_count + 1 ≥ ht.bucket_count ∨
        load_exceeds (ht.item_count + ht.tombstone_count) ht.bucket_count = true) →
      (insert_growth heap ht).2.tombstone_count = 0 ∧
        ht.bucket_count < (insert_growth heap ht).2.bucket_count) := by
  obtain ⟨h1, h2⟩ := insert_copy_fail heap ht K V kf vf hw hl hkc hkf hvc habs hg
  obtain ⟨hev, _⟩ := insert_growth_spec hw hl heap
  obtain ⟨h3, h4⟩ := insert_growth_tombs hw hl heap hg
  exact ⟨h2, h1, hev.items, hev.content, hev.absent habs, h3, h4⟩

/-- Witness for C34: the table of 4 buckets with the keys 1 and 2, one Tombstone, the key
copy function `sample_clone` and a value copy function that always fails; the insert of
the absent key 9 copies the key, fails to copy the value and frees the clone 1009. -/
theorem insert_copy_failure_witness :
    (ht_oa_insert heap_ok copy_fail_table 9 90).1 = false ∧
      (ht_oa_insert heap_ok copy_fail_table 9 90).2.calls =
        copy_fail_table.calls ++ [Callback.key_copy 9, Callback.value_copy 90] ++
          [Callback.key_free 1009] ∧
      (insert_growth heap_ok copy_fail_table).2.item_count = 2 :=
  have h := insert_copy_failure heap_ok copy_fail_table 9 90 sample_clone (fun _ => 0)
    wf_copy_fail_table.1 wf_copy_fail_table.2.1 rfl rfl rfl wf_copy_fail_table.2.2
    (by decide)
  have h1 := h.1 (by decide) rfl
  ⟨by rw [h1], by rw [h1]; rfl, by rw [h.2.2.1]; decide⟩

/-! ## Arena consumption of arena-backed tables -/

theorem rehash_probe_arena (key value : Ptr) (s : Nat) :
    ∀ fuel (t : BaseHashTableOA) (cur : Nat),
      (rehash_probe key value s fuel t cur).1.arena = t.arena := by
  intro fuel
  induction fuel with
  | zero => intro t cur; rfl
  | succ f ih =>
    intro t cur
    simp only [rehash_probe]
    by_cases hst : (entry_at t.entries cur).state = HT_ENTRY_EMPTY
    · rw [if_pos hst]
    · rw [if_neg hst]
      split_ifs
      · exact ih t _
      · rfl

theorem rehash_step_arena (old_entries : List HashTableEntryOA) (t : BaseHashTableOA)
    (i : Nat) : (rehash_step old_entries t i).arena = t.arena := by
  unfold rehash_step
  split_ifs
  · exact rehash_probe_arena _ _ _ _ t _
  · rfl

theorem rehash_fold_arena (old_entries : List HashTableEntryOA) (l : List Nat) :
    ∀ t : BaseHashTableOA, (l.foldl (rehash_step old_entries) t).arena = t.arena := by
  induction l with
  | nil => intro t; rfl
  | cons a l ih =>
    intro t
    exact (ih _).trans (rehash_step_arena old_entries t a)

/-- The arena after `ht_oa_rehash` is the arena after the allocation of the new bucket
array: nothing else touches it. -/
theorem rehash_arena (heap : Nat → Bool) (ht : BaseHashTableOA) (n : Nat) :
    (ht_oa_rehash heap ht n).2.arena =
      (alloc_entries heap ht.arena (rehash_bucket_count ht n)).2 := by
  unfold ht_oa_rehash
  simp only
  by_cases ha : (alloc_entries heap ht.arena (rehash_bucket_count ht n)).1 = false
  · rw [if_pos ha]
  · rw [if_neg ha]
    exact rehash_fold_arena _ _ _

/-- An allocation of a bucket array from an arena, when the sums do not wrap: the offset
does not decrease, and a successful allocation advances it by at least the size of the
array. -/
theorem alloc_entries_mono (heap : Nat → Bool) (a : Arena) (count : Nat)
    (hfit : a.current_offset + 16 + count * 24 ≤ 18446744073709551616) :
    ∃ a1, (alloc_entries heap (some a) count).2 = some a1 ∧
      a.current_offset ≤ a1.current_offset ∧
      a1.current_offset ≤ a.current_offset + 15 + count * 24 ∧
      ((alloc_entries heap (some a) count).1 = true →
        a.current_offset + count * 24 ≤ a1.current_offset) := by
  have hM : USIZE_MOD = 18446744073709551616 := rfl
  have hS : SIZEOF_ENTRY = 24 := rfl
  have hA : BASE_ARENA_DEFAULT_ALIGNMENT = 2 ^ 4 := rfl
  unfold alloc_entries
  rw [if_neg (by rw [hM, hS]; omega)]
  simp only
  unfold arena_alloc
  rw [hA, arena_alloc_aligned_no_wrap a (count * SIZEOF_ENTRY) 4 (by decide)
    (by rw [hM, hS]; omega), hS]
  obtain ⟨_, h1, h2, _⟩ := round_up_least a.current_offset (2 ^ 4) (by decide)
  have e16 : (2 : Nat) ^ 4 = 16 := rfl
  rw [e16] at h1 h2 ⊢
  by_cases hc : (a.current_offset + 16 - 1) / 16 * 16 + count * 24 ≤ a.total_size
  · rw [if_pos hc]
    exact ⟨_, rfl, by show a.current_offset ≤ _ + _; omega,
      by show _ + _ ≤ _; omega, fun _ => by show _ ≤ _ + _; omega⟩
  · rw [if_neg hc]
    exact ⟨a, rfl, Nat.le_refl _, by omega, fun h => absurd h (by simp)⟩

/-- The arena of an arena-backed table after `ht_oa_rehash`, when the sums do not wrap. -/
theorem rehash_arena_mono (heap : Nat → Bool) (ht : BaseHashTableOA) (n : Nat) (a : Arena)
    (ha : ht.arena = some a)
    (hfit : a.current_offset + 16 + rehash_bucket_count ht n * 24 ≤ 18446744073709551616) :
    ∃ a1, (ht_oa_rehash heap ht n).2.arena = some a1 ∧
      a.current_offset ≤ a1.current_offset ∧
      a1.current_offset ≤ a.current_offset + 15 + rehash_bucket_count ht n * 24 ∧
      ((ht_oa_rehash heap ht n).1 = true →
        a.current_offset + rehash_bucket_count ht n * 24 ≤ a1.current_offset) := by
  rw [rehash_arena, rehash_result_alloc, ha]
  exact alloc_entries_mono heap a _ hfit

/-- One growth stage (a rehash under some condition) of an arena-backed table. -/
theorem stage_arena (heap : Nat → Bool) {t : BaseHashTableOA} (c : Prop) [Decidable c]
    (n : Nat) (a : Arena) (ha : t.arena = some a)
    (hfit : a.current_offset + 16 + rehash_bucket_count t n * 24 ≤ 18446744073709551616) :
    ∃ a1, (if c then ht_oa_rehash heap t n else (true, t)).2.arena = some a1 ∧
      a.current_offset ≤ a1.current_offset ∧
      a1.current_offset ≤ a.current_offset + 15 + rehash_bucket_count t n * 24 := by
  by_cases hc : c
  · rw [if_pos hc]
    obtain ⟨a1, h1, h2, h3, _⟩ := rehash_arena_mono heap t n a ha hfit
    exact ⟨a1, h1, h2, h3⟩
  · rw [if_neg hc]
    exact ⟨a, ha, Nat.le_refl _, by omega⟩

/-- The stage of `ht_oa_insert` and `ht_oa_put` that gives a table without buckets its
first bucket array, for an arena-backed table. -/
theorem first_stage_arena (heap : Nat → Bool) {ht : BaseHashTableOA} (hc : CountInv ht)
    (a : Arena) (ha : ht.arena = some a)
    (hcur : a.current_offset ≤ 4611686018427387904)
    (hb : ht.bucket_count * 24 ≤ 4611686018427387904) :
    CountInv (if ht.bucket_count = 0 then
        ht_oa_rehash heap ht BASE_HT_OA_DEFAULT_CAPACITY else (true, ht)).2 ∧
      (if ht.bucket_count = 0 then
        ht_oa_rehash heap ht BASE_HT_OA_DEFAULT_CAPACITY else (true, ht)).2.bucket_count * 24 ≤
          4611686018427387904 ∧
      ∃ a1, (if ht.bucket_count = 0 then
          ht_oa_rehash heap ht BASE_HT_OA_DEFAULT_CAPACITY else (true, ht)).2.arena = some a1 ∧
        a.current_offset ≤ a1.current_offset ∧
        a1.current_offset ≤ a.current_offset + 399 := by
  by_cases hb0 : ht.bucket_count = 0
  · simp only [if_pos hb0]
    have hd := rehash_bucket_count_default hc hb0
    obtain ⟨a1, h1, h2, h3, _⟩ := rehash_arena_mono heap ht BASE_HT_OA_DEFAULT_CAPACITY a ha
      (by rw [hd]; omega)
    rw [hd] at h3
    refine ⟨countInv_rehash hc heap _, ?_, a1, h1, h2, by omega⟩
    cases hres : (ht_oa_rehash heap ht BASE_HT_OA_DEFAULT_CAPACITY).1 with
    | false =>
      obtain ⟨a2, ha2⟩ := rehash_failure hres
      rw [ha2]
      show ht.bucket_count * 24 ≤ 4611686018427387904
      omega
    | true =>
      have halloc : (alloc_entries heap ht.arena
          (rehash_bucket_count ht BASE_HT_OA_DEFAULT_CAPACITY)).1 = true := by
        rw [← rehash_result_alloc]; exact hres
      have hbk := (rehash_counts BASE_HT_OA_DEFAULT_CAPACITY hc halloc).1.buckets
      rw [hbk, hd]
      omega
  · simp only [if_neg hb0]
    exact ⟨hc, hb, a, ha, Nat.le_refl _, by omega⟩

/-- The growth stage proper, for an arena-backed table. -/
theorem second_stage_arena (heap : Nat → Bool) {t : BaseHashTableOA} (hc : CountInv t)
    (c : Prop) [Decidable c] (a1 : Arena) (ha : t.arena = some a1)
    (hcur : a1.current_offset ≤ 4611686018427387904 + 399)
    (hb : t.bucket_count * 24 ≤ 4611686018427387904) :
    ∃ a2, (if c then ht_oa_rehash heap t
        (if t.bucket_count > 0 then usize_mul t.bucket_count 2
         else BASE_HT_OA_DEFAULT_CAPACITY) else (true, t)).2.arena = some a2 ∧
      a1.current_offset ≤ a2.current_offset := by
  have hrb : rehash_bucket_count t (if t.bucket_count > 0 then usize_mul t.bucket_count 2
      else BASE_HT_OA_DEFAULT_CAPACITY) * 24 ≤ 9223372036854775808 := by
    by_cases hpos : t.bucket_count > 0
    · rw [if_pos hpos, rehash_bucket_count_double hc hpos]; omega
    · rw [if_neg hpos, rehash_bucket_count_default hc (by omega)]; omega
  obtain ⟨a2, h1, h2, _⟩ := stage_arena heap c
    (if t.bucket_count > 0 then usize_mul t.bucket_count 2 else BASE_HT_OA_DEFAULT_CAPACITY)
    a1 ha (by omega)
  exact ⟨a2, h1, h2⟩

/-- The growth check of `ht_oa_insert` on an arena-backed table only advances the arena. -/
theorem insert_growth_arena (heap : Nat → Bool) {ht : BaseHashTableOA} (hc : CountInv ht)
    (a : Arena) (ha : ht.arena = some a)
    (hcur : a.current_offset ≤ 4611686018427387904)
    (hb : ht.bucket_count * 24 ≤ 4611686018427387904) :
    ∃ a1, (insert_growth heap ht).2.arena = some a1 ∧
      a.current_offset ≤ a1.current_offset := by
  unfold insert_growth
  simp only
  obtain ⟨h1, h2, a1, h3, h4, h5⟩ := first_stage_arena heap hc a ha hcur hb
  generalize (if ht.bucket_count = 0 then ht_oa_rehash heap ht BASE_HT_OA_DEFAULT_CAPACITY
    else (true, ht)) = r1 at h1 h2 h3
  by_cases hres : r1.1 = false
  · rw [if_pos hres]; exact ⟨a1, h3, h4⟩
  · rw [if_neg hres]
    obtain ⟨a2, h6, h7⟩ := second_stage_arena heap h1
      (usize_add r1.2.item_count 1 ≥ r1.2.bucket_count ∨
        load_exceeds (usize_add r1.2.item_count r1.2.tombstone_count) r1.2.bucket_count = true)
      a1 h3 (by omega) h2
    exact ⟨a2, h6, by omega⟩

/-- The growth check of `ht_oa_put` on an arena-backed table only advances the arena. -/
theorem put_growth_arena (heap : Nat → Bool) {ht : BaseHashTableOA} (hc : CountInv ht)
    (key : Ptr) (a : Arena) (ha : ht.arena = some a)
    (hcur : a.current_offset ≤ 4611686018427387904)
    (hb : ht.bucket_count * 24 ≤ 4611686018427387904) :
    ∃ a1, (put_growth heap ht key).2.arena = some a1 ∧
      a.current_offset ≤ a1.current_offset := by
  unfold put_growth
  simp only
  obtain ⟨h1, h2, a1, h3, h4, h5⟩ := first_stage_arena heap hc a ha hcur hb
  generalize (if ht.bucket_count = 0 then ht_oa_rehash heap ht BASE_HT_OA_DEFAULT_CAPACITY
    else (true, ht)) = r1 at h1 h2 h3
  by_cases hres : r1.1 = false
  · rw [if_pos hres]; exact ⟨a1, h3, h4⟩
  · rw [if_neg hres]
    obtain ⟨a2, h6, h7⟩ := second_stage_arena heap h1
      (usize_add r1.2.item_count (if ht_oa_contains r1.2 key = true then 0 else 1) ≥
          r1.2.bucket_count ∨
        load_exceeds (usize_add (usize_add r1.2.item_count r1.2.tombstone_count)
          (if ht_oa_contains r1.2 key = true then 0 else 1)) r1.2.bucket_count = true)
      a1 h3 (by omega) h2
    exact ⟨a2, h6, by omega⟩

theorem second_stage_lt (heap : Nat → Bool) {t : BaseHashTableOA} (hc : CountInv t)
    (hb : 0 < t.bucket_count) (c : Prop) [Decidable c]
    (hnc : ¬ c → t.item_count < t.bucket_count)
    (h : (if c then ht_oa_rehash heap t
        (if t.bucket_count > 0 then usize_mul t.bucket_count 2
         else BASE_HT_OA_DEFAULT_CAPACITY) else (true, t)).1 = true) :
    (if c then ht_oa_rehash heap t
        (if t.bucket_count > 0 then usize_mul t.bucket_count 2
         else BASE_HT_OA_DEFAULT_CAPACITY) else (true, t)).2.item_count <
      (if c then ht_oa_rehash heap t
        (if t.bucket_count > 0 then usize_mul t.bucket_count 2
         else BASE_HT_OA_DEFAULT_CAPACITY) else (true, t)).2.bucket_count := by
  by_cases hcc : c
  · rw [if_pos hcc, if_pos hb] at h ⊢
    have halloc : (alloc_entries heap t.arena
        (rehash_bucket_count t (usize_mul t.bucket_count 2))).1 = true := by
      rw [← rehash_result_alloc]; exact h
    obtain ⟨hinv, hitems⟩ := rehash_counts (usize_mul t.bucket_count 2) hc halloc
    have hbk := hinv.buckets
    rw [rehash_bucket_count_double hc hb] at hbk
    have hle := count_le_bucket hc
    rw [hbk, hitems]; omega
  · rw [if_neg hcc]; exact hnc hcc

/-- After a successful growth check of `ht_oa_insert` the table has fewer items than
buckets. -/
theorem insert_growth_lt (heap : Nat → Bool) {ht : BaseHashTableOA} (hc : CountInv ht)
    (hg : (insert_growth heap ht).1 = true) :
    (insert_growth heap ht).2.item_count < (insert_growth heap ht).2.bucket_count := by
  unfold insert_growth at hg ⊢
  simp only at hg ⊢
  have h1 : CountInv (if ht.bucket_count = 0 then
      ht_oa_rehash heap ht BASE_HT_OA_DEFAULT_CAPACITY else (true, ht)).2 ∧
      ((if ht.bucket_count = 0 then
        ht_oa_rehash heap ht BASE_HT_OA_DEFAULT_CAPACITY else (true, ht)).1 = true →
        0 < (if ht.bucket_count = 0 then
          ht_oa_rehash heap ht BASE_HT_OA_DEFAULT_CAPACITY else (true, ht)).2.bucket_count) := by
    by_cases hb0 : ht.bucket_count = 0
    · simp only [if_pos hb0]
      exact ⟨(room_rehash_default heap hc hb0).1.counts, (room_rehash_default heap hc hb0).2⟩
    · simp only [if_neg hb0]; exact ⟨hc, fun _ => by omega⟩
  generalize (if ht.bucket_count = 0 then ht_oa_rehash heap ht BASE_HT_OA_DEFAULT_CAPACITY
    else (true, ht)) = r1 at h1 hg
  by_cases hres : r1.1 = false
  · rw [if_pos hres] at hg; exact absurd hg (by simp)
  · rw [if_neg hres] at hg ⊢
    have hb := h1.2 (by simpa using hres)
    obtain ⟨n1, _, _⟩ := counts_no_wrap h1.1
    exact second_stage_lt heap h1.1 hb _
      (fun hn => by have := (not_or.mp hn).1; rw [n1] at this; omega) hg

/-- After a successful growth check of `ht_oa_put` the table has fewer items than
buckets. -/
theorem put_growth_lt (heap : Nat → Bool) {ht : BaseHashTableOA} (hc : CountInv ht)
    (key : Ptr) (hg : (put_growth heap ht key).1 = true) :
    (put_growth heap ht key).2.item_count < (put_growth heap ht key).2.bucket_count := by
  unfold put_growth at hg ⊢
  simp only at hg ⊢
  have h1 : CountInv (if ht.bucket_count = 0 then
      ht_oa_rehash heap ht BASE_HT_OA_DEFAULT_CAPACITY else (true, ht)).2 ∧
      ((if ht.bucket_count = 0 then
        ht_oa_rehash heap ht BASE_HT_OA_DEFAULT_CAPACITY else (true, ht)).1 = true →
        0 < (if ht.bucket_count = 0 then
          ht_oa_rehash heap ht BASE_HT_OA_DEFAULT_CAPACITY else (true, ht)).2.bucket_count) := by
    by_cases hb0 : ht.bucket_count = 0
    · simp only [if_pos hb0]
      exact ⟨(room_rehash_default heap hc hb0).1.counts, (room_rehash_default heap hc hb0).2⟩
    · simp only [if_neg hb0]; exact ⟨hc, fun _ => by omega⟩
  generalize (if ht.bucket_count = 0 then ht_oa_rehash heap ht BASE_HT_OA_DEFAULT_CAPACITY
    else (true, ht)) = r1 at h1 hg
  by_cases hres : r1.1 = false
  · rw [if_pos hres] at hg; exact absurd hg (by simp)
  · rw [if_neg hres] at hg ⊢
    have hb := h1.2 (by simpa using hres)
    have hfit := bucket_lt_usize h1.1
    have hle := count_le_bucket h1.1
    refine second_stage_lt heap h1.1 hb _ (fun hn => ?_) hg
    have h2 := (not_or.mp hn).1
    have h3 : r1.2.item_count ≤ usize_add r1.2.item_count
        (if ht_oa_contains r1.2 key = true then 0 else 1) := by
      unfold usize_add USIZE_MOD
      split_ifs
      · rw [Nat.add_zero, Nat.mod_eq_of_lt (by omega)]
      · rw [Nat.mod_eq_of_lt (by omega)]; omega
    omega

/-- The arena after `ht_oa_insert` is the arena after its growth check. -/
theorem insert_arena (heap : Nat → Bool) {ht : BaseHashTableOA} (hc : CountInv ht)
    (key value : Ptr) :
    (ht_oa_insert heap ht key value).2.arena = (insert_growth heap ht).2.arena := by
  rw [insert_stages]
  by_cases h1 : (insert_growth heap ht).1 = false
  · rw [if_pos h1]
  · rw [if_neg h1]
    by_cases h2 : (ht_oa_find_slot (insert_growth heap ht).2 key).2 = true
    · rw [if_pos h2]
    · rw [if_neg h2]
      have hg : (insert_growth heap ht).1 = true := by simpa using h1
      obtain ⟨i, hi, _, hocc⟩ := find_slot_usable (countInv_insert_growth hc heap)
        (insert_growth_lt heap hc hg) key (by simpa using h2)
      rw [hi, retry_noop heap _ key hocc]
      simp only [Bool.true_eq_false, if_false]
      exact (store_stage_frame _ _ _ _).2

/-- The arena after `ht_oa_put` is the arena after its growth check. -/
theorem put_arena (heap : Nat → Bool) {ht : BaseHashTableOA} (hc : CountInv ht)
    (key value : Ptr) :
    (ht_oa_put heap ht key value).2.arena = (put_growth heap ht key).2.arena := by
  rw [put_stages]
  by_cases h1 : (put_growth heap ht key).1 = false
  · rw [if_pos h1]
  · rw [if_neg h1]
    by_cases h2 : (ht_oa_find_slot (put_growth heap ht key).2 key).2 = true
    · rw [if_pos h2]; exact (update_stage_frame _ _ _).2
    · rw [if_neg h2]
      have hg : (put_growth heap ht key).1 = true := by simpa using h1
      obtain ⟨i, hi, _, hocc⟩ := find_slot_usable (countInv_put_growth hc heap key)
        (put_growth_lt heap hc key hg) key (by simpa using h2)
      rw [hi, retry_noop heap _ key hocc]
      simp only [Bool.true_eq_false, if_false]
      exact (store_stage_frame _ _ _ _).2

theorem remove_arena (ht : BaseHashTableOA) (key : Ptr) :
    (ht_oa_remove ht key).2.arena = ht.arena := by
  unfold ht_oa_remove
  simp only
  split_ifs
  · rfl
  · cases (ht_oa_find_slot ht key).1 with
    | none => rfl
    | some slot =>
      simp only
      split_ifs <;> rfl

theorem clear_arena (ht : BaseHashTableOA) : (ht_oa_clear ht).arena = ht.arena := by
  obtain ⟨_, _, _, _, _, _, _, _, h, _⟩ := clear_fold ht ht.bucket_count
  unfold ht_oa_clear
  exact h

theorem free_arena (ht : BaseHashTableOA) : (ht_oa_free ht).arena = ht.arena := by
  unfold ht_oa_free
  exact clear_arena ht

/-- C35. Arena-backed tables only consume arena space: for every table that satisfies the
count invariant and is backed by an arena, with the arena offset and the bucket array
below `2 ^ 62` bytes (so that no `usize` sum of `arena_alloc` wraps), `ht_oa_insert`
and `ht_oa_put` leave the table backed by an arena whose `current_offset` is at least the
previous one, `ht_oa_remove`, `ht_oa_clear` and `ht_oa_free` leave the arena as it was,
and every successful `ht_oa_rehash` that settles on n buckets (n * 24 at most `2 ^ 63`)
leaves `bucket_count = n` and a `current_offset` at least `n * sizeof(HashTableEntryOA)`
above the previous one: the space of the previous bucket array is not reclaimed. -/
theorem arena_only_consumed (heap : Nat → Bool) (ht : BaseHashTableOA) (a : Arena)
    (K V : Ptr) (n : Nat) (hc : CountInv ht) (ha : ht.arena = some a)
    (hcur : a.current_offset ≤ 2 ^ 62) (hb : ht.bucket_count * SIZEOF_ENTRY ≤ 2 ^ 62) :
    (∃ a1, (ht_oa_insert heap ht K V).2.arena = some a1 ∧
      a.current_offset ≤ a1.current_offset) ∧
    (∃ a1, (ht_oa_put heap ht K V).2.arena = some a1 ∧
      a.current_offset ≤ a1.current_offset) ∧
    (ht_oa_remove ht K).2.arena = some a ∧
    (ht_oa_clear ht).arena = some a ∧
    (ht_oa_free ht).arena = some a ∧
    (rehash_bucket_count ht n * SIZEOF_ENTRY ≤ 2 ^ 63 →
      (∃ a1, (ht_oa_rehash heap ht n).2.arena = some a1 ∧
        a.current_offset ≤ a1.current_offset) ∧
      ((ht_oa_rehash heap ht n).1 = true →
        (ht_oa_rehash heap ht n).2.bucket_count = rehash_bucket_count ht n ∧
        ∃ a1, (ht_oa_rehash heap ht n).2.arena = some a1 ∧
          a.current_offset + (ht_oa_rehash heap ht n).2.bucket_count * SIZEOF_ENTRY ≤
            a1.current_offset)) := by
  have h62 : (2 : Nat) ^ 62 = 4611686018427387904 := by norm_num
  have h63 : (2 : Nat) ^ 63 = 9223372036854775808 := by norm_num
  have hS : SIZEOF_ENTRY = 24 := rfl
  rw [h62] at hcur hb
  rw [hS] at hb
  rw [h63, hS]
  refine ⟨?_, ?_, ?_, ?_, ?_, fun hn => ⟨?_, fun hres => ?_⟩⟩
  · rw [insert_arena heap hc]
    exact insert_growth_arena heap hc a ha hcur hb
  · rw [put_arena heap hc]
    exact put_growth_arena heap hc K a ha hcur hb
  · rw [remove_arena, ha]
  · rw [clear_arena, ha]
  · rw [free_arena, ha]
  · obtain ⟨a1, h1, h2, _⟩ := rehash_arena_mono heap ht n a ha (by omega)
    exact ⟨a1, h1, h2⟩
  · obtain ⟨a1, h1, _, _, h4⟩ := rehash_arena_mono heap ht n a ha (by omega)
    have halloc : (alloc_entries heap ht.arena (rehash_bucket_count ht n)).1 = true := by
      rw [← rehash_result_alloc]; exact hres
    have hbk := (rehash_counts n hc halloc).1.buckets
    exact ⟨hbk, a1, h1, by rw [hbk]; exact h4 hres⟩

/-- Witness for C35: a table of one bucket in an arena of 1024 bytes with 24 in use; the
insert of key 1 rehashes to 2 buckets (48 bytes at the aligned offset 32) and leaves the
offset at 80; a rehash to 4 buckets leaves it at 128. -/
theorem arena_only_consumed_witness :
    (∃ a1, (ht_oa_insert heap_ok arena_table 1 11).2.arena = some a1 ∧
      24 ≤ a1.current_offset) ∧
    (ht_oa_insert heap_ok arena_table 1 11).2.arena = some ⟨4096, 1024, 0, 80⟩ ∧
    (∃ a1, (ht_oa_rehash heap_ok arena_table 4).2.arena = some a1 ∧
      24 + (ht_oa_rehash heap_ok arena_table 4).2.bucket_count * SIZEOF_ENTRY ≤
        a1.current_offset) ∧
    (ht_oa_rehash heap_ok arena_table 4).2.arena = some ⟨4096, 1024, 0, 128⟩ :=
  have hc : CountInv arena_table :=
    countInv_congr (wf_sample_table (n := 1) (by decide)).1.counts rfl rfl rfl rfl
  have h := arena_only_consumed heap_ok arena_table ⟨4096, 1024, 0, 24⟩ 1 11 4 hc rfl
    (by decide) (by decide)
  ⟨h.1, by decide,
    ((h.2.2.2.2.2 (by decide)).2 (by decide)).2,
    by decide⟩

/-! ## Termination of the probe loops -/

/-- The shape of a probe log: the probe positions `n`, `n + 1`, ... up to some position
below `bucket_count`. -/
theorem probe_log_shape (stop : Nat → Bool) (b s : Nat) (hs : s < b) :
    ∀ fuel n, n < b → b - n ≤ fuel →
      ∃ k, n < k ∧ k ≤ b ∧
        probe_log stop b s fuel ((s + n) % b) =
          ((List.range' n (k - n)).map (fun m => (s + m) % b), true) := by
  intro fuel
  induction fuel with
  | zero => intro n hn hf; omega
  | succ f ih =>
    intro n hn hf
    simp only [probe_log]
    by_cases hst : stop ((s + n) % b) = true
    · rw [if_pos hst]
      exact ⟨n + 1, by omega, by omega, by simp⟩
    · rw [if_neg hst, probe_succ]
      by_cases hnext : (s + (n + 1)) % b ≠ s
      · rw [if_pos hnext]
        have hn1 : n + 1 < b := by
          by_contra hc
          have hbn : n + 1 = b := by omega
          apply hnext
          rw [hbn, Nat.add_mod_right]
          exact Nat.mod_eq_of_lt hs
        obtain ⟨k, hk1, hk2, hk3⟩ := ih (n + 1) hn1 (by omega)
        refine ⟨k, by omega, hk2, ?_⟩
        rw [hk3]
        have hkn : k - n = (k - (n + 1)) + 1 := by omega
        rw [hkn, List.range'_succ]
        simp
      · rw [if_neg hnext]
        exact ⟨n + 1, by omega, by omega, by simp⟩

theorem probe_log_fuel (stop : Nat → Bool) (b s : Nat) (hs : s < b) :
    ∀ f1 f2 n, n < b → b - n ≤ f1 → b - n ≤ f2 →
      probe_log stop b s f1 ((s + n) % b) = probe_log stop b s f2 ((s + n) % b) := by
  intro f1
  induction f1 with
  | zero => intro f2 n hn h1 _; omega
  | succ f ih =>
    intro f2 n hn h1 h2
    cases f2 with
    | zero => omega
    | succ g =>
      simp only [probe_log]
      by_cases hst : stop ((s + n) % b) = true
      · rw [if_pos hst, if_pos hst]
      · rw [if_neg hst, if_neg hst, probe_succ]
        by_cases hnext : (s + (n + 1)) % b ≠ s
        · rw [if_pos hnext, if_pos hnext]
          have hn1 : n + 1 < b := by
            by_contra hc
            have hbn : n + 1 = b := by omega
            apply hnext
            rw [hbn, Nat.add_mod_right]
            exact Nat.mod_eq_of_lt hs
          rw [ih g (n + 1) hn1 (by omega) (by omega)]
        · rw [if_neg hnext, if_neg hnext]

/-- A probe loop started at `start_idx` with at least `bucket_count` iterations allowed:
it ends, after visiting at most `bucket_count` indices, all inside the bucket array and
no index twice; more iterations allowed change nothing. -/
theorem probe_log_spec (stop : Nat → Bool) (b s : Nat) (hs : s < b) (fuel : Nat)
    (hf : b ≤ fuel) :
    (probe_log stop b s fuel s).2 = true ∧
      (probe_log stop b s fuel s).1.length ≤ b ∧
      1 ≤ (probe_log stop b s fuel s).1.length ∧
      (probe_log stop b s fuel s).1.Nodup ∧
      (∀ i, i ∈ (probe_log stop b s fuel s).1 → i < b) ∧
      probe_log stop b s fuel s = probe_log stop b s b s := by
  obtain ⟨k, hk1, hk2, hk3⟩ := probe_log_shape stop b s hs fuel 0 (by omega) (by omega)
  have hfuel := probe_log_fuel stop b s hs fuel b 0 (by omega) (by omega) (by omega)
  rw [Nat.add_zero, Nat.mod_eq_of_lt hs] at hk3 hfuel
  rw [hk3]
  refine ⟨rfl, by simp; omega, by simp; omega, ?_, ?_, by rw [← hk3]; exact hfuel⟩
  · apply List.Nodup.map_on
    · intro x hx y hy hxy
      rw [List.mem_range'_1] at hx hy
      exact probe_inj (by omega) (by omega) hxy
    · exact List.nodup_range' _ _
  · intro i hi
    simp only [List.mem_map] at hi
    obtain ⟨m, _, rfl⟩ := hi
    exact Nat.mod_lt _ (by omega)

/-- The log of the loop of `ht_oa_get` is the probe log, and its result is that of the
loop. -/
theorem get_loop_log_spec (ht : BaseHashTableOA) (key : Ptr) (s : Nat) :
    ∀ fuel cur, (get_loop_log ht key s fuel cur).1 = get_loop ht key s fuel cur ∧
      (get_loop_log ht key s fuel cur).2 =
        probe_log (search_stop ht key) ht.bucket_count s fuel cur := by
  intro fuel
  induction fuel with
  | zero => intro cur; exact ⟨rfl, rfl⟩
  | succ f ih =>
    intro cur
    obtain ⟨e1, e2⟩ := ih ((cur + 1) % ht.bucket_count)
    simp only [get_loop_log, get_loop, probe_log]
    by_cases h1 : (entry_at ht.entries cur).state = HT_ENTRY_EMPTY
    · have hstop : search_stop ht key cur = true := by simp [search_stop, h1]
      simp [h1, hstop]
    · by_cases h2 : (entry_at ht.entries cur).state = HT_ENTRY_OCCUPIED ∧
          ht.key_equal_fn (entry_at ht.entries cur).key key = true
      · have hstop : search_stop ht key cur = true := by simp [search_stop, h2]
        simp [h1, h2, hstop]
      · have hstop : search_stop ht key cur = false := by
          simp only [search_stop, decide_eq_false_iff_not]
          exact fun h => h.elim h1 h2
        simp only [if_neg h1, if_neg h2, hstop, Bool.false_eq_true, if_false]
        by_cases hnext : (cur + 1) % ht.bucket_count ≠ s
        · simp only [if_pos hnext]
          exact ⟨e1, by rw [e2]⟩
        · simp only [if_neg hnext]
          exact ⟨trivial, trivial⟩

/-- The log of the loop of `ht_oa_find_slot` is the probe log, and its result is that of
the loop. -/
theorem find_slot_loop_log_spec (ht : BaseHashTableOA) (key : Ptr) (s : Nat) :
    ∀ fuel cur ft, (find_slot_loop_log ht key s fuel cur ft).1 =
        find_slot_loop ht key s fuel cur ft ∧
      (find_slot_loop_log ht key s fuel cur ft).2 =
        probe_log (search_stop ht key) ht.bucket_count s fuel cur := by
  intro fuel
  induction fuel with
  | zero => intro cur ft; exact ⟨rfl, rfl⟩
  | succ f ih =>
    intro cur ft
    simp only [find_slot_loop_log, find_slot_loop, probe_log]
    cases hst : (entry_at ht.entries cur).state with
    | HT_ENTRY_EMPTY =>
      have hstop : search_stop ht key cur = true := by simp [search_stop, hst]
      simp [hstop]
    | HT_ENTRY_TOMBSTONE =>
      have hstop : search_stop ht key cur = false := by simp [search_stop, hst]
      simp only [hstop, Bool.false_eq_true, if_false]
      by_cases hnext : (cur + 1) % ht.bucket_count ≠ s
      · simp only [if_pos hnext]
        obtain ⟨e1, e2⟩ := ih ((cur + 1) % ht.bucket_count)
          (if ft.isNone = true then some cur else ft)
        exact ⟨e1, by rw [e2]⟩
      · simp only [if_neg hnext]
        exact ⟨trivial, trivial⟩
    | HT_ENTRY_OCCUPIED =>
      by_cases heq : ht.key_equal_fn (entry_at ht.entries cur).key key = true
      · have hstop : search_stop ht key cur = true := by simp [search_stop, hst, heq]
        simp [hstop, heq]
      · have hstop : search_stop ht key cur = false := by simp [search_stop, hst, heq]
        simp only [hstop, Bool.false_eq_true, if_false, if_neg heq]
        by_cases hnext : (cur + 1) % ht.bucket_count ≠ s
        · simp only [if_pos hnext]
          obtain ⟨e1, e2⟩ := ih ((cur + 1) % ht.bucket_count) ft
          exact ⟨e1, by rw [e2]⟩
        · simp only [if_neg hnext]
          exact ⟨trivial, trivial⟩

/-- The log of the relocation loop of `ht_oa_rehash` is the probe log that stops at the
first Empty slot of the new array, and its result is that of the loop. -/
theorem rehash_probe_log_spec (key value : Ptr) (s : Nat) (ht : BaseHashTableOA) :
    ∀ fuel cur, (rehash_probe_log key value s fuel ht cur).1 =
        rehash_probe key value s fuel ht cur ∧
      (rehash_probe_log key value s fuel ht cur).2 =
        probe_log (fun i => decide ((entry_at ht.entries i).state = HT_ENTRY_EMPTY))
          ht.bucket_count s fuel cur := by
  intro fuel
  induction fuel with
  | zero => intro cur; exact ⟨rfl, rfl⟩
  | succ f ih =>
    intro cur
    obtain ⟨e1, e2⟩ := ih ((cur + 1) % ht.bucket_count)
    simp only [rehash_probe_log, rehash_probe, probe_log]
    by_cases h1 : (entry_at ht.entries cur).state = HT_ENTRY_EMPTY
    · simp [h1]
    · simp only [if_neg h1, decide_eq_true_eq, if_false]
      by_cases hnext : (cur + 1) % ht.bucket_count ≠ s
      · simp only [if_pos hnext]
        exact ⟨e1, by rw [e2]⟩
      · simp only [if_neg hnext]
        exact ⟨trivial, trivial⟩

theorem next_lt_of_ne_start {b s n : Nat} (hs : s < b) (hn : n < b)
    (hnext : (s + (n + 1)) % b ≠ s) : n + 1 < b := by
  by_contra hc
  have hbn : n + 1 = b := by omega
  apply hnext
  rw [hbn, Nat.add_mod_right]
  exact Nat.mod_eq_of_lt hs

/-- The loop of `ht_oa_get` with its log does not depend on the number of iterations
allowed, once that is enough to go round the bucket array. -/
theorem get_loop_log_fuel (ht : BaseHashTableOA) (key : Ptr) (s : Nat)
    (hs : s < ht.bucket_count) :
    ∀ f1 f2 n, n < ht.bucket_count → ht.bucket_count - n ≤ f1 → ht.bucket_count - n ≤ f2 →
      get_loop_log ht key s f1 ((s + n) % ht.bucket_count) =
        get_loop_log ht key s f2 ((s + n) % ht.bucket_count) := by
  intro f1
  induction f1 with
  | zero => intro f2 n hn h1 _; omega
  | succ f ih =>
    intro f2 n hn h1 h2
    cases f2 with
    | zero => omega
    | succ g =>
      simp only [get_loop_log]
      split_ifs with c1 c2 c3
      · rfl
      · rfl
      · rw [probe_succ] at c3 ⊢
        rw [ih g (n + 1) (next_lt_of_ne_start hs hn c3) (by omega) (by omega)]
      · rfl

/-- The loop of `ht_oa_find_slot` with its log does not depend on the number of iterations
allowed, once that is enough to go round the bucket array. -/
theorem find_slot_loop_log_fuel (ht : BaseHashTableOA) (key : Ptr) (s : Nat)
    (hs : s < ht.bucket_count) :
    ∀ f1 f2 n ft, n < ht.bucket_count → ht.bucket_count - n ≤ f1 →
      ht.bucket_count - n ≤ f2 →
      find_slot_loop_log ht key s f1 ((s + n) % ht.bucket_count) ft =
        find_slot_loop_log ht key s f2 ((s + n) % ht.bucket_count) ft := by
  intro f1
  induction f1 with
  | zero => intro f2 n ft hn h1 _; omega
  | succ f ih =>
    intro f2 n ft hn h1 h2
    cases f2 with
    | zero => omega
    | succ g =>
      simp only [find_slot_loop_log]
      by_cases c3 : ((s + n) % ht.bucket_count + 1) % ht.bucket_count ≠ s
      · have hn1 : n + 1 < ht.bucket_count :=
          next_lt_of_ne_start hs hn (by rw [← probe_succ]; exact c3)
        have e : ∀ ft2, find_slot_loop_log ht key s f
            (((s + n) % ht.bucket_count + 1) % ht.bucket_count) ft2 =
            find_slot_loop_log ht key s g
              (((s + n) % ht.bucket_count + 1) % ht.bucket_count) ft2 := by
          intro ft2
          rw [probe_succ]
          exact ih g (n + 1) ft2 hn1 (by omega) (by omega)
        cases (entry_at ht.entries ((s + n) % ht.bucket_count)).state with
        | HT_ENTRY_EMPTY => rfl
        | HT_ENTRY_TOMBSTONE => simp only [if_pos c3, e]
        | HT_ENTRY_OCCUPIED => simp only [if_pos c3, e]
      · cases (entry_at ht.entries ((s + n) % ht.bucket_count)).state with
        | HT_ENTRY_EMPTY => rfl
        | HT_ENTRY_TOMBSTONE => simp only [if_neg c3]
        | HT_ENTRY_OCCUPIED => simp only [if_neg c3]

/-- The relocation loop of `ht_oa_rehash` with its log does not depend on the number of
iterations allowed, once that is enough to go round the new bucket array. -/
theorem rehash_probe_log_fuel (key value : Ptr) (ht : BaseHashTableOA) (s : Nat)
    (hs : s < ht.bucket_count) :
    ∀ f1 f2 n, n < ht.bucket_count → ht.bucket_count - n ≤ f1 → ht.bucket_count - n ≤ f2 →
      rehash_probe_log key value s f1 ht ((s + n) % ht.bucket_count) =
        rehash_probe_log key value s f2 ht ((s + n) % ht.bucket_count) := by
  intro f1
  induction f1 with
  | zero => intro f2 n hn h1 _; omega
  | succ f ih =>
    intro f2 n hn h1 h2
    cases f2 with
    | zero => omega
    | succ g =>
      simp only [rehash_probe_log]
      split_ifs with c1 c3
      · rfl
      · rw [probe_succ] at c3 ⊢
        rw [ih g (n + 1) (next_lt_of_ne_start hs hn c3) (by omega) (by omega)]
      · rfl

/-- C39. Probing terminates: for every table with `bucket_count > 0`, whatever the states
of its slots (no Empty slot is needed), and every key, the probe loops of `ht_oa_get` and
`ht_oa_find_slot`, run with the `bucket_count` iterations the functions allow (or any
larger number), return after examining at least one and at most `bucket_count` slots, all
inside the bucket array and no index twice, with the result of the function; likewise the
relocation loop of `ht_oa_rehash`, for one entry and a new array of `bucket_count` slots,
finishes after at most `bucket_count` steps, no index examined twice. -/
theorem probing_terminates (ht : BaseHashTableOA) (K V : Ptr) (fuel : Nat)
    (hb : 0 < ht.bucket_count) (hf : ht.bucket_count ≤ fuel) :
    ((get_loop_log ht K (start_index ht K) fuel (start_index ht K)).2.2 = true ∧
      (get_loop_log ht K (start_index ht K) fuel (start_index ht K)).2.1.length ≤
        ht.bucket_count ∧
      1 ≤ (get_loop_log ht K (start_index ht K) fuel (start_index ht K)).2.1.length ∧
      (get_loop_log ht K (start_index ht K) fuel (start_index ht K)).2.1.Nodup ∧
      (∀ i, i ∈ (get_loop_log ht K (start_index ht K) fuel (start_index ht K)).2.1 →
        i < ht.bucket_count) ∧
      get_loop_log ht K (start_index ht K) fuel (start_index ht K) =
        get_loop_log ht K (start_index ht K) ht.bucket_count (start_index ht K) ∧
      (get_loop_log ht K (start_index ht K) fuel (start_index ht K)).1 =
        get_loop ht K (start_index ht K) fuel (start_index ht K) ∧
      (ht.item_count ≠ 0 →
        ht_oa_get ht K =
          (get_loop_log ht K (start_index ht K) fuel (start_index ht K)).1)) ∧
    ((find_slot_loop_log ht K (start_index ht K) fuel (start_index ht K) none).2.2 = true ∧
      (find_slot_loop_log ht K (start_index ht K) fuel (start_index ht K) none).2.1.length ≤
        ht.bucket_count ∧
      1 ≤ (find_slot_loop_log ht K (start_index ht K) fuel
        (start_index ht K) none).2.1.length ∧
      (find_slot_loop_log ht K (start_index ht K) fuel (start_index ht K) none).2.1.Nodup ∧
      (∀ i, i ∈ (find_slot_loop_log ht K (start_index ht K) fuel
          (start_index ht K) none).2.1 → i < ht.bucket_count) ∧
      find_slot_loop_log ht K (start_index ht K) fuel (start_index ht K) none =
        find_slot_loop_log ht K (start_index ht K) ht.bucket_count (start_index ht K) none ∧
      (find_slot_loop_log ht K (start_index ht K) fuel (start_index ht K) none).1 =
        find_slot_loop ht K (start_index ht K) fuel (start_index ht K) none ∧
      ht_oa_find_slot ht K =
        (find_slot_loop_log ht K (start_index ht K) fuel (start_index ht K) none).1) ∧
    ((rehash_probe_log K V (start_index ht K) fuel ht (start_index ht K)).2.2 = true ∧
      (rehash_probe_log K V (start_index ht K) fuel ht (start_index ht K)).2.1.length ≤
        ht.bucket_count ∧
      (rehash_probe_log K V (start_index ht K) fuel ht (start_index ht K)).2.1.Nodup ∧
      (∀ i, i ∈ (rehash_probe_log K V (start_index ht K) fuel ht (start_index ht K)).2.1 →
        i < ht.bucket_count) ∧
      rehash_probe_log K V (start_index ht K) fuel ht (start_index ht K) =
        rehash_probe_log K V (start_index ht K) ht.bucket_count ht (start_index ht K) ∧
      (rehash_probe_log K V (start_index ht K) fuel ht (start_index ht K)).1 =
        rehash_probe K V (start_index ht K) fuel ht (start_index ht K)) := by
  have hs := start_index_lt ht K hb
  have hg := get_loop_log_spec ht K (start_index ht K)
  have hfs := find_slot_loop_log_spec ht K (start_index ht K)
  have hr := rehash_probe_log_spec K V (start_index ht K) ht
  obtain ⟨p1, p2, p3, p4, p5, _⟩ :=
    probe_log_spec (search_stop ht K) ht.bucket_count (start_index ht K) hs fuel hf
  obtain ⟨q1, q2, _, q4, q5, _⟩ :=
    probe_log_spec (fun i => decide ((entry_at ht.entries i).state = HT_ENTRY_EMPTY))
      ht.bucket_count (start_index ht K) hs fuel hf
  have fg := get_loop_log_fuel ht K (start_index ht K) hs fuel ht.bucket_count 0 hb
    (by omega) (by omega)
  have ff := find_slot_loop_log_fuel ht K (start_index ht K) hs fuel ht.bucket_count 0 none hb
    (by omega) (by omega)
  have fr := rehash_probe_log_fuel K V ht (start_index ht K) hs fuel ht.bucket_count 0 hb
    (by omega) (by omega)
  rw [Nat.add_zero, Nat.mod_eq_of_lt hs] at fg ff fr
  refine ⟨⟨?_, ?_, ?_, ?_, ?_, fg, (hg fuel _).1, ?_⟩,
    ⟨?_, ?_, ?_, ?_, ?_, ff, (hfs fuel _ _).1, ?_⟩,
    ⟨?_, ?_, ?_, ?_, fr, (hr fuel _).1⟩⟩
  · rw [(hg fuel _).2]; exact p1
  · rw [(hg fuel _).2]; exact p2
  · rw [(hg fuel _).2]; exact p3
  · rw [(hg fuel _).2]; exact p4
  · rw [(hg fuel _).2]; exact p5
  · intro hi
    unfold ht_oa_get
    rw [if_neg (by omega), fg, (hg ht.bucket_count _).1]
  · rw [(hfs fuel _ _).2]; exact p1
  · rw [(hfs fuel _ _).2]; exact p2
  · rw [(hfs fuel _ _).2]; exact p3
  · rw [(hfs fuel _ _).2]; exact p4
  · rw [(hfs fuel _ _).2]; exact p5
  · unfold ht_oa_find_slot
    rw [if_neg (by omega), ff, (hfs ht.bucket_count _ _).1]
  · rw [(hr fuel _).2]; exact q1
  · rw [(hr fuel _).2]; exact q2
  · rw [(hr fuel _).2]; exact q4
  · rw [(hr fuel _).2]; exact q5

/-- Witness for C39: a table of 2 buckets without an Empty slot (the key 2 in slot 0, a
Tombstone in slot 1); the search for the key 5 starts at slot 1, examines the slots 1 and
0 and returns, with the Tombstone as insertion target. -/
theorem probing_terminates_witness :
    find_slot_loop_log no_empty_table 5 1 2 1 none = ((some 1, false), [1, 0], true) ∧
      ht_oa_find_slot no_empty_table 5 =
        (find_slot_loop_log no_empty_table 5 (start_index no_empty_table 5) 2
          (start_index no_empty_table 5) none).1 ∧
      (get_loop_log no_empty_table 5 (start_index no_empty_table 5) 2
        (start_index no_empty_table 5)).2.1.length ≤ 2 :=
  have h := probing_terminates no_empty_table 5 50 2 (by decide) (by decide)
  ⟨by decide, h.2.1.2.2.2.2.2.2.2, h.1.2.1⟩

/-! ## Page size validation -/

/-- A number strictly between two consecutive powers of two shares its top bit with its
predecessor. -/
theorem land_pred_ne_zero (k n : Nat) (h1 : 2 ^ k < n) (h2 : n < 2 ^ (k + 1)) :
    Nat.land n (n - 1) ≠ 0 := by
  intro h
  have hb : ∀ x, 2 ^ k ≤ x → x < 2 ^ (k + 1) → Nat.testBit x k = true := by
    intro x hx1 hx2
    have hx : x = 2 ^ k + (x - 2 ^ k) := by omega
    have hr : x - 2 ^ k < 2 ^ k := by
      rw [Nat.pow_succ] at hx2; omega
    rw [hx, Nat.testBit_two_pow_add_eq, Nat.testBit_lt_two_pow hr]
    rfl
  have h3 : Nat.testBit (Nat.land n (n - 1)) k = true := by
    show Nat.testBit (n &&& (n - 1)) k = true
    rw [Nat.testBit_and, hb n (by omega) h2, hb (n - 1) (by omega) (by omega)]
    rfl
  rw [h] at h3
  simp at h3

/-- The bitwise test of the page size check, on the range it is evaluated on. -/
theorem land_pred_range (n : Nat) (h1 : 512 ≤ n) (h2 : n ≤ 65536) :
    Nat.land n (n - 1) = 0 ↔
      n = 512 ∨ n = 1024 ∨ n = 2048 ∨ n = 4096 ∨ n = 8192 ∨ n = 16384 ∨ n = 32768 ∨
        n = 65536 := by
  constructor
  · intro h
    by_contra hc
    have hcases : (2 ^ 9 < n ∧ n < 2 ^ (9 + 1)) ∨ (2 ^ 10 < n ∧ n < 2 ^ (10 + 1)) ∨
        (2 ^ 11 < n ∧ n < 2 ^ (11 + 1)) ∨ (2 ^ 12 < n ∧ n < 2 ^ (12 + 1)) ∨
        (2 ^ 13 < n ∧ n < 2 ^ (13 + 1)) ∨ (2 ^ 14 < n ∧ n < 2 ^ (14 + 1)) ∨
        (2 ^ 15 < n ∧ n < 2 ^ (15 + 1)) := by
      norm_num
      omega
    rcases hcases with h | h | h | h | h | h | h
    all_goals exact land_pred_ne_zero _ n h.1 h.2 ‹_›
  · intro h
    rcases h with h | h | h | h | h | h | h | h <;> subst h <;> decide

/-- The page size branch on the natural numbers from 512 to 65536. -/
theorem page_size_accept (field : Nat) (v : Int) :
    (db_config_from_args_page_size field v).1 = true ↔
      (512 ≤ v ∧ v ≤ 65536 ∧ Nat.land v.toNat (v.toNat - 1) = 0) := by
  unfold db_config_from_args_page_size
  by_cases hr : v < 512 ∨ v > 65536
  · rw [if_pos (by rcases hr with h | h; exact Or.inl h; exact Or.inr (Or.inl h))]
    constructor
    · intro h; exact absurd h (by simp)
    · intro h; omega
  · have h1 : 512 ≤ v := by omega
    have h2 : v ≤ 65536 := by omega
    have hsub : (v - 1).toNat = v.toNat - 1 := by omega
    rw [hsub]
    by_cases hl : Nat.land v.toNat (v.toNat - 1) = 0
    · rw [if_neg (by
        intro h
        rcases h with h | h | h
        · omega
        · omega
        · exact h hl)]
      exact ⟨fun _ => ⟨h1, h2, hl⟩, fun _ => rfl⟩
    · rw [if_pos (Or.inr (Or.inr hl))]
      constructor
      · intro h; exact absurd h (by simp)
      · intro h; exact absurd h.2.2 hl

/-- C40. Page-size validation: the branch of `db_config_from_args` for `-s` /
`--page-size` accepts the value v that `strtol` returned exactly when
`512 <= v <= 65536` and v is a power of two, that is exactly for v in
{512, 1024, 2048, 4096, 8192, 16384, 32768, 65536}, and then stores `page_size = v`; for
every other v the function returns false there and `page_size` is left as it was (the
default 4096 of `db_config_init_defaults`, or what an earlier option stored). -/
theorem page_size_validation (config_page_size : Nat) (v : Int) :
    ((db_config_from_args_page_size config_page_size v).1 = true ↔
      (512 ≤ v ∧ v ≤ 65536 ∧ ∃ k : Nat, v = 2 ^ k)) ∧
    ((db_config_from_args_page_size config_page_size v).1 = true ↔
      (v = 512 ∨ v = 1024 ∨ v = 2048 ∨ v = 4096 ∨ v = 8192 ∨ v = 16384 ∨ v = 32768 ∨
        v = 65536)) ∧
    ((db_config_from_args_page_size config_page_size v).1 = true →
      ((db_config_from_args_page_size config_page_size v).2 : Int) = v) ∧
    ((db_config_from_args_page_size config_page_size v).1 = false →
      (db_config_from_args_page_size config_page_size v).2 = config_page_size) ∧
    (db_config_from_args_page_size DEFAULT_PAGE_SIZE 1000 = (false, 4096) ∧
      db_config_from_args_page_size DEFAULT_PAGE_SIZE 8192 = (true, 8192)) := by
  have hacc := page_size_accept config_page_size v
  have hlist : (db_config_from_args_page_size config_page_size v).1 = true ↔
      (v = 512 ∨ v = 1024 ∨ v = 2048 ∨ v = 4096 ∨ v = 8192 ∨ v = 16384 ∨ v = 32768 ∨
        v = 65536) := by
    rw [hacc]
    constructor
    · rintro ⟨h1, h2, h3⟩
      have := (land_pred_range v.toNat (by omega) (by omega)).mp h3
      omega
    · intro h
      have h1 : 512 ≤ v := by omega
      have h2 : v ≤ 65536 := by omega
      refine ⟨h1, h2, (land_pred_range v.toNat (by omega) (by omega)).mpr ?_⟩
      omega
  refine ⟨?_, hlist, ?_, ?_, by decide, by decide⟩
  · rw [hlist]
    constructor
    · intro h
      refine ⟨by omega, by omega, ?_⟩
      rcases h with h | h | h | h | h | h | h | h
      · exact ⟨9, by rw [h]; norm_num⟩
      · exact ⟨10, by rw [h]; norm_num⟩
      · exact ⟨11, by rw [h]; norm_num⟩
      · exact ⟨12, by rw [h]; norm_num⟩
      · exact ⟨13, by rw [h]; norm_num⟩
      · exact ⟨14, by rw [h]; norm_num⟩
      · exact ⟨15, by rw [h]; norm_num⟩
      · exact ⟨16, by rw [h]; norm_num⟩
    · rintro ⟨h1, h2, k, hk⟩
      have hk9 : 9 ≤ k := by
        by_contra hc
        have : (2 : Int) ^ k ≤ 2 ^ 8 := pow_le_pow_right₀ (by norm_num) (by omega)
        norm_num at this
        omega
      have hk16 : k ≤ 16 := by
        by_contra hc
        have : (2 : Int) ^ 17 ≤ 2 ^ k := pow_le_pow_right₀ (by norm_num) (by omega)
        norm_num at this
        omega
      interval_cases k <;> norm_num at hk <;> omega
  · intro h
    have h3 := hacc.mp h
    unfold db_config_from_args_page_size at h ⊢
    by_cases hc : v < 512 ∨ v > 65536 ∨ Nat.land v.toNat (v - 1).toNat ≠ 0
    · rw [if_pos hc] at h; exact absurd h (by simp)
    · rw [if_neg hc]
      show ((v.toNat % 4294967296 : Nat) : Int) = v
      omega
  · intro h
    unfold db_config_from_args_page_size at h ⊢
    by_cases hc : v < 512 ∨ v > 65536 ∨ Nat.land v.toNat (v - 1).toNat ≠ 0
    · rw [if_pos hc]
    · rw [if_neg hc] at h; exact absurd h (by simp)

/-- Witness for C40: with the default page size in place, the value 1024 is accepted and
stored, and the value 1000 is rejected. -/
theorem page_size_validation_witness :
    (db_config_from_args_page_size DEFAULT_PAGE_SIZE 1024).1 = true ∧
      ((db_config_from_args_page_size DEFAULT_PAGE_SIZE 1024).2 : Int) = 1024 ∧
      (db_config_from_args_page_size DEFAULT_PAGE_SIZE 1000).2 = DEFAULT_PAGE_SIZE :=
  have h := page_size_validation DEFAULT_PAGE_SIZE 1024
  have h2 := page_size_validation DEFAULT_PAGE_SIZE 1000
  ⟨h.2.1.mpr (Or.inr (Or.inl rfl)), h.2.2.1 (h.2.1.mpr (Or.inr (Or.inl rfl))),
    h2.2.2.2.1 (by decide)⟩

end Jsql
